import Mathlib

/-! libwrite: property runs, reference-counted paragraph records, default-diff

A shallow embedding of the run-list engine of libwrite (`prop.c`, `chp.c`,
`pap.c`, `text.c`, `font.c`, `section.c`, `init.c`) and theorems about it.

Conventions of the embedding

* A C `int` argument is an `Int`; a byte is a `Nat` below 256; an unsigned
  8-bit field is a `Nat` with explicit `% 256` where the code increments or
  decrements it.  `CP` (`unsigned long`, an index into the text) is a `Nat`:
  documents are taken to be shorter than the range of `unsigned long`.
* A C string is the list of its bytes before the terminating NUL.
* A linked list whose current element is its last one (`lchp_curr`,
  `lpap_curr`) is kept as the list of the nodes before the current one, in
  document order, together with the current node.
* Paragraph records live in a heap `paps`, a list indexed by address; address
  0 is the static `first_pap`, `malloc` of a record returns the next unused
  address.
* `malloc` is driven by `malloc_ok`, the list of the answers the allocator
  will give (`true` = a block, `false` = NULL); when the list is exhausted
  the allocator succeeds.  `putc` and `tmpfile` are modelled on their success
  path.
-/

namespace LibWrite

/-! ## prop.c: default-diff -/

/-- The loop of `_wri_find_cch`: `for (cch = start; cch > 0; cch--) if (cp1[cch] != cp2[cch]) break;`
returns the value of `cch` on leaving the loop. -/
def find_cch_loop (cp1 cp2 : List Nat) : Nat → Nat
  | 0 => 0
  | cch + 1 =>
    if cp1.getD (cch + 1) 0 ≠ cp2.getD (cch + 1) 0 then cch + 1
    else find_cch_loop cp1 cp2 cch

/-- `_wri_find_cch(cp1, cp2, max_chars)` of prop.c: seek back from the end until
a byte differs; the loop index plus one is returned. -/
def _wri_find_cch (cp1 cp2 : List Nat) (max_chars : Int) : Int :=
  if 0 < max_chars - 1 then (find_cch_loop cp1 cp2 (max_chars - 1).toNat : Int) + 1
  else (max_chars - 1) + 1

/-- The decoding of one FPROP in `read_chps` / `read_paps` of read.c:
`memcpy(&chp, &default, sizeof(chp)); memcpy(&chp, &(fpropp->chp), fpropp->cch);`
the first `cch` bytes of the stored blob overwrite a copy of the default. -/
def fprop_decode (dflt blob : List Nat) (cch : Nat) : List Nat :=
  blob.take cch ++ dflt.drop cch

/-! ## write.h: records -/

/-- Character properties, `struct CHP` of write.h, one field per bit-field. -/
structure CHP where
  res1 : Nat := 0
  fBold : Nat := 0
  fItalic : Nat := 0
  ftc : Nat := 0
  hps : Nat := 0
  fUline : Nat := 0
  fStrike : Nat := 0
  fDline : Nat := 0
  fNew : Nat := 0
  csm : Nat := 0
  fSpecial : Nat := 0
  fHidden : Nat := 0
  ftcXtra : Nat := 0
  fOutline : Nat := 0
  fShadow : Nat := 0
  res2 : Nat := 0
  hpsPos : Nat := 0
deriving DecidableEq, Repr

/-- Paragraph properties, `struct PAP` of write.h, restricted to the first
`STORED_PAP_SIZE` = 17 bytes, the part that pap.c keeps in its list: byte 0 is
`res1` (the reference count of a stored record), bytes 1..16 are the fields
from `jc` to the byte of `rhcPage .. res5`.  `dxaLeft1` is a signed `short`. -/
structure PAP where
  res1 : Nat := 0
  jc : Nat := 0
  res2 : Nat := 0
  res3 : Nat := 0
  res4 : Nat := 0
  dxaRight : Nat := 0
  dxaLeft : Nat := 0
  dxaLeft1 : Int := 0
  dyaLine : Nat := 0
  dyaBefore : Nat := 0
  dyaAfter : Nat := 0
  rhcPage : Nat := 0
  rhcOdd : Nat := 0
  rhcEven : Nat := 0
  rhcFirst : Nat := 0
  fGraphics : Nat := 0
  res5 : Nat := 0
deriving DecidableEq, Repr

/-- Tab descriptor, `struct TBD` of write.h. -/
structure TBD where
  dxa : Nat := 0
  jcTab : Nat := 0
  tlc : Nat := 0
  res1 : Nat := 0
  chAlign : Nat := 0
deriving DecidableEq, Repr

/-- Section properties, `struct SEP` of write.h. -/
structure SEP where
  cch : Nat
  res1 : Nat
  yaMac : Nat
  xaMac : Nat
  pgnFirst : Nat
  yaTop : Nat
  dyaText : Nat
  xaLeft : Nat
  dxaText : Nat
  res2 : Nat
  yaHeader : Nat
  yaFooter : Nat
  pad : List Nat
deriving DecidableEq, Repr

/-- Entry of the font face name table, `struct font` of font.c. -/
structure font where
  ffid : Nat
  font_name : List Nat
deriving DecidableEq, Repr

/-- Node of a property list, `struct lprop` of defs.h followed by the payload
of the concrete list: `struct CHP chp` for `struct lchp`, the address
`struct PAP *papp` for `struct lpap`.  The `next` pointer is the list order. -/
structure lprop (α : Type) where
  cpFirst : Nat
  cpLim : Nat
  prop : α
deriving DecidableEq, Repr

/-- Node of the character list, `struct lchp` of chp.c; `prop` is its `chp`. -/
abbrev lchp := lprop CHP

/-- Node of the paragraph list, `struct lpap` of pap.c; `prop` is its `papp`,
an address in the heap of paragraph records. -/
abbrev lpap := lprop Nat

def itbdmax : Nat := 14
def MAX_FONTS : Nat := 64
def WRI_NORMAL : Int := 0
def WRI_SUPERSCRIPT : Int := 12
def WRI_SUBSCRIPT : Int := 244
def WRI_LEFT : Int := 0
def WRI_CENTER : Int := 1
def WRI_RIGHT : Int := 2
def WRI_BOTH : Int := 3
def WRI_SINGLE : Int := 240

/-- The static data of the library: the document under construction. -/
structure State where
  /-- init.c: fatal error flag -/
  _wri_error : Int
  /-- text.c: the temporary file, `none` when `text_fp == NULL` -/
  text_fp : Option (List Nat)
  _wri_cpMac : Nat
  _wri_in_rhc : Int
  _wri_had_normal_text : Int
  /-- chp.c: the nodes from `lchp_first` up to the one before `lchp_curr` -/
  lchp_list : List lchp
  lchp_curr : lchp
  saved_chp : CHP
  /-- pap.c: heap of paragraph records; address 0 is `first_pap` -/
  paps : List PAP
  /-- pap.c: the nodes from `lpap_first` up to the one before `lpap_curr` -/
  lpap_list : List lpap
  lpap_curr : lpap
  saved_pap : PAP
  pofp : Int × Int
  tbd : List TBD
  nTabs : Int
  /-- font.c: the first `NFontsUsed` entries of `ffntb` -/
  ffntb : List font
  /-- section.c -/
  _wri_sep : SEP
  dxaRight : Int
  dyaBottom : Int
  dyaFooter : Int
  /-- the answers `malloc` will give, in order -/
  malloc_ok : List Bool
  /-- chp.c: `lchp_break`, the address of a node's `next` field, kept as the
  position of that node in the list; `none` is the initial NULL -/
  lchp_break : Option Nat
  cpLim_break : Nat
  /-- pap.c: `lpap_break`, kept like `lchp_break` -/
  lpap_break : Option Nat
  /-- text.c -/
  cp_break : Nat
deriving DecidableEq, Repr

/-! ## The allocator -/

/-- One call of `malloc`: the answer (`true` = a block, `false` = NULL) and the
state with that answer consumed. -/
def malloc (s : State) : Bool × State :=
  (s.malloc_ok.headD true, { s with malloc_ok := s.malloc_ok.tail })

/-! ## prop.c: appending a node -/

/-- `_wri_new_lprop(&lprop_curr, size)` of prop.c on the list whose nodes
before the current one are `lprop_list` and whose current node is `lprop_curr`:
on NULL from `malloc` sets `_wri_error` and returns NULL (`none`); otherwise the
new node is a copy of the current one with `cpFirst = lprop_curr->cpLim`, it is
linked after the current node and becomes the current node. -/
def _wri_new_lprop {α : Type} (lprop_list : List (lprop α)) (lprop_curr : lprop α)
    (s : State) : Option (List (lprop α) × lprop α) × State :=
  match malloc s with
  | (false, s1) => (none, { s1 with _wri_error := 1 })
  | (true, s1) =>
    (some (lprop_list ++ [lprop_curr], { lprop_curr with cpFirst := lprop_curr.cpLim }), s1)

/-! ## chp.c -/

/-- The default CHP of chp.c: `hps` 24, the rest 0. -/
def _wri_default_chp : CHP := { hps := 24 }

/-- The macro `chp_curr` of chp.c: `lchp_curr->chp`. -/
def chp_curr (s : State) : CHP := s.lchp_curr.prop

/-- Assignment to (fields of) `chp_curr`. -/
def set_chp_curr (s : State) (c : CHP) : State :=
  { s with lchp_curr := { s.lchp_curr with prop := c } }

/-- `_wri_extend_chp(cpLim)` of chp.c. -/
def _wri_extend_chp (cpLim : Nat) (s : State) : State :=
  { s with lchp_curr := { s.lchp_curr with cpLim := cpLim } }

/-- `new_chp()` of chp.c; `true` stands for a non-NULL result. -/
def new_chp (s : State) : Bool × State :=
  if s.lchp_curr.cpLim = s.lchp_curr.cpFirst then (true, s)
  else
    match _wri_new_lprop s.lchp_list s.lchp_curr s with
    | (none, s1) => (false, s1)
    | (some (l, c), s1) => (true, { s1 with lchp_list := l, lchp_curr := c })

/-- `wri_char_bold(value)` of chp.c. -/
def wri_char_bold (value : Int) (s : State) : Int × State :=
  if value ≠ 0 ∧ value ≠ 1 then (1, s)
  else if (chp_curr s).fBold = value.toNat then (0, s)
  else
    match new_chp s with
    | (false, s1) => (1, s1)
    | (true, s1) => (0, set_chp_curr s1 { chp_curr s1 with fBold := value.toNat })

/-- `wri_char_italic(value)` of chp.c. -/
def wri_char_italic (value : Int) (s : State) : Int × State :=
  if value ≠ 0 ∧ value ≠ 1 then (1, s)
  else if (chp_curr s).fItalic = value.toNat then (0, s)
  else
    match new_chp s with
    | (false, s1) => (1, s1)
    | (true, s1) => (0, set_chp_curr s1 { chp_curr s1 with fItalic := value.toNat })

/-- `wri_char_underline(value)` of chp.c. -/
def wri_char_underline (value : Int) (s : State) : Int × State :=
  if value ≠ 0 ∧ value ≠ 1 then (1, s)
  else if (chp_curr s).fUline = value.toNat then (0, s)
  else
    match new_chp s with
    | (false, s1) => (1, s1)
    | (true, s1) => (0, set_chp_curr s1 { chp_curr s1 with fUline := value.toNat })

/-- The table `hps_values` of chp.c, in half-points. -/
def hps_values : List Nat := [12, 16, 20, 24, 28, 36, 48, 60, 72, 96]

def N_HPS_VALUES : Nat := 10

/-- The loop of `wri_char_reduce`: `for (i = start; i >= 0; i--) if (hps_values[i] < hps) break;`
returns `i` on leaving the loop (`-1` when no entry is smaller). -/
def reduce_loop (hps : Nat) : Nat → Int
  | 0 => if hps_values.getD 0 0 < hps then 0 else -1
  | i + 1 => if hps_values.getD (i + 1) 0 < hps then ((i + 1 : Nat) : Int) else reduce_loop hps i

/-- `wri_char_reduce()` of chp.c. -/
def wri_char_reduce (s : State) : Int × State :=
  if (chp_curr s).hps ≤ hps_values.getD 0 0 then (0, s)
  else
    let i := reduce_loop (chp_curr s).hps (N_HPS_VALUES - 1)
    match new_chp s with
    | (false, s1) => (1, s1)
    | (true, s1) => (0, set_chp_curr s1 { chp_curr s1 with hps := hps_values.getD i.toNat 0 })

/-- The loop of `wri_char_enlarge`: `for (i = 0; i < N_HPS_VALUES-1; i++) if (hps_values[i] > hps) break;`
run from `i` for at most `fuel` rounds; returns `i` on leaving the loop. -/
def enlarge_loop (hps : Nat) : Nat → Nat → Nat
  | 0, i => i
  | fuel + 1, i =>
    if i < N_HPS_VALUES - 1 then
      if hps_values.getD i 0 > hps then i else enlarge_loop hps fuel (i + 1)
    else i

/-- `wri_char_enlarge()` of chp.c. -/
def wri_char_enlarge (s : State) : Int × State :=
  if (chp_curr s).hps ≥ hps_values.getD (N_HPS_VALUES - 1) 0 then (0, s)
  else
    let i := enlarge_loop (chp_curr s).hps N_HPS_VALUES 0
    match new_chp s with
    | (false, s1) => (1, s1)
    | (true, s1) => (0, set_chp_curr s1 { chp_curr s1 with hps := hps_values.getD i 0 })

/-- `wri_char_script(value)` of chp.c. -/
def wri_char_script (value : Int) (s : State) : Int × State :=
  if value ≠ WRI_NORMAL ∧ value ≠ WRI_SUBSCRIPT ∧ value ≠ WRI_SUPERSCRIPT then (1, s)
  else if (chp_curr s).hpsPos = value.toNat then (0, s)
  else
    let r : Int × State :=
      if (chp_curr s).hpsPos = 0 ∧ value ≠ WRI_NORMAL then wri_char_reduce s
      else if (chp_curr s).hpsPos ≠ 0 ∧ value = WRI_NORMAL then wri_char_enlarge s
      else (0, s)
    if r.1 ≠ 0 then (1, r.2)
    else
      match new_chp r.2 with
      | (false, s1) => (1, s1)
      | (true, s1) => (0, set_chp_curr s1 { chp_curr s1 with hpsPos := value.toNat % 256 })

/-- `wri_char_normal()` of chp.c: the `||` chain stops at the first failure. -/
def wri_char_normal (s : State) : Int × State :=
  let r1 := wri_char_bold 0 s
  if r1.1 ≠ 0 then (1, r1.2) else
  let r2 := wri_char_italic 0 r1.2
  if r2.1 ≠ 0 then (1, r2.2) else
  let r3 := wri_char_underline 0 r2.2
  if r3.1 ≠ 0 then (1, r3.2) else
  let r4 := wri_char_script WRI_NORMAL r3.2
  if r4.1 ≠ 0 then (1, r4.2) else (0, r4.2)

/-! ## font.c -/

/-- `tolower` of the C library on a byte, in the C locale. -/
def tolower (c : Nat) : Nat := if 65 ≤ c ∧ c ≤ 90 then c + 32 else c

/-- `strcasecmp(a, b) == 0` of the C library. -/
def strcasecmp_eq (a b : List Nat) : Bool := a.map tolower == b.map tolower

/-- The table `font_ffid` of font.c: known font name / font family pairs. -/
def font_ffid : List font := [
  { ffid := 32, font_name := [65,114,105,97,108] },  -- Arial
  { ffid := 48, font_name := [67,111,117,114,105,101,114] },  -- Courier
  { ffid := 16, font_name := [68,117,116,99,104,32,83,87,65] },  -- Dutch SWA
  { ffid := 32, font_name := [72,101,108,118] },  -- Helv
  { ffid := 48, font_name := [77,111,100,101,114,110] },  -- Modern
  { ffid := 16, font_name := [82,111,109,97,110] },  -- Roman
  { ffid := 48, font_name := [82,111,109,97,110,32,53,99,112,105] },  -- Roman 5cpi
  { ffid := 48, font_name := [82,111,109,97,110,32,54,99,112,105] },  -- Roman 6cpi
  { ffid := 48, font_name := [82,111,109,97,110,32,49,48,99,112,105] },  -- Roman 10cpi
  { ffid := 48, font_name := [82,111,109,97,110,32,49,50,99,112,105] },  -- Roman 12cpi
  { ffid := 48, font_name := [82,111,109,97,110,32,49,53,99,112,105] },  -- Roman 15cpi
  { ffid := 48, font_name := [82,111,109,97,110,32,49,55,99,112,105] },  -- Roman 17cpi
  { ffid := 48, font_name := [82,111,109,97,110,32,50,48,99,112,105] },  -- Roman 20cpi
  { ffid := 16, font_name := [82,111,109,97,110,32,80,83] },  -- Roman PS
  { ffid := 64, font_name := [83,99,114,105,112,116] },  -- Script
  { ffid := 80, font_name := [83,121,109,98,111,108] },  -- Symbol
  { ffid := 48, font_name := [84,101,114,109,105,110,97,108] },  -- Terminal
  { ffid := 16, font_name := [84,109,115,32,82,109,110] }]  -- Tms Rmn

/-- `NFontsUsed` of font.c. -/
def NFontsUsed (s : State) : Nat := s.ffntb.length

/-- `_wri_cvt_font_name_to_code(font_name, ffid)` of font.c: the code of the
first entry with that name ignoring case (improving a zero `ffid`), else -1
when the table is full, else -1 with `_wri_error` set when `malloc` gives NULL,
else the name is added at the end and its index returned. -/
def _wri_cvt_font_name_to_code (font_name : List Nat) (ffid : Nat) (s : State) : Int × State :=
  match s.ffntb.findIdx? (fun f => strcasecmp_eq f.font_name font_name) with
  | some i =>
    let f := s.ffntb.getD i { ffid := 0, font_name := [] }
    if f.ffid = 0 ∧ ffid ≠ 0 then
      ((i : Int), { s with ffntb := s.ffntb.set i { f with ffid := ffid } })
    else ((i : Int), s)
  | none =>
    if NFontsUsed s ≥ MAX_FONTS then (-1, s)
    else
      match malloc s with
      | (false, s1) => (-1, { s1 with _wri_error := 1 })
      | (true, s1) =>
        let guess : Nat :=
          if ffid = 0 then
            match font_ffid.find? (fun f => strcasecmp_eq font_name f.font_name) with
            | some f => f.ffid
            | none => ffid
          else ffid
        ((NFontsUsed s1 : Int),
          { s1 with ffntb := s1.ffntb ++ [{ ffid := guess, font_name := font_name }] })

/-- `_wri_reinit_font()` of font.c: only the default font stays in use. -/
def _wri_reinit_font (s : State) : Int × State :=
  (0, { s with ffntb := s.ffntb.take 1 })

/-! ## chp.c, continued -/

/-- `wri_char_font_name(font_name)` of chp.c.  The comment that opens before the
test `if (chp_curr.ftc == (FTC)ftc) return(0);` is closed only after the next
comment, so that test is not part of the compiled function. -/
def wri_char_font_name (font_name : List Nat) (s : State) : Int × State :=
  match _wri_cvt_font_name_to_code font_name 0 s with
  | (ftc, s0) =>
    if ftc = -1 then (1, s0)
    else
      match new_chp s0 with
      | (false, s1) => (1, s1)
      | (true, s1) => (0, set_chp_curr s1 { chp_curr s1 with ftc := ftc.toNat % 64 })

/-- `wri_char_font_size(value)` of chp.c.  The comment that opens before the
test `if (chp_curr.hps == hps) return(0);` is closed only after the next
comment, so that test is not part of the compiled function. -/
def wri_char_font_size (value : Int) (s : State) : Int × State :=
  if value < 4 ∨ value > 127 then (1, s)
  else
    let hps : Nat := (value * 2).toNat % 256
    match new_chp s with
    | (false, s1) => (1, s1)
    | (true, s1) => (0, set_chp_curr s1 { chp_curr s1 with hps := hps })

/-- `_wri_chp_special(x)` of chp.c; `fSpecial` is a one-bit field. -/
def _wri_chp_special (x : Int) (s : State) : Int × State :=
  match new_chp s with
  | (false, s1) => (1, s1)
  | (true, s1) => (0, set_chp_curr s1 { chp_curr s1 with fSpecial := (x % 2).toNat })

/-- `_wri_set_default_chp()` of chp.c. -/
def _wri_set_default_chp (s : State) : Int × State :=
  if chp_curr s = _wri_default_chp then (0, s)
  else
    match new_chp s with
    | (false, s1) => (1, s1)
    | (true, s1) => (0, set_chp_curr s1 _wri_default_chp)

/-- `_wri_preserve_chp()` of chp.c. -/
def _wri_preserve_chp (s : State) : State := { s with saved_chp := chp_curr s }

/-- `_wri_restore_chp()` of chp.c. -/
def _wri_restore_chp (s : State) : Int × State :=
  if chp_curr s = s.saved_chp then (0, s)
  else
    match new_chp s with
    | (false, s1) => (1, s1)
    | (true, s1) => (0, set_chp_curr s1 s1.saved_chp)

/-- `_wri_reinit_chp()` of chp.c: the nodes after `lchp_first` are freed, the
first node is reset to an empty run with the default CHP and is current. -/
def _wri_reinit_chp (s : State) : Int × State :=
  (0, { s with lchp_list := [], lchp_curr := { cpFirst := 0, cpLim := 0, prop := _wri_default_chp } })

/-! ## pap.c: records and list -/

def STORED_PAP_SIZE : Nat := 17

/-- The default PAP of pap.c: `dyaLine` 240, the rest 0. -/
def _wri_default_pap : PAP := { dyaLine := 240 }

/-- The record at address `a` of the heap of paragraph records. -/
def pap_at (s : State) (a : Nat) : PAP := s.paps.getD a _wri_default_pap

/-- Store into the record at address `a`. -/
def set_pap_at (s : State) (a : Nat) (p : PAP) : State := { s with paps := s.paps.set a p }

/-- The macro `pap_curr` of pap.c: `*(lpap_curr->papp)`. -/
def pap_curr (s : State) : PAP := pap_at s s.lpap_curr.prop

/-- Assignment to (fields of) `pap_curr`. -/
def set_pap_curr (s : State) (p : PAP) : State := set_pap_at s s.lpap_curr.prop p

/-- `_wri_extend_pap(cpLim)` of pap.c. -/
def _wri_extend_pap (cpLim : Nat) (s : State) : State :=
  { s with lpap_curr := { s.lpap_curr with cpLim := cpLim } }

/-- `clone_pap()` of pap.c; `true` stands for a non-NULL result.  The new record
gets the next unused address, is a copy of the old one, the current node is
pointed at it, the old count is decremented (8 bits) and the new count set to 1. -/
def clone_pap (s : State) : Bool × State :=
  let pap_old := s.lpap_curr.prop
  match malloc s with
  | (false, s1) => (false, { s1 with _wri_error := 1 })
  | (true, s1) =>
    let pap_new := s1.paps.length
    let s2 := { s1 with paps := s1.paps ++ [pap_at s1 pap_old] }
    let s3 := { s2 with lpap_curr := { s2.lpap_curr with prop := pap_new } }
    let s4 := set_pap_at s3 pap_old { pap_at s3 pap_old with res1 := ((pap_at s3 pap_old).res1 + 255) % 256 }
    let s5 := set_pap_at s4 pap_new { pap_at s4 pap_new with res1 := 1 }
    (true, s5)

/-- `_wri_new_paragraph()` of pap.c.  `lpap_curr->papp->res1++ == 0` compares the
count before the increment with 0 and stores the count plus one in 8 bits. -/
def _wri_new_paragraph (s : State) : Int × State :=
  match _wri_new_lprop s.lpap_list s.lpap_curr s with
  | (none, s1) => (1, s1)
  | (some (l, c), s1) =>
    let s2 := { s1 with lpap_list := l, lpap_curr := c }
    let old := (pap_curr s2).res1
    let s3 := set_pap_curr s2 { pap_curr s2 with res1 := (old + 1) % 256 }
    if old = 0 then
      match clone_pap s3 with
      | (false, s4) => (1, s4)
      | (true, s4) => (0, s4)
    else (0, s3)

/-- `this_para()` of pap.c; `true` stands for a non-NULL result. -/
def this_para (s : State) : Bool × State :=
  if (pap_curr s).res1 = 1 then (true, s)
  else clone_pap s

/-- `wri_para_justify(jc)` of pap.c. -/
def wri_para_justify (jc : Int) (s : State) : Int × State :=
  if jc ≠ WRI_LEFT ∧ jc ≠ WRI_CENTER ∧ jc ≠ WRI_RIGHT ∧ jc ≠ WRI_BOTH then (1, s)
  else if (pap_curr s).jc = jc.toNat then (0, s)
  else
    match this_para s with
    | (false, s1) => (1, s1)
    | (true, s1) => (0, set_pap_curr s1 { pap_curr s1 with jc := jc.toNat })

/-- `wri_para_interline(spacing)` of pap.c. -/
def wri_para_interline (spacing : Int) (s : State) : Int × State :=
  if spacing < 0 ∨ spacing > 32767 then (1, s)
  else if (pap_curr s).dyaLine = spacing.toNat then (0, s)
  else
    match this_para s with
    | (false, s1) => (1, s1)
    | (true, s1) => (0, set_pap_curr s1 { pap_curr s1 with dyaLine := spacing.toNat })

/-- `wri_para_indent_left(indent)` of pap.c. -/
def wri_para_indent_left (indent : Int) (s : State) : Int × State :=
  if indent < 0 ∨ indent > 32767 then (1, s)
  else if (pap_curr s).dxaLeft = indent.toNat then (0, s)
  else
    match this_para s with
    | (false, s1) => (1, s1)
    | (true, s1) => (0, set_pap_curr s1 { pap_curr s1 with dxaLeft := indent.toNat })

/-- `wri_para_indent_right(indent)` of pap.c. -/
def wri_para_indent_right (indent : Int) (s : State) : Int × State :=
  if indent < 0 ∨ indent > 32767 then (1, s)
  else if (pap_curr s).dxaRight = indent.toNat then (0, s)
  else
    match this_para s with
    | (false, s1) => (1, s1)
    | (true, s1) => (0, set_pap_curr s1 { pap_curr s1 with dxaRight := indent.toNat })

/-- Conversion of an `int` to `short` (16 bits, two's complement). -/
def to_short (i : Int) : Int := (i + 32768) % 65536 - 32768

/-- `wri_para_indent_first(indent)` of pap.c: no range check; the `short`
field is compared with the `int` argument and assigned from it. -/
def wri_para_indent_first (indent : Int) (s : State) : Int × State :=
  if (pap_curr s).dxaLeft1 = indent then (0, s)
  else
    match this_para s with
    | (false, s1) => (1, s1)
    | (true, s1) => (0, set_pap_curr s1 { pap_curr s1 with dxaLeft1 := to_short indent })

/-- `wri_para_normal()` of pap.c: the `||` chain stops at the first failure. -/
def wri_para_normal (s : State) : Int × State :=
  let r1 := wri_para_justify WRI_LEFT s
  if r1.1 ≠ 0 then (1, r1.2) else
  let r2 := wri_para_interline WRI_SINGLE r1.2
  if r2.1 ≠ 0 then (1, r2.2) else
  let r3 := wri_para_indent_left 0 r2.2
  if r3.1 ≠ 0 then (1, r3.2) else
  let r4 := wri_para_indent_right 0 r3.2
  if r4.1 ≠ 0 then (1, r4.2) else
  let r5 := wri_para_indent_first 0 r4.2
  if r5.1 ≠ 0 then (1, r5.2) else (0, r5.2)

/-- `_wri_set_default_pap()` of pap.c: bytes 1..16 from the default, count kept. -/
def _wri_set_default_pap (s : State) : Int × State :=
  match this_para s with
  | (false, s1) => (1, s1)
  | (true, s1) => (0, set_pap_curr s1 { _wri_default_pap with res1 := (pap_curr s1).res1 })

/-- `_wri_preserve_pap()` of pap.c. -/
def _wri_preserve_pap (s : State) : State := { s with saved_pap := pap_curr s }

/-- `_wri_restore_pap()` of pap.c: bytes 1..16 from the saved copy, count kept. -/
def _wri_restore_pap (s : State) : Int × State :=
  match this_para s with
  | (false, s1) => (1, s1)
  | (true, s1) => (0, set_pap_curr s1 { s1.saved_pap with res1 := (pap_curr s1).res1 })

/-- `_wri_append_pap(papp, cpLim, is_first_para)` of pap.c; the comparison and
the copy leave byte 0 (the count) out. -/
def _wri_append_pap (papp : PAP) (cpLim : Nat) (is_first_para : Int) (s : State) : Int × State :=
  let r : Int × State := if is_first_para = 0 then _wri_new_paragraph s else (0, s)
  if r.1 ≠ 0 then (1, r.2)
  else if { papp with res1 := 0 } ≠ { pap_curr r.2 with res1 := 0 } then
    match this_para r.2 with
    | (false, s2) => (1, s2)
    | (true, s2) =>
      (0, _wri_extend_pap cpLim (set_pap_curr s2 { papp with res1 := (pap_curr s2).res1 }))
  else (0, _wri_extend_pap cpLim r.2)

/-- `wri_doc_tab_cancel()` of pap.c. -/
def wri_doc_tab_cancel (s : State) : Int × State :=
  (0, { s with nTabs := 0, tbd := List.replicate itbdmax {} })

/-- `free_lpaps(from)` of pap.c on the nodes from `from` to the end of the
list: the count of each node's record is decremented (8 bits); a record whose
count reaches 0 is released, unless it is `first_pap`.  A released record keeps
its cell in the heap, which no node refers to any more. -/
def free_lpaps (nodes : List lpap) (s : State) : State :=
  nodes.foldl (fun st n => set_pap_at st n.prop
    { pap_at st n.prop with res1 := ((pap_at st n.prop).res1 + 255) % 256 }) s

/-- `_wri_reinit_pap()` of pap.c. -/
def _wri_reinit_pap (s : State) : Int × State :=
  let lpap_first : lpap := (s.lpap_list ++ [s.lpap_curr]).headD s.lpap_curr
  let s1 := free_lpaps (s.lpap_list ++ [s.lpap_curr]).tail s
  let s2 := set_pap_at s1 0 { _wri_default_pap with res1 := 1 }
  let s3 := { s2 with lpap_list := [],
                      lpap_curr := { cpFirst := 0, cpLim := 0, prop := lpap_first.prop },
                      pofp := (0, 0) }
  wri_doc_tab_cancel s3

/-! ## text.c -/

/-- `create_tempfile()` of text.c, on the success of `tmpfile`. -/
def create_tempfile (s : State) : State := { s with text_fp := some [] }

/-- `putc(c, text_fp)` on its success path: the byte is appended to the file. -/
def putc (c : Nat) (s : State) : State :=
  { s with text_fp := s.text_fp.map (fun f => f ++ [c]) }

/-- The `for` loop of `do_text` of text.c over the bytes of the string.  The
result is 1 when the loop is left by `return(1)` and 0 when it runs to the end. -/
def do_text_loop : List Nat → State → Int × State
  | [], s => (0, s)
  | c :: rest, s =>
    if c = 13 then do_text_loop rest s                       -- '\r': ignored
    else if c = 1 ∧ s._wri_in_rhc = 0 then do_text_loop rest s  -- '\001' outside a header
    else if c ≠ 10 ∧ c ≠ 12 ∧ c ≠ 9 ∧ c ≠ 1 ∧ c < 32 then do_text_loop rest s
    else
      -- '\n': insert '\r' first
      let s1 := if c = 10 then { putc 13 s with _wri_cpMac := s._wri_cpMac + 1 } else s
      let s2 := { putc c s1 with _wri_cpMac := s1._wri_cpMac + 1 }
      if c = 10 ∨ c = 12 then
        match _wri_new_paragraph (_wri_extend_pap s2._wri_cpMac s2) with
        | (r, s4) => if r ≠ 0 then (1, s4) else do_text_loop rest s4
      else do_text_loop rest s2

/-- `do_text(text)` of text.c. -/
def do_text (text : List Nat) (s : State) : Int × State :=
  match do_text_loop text s with
  | (r, s1) =>
    if r ≠ 0 then (1, s1)
    else
      let s2 := _wri_extend_pap s1._wri_cpMac (_wri_extend_chp s1._wri_cpMac s1)
      (0, if s2._wri_in_rhc = 0 then { s2 with _wri_had_normal_text := 1 } else s2)

/-- `wri_text(text)` of text.c; `fuel` bounds the depth of its recursion on the
rest of the string after a page-number byte `'\001'`. -/
def wri_text_fuel : Nat → List Nat → State → Int × State
  | 0, _, s => (1, s)
  | fuel + 1, text, s0 =>
    let s := if s0.text_fp = none then create_tempfile s0 else s0
    if s._wri_in_rhc ≠ 0 then
      if s._wri_had_normal_text ≠ 0 then (1, s)
      else if 1 ∈ text then
        let r1 := do_text (text.takeWhile (fun c => c ≠ 1)) s
        if r1.1 ≠ 0 then (1, r1.2) else
        let r2 := _wri_chp_special 1 r1.2
        if r2.1 ≠ 0 then (1, r2.2) else
        let r3 := do_text [1] r2.2
        if r3.1 ≠ 0 then (1, r3.2) else
        let r4 := _wri_chp_special 0 r3.2
        if r4.1 ≠ 0 then (1, r4.2) else
        wri_text_fuel fuel (text.dropWhile (fun c => c ≠ 1)).tail r4.2
      else do_text text s
    else do_text text s

/-- `wri_text(text)` of text.c: each recursive call is on a shorter string, so
`text.length + 1` levels suffice. -/
def wri_text (text : List Nat) (s : State) : Int × State :=
  wri_text_fuel (text.length + 1) text s

/-- `_wri_reinit_text()` of text.c. -/
def _wri_reinit_text (s : State) : Int × State :=
  (0, { s with text_fp := none, _wri_cpMac := 0, _wri_had_normal_text := 0, _wri_in_rhc := 0 })

/-! ## pap.c: running heads -/

/-- `wri_doc_return()` of pap.c; the result of `wri_text("\n")` is not looked at. -/
def wri_doc_return (s : State) : Int × State :=
  if (pap_curr s).rhcOdd = 0 then (0, s)
  else
    let s1 := (wri_text [10] s).2
    let r2 := _wri_restore_chp s1
    if r2.1 ≠ 0 then (1, r2.2) else
    let r3 := _wri_restore_pap r2.2
    if r3.1 ≠ 0 then (1, r3.2) else
    (0, { r3.2 with _wri_in_rhc := 0 })

/-- The part of `start_rhc` of pap.c after a pending header/footer has been
closed. -/
def start_rhc_body (header_footer : Int) (s : State) : Int × State :=
  let r1 : Int × State :=
    if s.lpap_curr.cpFirst ≠ s.lpap_curr.cpLim then _wri_new_paragraph s else (0, s)
  if r1.1 ≠ 0 then (1, r1.2) else
  let s2 := _wri_preserve_pap (_wri_preserve_chp r1.2)
  let r3 := _wri_set_default_chp s2
  if r3.1 ≠ 0 then (1, r3.2) else
  let s4 := (wri_char_font_size 10 r3.2).2
  let r5 := _wri_set_default_pap s4
  if r5.1 ≠ 0 then (1, r5.2) else
  let s6 := set_pap_curr r5.2 { pap_curr r5.2 with rhcOdd := 1, rhcEven := 1 }
  let s7 := set_pap_curr s6 { pap_curr s6 with rhcPage := (header_footer % 2).toNat }
  (0, { s7 with _wri_in_rhc := 1 })

/-- `start_rhc(header_footer)` of pap.c: 0 = header, 1 = footer. -/
def start_rhc (header_footer : Int) (s : State) : Int × State :=
  if s._wri_had_normal_text ≠ 0 then (1, s)
  else if (pap_curr s).rhcOdd ≠ 0 then
    if (pap_curr s).rhcPage = header_footer.toNat then (0, s)
    else
      let r := wri_doc_return s
      if r.1 ≠ 0 then (1, r.2) else start_rhc_body header_footer r.2
  else start_rhc_body header_footer s

/-- `wri_doc_header()` of pap.c. -/
def wri_doc_header (s : State) : Int × State := start_rhc 0 s

/-- `wri_doc_footer()` of pap.c. -/
def wri_doc_footer (s : State) : Int × State := start_rhc 1 s

/-! ## section.c -/

/-- The constant `default_sep` of section.c; `cch` is `sizeof(struct SEP) - 1`. -/
def default_sep : SEP :=
  { cch := 102, res1 := 0, yaMac := 15840, xaMac := 12240, pgnFirst := 65535, yaTop := 1440,
    dyaText := 12960, xaLeft := 1800, dxaText := 8640, res2 := 256, yaHeader := 1080,
    yaFooter := 14760, pad := List.replicate 80 0 }

/-- `_wri_sep_to_user()` of section.c. -/
def _wri_sep_to_user (s : State) : State :=
  { s with dxaRight := (s._wri_sep.xaMac : Int) - s._wri_sep.xaLeft - s._wri_sep.dxaText,
           dyaBottom := (s._wri_sep.yaMac : Int) - s._wri_sep.yaTop - s._wri_sep.dyaText,
           dyaFooter := (s._wri_sep.yaMac : Int) - s._wri_sep.yaFooter }

/-- `_wri_set_default_sep()` of section.c. -/
def _wri_set_default_sep (s : State) : State :=
  _wri_sep_to_user { s with _wri_sep := default_sep }

/-- `_wri_reinit_section()` of section.c. -/
def _wri_reinit_section (s : State) : Int × State := (0, _wri_set_default_sep s)

/-! ## init.c -/

/-- `reinit_all()` of init.c; every re-initialiser returns 0, so all of them run. -/
def reinit_all (s : State) : Int × State :=
  let r1 := _wri_reinit_text s
  if r1.1 ≠ 0 then (1, r1.2) else
  let r2 := _wri_reinit_chp r1.2
  if r2.1 ≠ 0 then (1, r2.2) else
  let r3 := _wri_reinit_pap r2.2
  if r3.1 ≠ 0 then (1, r3.2) else
  let r4 := _wri_reinit_section r3.2
  if r4.1 ≠ 0 then (1, r4.2) else
  let r5 := _wri_reinit_font r4.2
  if r5.1 ≠ 0 then (1, r5.2) else (0, r5.2)

/-- `wri_new()` of init.c. -/
def wri_new (s : State) : Int × State := reinit_all { s with _wri_error := 0 }

/-- The state of the library before any call: the initial values of its static
data, with `allocs` as the answers the allocator is going to give. -/
def first_use (allocs : List Bool) : State :=
  { _wri_error := 0, text_fp := none, _wri_cpMac := 0, _wri_in_rhc := 0,
    _wri_had_normal_text := 0,
    lchp_list := [], lchp_curr := { cpFirst := 0, cpLim := 0, prop := { hps := 20 } },
    saved_chp := {},
    paps := [{ res1 := 1, dyaLine := 240 }],
    lpap_list := [], lpap_curr := { cpFirst := 0, cpLim := 0, prop := 0 },
    saved_pap := {}, pofp := (0, 0),
    tbd := List.replicate itbdmax {}, nTabs := 0,
    ffntb := [{ ffid := 32, font_name := [65, 114, 105, 97, 108] }],
    _wri_sep := default_sep, dxaRight := 12240 - 1800 - 8640,
    dyaBottom := 15840 - 1440 - 12960, dyaFooter := 1080,
    malloc_ok := allocs,
    lchp_break := none, cpLim_break := 0, lpap_break := none, cp_break := 0 }

/-! ## Calls of the public interface and example documents -/

/-- A call of the document-building interface of libwrite.h. -/
inductive Call where
  | text (t : List Nat)
  | char_normal
  | char_bold (v : Int)
  | char_italic (v : Int)
  | char_underline (v : Int)
  | char_script (v : Int)
  | char_font_name (n : List Nat)
  | char_font_size (v : Int)
  | char_reduce
  | char_enlarge
  | para_normal
  | para_justify (v : Int)
  | para_interline (v : Int)
  | para_indent_left (v : Int)
  | para_indent_right (v : Int)
  | para_indent_first (v : Int)
  | doc_header
  | doc_footer
  | doc_return
deriving DecidableEq, Repr

/-- The function a call names, applied to the state. -/
def Call.run : Call → State → Int × State
  | .text t => wri_text t
  | .char_normal => wri_char_normal
  | .char_bold v => wri_char_bold v
  | .char_italic v => wri_char_italic v
  | .char_underline v => wri_char_underline v
  | .char_script v => wri_char_script v
  | .char_font_name n => wri_char_font_name n
  | .char_font_size v => wri_char_font_size v
  | .char_reduce => wri_char_reduce
  | .char_enlarge => wri_char_enlarge
  | .para_normal => wri_para_normal
  | .para_justify v => wri_para_justify v
  | .para_interline v => wri_para_interline v
  | .para_indent_left v => wri_para_indent_left v
  | .para_indent_right v => wri_para_indent_right v
  | .para_indent_first v => wri_para_indent_first v
  | .doc_header => wri_doc_header
  | .doc_footer => wri_doc_footer
  | .doc_return => wri_doc_return

/-- The calls that set a character attribute (`wri_char_*`). -/
def Call.is_char_setter : Call → Bool
  | .char_normal | .char_bold _ | .char_italic _ | .char_underline _ | .char_script _
  | .char_font_name _ | .char_font_size _ | .char_reduce | .char_enlarge => true
  | _ => false

/-- The state after a sequence of calls, return values dropped. -/
def run_calls (cs : List Call) (s : State) : State :=
  cs.foldl (fun st c => (c.run st).2) s

/-- The allocator never answers NULL. -/
def AllocOK (s : State) : Prop := ∀ b ∈ s.malloc_ok, b = true

/-- All the runs of the character list, in document order. -/
def lchp_runs (s : State) : List lchp := s.lchp_list ++ [s.lchp_curr]

/-- All the runs of the paragraph list, in document order. -/
def lpap_runs (s : State) : List lpap := s.lpap_list ++ [s.lpap_curr]

/-- The last two runs of the character list are both empty. -/
def two_empty_at_tail (s : State) : Prop :=
  ∃ p, s.lchp_list.getLast? = some p ∧ p.cpFirst = p.cpLim ∧
    s.lchp_curr.cpFirst = s.lchp_curr.cpLim

/-- A run list is gapless over `[0, cpMac)`: the first run starts at 0, each run
ends where the next one starts, no run has its limit before its start, and the
last run ends at `cpMac`. -/
def Gapless {α : Type} (runs : List (lprop α)) (cpMac : Nat) : Prop :=
  (∃ r, runs.head? = some r ∧ r.cpFirst = 0) ∧
  (∀ (i : Nat) (a b : lprop α), runs[i]? = some a → runs[i + 1]? = some b → a.cpLim = b.cpFirst) ∧
  (∀ r ∈ runs, r.cpFirst ≤ r.cpLim) ∧
  (∃ r, runs.getLast? = some r ∧ r.cpLim = cpMac)

/-- The number of runs of the paragraph list that point to the record at address `a`. -/
def pap_refs (s : State) (a : Nat) : Nat := (lpap_runs s).countP (fun n => n.prop = a)

/-- The state after `n` calls of `_wri_new_paragraph`. -/
def new_paragraphs : Nat → State → State
  | 0, s => s
  | n + 1, s => new_paragraphs n (_wri_new_paragraph s).2

/-- The document after a reset and `wri_text("ab\nc")`: the current character
run `[0, 5)` is non-empty and carries the default record (`hps` 24, `ftc` 0),
and the record of the current paragraph is shared by two runs. -/
def doc_abc : State := (wri_text [97, 98, 10, 99] (wri_new (first_use [])).2).2

/-- The next call of `malloc` returns a block. -/
def alloc_succeeds (s : State) : Prop := s.malloc_ok.headD true = true

/-- A property of states that the primitive steps of the character-run manager
keep: storing into `chp_curr`, `new_chp`, and the font table lookup. -/
structure ChpClosed (P : State → Prop) : Prop where
  set_chp : ∀ s c, P s → P (set_chp_curr s c)
  new_chp : ∀ s, P s → P (new_chp s).2
  font : ∀ n f s, P s → P (_wri_cvt_font_name_to_code n f s).2

/-- A property of states that the primitive steps of the whole builder keep:
those of the character-run manager, storing into a paragraph record,
`clone_pap`, `_wri_new_paragraph`, `do_text`, and the assignments to the flags
and saved copies that do not belong to a run list. -/
structure Closed (P : State → Prop) extends ChpClosed P : Prop where
  set_pap : ∀ s a p, P s → P (set_pap_at s a p)
  clone : ∀ s, P s → P (clone_pap s).2
  new_par : ∀ s, P s → P (_wri_new_paragraph s).2
  do_text : ∀ t s, P s → P (do_text t s).2
  tempfile : ∀ s, P s → P (create_tempfile s)
  in_rhc : ∀ s v, P s → P { s with _wri_in_rhc := v }
  saved_chp : ∀ s c, P s → P { s with saved_chp := c }
  saved_pap : ∀ s p, P s → P { s with saved_pap := p }

/-- The runs of `l`, in order, cover `[a, e)` without gap: the first starts at
`a`, each starts where the one before ends, none ends before it starts, and the
last ends at `e`. -/
def covers {α : Type} : Nat → List (lprop α) → Nat → Prop
  | a, [], e => a = e
  | a, r :: rs, e => r.cpFirst = a ∧ r.cpFirst ≤ r.cpLim ∧ covers r.cpLim rs e

/-- The list with nodes `l` before the current node `c` is gapless from 0 and
its current node ends at `cpMac`. -/
def RunsTight {α : Type} (l : List (lprop α)) (c : lprop α) (cpMac : Nat) : Prop :=
  covers 0 l c.cpFirst ∧ c.cpFirst ≤ c.cpLim ∧ c.cpLim = cpMac

/-- As `RunsTight`, but the current node may end before `cpMac`: the situation
inside `do_text`, between the appending of a byte and the extension of the runs. -/
def RunsLoose {α : Type} (l : List (lprop α)) (c : lprop α) (cpMac : Nat) : Prop :=
  covers 0 l c.cpFirst ∧ c.cpFirst ≤ c.cpLim ∧ c.cpLim ≤ cpMac

/-- The invariant between two calls: the allocator does not fail and both run
lists are gapless up to the text length. -/
def Inv (s : State) : Prop :=
  AllocOK s ∧ RunsTight s.lchp_list s.lchp_curr s._wri_cpMac ∧
    RunsTight s.lpap_list s.lpap_curr s._wri_cpMac

/-- The invariant inside the loop of `do_text`. -/
def InvLoose (s : State) : Prop :=
  AllocOK s ∧ RunsLoose s.lchp_list s.lchp_curr s._wri_cpMac ∧
    RunsLoose s.lpap_list s.lpap_curr s._wri_cpMac

/-- A sequence of calls for the witness of C1: a header with a page number, the
return to normal text, two paragraphs with a change of boldness, font size and
justification. -/
def calls_sample : List Call :=
  [.doc_header, .text [80, 1], .doc_return, .char_bold 1, .text [97, 10, 98],
   .char_font_size 14, .para_justify 1, .text [99, 12], .char_script 12, .text [100]]

/-! ## chp.c and pap.c: raw append, breakpoint and rollback -/

/-- `_wri_append_chp(chpp, cpLim)` of chp.c: `memcmp` over the whole CHP decides
between extending the current run and starting a new one. -/
def _wri_append_chp (chpp : CHP) (cpLim : Nat) (s : State) : Int × State :=
  if chpp = chp_curr s then (0, _wri_extend_chp cpLim s)
  else
    match new_chp s with
    | (false, s1) => (1, s1)
    | (true, s1) => (0, _wri_extend_chp cpLim (set_chp_curr s1 chpp))

/-- The outcome of a rollback.  `restored s`: the state is `s`, whose current
node is the last node of its list.  `dangling s`: the lists and all other data
are those of `s`, but the nodes after the one of the breakpoint were freed while
the static pointer to the current node (`lchp_curr`, `lpap_curr`) still points
at the last of them; for the character list the store
`lchp_curr->cpLim = cpLim_break` went into that freed node.  `undefined`: the
break pointer was NULL or stale. -/
inductive Rollback where
  | restored (s : State)
  | dangling (s : State)
  | undefined
deriving DecidableEq, Repr

/-- `_wri_breakpoint_chp()` of chp.c: `lchp_break = &(lchp_curr->next)`, which is
NULL for the last node, and `cpLim_break = lchp_curr->cpLim`. -/
def _wri_breakpoint_chp (s : State) : State :=
  { s with lchp_break := some s.lchp_list.length, cpLim_break := s.lchp_curr.cpLim }

/-- `_wri_rollback_chp()` of chp.c: `free_lchps(*lchp_break); *lchp_break = NULL;
lchp_curr->cpLim = cpLim_break;`.  When no node was added after the breakpoint,
nothing is freed and the limit of the current node is restored.  Otherwise the
nodes after node `k` are freed and node `k` is the last of the list again, with
the limit it has at that time; `lchp_curr` is not assigned. -/
def _wri_rollback_chp (s : State) : Rollback :=
  match s.lchp_break with
  | none => .undefined
  | some k =>
    if k = s.lchp_list.length then
      .restored { s with lchp_curr := { s.lchp_curr with cpLim := s.cpLim_break } }
    else
      match s.lchp_list[k]? with
      | none => .undefined
      | some node => .dangling { s with lchp_list := s.lchp_list.take k, lchp_curr := node }

/-- `_wri_breakpoint_pap()` of pap.c: `lpap_break = &(lpap_curr->next)`. -/
def _wri_breakpoint_pap (s : State) : State :=
  { s with lpap_break := some s.lpap_list.length }

/-- `_wri_rollback_pap()` of pap.c: `free_lpaps(*lpap_break); *lpap_break = NULL;`.
When no node was added after the breakpoint nothing happens.  Otherwise the nodes
after node `k` are freed, with the counts of their records decremented, and
node `k` is the last of the list again; `lpap_curr` is not assigned. -/
def _wri_rollback_pap (s : State) : Rollback :=
  match s.lpap_break with
  | none => .undefined
  | some k =>
    if k = s.lpap_list.length then .restored s
    else
      match s.lpap_list[k]? with
      | none => .undefined
      | some node =>
        let s1 := free_lpaps ((s.lpap_list ++ [s.lpap_curr]).drop (k + 1)) s
        .dangling { s1 with lpap_list := s.lpap_list.take k, lpap_curr := node }

/-- `_wri_breakpoint_text()` of text.c. -/
def _wri_breakpoint_text (s : State) : State := { s with cp_break := s._wri_cpMac }

/-- `_wri_rollback_text()` of text.c: the file position and `_wri_cpMac` go back
to `cp_break`; what the file holds beyond is never read again. -/
def _wri_rollback_text (s : State) : State :=
  { s with _wri_cpMac := s.cp_break, text_fp := s.text_fp.map (fun f => f.take s.cp_break) }

/-- The state after a sequence of `_wri_append_chp` calls, and whether all of
them returned 0. -/
def append_chps : List (CHP × Nat) → State → Bool × State
  | [], s => (true, s)
  | (p, l) :: rest, s =>
    match _wri_append_chp p l s with
    | (r, s1) => if r = 0 then append_chps rest s1 else (false, s1)

/-- The state after a sequence of `_wri_append_pap` calls, the first with
`is_first_para` set as given and the others with it clear, and whether all of
them returned 0. -/
def append_paps : List (PAP × Nat) → Int → State → Bool × State
  | [], _, s => (true, s)
  | (p, l) :: rest, is_first_para, s =>
    match _wri_append_pap p l is_first_para s with
    | (r, s1) => if r = 0 then append_paps rest 0 s1 else (false, s1)

/-- The document after a reset and `wri_text("a")`: one character run `[0, 1)`
with the default record, one paragraph run `[0, 1)`. -/
def doc_a : State := (wri_text [97] (wri_new (first_use [])).2).2

/-- The default CHP with the bold bit set. -/
def chp_bold : CHP := { hps := 24, fBold := 1 }

/-- The default PAP content, centred. -/
def pap_centred : PAP := { dyaLine := 240, jc := 1 }

/-- The state a rollback leaves, when it is defined. -/
def Rollback.state? : Rollback → Option State
  | .restored s => some s
  | .dangling s => some s
  | .undefined => none

/-- The rollback left the pointer to the current node at the last node of the list. -/
def Rollback.is_restored : Rollback → Bool
  | .restored _ => true
  | _ => false

/-! ## write.h: the bytes of the records and the pages of property information

The structures are packed (`#pragma pack(1)`), bit-fields are allocated from
the least significant bit of their byte and 16-bit members are stored low byte
first, as in the Write file format these structures reflect.  `FC` takes 4
bytes in the file, so a FOD takes 6 bytes and the area `rgFPROP` of a page,
that the FODs and the FPROPs share, takes 123 of the 128 bytes of a page. -/

def PAGESIZE : Nat := 128
def sizeof_FC : Nat := 4
def sizeof_FOD : Nat := 6
def sizeof_CHP : Nat := 6
def sizeof_PAP : Nat := 79

/-- The size of `fkp.rgFPROP`, `PAGESIZE - sizeof(FC) - 1`; also the offset of
`fkp.cfod` from `fkp.rgFPROP`. -/
def sizeof_rgFPROP : Nat := PAGESIZE - sizeof_FC - 1

/-- `MAX_FODS` of write.h. -/
def MAX_FODS : Nat := (PAGESIZE - sizeof_FC - 1) / sizeof_FOD

/-- `MAX_PAPS_PER_PAGE` of pap.c. -/
def MAX_PAPS_PER_PAGE : Nat := (PAGESIZE - sizeof_FC - 1) / (3 + sizeof_FOD)

/-- The two bytes of a 16-bit value, low byte first. -/
def bytes16 (v : Nat) : List Nat := [v % 256, v / 256 % 256]

/-- The 6 bytes of a `struct CHP`. -/
def CHP.bytes (c : CHP) : List Nat :=
  [c.res1 % 256,
   c.fBold % 2 + 2 * (c.fItalic % 2) + 4 * (c.ftc % 64),
   c.hps % 256,
   c.fUline % 2 + 2 * (c.fStrike % 2) + 4 * (c.fDline % 2) + 8 * (c.fNew % 2)
     + 16 * (c.csm % 4) + 64 * (c.fSpecial % 2) + 128 * (c.fHidden % 2),
   c.ftcXtra % 8 + 8 * (c.fOutline % 2) + 16 * (c.fShadow % 2) + 32 * (c.res2 % 8),
   c.hpsPos % 256]

/-- The first `STORED_PAP_SIZE` = 17 bytes of a `struct PAP`. -/
def PAP.bytes (p : PAP) : List Nat :=
  [p.res1 % 256, p.jc % 4 + 4 * (p.res2 % 64), p.res3 % 256, p.res4 % 256]
  ++ bytes16 p.dxaRight ++ bytes16 p.dxaLeft ++ bytes16 (p.dxaLeft1 % 65536).toNat
  ++ bytes16 p.dyaLine ++ bytes16 p.dyaBefore ++ bytes16 p.dyaAfter
  ++ [p.rhcPage % 2 + 2 * (p.rhcOdd % 2) + 4 * (p.rhcEven % 2) + 8 * (p.rhcFirst % 2)
      + 16 * (p.fGraphics % 2) + 32 * (p.res5 % 8)]

/-- The 4 bytes of a `struct TBD`. -/
def TBD.bytes (t : TBD) : List Nat :=
  bytes16 t.dxa ++ [t.jcTab % 8 + 8 * (t.tlc % 8) + 64 * (t.res1 % 4), t.chAlign % 256]

/-- The 79 bytes of a whole `struct PAP` whose first 17 bytes are those of `p`,
whose `res6a` and `res6b` are 0, whose tab descriptors are `tabs` (14 of them)
and whose `endTab` is 0. -/
def PAP.full_bytes (p : PAP) (tabs : List TBD) : List Nat :=
  p.bytes ++ [0, 0, 0, 0, 0] ++ (tabs.map TBD.bytes).flatten ++ [0]

/-- The bytes of the whole `_wri_default_pap`: no tabs. -/
def _wri_default_pap_bytes : List Nat := _wri_default_pap.full_bytes (List.replicate itbdmax {})

/-- File descriptor of a run in a page, `struct FOD` of write.h; `bfprop` holds
the 16 bits of the `short`, so that `0xFFFF` stands for -1. -/
structure FOD where
  fcLim : Nat
  bfprop : Nat
deriving DecidableEq, Repr

/-- A page of CHP or PAP information, `struct FKP` of write.h: `rgFOD` holds the
first `cfod` descriptors, `rgFPROP` the 123 bytes of the area as far as they
are used for FPROPs.  (The two views share the area; they stay apart as long
as `6 * cfod` does not exceed the offset of the lowest FPROP.) -/
structure FKP where
  fcFirst : Nat
  rgFOD : List FOD
  rgFPROP : List Nat
deriving DecidableEq, Repr

/-- The member `cfod` of a page. -/
def FKP.cfod (p : FKP) : Nat := p.rgFOD.length

/-- `memcpy(area + off, src, src.length)`. -/
def write_bytes (area : List Nat) (off : Nat) (src : List Nat) : List Nat :=
  area.take off ++ src ++ area.drop (off + src.length)

/-- The FPROP at offset `b` of the area as the reader takes it: the `cch` byte
followed by `cch` bytes. -/
def fprop_at (area : List Nat) (b : Nat) : List Nat :=
  (area.drop b).take (area.getD b 0 + 1)

/-- The local and static variables of the loops of `_wri_save_chp` and
`_wri_save_pap`: the pages handed to `_wri_write_page` so far, the page under
construction, `start_of_props` as an offset into `fkp.rgFPROP`, `space_left`,
the page counter of the header (`hp->pnPara`, `hp->pnFntb`), and, for pap.c,
the first `n_old_paps` entries of `old_pap` as offsets into `fkp.rgFPROP`.
The page counter is an `unsigned short` (write.h): `pn` is kept below 65536 by
every assignment to it. -/
structure Packer where
  written : List FKP
  fkp : FKP
  start_of_props : Nat
  space_left : Nat
  pn : Nat
  old_pap : List Nat
deriving DecidableEq, Repr

/-- The start of a save: an empty page that begins at file offset `PAGESIZE`.
`area` is what the static page buffer holds from earlier saves.  The
assignment `hp->pnPara = pnChar(*hp)` (`hp->pnFntb = hp->pnPara`) stores `pn`
in an `unsigned short`. -/
def Packer.init (area : List Nat) (pn : Nat) : Packer :=
  { written := [], fkp := { fcFirst := PAGESIZE, rgFOD := [], rgFPROP := area },
    start_of_props := sizeof_rgFPROP, space_left := sizeof_rgFPROP, pn := pn % 65536,
    old_pap := [] }

/-- "Write out the current page and start a new one" of `_wri_save_chp` and
`_wri_save_pap` (with `forget_paps()` for the latter): the page is written, the
page counter incremented (`hp->pnPara++` on an `unsigned short`, which wraps at
65536), and the page re-initialised to start at `cpFirst`. -/
def Packer.new_page (k : Packer) (cpFirst : Nat) : Packer :=
  { written := k.written ++ [k.fkp],
    fkp := { fcFirst := cpFirst + PAGESIZE, rgFOD := [], rgFPROP := k.fkp.rgFPROP },
    start_of_props := sizeof_rgFPROP, space_left := sizeof_rgFPROP,
    pn := (k.pn + 1) % 65536,
    old_pap := [] }

/-- "Write in the CHP / PAP": `memcpy((start_of_props -= cch), record, cch);
*--start_of_props = (char)cch;`. -/
def Packer.write_fprop (k : Packer) (cch : Nat) (record : List Nat) : Packer :=
  let area1 := write_bytes k.fkp.rgFPROP (k.start_of_props - cch) (record.take cch)
  let area2 := write_bytes area1 (k.start_of_props - cch - 1) [cch % 256]
  { k with fkp := { k.fkp with rgFPROP := area2 }, start_of_props := k.start_of_props - cch - 1 }

/-- The end of the loop body: the FOD is stored at `rgFOD[cfod]`, `cfod` is
incremented and `space_left -= total_size` is done in `unsigned int`. -/
def Packer.add_fod (k : Packer) (fcLim bfprop total_size : Nat) : Packer :=
  { k with fkp := { k.fkp with rgFOD := k.fkp.rgFOD ++ [{ fcLim := fcLim, bfprop := bfprop % 65536 }] },
           space_left := (k.space_left + 4294967296 - total_size) % 4294967296 }

/-- "Write final page, if it contains anything"; the page counter is
incremented in its 16 bits. -/
def Packer.finish (k : Packer) : Packer :=
  if k.fkp.cfod ≠ 0 then
    { k with written := k.written ++ [k.fkp], pn := (k.pn + 1) % 65536 }
  else k

/-- The body of the loop of `_wri_save_chp` for one node of the list. -/
def save_chp_run (r : lchp) (k : Packer) : Packer :=
  if r.cpFirst = r.cpLim then k
  else
    let cch := _wri_find_cch r.prop.bytes _wri_default_chp.bytes sizeof_CHP
    let total_size : Nat := if cch ≤ 1 then sizeof_FOD else sizeof_FOD + cch.toNat + 1
    let k1 := if total_size > k.space_left then k.new_page r.cpFirst else k
    let k2 := if cch > 1 then k1.write_fprop cch.toNat r.prop.bytes else k1
    let bfprop : Nat := if cch > 1 then k2.start_of_props else 65535
    k2.add_fod (r.cpLim + PAGESIZE) bfprop total_size

/-- `_wri_save_chp` of chp.c, on the success of the writes: the pages written
and the value of `hp->pnPara` are in the result.  `pnChar(*hp)` is taken from
`hp->fcMac = _wri_cpMac + PAGESIZE`, set by `_wri_save_text`; `Packer.init`
truncates it to the 16 bits of `hp->pnPara`, and every increment wraps at
65536. -/
def _wri_save_chp (s : State) (area : List Nat) : Packer :=
  ((lchp_runs s).foldl (fun k r => save_chp_run r k)
    (Packer.init area ((s._wri_cpMac + PAGESIZE + PAGESIZE - 1) / PAGESIZE))).finish

/-- `_wri_user_to_sep()` of section.c: the `int` results are stored in
`unsigned short` members. -/
def _wri_user_to_sep (s : State) : State :=
  { s with _wri_sep := { s._wri_sep with
      dxaText := (((s._wri_sep.xaMac : Int) - s._wri_sep.xaLeft - s.dxaRight) % 65536).toNat,
      dyaText := (((s._wri_sep.yaMac : Int) - s._wri_sep.yaTop - s.dyaBottom) % 65536).toNat,
      yaFooter := (((s._wri_sep.yaMac : Int) - s.dyaFooter) % 65536).toNat } }

/-- The first 17 bytes of the local `pap` of `_wri_save_pap` for a node whose
record is `rec`: the record with `res1` set to 0 and, for a header or footer
(`rhcOdd` set), the indents increased by the page margins and `rhcFirst` taken
from `pofp[rhcPage]` (one bit). -/
def save_pap_record (s : State) (rec : PAP) : PAP :=
  let pap := { rec with res1 := 0 }
  if pap.rhcOdd ≠ 0 then
    let xaRight : Int := (s._wri_sep.xaMac : Int) - s._wri_sep.xaLeft - s._wri_sep.dxaText
    { pap with
      dxaLeft := (pap.dxaLeft + s._wri_sep.xaLeft) % 65536,
      dxaRight := (((pap.dxaRight : Int) + xaRight) % 65536).toNat,
      rhcFirst := ((if pap.rhcPage = 0 then s.pofp.1 else s.pofp.2) % 2).toNat }
  else pap

/-- The 79 bytes of the local `pap` of `_wri_save_pap` when `_wri_find_cch` is
called: `save_pap_record` followed by the tab table copied by `copy_in_tabs`. -/
def save_pap_bytes (s : State) (rec : PAP) : List Nat :=
  (save_pap_record s rec).full_bytes s.tbd

/-- `recall_pap(cch, papp)` of pap.c over the memorised offsets: the first one
whose `cch` byte equals `(char)cch` and whose following `cch` bytes equal those
of `papp`. -/
def recall_pap (cch : Nat) (papp : List Nat) (area : List Nat) (old_pap : List Nat) : Option Nat :=
  old_pap.find? (fun cchp =>
    cch % 256 = area.getD cchp 0 ∧ papp.take cch = (area.drop (cchp + 1)).take cch)

/-- `memorize_pap(cchp)` of pap.c. -/
def memorize_pap (cchp : Nat) (k : Packer) : Packer :=
  if k.old_pap.length < MAX_PAPS_PER_PAGE then { k with old_pap := k.old_pap ++ [cchp] } else k

/-- The body of the loop of `_wri_save_pap` for one node of the list; `s` is the
state after `_wri_user_to_sep()`.  The local `bfprop` is 0 when a new FPROP has
to be written. -/
def save_pap_run (s : State) (r : lpap) (k : Packer) : Packer :=
  if r.cpFirst = r.cpLim then k
  else
    let pap := save_pap_bytes s (pap_at s r.prop)
    let cch := _wri_find_cch pap _wri_default_pap_bytes sizeof_PAP
    let found : Option Nat :=
      if cch ≤ 1 then none
      else if k.space_left ≥ sizeof_FOD then recall_pap cch.toNat pap k.fkp.rgFPROP k.old_pap
      else none
    let total_size : Nat :=
      if cch ≤ 1 then sizeof_FOD
      else match found with
        | some _ => sizeof_FOD
        | none => sizeof_FOD + cch.toNat + 1
    let bfprop : Nat :=
      if cch ≤ 1 then 65535
      else match found with
        | some cchp => cchp
        | none => 0
    let k1 := if total_size > k.space_left then k.new_page r.cpFirst else k
    let k2 := if bfprop = 0 then
        memorize_pap (k1.write_fprop cch.toNat pap).start_of_props (k1.write_fprop cch.toNat pap)
      else k1
    let bfprop2 : Nat := if bfprop = 0 then k2.start_of_props else bfprop
    k2.add_fod (r.cpLim + PAGESIZE) bfprop2 total_size

/-- `_wri_save_pap` of pap.c, on the success of the writes: the state after
`_wri_user_to_sep()`, and the pages written with the value of `hp->pnFntb`;
`pnPara` is the value of `hp->pnPara` left by `_wri_save_chp`; `hp->pnFntb` is
an `unsigned short` too: `Packer.init` stores `pnPara` in 16 bits and every
increment wraps at 65536. -/
def _wri_save_pap (s : State) (area : List Nat) (pnPara : Nat) : State × Packer :=
  let s1 := _wri_user_to_sep s
  (s1, ((lpap_runs s1).foldl (fun k r => save_pap_run s1 r k) (Packer.init area pnPara)).finish)

/-- The common shape of the loop bodies of `_wri_save_chp` (`dedup = false`) and
`_wri_save_pap` (`dedup = true`) for a non-empty run with the record bytes
`record`, compared with the default bytes `dflt` over `size` bytes. -/
def pack_run (dedup : Bool) (cpFirst cpLim : Nat) (record dflt : List Nat) (size : Nat)
    (k : Packer) : Packer :=
  let cch := _wri_find_cch record dflt size
  let found : Option Nat :=
    if cch ≤ 1 then none
    else if dedup = true ∧ k.space_left ≥ sizeof_FOD then
      recall_pap cch.toNat record k.fkp.rgFPROP k.old_pap
    else none
  let total_size : Nat :=
    if cch ≤ 1 then sizeof_FOD
    else match found with
      | some _ => sizeof_FOD
      | none => sizeof_FOD + cch.toNat + 1
  let bfprop : Nat :=
    if cch ≤ 1 then 65535
    else match found with
      | some cchp => cchp
      | none => 0
  let k1 := if total_size > k.space_left then k.new_page cpFirst else k
  let k2 := if bfprop = 0 then
      (if dedup = true then
        memorize_pap (k1.write_fprop cch.toNat record).start_of_props
          (k1.write_fprop cch.toNat record)
       else k1.write_fprop cch.toNat record)
    else k1
  let bfprop2 : Nat := if bfprop = 0 then k2.start_of_props else bfprop
  k2.add_fod (cpLim + PAGESIZE) bfprop2 total_size

/-- What the reader finds in a page: for each FOD its `fcLim` and, unless
`bfprop` is -1, the FPROP it designates. -/
def FKP.entries (p : FKP) : List (Nat × Option (List Nat)) :=
  p.rgFOD.map (fun f =>
    (f.fcLim, if f.bfprop = 65535 then none else some (fprop_at p.rgFPROP f.bfprop)))

/-- What a non-empty run ending at `cpLim` has to leave in a page: its limit as
a file offset and, unless the record is the default from byte 1 on, the length
byte `cch` followed by the first `cch` bytes of the record. -/
def run_entry (cpLim : Nat) (record dflt : List Nat) (size : Nat) : Nat × Option (List Nat) :=
  (cpLim + PAGESIZE,
   if _wri_find_cch record dflt size ≤ 1 then none
   else some ((_wri_find_cch record dflt size).toNat
     :: record.take (_wri_find_cch record dflt size).toNat))

/-- The offset of the lowest FPROP the FODs designate, `sizeof_rgFPROP` when
there is none. -/
def lowest_blob : List FOD → Nat
  | [] => sizeof_rgFPROP
  | f :: fs => if f.bfprop = 65535 then lowest_blob fs else min f.bfprop (lowest_blob fs)

/-- The number of bytes a run costs in a page of `_wri_save_chp`. -/
def chp_cost (r : lchp) : Nat :=
  if _wri_find_cch r.prop.bytes _wri_default_chp.bytes sizeof_CHP ≤ 1 then sizeof_FOD
  else sizeof_FOD + (_wri_find_cch r.prop.bytes _wri_default_chp.bytes sizeof_CHP).toNat + 1

/-- No two FPROPs that the FODs of the page designate are byte-identical. -/
def FKP.blobs_distinct (p : FKP) : Prop :=
  ∀ f ∈ p.rgFOD, ∀ g ∈ p.rgFOD, f.bfprop ≠ 65535 → g.bfprop ≠ 65535 →
    fprop_at p.rgFPROP f.bfprop = fprop_at p.rgFPROP g.bfprop → f.bfprop = g.bfprop

/-- A page as it is written: between 1 and `MAX_FODS` descriptors, whose array
ends at or below the lowest FPROP. -/
def FKP.well_packed (p : FKP) : Prop :=
  1 ≤ p.cfod ∧ p.cfod ≤ MAX_FODS ∧ sizeof_FOD * p.cfod ≤ lowest_blob p.rgFOD ∧
    lowest_blob p.rgFOD ≤ sizeof_rgFPROP ∧ p.rgFPROP.length = sizeof_rgFPROP

/-- The invariant of the loops of `_wri_save_chp` (`dedup = false`) and
`_wri_save_pap` (`dedup = true`); `done` is what the runs treated so far have to
leave in the pages, `pn0` the page counter at the start. -/
structure PackInv (dedup : Bool) (pn0 : Nat) (k : Packer)
    (done : List (Nat × Option (List Nat))) : Prop where
  area_len : k.fkp.rgFPROP.length = sizeof_rgFPROP
  start_le : k.start_of_props ≤ sizeof_rgFPROP
  space : sizeof_FOD * k.fkp.cfod + k.space_left = k.start_of_props
  lowest : lowest_blob k.fkp.rgFOD = k.start_of_props
  fods : ∀ f ∈ k.fkp.rgFOD, f.bfprop = 65535 ∨ (k.start_of_props ≤ f.bfprop ∧ f.bfprop < 65535)
  cache_in : ∀ o ∈ k.old_pap, k.start_of_props ≤ o ∧ o < 65535
  cache_fod : dedup = true → ∀ f ∈ k.fkp.rgFOD, f.bfprop ≠ 65535 → f.bfprop ∈ k.old_pap
  cache_distinct : ∀ o1 ∈ k.old_pap, ∀ o2 ∈ k.old_pap,
    fprop_at k.fkp.rgFPROP o1 = fprop_at k.fkp.rgFPROP o2 → o1 = o2
  cache_count : k.old_pap.length ≤ k.fkp.cfod ∧
    3 * k.old_pap.length + k.start_of_props ≤ sizeof_rgFPROP
  no_cache : dedup = false → k.old_pap = []
  entries : (k.written.map FKP.entries).flatten ++ k.fkp.entries = done
  pages : ∀ p ∈ k.written, p.well_packed ∧ (dedup = true → p.blobs_distinct)
  count : k.pn = (pn0 + k.written.length) % 65536

/-- The loop of `_wri_save_chp` over the nodes `runs`, from the packer state `k`. -/
def save_chp_loop (runs : List lchp) (k : Packer) : Packer :=
  runs.foldl (fun k r => save_chp_run r k) k

/-- The loop of `_wri_save_pap` over the nodes `runs`, from the packer state `k`. -/
def save_pap_loop (s : State) (runs : List lpap) (k : Packer) : Packer :=
  runs.foldl (fun k r => save_pap_run s r k) k

/-- What the non-empty runs of a character list have to leave in the pages. -/
def chp_entries (runs : List lchp) : List (Nat × Option (List Nat)) :=
  (runs.filter (fun r => r.cpFirst ≠ r.cpLim)).map
    (fun r => run_entry r.cpLim r.prop.bytes _wri_default_chp.bytes sizeof_CHP)

/-- What the non-empty runs of a paragraph list have to leave in the pages. -/
def pap_entries (s : State) (runs : List lpap) : List (Nat × Option (List Nat)) :=
  (runs.filter (fun r => r.cpFirst ≠ r.cpLim)).map
    (fun r => run_entry r.cpLim (save_pap_bytes s (pap_at s r.prop)) _wri_default_pap_bytes
      sizeof_PAP)

/-- The relation between `space_left`, `cfod` and the lowest FPROP of the page
under construction. -/
def Packer.space_ok (k : Packer) : Prop :=
  k.space_left + sizeof_FOD * k.fkp.cfod = lowest_blob k.fkp.rgFOD ∧
    lowest_blob k.fkp.rgFOD = k.start_of_props ∧ k.start_of_props ≤ sizeof_rgFPROP

/-- The bytes of the area of a page that its FODs and FPROPs take. -/
def page_used (p : FKP) : Nat :=
  sizeof_FOD * p.cfod + (sizeof_rgFPROP - lowest_blob p.rgFOD)

/-- The total encoded size of the non-empty runs of a character list. -/
def chp_total (runs : List lchp) : Nat :=
  ((runs.filter (fun r => r.cpFirst ≠ r.cpLim)).map chp_cost).sum

/-- The document that `calls_sample` builds after a reset of the first-use state. -/
def doc_sample : State := run_calls calls_sample (wri_new (first_use [])).2

/-- A page buffer as it is before the first save: 123 zero bytes. -/
def zero_area : List Nat := List.replicate 123 0

/-- Three centred paragraphs. -/
def calls_three : List Call := [.para_justify 1, .text [97, 10, 98, 10, 99]]

/-- The document that `calls_three` builds after a reset of the first-use state. -/
def doc_three : State := run_calls calls_three (wri_new (first_use [])).2

/-- The account of the bytes used, kept along the loop of `_wri_save_chp`:
`total` is the encoded size of the runs treated so far. -/
structure CostInv (k : Packer) (total : Nat) : Prop where
  sum : (k.written.map page_used).sum + (sizeof_rgFPROP - k.space_left) = total
  full : ∀ p ∈ k.written, 111 ≤ page_used p ∧ page_used p ≤ sizeof_rgFPROP
  big : k.written ≠ [] → sizeof_rgFPROP < total

/-- Calls that build 19 character runs: one in subscript of the reduced default
size, seventeen in subscript of the sizes 20 to 36 points, and one back on the
line. -/
def calls_overflow : List Call :=
  [.char_script 12, .text [97]]
  ++ ((List.range 17).map
        (fun i => [Call.char_font_size (20 + (i : Int)), Call.text [97]])).flatten
  ++ [.char_script 0, .text [97]]

/-- The document that `calls_overflow` builds after a reset of the first-use state. -/
def doc_overflow : State := run_calls calls_overflow (wri_new (first_use [])).2

/-! ## read.c: decoding the pages of property information

`read_chps` and `read_paps` read the pages that the header announces, in order,
and for each FOD build a record from a copy of the default and the FPROP that
the FOD designates.  A page is taken in the form `FKP` in which the saver
leaves it; for a page whose FPROPs lie above its FOD array this is what the 128
bytes of the file hold. -/

/-- The `struct CHP` that 6 bytes hold. -/
def CHP.of_bytes (b : List Nat) : CHP :=
  { res1 := b.getD 0 0 % 256,
    fBold := b.getD 1 0 % 2,
    fItalic := b.getD 1 0 / 2 % 2,
    ftc := b.getD 1 0 / 4 % 64,
    hps := b.getD 2 0 % 256,
    fUline := b.getD 3 0 % 2,
    fStrike := b.getD 3 0 / 2 % 2,
    fDline := b.getD 3 0 / 4 % 2,
    fNew := b.getD 3 0 / 8 % 2,
    csm := b.getD 3 0 / 16 % 4,
    fSpecial := b.getD 3 0 / 64 % 2,
    fHidden := b.getD 3 0 / 128 % 2,
    ftcXtra := b.getD 4 0 % 8,
    fOutline := b.getD 4 0 / 8 % 2,
    fShadow := b.getD 4 0 / 16 % 2,
    res2 := b.getD 4 0 / 32 % 8,
    hpsPos := b.getD 5 0 % 256 }

/-- The 16-bit value stored low byte first at offset `i`. -/
def word16 (b : List Nat) (i : Nat) : Nat := b.getD i 0 % 256 + 256 * (b.getD (i + 1) 0 % 256)

/-- The first 17 bytes of a `struct PAP` as fields. -/
def PAP.of_bytes (b : List Nat) : PAP :=
  { res1 := b.getD 0 0 % 256,
    jc := b.getD 1 0 % 4,
    res2 := b.getD 1 0 / 4 % 64,
    res3 := b.getD 2 0 % 256,
    res4 := b.getD 3 0 % 256,
    dxaRight := word16 b 4,
    dxaLeft := word16 b 6,
    dxaLeft1 := to_short (word16 b 8),
    dyaLine := word16 b 10,
    dyaBefore := word16 b 12,
    dyaAfter := word16 b 14,
    rhcPage := b.getD 16 0 % 2,
    rhcOdd := b.getD 16 0 / 2 % 2,
    rhcEven := b.getD 16 0 / 4 % 2,
    rhcFirst := b.getD 16 0 / 8 % 2,
    fGraphics := b.getD 16 0 / 16 % 2,
    res5 := b.getD 16 0 / 32 % 8 }

/-- The `struct TBD` that 4 bytes hold. -/
def TBD.of_bytes (b : List Nat) : TBD :=
  { dxa := word16 b 0,
    jcTab := b.getD 2 0 % 8,
    tlc := b.getD 2 0 / 8 % 8,
    res1 := b.getD 2 0 / 64 % 4,
    chAlign := b.getD 3 0 % 256 }

/-- The member `rgtbd` of a whole `struct PAP`: 14 descriptors from offset 22. -/
def tabs_of_bytes (b : List Nat) : List TBD :=
  (List.range itbdmax).map (fun i => TBD.of_bytes (b.drop (22 + 4 * i)))

/-- `_wri_set_tabs(rgtbd)` of pap.c: the table is copied, `nTabs` is not set. -/
def _wri_set_tabs (rgtbd : List TBD) (s : State) : State := { s with tbd := rgtbd }

/-- The bytes of the local record of `read_chps` / `read_paps` for a FOD with
offset `bfprop` in a page with area `area`: a copy of the default, over which,
unless `bfprop` is -1, the `cch` bytes of the FPROP are copied. -/
def read_fprop (dflt area : List Nat) (bfprop : Nat) : List Nat :=
  if bfprop = 65535 then dflt
  else fprop_decode dflt (area.drop (bfprop + 1)) (area.getD bfprop 0)

/-- The record that `read_chps` hands to `_wri_append_chp`, from the bytes of
its local record: the font code is mapped through `font_map` and stored in the 6
bits of `ftc`, `res1` and `res2` are set to those of the default. -/
def read_chp_record (font_map : Nat → Nat) (bytes : List Nat) : CHP :=
  { CHP.of_bytes bytes with
    ftc := font_map (CHP.of_bytes bytes).ftc % 64,
    res1 := _wri_default_chp.res1,
    res2 := _wri_default_chp.res2 }

/-- The body of the inner loop of `read_chps` for one FOD; the result of
`_wri_append_chp` is not looked at. -/
def read_chps_fod (fcStart initial_text : Nat) (font_map : Nat → Nat) (area : List Nat)
    (f : FOD) (s : State) : State :=
  if f.fcLim > fcStart then
    (_wri_append_chp (read_chp_record font_map (read_fprop _wri_default_chp.bytes area f.bfprop))
      (initial_text + f.fcLim - fcStart) s).2
  else s

/-- The loops of `read_chps` over the pages `pages`. -/
def read_chps_pages (fcStart initial_text : Nat) (font_map : Nat → Nat) (pages : List FKP)
    (s : State) : State :=
  pages.foldl (fun st p =>
    p.rgFOD.foldl (fun st f => read_chps_fod fcStart initial_text font_map p.rgFPROP f st) st) s

/-- `read_chps` of read.c on the pages from `pnChar` to `pnPara`, with the
statics `fcStart`, `fcEnd`, `initial_text` and `font_map`: the state after the
loops and the value returned, 1 when the last `fcLim` read is not `fcEnd`.  When
there is no FOD at all the local `fcLim` is compared without ever having been
assigned: `none`. -/
def read_chps (fcStart fcEnd initial_text : Nat) (font_map : Nat → Nat) (pages : List FKP)
    (s : State) : Option Int × State :=
  (((pages.map (fun p => p.rgFOD)).flatten.getLast?).map
      (fun f => if f.fcLim ≠ fcEnd then 1 else 0),
   read_chps_pages fcStart initial_text font_map pages s)

/-- The record that `read_paps` hands to `_wri_append_pap`: `res1` to `res5`
are set to those of the default. -/
def read_pap_record (bytes : List Nat) : PAP :=
  { PAP.of_bytes bytes with
    res1 := _wri_default_pap.res1,
    res2 := _wri_default_pap.res2,
    res3 := _wri_default_pap.res3,
    res4 := _wri_default_pap.res4,
    res5 := _wri_default_pap.res5 }

/-- The variables of `read_paps` (called with `want_paps` set): the builder
state, the static `fcStart`, the locals `ignoring_rhc`, `fcLimLast` (`none`
before its first assignment), `is_first_para`, `want_tabs`, `fcFirst`, and
whether the function has returned 1 from inside its loops. -/
structure PapReader where
  s : State
  fcStart : Nat
  ignoring_rhc : Bool
  fcLimLast : Option Nat
  is_first_para : Bool
  want_tabs : Bool
  fcFirst : Nat
  failed : Bool

/-- The body of the inner loop of `read_paps` for one FOD. -/
def read_paps_fod (fcEnd initial_text : Nat) (area : List Nat) (f : FOD) (k : PapReader) :
    PapReader :=
  if k.failed = true then k
  else
    let bytes := read_fprop _wri_default_pap_bytes area f.bfprop
    let k1 : PapReader :=
      if (PAP.of_bytes bytes).rhcOdd = 0 ∧ k.ignoring_rhc = true then
        { k with ignoring_rhc := false, fcStart := k.fcFirst }
      else k
    let k2 : PapReader :=
      if k1.want_tabs = true then
        { k1 with s := _wri_set_tabs (tabs_of_bytes bytes) k1.s, want_tabs := false }
      else k1
    let k3 : PapReader :=
      if k2.ignoring_rhc = false then
        if k2.fcFirst ≥ fcEnd then k2
        else
          let real_fcLim := min f.fcLim fcEnd
          let r := _wri_append_pap (read_pap_record bytes)
            (initial_text + real_fcLim - k2.fcStart) (if k2.is_first_para = true then 1 else 0) k2.s
          if r.1 ≠ 0 then { k2 with s := r.2, failed := true }
          else { k2 with s := r.2, is_first_para := false, fcLimLast := some real_fcLim }
      else k2
    { k3 with fcFirst := f.fcLim }

/-- The body of the outer loop of `read_paps` for one page. -/
def read_paps_page (fcEnd initial_text : Nat) (p : FKP) (k : PapReader) : PapReader :=
  if k.failed = true then k
  else
    p.rgFOD.foldl (fun k f => read_paps_fod fcEnd initial_text p.rgFPROP f k)
      { k with fcFirst := p.fcFirst, fcLimLast := some p.fcFirst }

/-- `read_paps(ifp, hp, 1, want_tabs)` of read.c on the pages from `pnPara` to
`pnFntb`; `fcStart` is `PAGESIZE` on entry, as `wri_read` sets it.  The value
returned is 1 after a failure inside the loops or when `fcLimLast` is not
`fcEnd`; when there is no page `fcLimLast` is compared without ever having been
assigned: `none`. -/
def read_paps (fcEnd initial_text : Nat) (want_tabs : Bool) (pages : List FKP) (s : State) :
    Option Int × PapReader :=
  let k := pages.foldl (fun k p => read_paps_page fcEnd initial_text p k)
    { s := s, fcStart := PAGESIZE, ignoring_rhc := true, fcLimLast := none,
      is_first_para := true, want_tabs := want_tabs, fcFirst := 0, failed := false }
  (if k.failed = true then some 1
   else k.fcLimLast.map (fun l => if l ≠ fcEnd then 1 else 0), k)

/-- Every field of the record is within the bits that `struct CHP` gives it. -/
abbrev CHP.wf (c : CHP) : Prop :=
  c.res1 < 256 ∧ c.fBold < 2 ∧ c.fItalic < 2 ∧ c.ftc < 64 ∧ c.hps < 256 ∧ c.fUline < 2 ∧
  c.fStrike < 2 ∧ c.fDline < 2 ∧ c.fNew < 2 ∧ c.csm < 4 ∧ c.fSpecial < 2 ∧ c.fHidden < 2 ∧
  c.ftcXtra < 8 ∧ c.fOutline < 2 ∧ c.fShadow < 2 ∧ c.res2 < 8 ∧ c.hpsPos < 256

/-- Every field of the record is within the bits that `struct PAP` gives it. -/
abbrev PAP.wf (p : PAP) : Prop :=
  p.res1 < 256 ∧ p.jc < 4 ∧ p.res2 < 64 ∧ p.res3 < 256 ∧ p.res4 < 256 ∧ p.dxaRight < 65536 ∧
  p.dxaLeft < 65536 ∧ -32768 ≤ p.dxaLeft1 ∧ p.dxaLeft1 < 32768 ∧ p.dyaLine < 65536 ∧
  p.dyaBefore < 65536 ∧ p.dyaAfter < 65536 ∧ p.rhcPage < 2 ∧ p.rhcOdd < 2 ∧ p.rhcEven < 2 ∧
  p.rhcFirst < 2 ∧ p.fGraphics < 2 ∧ p.res5 < 8

/-- A document as `wri_new` leaves it, as far as the run lists go: one empty
character run with the default record, one empty paragraph run whose record, at
address 0, has the default content and the count 1, and an allocator that does
not fail. -/
def Fresh (t : State) : Prop :=
  AllocOK t ∧ t.lchp_list = [] ∧
  t.lchp_curr = { cpFirst := 0, cpLim := 0, prop := _wri_default_chp } ∧
  t.lpap_list = [] ∧ t.lpap_curr = { cpFirst := 0, cpLim := 0, prop := 0 } ∧
  1 ≤ t.paps.length ∧ pap_at t 0 = { _wri_default_pap with res1 := 1 }

/-- The non-empty runs of a list. -/
def nonempty_runs {α : Type} (runs : List (lprop α)) : List (lprop α) :=
  runs.filter (fun r => r.cpFirst ≠ r.cpLim)

/-- The extent of a paragraph run and the content of its record, the count
left out. -/
def pap_view (s : State) (r : lpap) : Nat × Nat × PAP :=
  (r.cpFirst, r.cpLim, { pap_at s r.prop with res1 := 0 })

/-- The record bytes that an entry of a page decodes to: the default for the
sentinel, else the FPROP copied over the default. -/
def entry_bytes (dflt : List Nat) : Option (List Nat) → List Nat
  | none => dflt
  | some blob => fprop_decode dflt blob.tail (blob.headD 0)

/-- What the paragraph list of the document under construction has to show
while `read_paps` appends: the allocator does not fail, the runs have the
extents and contents `views`, and every run points into the heap. -/
def PapWeak (t : State) (views : List (Nat × Nat × PAP)) : Prop :=
  AllocOK t ∧ (lpap_runs t).map (pap_view t) = views ∧
  ∀ r ∈ lpap_runs t, r.prop < t.paps.length

/-- `PapWeak` and the record of the current run is pointed at by the last
`n + 1` runs only, `n < 256`, its count being `n + 1` in 8 bits. -/
def PapTarget (t : State) (views : List (Nat × Nat × PAP)) : Prop :=
  PapWeak t views ∧
  ∃ old grp : List lpap, t.lpap_list = old ++ grp ∧
    (∀ r ∈ grp, r.prop = t.lpap_curr.prop) ∧ (∀ r ∈ old, r.prop ≠ t.lpap_curr.prop) ∧
    grp.length < 256 ∧ (pap_curr t).res1 = (grp.length + 1) % 256

/-- `PapWeak` and the record of the current run is pointed at by that run only,
with count 1. -/
def PapOwn (t : State) (views : List (Nat × Nat × PAP)) : Prop :=
  PapWeak t views ∧ (∀ r ∈ t.lpap_list, r.prop ≠ t.lpap_curr.prop) ∧ (pap_curr t).res1 = 1

/-! ## pap.c: the tab table

`int` is taken as wider than 16 bits, as in the rest of the model: a position
above 65535 is a value of the argument, and the assignment to the
`unsigned short` member `dxa` keeps its low 16 bits. -/

/-- `WRI_DECIMAL` of libwrite.h. -/
def WRI_DECIMAL : Nat := 3

/-- The search loop of `wri_doc_tab_set` and `wri_doc_tab_clear` from index `i`
with `n` entries left: `(true, i)` when `tbd[i].dxa == (unsigned int) position`,
`(false, i)` when `tbd[i].dxa > (unsigned int) position` or the used entries are
exhausted. -/
def tab_scan (tbd : List TBD) (position : Int) : Nat → Nat → Bool × Nat
  | 0, i => (false, i)
  | n + 1, i =>
    if ((tbd.getD i {}).dxa : Int) = position then (true, i)
    else if ((tbd.getD i {}).dxa : Int) > position then (false, i)
    else tab_scan tbd position n (i + 1)

/-- "Shuffle up" of `wri_doc_tab_set`: `for (j = i + n - 1; j >= i; j--)` the
members `dxa` and `jcTab` of `tbd[j]` are copied to `tbd[j+1]`. -/
def tab_shift_up (i : Nat) : Nat → List TBD → List TBD
  | 0, t => t
  | n + 1, t =>
    tab_shift_up i n
      (t.set (i + n + 1)
        { t.getD (i + n + 1) {} with dxa := (t.getD (i + n) {}).dxa,
                                      jcTab := (t.getD (i + n) {}).jcTab })

/-- The inner loop of `wri_doc_tab_clear`: for `n` values of `j` from `j` on,
the members `dxa` and `jcTab` of `tbd[j]` are copied to `tbd[j-1]`. -/
def tab_shift_down : Nat → Nat → List TBD → List TBD
  | _, 0, t => t
  | j, n + 1, t =>
    tab_shift_down (j + 1) n
      (t.set (j - 1)
        { t.getD (j - 1) {} with dxa := (t.getD j {}).dxa, jcTab := (t.getD j {}).jcTab })

/-- `wri_doc_tab_set(position, decimal)` of pap.c. -/
def wri_doc_tab_set (position decimal : Int) (s : State) : Int × State :=
  if position ≤ 0 then (1, s)
  else
    let dec : Nat := if decimal ≠ 0 then WRI_DECIMAL else 0
    match tab_scan s.tbd position s.nTabs.toNat 0 with
    | (true, i) =>
      let e : TBD := { s.tbd.getD i {} with jcTab := dec }
      (0, { s with tbd := s.tbd.set i e })
    | (false, i) =>
      if s.nTabs ≥ itbdmax then (1, s)
      else
        let t1 := tab_shift_up i (s.nTabs.toNat - i) s.tbd
        let e : TBD := { t1.getD i {} with dxa := (position % 65536).toNat, jcTab := dec }
        (0, { s with tbd := t1.set i e, nTabs := s.nTabs + 1 })

/-- `wri_doc_tab_clear(position)` of pap.c. -/
def wri_doc_tab_clear (position : Int) (s : State) : Int × State :=
  if s.nTabs = 0 then (1, s)
  else if position ≤ 0 then (1, s)
  else
    match tab_scan s.tbd position s.nTabs.toNat 0 with
    | (true, i) =>
      let t1 := tab_shift_down (i + 1) (s.nTabs.toNat - (i + 1)) s.tbd
      let n1 := s.nTabs - 1
      let e : TBD := { t1.getD n1.toNat {} with dxa := 0, jcTab := 0 }
      (0, { s with tbd := t1.set n1.toNat e, nTabs := n1 })
    | (false, _) => (1, s)

/-- The used entries of the tab table as pairs of position and alignment. -/
def tab_view (s : State) : List (Nat × Nat) :=
  (s.tbd.take s.nTabs.toNat).map (fun t => (t.dxa, t.jcTab))

/-- The used entries of the tab table are in strictly ascending order of
position. -/
def tabs_ascending (s : State) : Prop :=
  (tab_view s).Pairwise (fun a b => a.1 < b.1)

/-- A tab table as the C data can hold it: 14 entries whose `dxa` fit 16 bits,
and a count between 0 and 14. -/
def tabs_wf (s : State) : Prop :=
  s.tbd.length = itbdmax ∧ 0 ≤ s.nTabs ∧ s.nTabs ≤ itbdmax ∧ ∀ t ∈ s.tbd, t.dxa < 65536

/-! ## section.c: a margin -/

/-- `wri_doc_margin_left(margin)` of section.c. -/
def wri_doc_margin_left (margin : Int) (s : State) : Int × State :=
  if margin ≥ 0 ∧ margin ≤ 32767 then
    (0, { s with _wri_sep := { s._wri_sep with xaLeft := margin.toNat } })
  else (1, s)

/-! ## save.c -/

/-- The places at which `wri_save` can meet a failing I/O operation. -/
inductive SaveStep where
  | fopen
  | save_text
  | save_chp
  | save_pap
  | save_section
  | save_fonts
  | save_header
  | ferror
  | fclose
deriving DecidableEq, Repr

/-- `wri_save(filename)` of save.c as far as the document in memory goes;
`fails` tells for each step whether its I/O fails.  After a successful `fopen`
a pending header or footer is closed by `wri_doc_return()`, whose result is not
looked at; `_wri_save_pap` and `_wri_save_section` both begin with
`_wri_user_to_sep()`; every failure ends with `_wri_error = 1`. -/
def wri_save (fails : SaveStep → Bool) (s : State) : Int × State :=
  if fails .fopen = true then (1, { s with _wri_error := 1 })
  else
    let s1 := (wri_doc_return s).2
    if fails .save_text = true then (1, { s1 with _wri_error := 1 })
    else if fails .save_chp = true then (1, { s1 with _wri_error := 1 })
    else
      let s2 := _wri_user_to_sep s1
      if fails .save_pap = true then (1, { s2 with _wri_error := 1 })
      else
        let s3 := _wri_user_to_sep s2
        if fails .save_section = true then (1, { s3 with _wri_error := 1 })
        else if fails .save_fonts = true then (1, { s3 with _wri_error := 1 })
        else if fails .save_header = true then (1, { s3 with _wri_error := 1 })
        else if fails .ferror = true then (1, { s3 with _wri_error := 1 })
        else if fails .fclose = true then (1, { s3 with _wri_error := 1 })
        else (0, s3)

/-! ## Reachable states -/

/-- The state `doc_abc` with the flag `_wri_in_rhc` set: a state that has had
normal text and is marked as being inside a header or footer. -/
def doc_abc_in_rhc : State := { doc_abc with _wri_in_rhc := 1 }

/-- The table after `wri_doc_tab_set(10, 0)` and `wri_doc_tab_set(30, 0)`. -/
def doc_tabs : State := (wri_doc_tab_set 30 0 (wri_doc_tab_set 10 0 (first_use [])).2).2

/-! ## Properties kept by the steps of the builder -/

/-- The state `t` has the paragraph records, the nodes before the current
paragraph node, the record the current node points at, the saved copies and
the tab table of `s`, and no allocator answer that `s` has not. -/
def same_paragraphs (s t : State) : Prop :=
  t.paps = s.paps ∧ t.lpap_list = s.lpap_list ∧ t.lpap_curr.prop = s.lpap_curr.prop ∧
  t.saved_chp = s.saved_chp ∧ t.saved_pap = s.saved_pap ∧ t.tbd = s.tbd ∧
  t.nTabs = s.nTabs ∧ ∀ b ∈ t.malloc_ok, b ∈ s.malloc_ok

/-- A property of states kept by the steps of which `wri_text`, the character
setters and the paragraph setters are made: a step that leaves the paragraphs
as they are, `this_para`, storing into the current paragraph record a record
with the same count and the same `rhcOdd`, and `_wri_new_paragraph`. -/
structure StepKept (P : State → Prop) : Prop where
  same : ∀ s t, same_paragraphs s t → P s → P t
  this_para : ∀ s, P s → P (this_para s).2
  set_field : ∀ s p, P s → p.res1 = (pap_curr s).res1 →
    p.rhcOdd = (pap_curr s).rhcOdd → P (set_pap_curr s p)
  new_par : ∀ s, P s → P (_wri_new_paragraph s).2

/-- A property of states kept by the steps of every call of the
document-building interface: those of `StepKept`, storing into the current
paragraph record a record with the same count, and the assignments to the saved
copies. -/
structure DocKept (P : State → Prop) extends StepKept P : Prop where
  set_curr : ∀ s p, P s → p.res1 = (pap_curr s).res1 → P (set_pap_curr s p)
  saved_chp : ∀ s c, P s → P { s with saved_chp := c }
  saved_pap : ∀ s p, P s → P { s with saved_pap := p }

/-- The calls that set a paragraph attribute (`wri_para_*`). -/
def Call.is_para_setter : Call → Bool
  | .para_normal | .para_justify _ | .para_interline _ | .para_indent_left _
  | .para_indent_right _ | .para_indent_first _ => true
  | _ => false

/-- The calls made between `wri_doc_header` or `wri_doc_footer` and
`wri_doc_return`: `wri_text`, the character setters and the paragraph setters. -/
def Call.in_bracket : Call → Bool
  | .text _ => true
  | c => c.is_char_setter || c.is_para_setter

/-- The tab table is `T` with `N` used entries. -/
def tabs_are (T : List TBD) (N : Int) (s : State) : Prop := s.tbd = T ∧ s.nTabs = N

/-- The current paragraph node points at a record of the heap. -/
def pap_valid (s : State) : Prop := s.lpap_curr.prop < s.paps.length

/-- Inside a header or footer: the allocator does not fail, the current
paragraph record is there and is flagged as header or footer, and the saved
copies are `c0` and `p0`. -/
def in_bracket_with (c0 : CHP) (p0 : PAP) (s : State) : Prop :=
  AllocOK s ∧ pap_valid s ∧ s.saved_chp = c0 ∧ s.saved_pap = p0 ∧ (pap_curr s).rhcOdd ≠ 0

/-- The I/O of `wri_save` fails at the step `st` and nowhere else. -/
def fails_at (st : SaveStep) : SaveStep → Bool := fun x => decide (x = st)

/-- A document with a header under way: after a reset, `wri_doc_header()` and
`wri_text("H")`. -/
def doc_header_open : State :=
  (wri_text [72] (wri_doc_header (wri_new (first_use [])).2).2).2

/-- The empty document after `wri_doc_margin_left(100)`. -/
def doc_margin : State := (wri_doc_margin_left 100 (wri_new (first_use [])).2).2

/-- The empty document after a reset. -/
def doc_empty : State := (wri_new (first_use [])).2

/-- Calls made inside a header: text with a page number, bold, centred. -/
def calls_in_header : List Call := [.char_bold 1, .para_justify 1, .text [80, 1, 10]]

/-! ## The round trip through the pages of property information -/

/-- The body of the inner loop of `read_chps` on what the FOD designates in its
page: the limit and the FPROP, `none` for the sentinel. -/
def read_chps_entry (fcStart initial_text : Nat) (font_map : Nat → Nat)
    (e : Nat × Option (List Nat)) (s : State) : State :=
  if e.1 > fcStart then
    (_wri_append_chp (read_chp_record font_map (entry_bytes _wri_default_chp.bytes e.2))
      (initial_text + e.1 - fcStart) s).2
  else s

/-- No two non-empty runs that follow each other carry the same record. -/
abbrev adjacent_distinct (runs : List lchp) : Prop :=
  ∀ p ∈ (nonempty_runs runs).zip (nonempty_runs runs).tail, p.1.prop ≠ p.2.prop

/-- Every file offset from which a FOD of the page starts, the first from
`fcFirst` and the others from the limit of the FOD before, lies below `fcEnd`. -/
def FKP.starts_below (fcEnd : Nat) (p : FKP) : Prop :=
  ∀ x ∈ (p.fcFirst :: p.rgFOD.map FOD.fcLim).dropLast, x < fcEnd

/-- The invariant of the loops of `_wri_save_chp` and `_wri_save_pap` on where
the pages start: in every page, the one under construction included, the FODs
start below `fcEnd`; nothing in the page under construction lies beyond
`lim + PAGESIZE`, `lim` being the limit of the runs treated so far; the first
page starts at `PAGESIZE`. -/
def Packer.starts_ok (fcEnd lim : Nat) (k : Packer) : Prop :=
  (∀ p ∈ k.written ++ [k.fkp], p.starts_below fcEnd) ∧
  (∀ x ∈ k.fkp.fcFirst :: k.fkp.rgFOD.map FOD.fcLim, x ≤ lim + PAGESIZE) ∧
  (∀ p, (k.written ++ [k.fkp]).head? = some p → p.fcFirst = PAGESIZE)

/-- What `read_paps` has reached in a file without headers and footers, whose
first page starts at `PAGESIZE`: it has not failed, `fcStart` is `PAGESIZE`,
`first` tells that no FOD has been treated yet, the paragraph list of the
document shows the runs `done`, after which, before the first FOD, comes the
empty run of the reset document, the current run ends at `lim`, and the
character list is untouched. -/
def PapReader.ok (k : PapReader) (first : Bool) (done : List (Nat × Nat × PAP)) (lim : Nat)
    (chl : List lchp) (chc : lchp) : Prop :=
  k.failed = false ∧ k.fcStart = PAGESIZE ∧ k.is_first_para = first ∧ k.ignoring_rhc = first ∧
  PapTarget k.s
    (done ++ if first = true then [(0, 0, { _wri_default_pap with res1 := 0 })] else []) ∧
  k.s.lpap_curr.cpLim = lim ∧ (first = true → done = [] ∧ lim = 0) ∧
  k.s.lchp_list = chl ∧ k.s.lchp_curr = chc

/-- The character record is within the bits of its fields and its reserved
fields are 0. -/
abbrev chp_plain (c : CHP) : Prop := c.wf ∧ c.res1 = 0 ∧ c.res2 = 0

/-- The record of the paragraph run is within the bits of its fields, its
reserved fields after the count are 0 and it is no header or footer. -/
abbrev pap_plain (s : State) (r : lpap) : Prop :=
  (pap_at s r.prop).wf ∧ (pap_at s r.prop).res2 = 0 ∧ (pap_at s r.prop).res3 = 0 ∧
  (pap_at s r.prop).res4 = 0 ∧ (pap_at s r.prop).res5 = 0 ∧ (pap_at s r.prop).rhcOdd = 0

/-- The part of `wri_read` of read.c that builds the run lists from the pages
of property information: `read_paps` on the paragraph pages, then `read_chps`
on the character pages with the `fcStart` that `read_paps` has left;
`initial_text` is the `_wri_cpMac` of the document read into. -/
def read_props (fcEnd : Nat) (font_map : Nat → Nat) (want_tabs : Bool)
    (chp_pages pap_pages : List FKP) (t : State) : State :=
  (read_chps (read_paps fcEnd t._wri_cpMac want_tabs pap_pages t).2.fcStart fcEnd t._wri_cpMac
    font_map chp_pages (read_paps fcEnd t._wri_cpMac want_tabs pap_pages t).2.s).2

/-- A sequence of calls for the round trip: one character in the default
format, bold text over three paragraphs, the last two of them centred. -/
def calls_round : List Call :=
  [.text [97], .char_bold 1, .text [98, 10], .para_justify 1, .text [99, 10, 100]]

/-- The document that `calls_round` builds after a reset of the first-use state. -/
def doc_round : State := run_calls calls_round (wri_new (first_use [])).2

/-- The variables of `read_paps` on entry, `fcStart` being `PAGESIZE` as
`wri_read` sets it. -/
def PapReader.start (t : State) (want_tabs : Bool) : PapReader :=
  { s := t, fcStart := PAGESIZE, ignoring_rhc := true, fcLimLast := none, is_first_para := true,
    want_tabs := want_tabs, fcFirst := 0, failed := false }

/-! ## section.c: the other margins -/

/-- `wri_doc_margin_top(margin)` of section.c. -/
def wri_doc_margin_top (margin : Int) (s : State) : Int × State :=
  if margin ≥ 0 ∧ margin ≤ 32767 then
    (0, { s with _wri_sep := { s._wri_sep with yaTop := margin.toNat } })
  else (1, s)

/-- `wri_doc_margin_right(margin)` of section.c: `dxaRight = margin; return(1);`. -/
def wri_doc_margin_right (margin : Int) (s : State) : Int × State :=
  (1, { s with dxaRight := margin })

/-- `wri_doc_margin_bottom(margin)` of section.c: `dyaBottom = margin; return(1);`. -/
def wri_doc_margin_bottom (margin : Int) (s : State) : Int × State :=
  (1, { s with dyaBottom := margin })

/-! ## pap.c: print on first page -/

/-- `wri_doc_pofp(print)` of pap.c: `pofp[pap_curr.rhcPage] = print`, `pofp`
being an array of two `int`. -/
def wri_doc_pofp (print : Int) (s : State) : Int × State :=
  if (pap_curr s).rhcOdd = 0 then (1, s)
  else
    (0, { s with pofp := if (pap_curr s).rhcPage = 0 then (print, s.pofp.2)
                         else (s.pofp.1, print) })

/-- A tab array as `read_paps` takes it from a file: one tab at position 10,
the 13 other entries zero. -/
def tabs_imported : List TBD := { dxa := 10 } :: List.replicate 13 {}

/-! ## chp.c: the size in and out of a scripted mode -/

/-- The size that `wri_char_reduce` gives to a run of size `h`. -/
def reduce_hps (h : Nat) : Nat :=
  if h ≤ hps_values.getD 0 0 then h
  else hps_values.getD (reduce_loop h (N_HPS_VALUES - 1)).toNat 0

/-- The size that `wri_char_enlarge` gives to a run of size `h`. -/
def enlarge_hps (h : Nat) : Nat :=
  if h ≥ hps_values.getD (N_HPS_VALUES - 1) 0 then h
  else hps_values.getD (enlarge_loop h N_HPS_VALUES 0) 0

/-- The size that `wri_char_script(v)` gives to a run of size `h` and script
position `pos`: reduced on entering a scripted mode, enlarged on leaving it. -/
def script_hps (pos : Nat) (v : Int) (h : Nat) : Nat :=
  if pos = 0 ∧ v ≠ WRI_NORMAL then reduce_hps h
  else if pos ≠ 0 ∧ v = WRI_NORMAL then enlarge_hps h
  else h

/-! ## font.c: the names of the table -/

/-- The names of the font table, in the order of their codes. -/
def font_names (s : State) : List (List Nat) := s.ffntb.map (fun f => f.font_name)

/-- The name "arial", in lower case. -/
def name_arial : List Nat := [97, 114, 105, 97, 108]

/-- The name "Courier". -/
def name_courier : List Nat := [67, 111, 117, 114, 105, 101, 114]

/-! ## text.c: what a string appends -/

/-- The bytes that text outside a header or footer is to append for a string:
every `'\r'` dropped, `'\r'` put before every `'\n'`, `'\f'` and `'\t'` kept,
the other bytes below 32 dropped, the bytes from 32 on kept. -/
def text_normalised : List Nat → List Nat
  | [] => []
  | c :: rest =>
    if c = 13 then text_normalised rest
    else if c = 10 then 13 :: 10 :: text_normalised rest
    else if c = 12 ∨ c = 9 then c :: text_normalised rest
    else if c < 32 then text_normalised rest
    else c :: text_normalised rest

/-! ## The chain of the pages of property information -/

/-- The invariant of the loops of `_wri_save_chp` and `_wri_save_pap` on the
chain of the pages: the first page starts at `PAGESIZE`, every other page
starts at the limit of the last FOD of the page before it, and the page under
construction has reached `lim + PAGESIZE`, `lim` being the limit of the runs
treated so far. -/
def Packer.chain_ok (lim : Nat) (k : Packer) : Prop :=
  (∀ p, (k.written ++ [k.fkp]).head? = some p → p.fcFirst = PAGESIZE) ∧
  List.Chain' (fun p q : FKP => p.rgFOD.getLast?.map FOD.fcLim = some q.fcFirst)
    (k.written ++ [k.fkp]) ∧
  (k.fkp.fcFirst :: k.fkp.rgFOD.map FOD.fcLim).getLast? = some (lim + PAGESIZE)

/-- The pages `pages` written for a run list that covers `[0, L)`, the header
counter going from `pn0` to `pn`: there is a page, the first page starts at
`PAGESIZE`, every other page starts at the limit of the last FOD of the page
before it, the limits of all the FODs in the order of the pages are strictly
increasing, the last of them is `L + PAGESIZE`, and the counter, an
`unsigned short`, is `pn0` plus the number of pages modulo 65536, so that it
has grown by the number of pages when that sum is below 65536. -/
def pages_chained (L pn0 pn : Nat) (pages : List FKP) : Prop :=
  pages ≠ [] ∧
  (∀ p, pages.head? = some p → p.fcFirst = PAGESIZE) ∧
  List.Chain' (fun p q : FKP => p.rgFOD.getLast?.map FOD.fcLim = some q.fcFirst) pages ∧
  ((pages.map (fun p => p.rgFOD.map FOD.fcLim)).flatten).Pairwise (fun a b => a < b) ∧
  ((pages.map (fun p => p.rgFOD.map FOD.fcLim)).flatten).getLast? = some (L + PAGESIZE) ∧
  pn = (pn0 + pages.length) % 65536 ∧
  (pn0 + pages.length < 65536 → pn = pn0 + pages.length)

/-- The page counter has grown by the number of the pages written. -/
def pages_counted (pn0 pn : Nat) (pages : List FKP) : Prop := pn = pn0 + pages.length

/-- The run lists and the text length of the document after a reset and
`wri_text` of 8388300 letters (the text itself left out): one character run
and one paragraph run covering `[0, 8388300)`.  With `fcMac` = 8388428,
`pnChar` is 65535. -/
def doc_pages_wrap : State :=
  { doc_empty with
    _wri_cpMac := 8388300, _wri_had_normal_text := 1,
    lchp_curr := { cpFirst := 0, cpLim := 8388300, prop := _wri_default_chp },
    lpap_curr := { cpFirst := 0, cpLim := 8388300, prop := 0 } }

/-! ## Reference counts and copy-on-write of the paragraph records -/

/-- The content of the record a paragraph run points at, the count (byte 0)
left out: bytes 1..16 of the record read through the run. -/
def pap_content (s : State) (r : lpap) : PAP := { pap_at s r.prop with res1 := 0 }

/-- The counts of the paragraph records are exact modulo 256, the record of
the current node having at most `k` runs and every other record at most 256:
the allocator does not fail, every node points into the heap, and the stored
count of a record that a run points at is the number of its runs modulo 256. -/
def RefsUpTo (k : Nat) (s : State) : Prop :=
  AllocOK s ∧ (∀ r ∈ s.lpap_list, r.prop < s.paps.length) ∧
  s.lpap_curr.prop < s.paps.length ∧
  (∀ a, 1 ≤ pap_refs s a → (pap_at s a).res1 = pap_refs s a % 256) ∧
  (∀ a, a ≠ s.lpap_curr.prop → pap_refs s a ≤ 256) ∧
  pap_refs s s.lpap_curr.prop ≤ k

/-- The counts of the paragraph records are exact modulo 256 and no record has
more than 256 runs. -/
def RefInv (s : State) : Prop := RefsUpTo 256 s

/-- An operation that builds the paragraph list: a call of the
document-building interface, `_wri_new_paragraph`, or `_wri_append_pap`. -/
inductive BuildOp where
  | call (c : Call)
  | new_paragraph
  | append_pap (papp : PAP) (cpLim : Nat) (is_first_para : Int)

/-- The state after an operation, return value dropped. -/
def BuildOp.run : BuildOp → State → State
  | .call c, s => (c.run s).2
  | .new_paragraph, s => (_wri_new_paragraph s).2
  | .append_pap p l f, s => (_wri_append_pap p l f s).2

/-- The state after a sequence of operations. -/
def run_build_ops (ops : List BuildOp) (s : State) : State :=
  ops.foldl (fun st o => o.run st) s

/-- The operations that write into the record of the current paragraph:
`wri_para_justify`, `wri_para_interline`, `wri_para_indent_left`,
`wri_para_indent_right`, `wri_para_indent_first`, `wri_doc_header`,
`wri_doc_footer`, `wri_doc_return` and `_wri_append_pap`. -/
def BuildOp.writes_record : BuildOp → Bool
  | .call (.para_justify _) | .call (.para_interline _) | .call (.para_indent_left _)
  | .call (.para_indent_right _) | .call (.para_indent_first _)
  | .call .doc_header | .call .doc_footer | .call .doc_return
  | .append_pap _ _ _ => true
  | _ => false

/-- From `s` to `t` no run is lost, and every run of `s` that is not the last
run of `t` has in `t` the content it had in `s`. -/
def para_frame (s t : State) : Prop :=
  (lpap_runs s).length ≤ (lpap_runs t).length ∧
  ∀ i, i < (lpap_runs s).length → i + 1 < (lpap_runs t).length →
    ((lpap_runs t)[i]?).map (pap_content t) = ((lpap_runs s)[i]?).map (pap_content s)

/-- The counts of `t` are exact and the runs before its current one begin
with runs of the contents `V`. -/
def kept_runs (V : List PAP) (t : State) : Prop :=
  RefInv t ∧ V <+: t.lpap_list.map (pap_content t)

/-- Either no run has been added to those of `s` and the runs before the
current one have kept their contents, or all the runs of `s` are before the
current one and have kept their contents. -/
def frame_of (s t : State) : Prop :=
  (kept_runs (s.lpap_list.map (pap_content s)) t ∧ t.lpap_list.length = s.lpap_list.length) ∨
  kept_runs ((lpap_runs s).map (pap_content s)) t

/-- A property of states with exact counts kept by the steps that write into
the current paragraph record: a step that leaves the paragraphs as they are,
`this_para`, storing into a current record of count 1 a record of count 1, and
the assignments to the saved copies. -/
structure CowKept (P : State → Prop) : Prop where
  inv : ∀ s, P s → RefInv s
  same : ∀ s t, same_paragraphs s t → P s → P t
  this_para : ∀ s, P s → P (this_para s).2
  set_own : ∀ s p, P s → (pap_curr s).res1 = 1 → p.res1 = 1 → P (set_pap_curr s p)
  saved_chp : ∀ s c, P s → P { s with saved_chp := c }
  saved_pap : ∀ s p, P s → P { s with saved_pap := p }

/-- Three operations after a reset: `wri_text("a\nb")`, `_wri_new_paragraph()`
and `_wri_append_pap` of a centred paragraph up to character 6. -/
def ops_shared : List BuildOp :=
  [.call (.text [97, 10, 98]), .new_paragraph, .append_pap { dyaLine := 240, jc := 1 } 6 0]

/-- Answers of the allocator that let 256 nodes be linked and then refuse the
record that `clone_pap` asks for. -/
def allocs_wrap : List Bool := List.replicate 256 true ++ [false]

/-- The state after a reset and 256 calls of `_wri_new_paragraph` with the
allocator answers `allocs_wrap`: the last call links its node, increments the
count from 0 to 1 and gets NULL in `clone_pap`. -/
def doc_wrap_failed : State :=
  run_build_ops (List.replicate 256 .new_paragraph) (wri_new (first_use allocs_wrap)).2

/-- A header of one letter in 12 points, closed by `wri_doc_return`. -/
def calls_header_closed : List Call :=
  [.doc_header, .char_font_size 12, .text [72], .doc_return]

/-- The document that `calls_header_closed` builds after a reset, with an
allocator that answers twice and then returns NULL: the two allocations of
`wri_doc_return` (the paragraph node and the copy of the paragraph record)
succeed and the next one fails. -/
def doc_header_closed : State :=
  run_calls calls_header_closed (wri_new (first_use [true, true, false])).2

/-! ## Theorems: default-diff -/

theorem find_cch_loop_le (a b : List Nat) (k : Nat) : find_cch_loop a b k ≤ k := by
  induction k with
  | zero => simp [find_cch_loop]
  | succ k ih =>
    unfold find_cch_loop
    split <;> omega

theorem find_cch_loop_eq_above (a b : List Nat) (k : Nat) :
    ∀ i, find_cch_loop a b k < i → i ≤ k → a.getD i 0 = b.getD i 0 := by
  induction k with
  | zero => intro i h1 h2; omega
  | succ k ih =>
    intro i h1 h2
    unfold find_cch_loop at h1
    split at h1
    · omega
    · rename_i hne
      rcases Nat.lt_or_ge k i with h | h
      · have : i = k + 1 := by omega
        subst this
        simpa using hne
      · exact ih i h1 h

theorem find_cch_loop_ne (a b : List Nat) (k : Nat) (h : 0 < find_cch_loop a b k) :
    a.getD (find_cch_loop a b k) 0 ≠ b.getD (find_cch_loop a b k) 0 := by
  induction k with
  | zero => simp [find_cch_loop] at h
  | succ k ih =>
    unfold find_cch_loop at h ⊢
    split
    · assumption
    · rename_i hne
      simp only [hne, if_false] at h
      exact ih h

theorem find_cch_loop_congr (a b a' b' : List Nat) (k : Nat)
    (ha : ∀ i, 1 ≤ i → i ≤ k → a.getD i 0 = a'.getD i 0)
    (hb : ∀ i, 1 ≤ i → i ≤ k → b.getD i 0 = b'.getD i 0) :
    find_cch_loop a b k = find_cch_loop a' b' k := by
  induction k with
  | zero => simp [find_cch_loop]
  | succ k ih =>
    unfold find_cch_loop
    rw [ha (k+1) (by omega) (by omega), hb (k+1) (by omega) (by omega)]
    rw [ih (fun i h1 h2 => ha i h1 (by omega)) (fun i h1 h2 => hb i h1 (by omega))]

theorem find_cch_loop_last (a b : List Nat) (k j : Nat) (hj : j ≤ k)
    (hne : 0 < j → a.getD j 0 ≠ b.getD j 0)
    (heq : ∀ i, j < i → i ≤ k → a.getD i 0 = b.getD i 0) :
    find_cch_loop a b k = j := by
  induction k with
  | zero => simp [find_cch_loop]; omega
  | succ k ih =>
    unfold find_cch_loop
    rcases Nat.lt_or_ge j (k+1) with h | h
    · rw [if_neg (by simpa using heq (k+1) h (le_refl _))]
      exact ih (by omega) (fun i h1 h2 => heq i h1 (by omega))
    · have : j = k + 1 := by omega
      subst this
      rw [if_pos (hne (by omega))]

theorem find_cch_nat (a b : List Nat) (n : Nat) (hn : 1 ≤ n) :
    _wri_find_cch a b n = ((find_cch_loop a b (n - 1) + 1 : Nat) : Int) := by
  unfold _wri_find_cch
  split
  · have : ((n : Int) - 1).toNat = n - 1 := by omega
    rw [this]; push_cast; rfl
  · have : n = 1 := by omega
    subst this
    simp [find_cch_loop]



theorem find_cch_bounds (r d : List Nat) (n : Nat) (hn : 1 ≤ n) :
    1 ≤ _wri_find_cch r d n ∧ _wri_find_cch r d n ≤ n ∧
    (∀ i : Nat, _wri_find_cch r d n ≤ i → i < n → r.getD i 0 = d.getD i 0) ∧
    (1 < _wri_find_cch r d n →
      r.getD (_wri_find_cch r d n - 1).toNat 0 ≠ d.getD (_wri_find_cch r d n - 1).toNat 0) := by
  have hle := find_cch_loop_le r d (n - 1)
  refine ⟨?_, ?_, ?_, ?_⟩
  · rw [find_cch_nat r d n hn]; omega
  · rw [find_cch_nat r d n hn]; omega
  · intro i h1 h2
    rw [find_cch_nat r d n hn] at h1
    exact find_cch_loop_eq_above r d (n - 1) i (by omega) (by omega)
  · intro h
    rw [find_cch_nat r d n hn] at h ⊢
    have e : (((find_cch_loop r d (n - 1) + 1 : Nat) : Int) - 1).toNat
        = find_cch_loop r d (n - 1) := by omega
    rw [e]
    exact find_cch_loop_ne r d (n - 1) (by omega)

/-- C9. Default-diff: for byte sequences `r`, `d` of the same length `n ≥ 1`,
`c = _wri_find_cch r d n` lies in `1..n`, `r` and `d` agree at every index from
`c` up, they differ at `c - 1` when `c > 1`, and `c` does not depend on byte 0;
a record equal to the default except at one byte `k > 0` gives `k + 1`, a
record equal to the default from index 1 up gives 1. -/
theorem find_cch_default_diff (r d : List Nat) (n : Nat)
    (_hr : r.length = n) (hd : d.length = n) (hn : 1 ≤ n) :
    1 ≤ _wri_find_cch r d n ∧ _wri_find_cch r d n ≤ n ∧
    (∀ i : Nat, _wri_find_cch r d n ≤ i → i < n → r.getD i 0 = d.getD i 0) ∧
    (1 < _wri_find_cch r d n →
      r.getD (_wri_find_cch r d n - 1).toNat 0 ≠ d.getD (_wri_find_cch r d n - 1).toNat 0) ∧
    (∀ x y : Nat, _wri_find_cch (r.set 0 x) (d.set 0 y) n = _wri_find_cch r d n) ∧
    (∀ k v : Nat, 0 < k → k < n → v ≠ d.getD k 0 → _wri_find_cch (d.set k v) d n = k + 1) ∧
    ((∀ i : Nat, 1 ≤ i → i < n → r.getD i 0 = d.getD i 0) → _wri_find_cch r d n = 1) := by
  rcases find_cch_bounds r d n hn with ⟨b1, b2, b3, b4⟩
  refine ⟨b1, b2, b3, b4, ?_, ?_, ?_⟩
  · intro x y
    rw [find_cch_nat r d n hn, find_cch_nat _ _ n hn]
    congr 2
    apply find_cch_loop_congr
    · intro i h1 h2
      have : 0 ≠ i := by omega
      simp [List.getD_eq_getElem?_getD, List.getElem?_set, this]
    · intro i h1 h2
      have : 0 ≠ i := by omega
      simp [List.getD_eq_getElem?_getD, List.getElem?_set, this]
  · intro k v hk hkn hv
    rw [find_cch_nat _ _ n hn]
    congr 2
    apply find_cch_loop_last _ _ _ k (by omega)
    · intro _
      simp [List.getD_eq_getElem?_getD, List.getElem?_set, hd, hkn] at hv ⊢
      exact hv
    · intro i h1 h2
      have : k ≠ i := by omega
      simp [List.getD_eq_getElem?_getD, List.getElem?_set, this]
  · intro h
    rw [find_cch_nat _ _ n hn]
    rw [find_cch_loop_last r d (n - 1) 0 (by omega) (fun h0 => absurd h0 (lt_irrefl 0))
      (fun i h1 h2 => h i (by omega) (by omega))]
    rfl

/-- Witness for C9 on the default character record against the record of the
first run (`hps` 20 instead of 24). -/
theorem find_cch_default_diff_witness :
    1 ≤ _wri_find_cch [0, 0, 20, 0, 0, 0] [0, 0, 24, 0, 0, 0] (6 : Nat) ∧
    _wri_find_cch [0, 0, 20, 0, 0, 0] [0, 0, 24, 0, 0, 0] (6 : Nat) = 3 :=
  ⟨(find_cch_default_diff [0, 0, 20, 0, 0, 0] [0, 0, 24, 0, 0, 0] 6 rfl rfl (by decide)).1,
   by decide⟩

theorem drop_eq_iff_getD (r d : List Nat) (n m : Nat)
    (hr : r.length = n) (hd : d.length = n) :
    d.drop m = r.drop m ↔ ∀ i, m ≤ i → i < n → r.getD i 0 = d.getD i 0 := by
  constructor
  · intro h i h1 h2
    have := congrArg (fun l => l.getD (i - m) 0) h
    simp only [List.getD_eq_getElem?_getD, List.getElem?_drop] at this
    have e : m + (i - m) = i := by omega
    rw [e] at this
    simp only [List.getD_eq_getElem?_getD]
    exact this.symm
  · intro h
    apply List.ext_getElem?
    intro j
    rw [List.getElem?_drop, List.getElem?_drop]
    rcases Nat.lt_or_ge (m + j) n with h1 | h1
    · have := h (m + j) (by omega) h1
      simp only [List.getD_eq_getElem?_getD] at this
      have e1 : r[m + j]? = some r[m + j] := List.getElem?_eq_getElem (by omega)
      have e2 : d[m + j]? = some d[m + j] := List.getElem?_eq_getElem (by omega)
      rw [e1, e2] at this ⊢
      simp only [Option.getD_some] at this
      rw [this]
    · rw [List.getElem?_eq_none (by omega), List.getElem?_eq_none (by omega)]

theorem fprop_decode_eq_iff (r d : List Nat) (n m : Nat)
    (hr : r.length = n) (hd : d.length = n) :
    fprop_decode d r m = r ↔ ∀ i, m ≤ i → i < n → r.getD i 0 = d.getD i 0 := by
  rw [← drop_eq_iff_getD r d n m hr hd]
  unfold fprop_decode
  constructor
  · intro h
    have h2 : r.take m ++ d.drop m = r.take m ++ r.drop m := by
      rw [List.take_append_drop]; exact h
    exact List.append_cancel_left h2
  · intro h
    rw [h, List.take_append_drop]

/-- C10. Default-diff is a minimal lossless truncation: with
`c = _wri_find_cch r d n`, overlaying the first `c` bytes of `r` on a copy of
the default `d` gives back `r`, and no length `m ≥ 1` smaller than `c` does. -/
theorem find_cch_minimal_lossless (r d : List Nat) (n : Nat)
    (hr : r.length = n) (hd : d.length = n) (hn : 1 ≤ n) :
    fprop_decode d (r.take (_wri_find_cch r d n).toNat) (_wri_find_cch r d n).toNat = r ∧
    fprop_decode d r (_wri_find_cch r d n).toNat = r ∧
    (∀ m : Nat, 1 ≤ m → fprop_decode d r m = r → _wri_find_cch r d n ≤ m) ∧
    (∀ m : Nat, 1 ≤ m → fprop_decode d (r.take m) m = r → _wri_find_cch r d n ≤ m) := by
  have key := find_cch_bounds r d n hn
  have hdec : fprop_decode d r (_wri_find_cch r d n).toNat = r := by
    rw [fprop_decode_eq_iff r d n _ hr hd]
    intro i h1 h2
    exact key.2.2.1 i (by omega) h2
  have hmin : ∀ m : Nat, 1 ≤ m → fprop_decode d r m = r → _wri_find_cch r d n ≤ m := by
    intro m hm h
    rw [fprop_decode_eq_iff r d n _ hr hd] at h
    by_contra hlt
    have hc1 : 1 < _wri_find_cch r d n := by omega
    have hne := key.2.2.2 hc1
    apply hne
    apply h
    · omega
    · have := key.2.1
      omega
  have htake : ∀ m : Nat, fprop_decode d (r.take m) m = fprop_decode d r m := by
    intro m
    simp [fprop_decode, List.take_take]
  refine ⟨?_, hdec, hmin, ?_⟩
  · rw [htake]; exact hdec
  · intro m hm h
    rw [htake] at h
    exact hmin m hm h

/-- Witness for C10 on the record of the first character run against the default. -/
theorem find_cch_minimal_lossless_witness :
    fprop_decode [0, 0, 24, 0, 0, 0] [0, 0, 20]
      (_wri_find_cch [0, 0, 20, 0, 0, 0] [0, 0, 24, 0, 0, 0] (6 : Nat)).toNat
      = [0, 0, 20, 0, 0, 0] :=
  (find_cch_minimal_lossless [0, 0, 20, 0, 0, 0] [0, 0, 24, 0, 0, 0] 6 rfl rfl (by decide)).1

/-! ### Setters called with the current value -/

/-- C4. No-op idempotence: in every state, each of `wri_char_bold`,
`wri_char_italic`, `wri_char_underline`, `wri_char_script`, `wri_para_justify`,
`wri_para_interline`, `wri_para_indent_left`, `wri_para_indent_right` and
`wri_para_indent_first`, called with a valid value equal to the value of the
current run, returns 0 and leaves the whole state unchanged (no run added, no
record cloned), whatever the extent of the current run and the reference count
of its record. -/
theorem setter_same_value_noop (s : State) (v : Int) :
    ((v = 0 ∨ v = 1) → ((chp_curr s).fBold : Int) = v → wri_char_bold v s = (0, s)) ∧
    ((v = 0 ∨ v = 1) → ((chp_curr s).fItalic : Int) = v → wri_char_italic v s = (0, s)) ∧
    ((v = 0 ∨ v = 1) → ((chp_curr s).fUline : Int) = v → wri_char_underline v s = (0, s)) ∧
    ((v = WRI_NORMAL ∨ v = WRI_SUBSCRIPT ∨ v = WRI_SUPERSCRIPT) →
      ((chp_curr s).hpsPos : Int) = v → wri_char_script v s = (0, s)) ∧
    ((v = WRI_LEFT ∨ v = WRI_CENTER ∨ v = WRI_RIGHT ∨ v = WRI_BOTH) →
      ((pap_curr s).jc : Int) = v → wri_para_justify v s = (0, s)) ∧
    ((0 ≤ v ∧ v ≤ 32767) → ((pap_curr s).dyaLine : Int) = v → wri_para_interline v s = (0, s)) ∧
    ((0 ≤ v ∧ v ≤ 32767) → ((pap_curr s).dxaLeft : Int) = v → wri_para_indent_left v s = (0, s)) ∧
    ((0 ≤ v ∧ v ≤ 32767) → ((pap_curr s).dxaRight : Int) = v → wri_para_indent_right v s = (0, s)) ∧
    ((pap_curr s).dxaLeft1 = v → wri_para_indent_first v s = (0, s)) := by
  refine ⟨?_, ?_, ?_, ?_, ?_, ?_, ?_, ?_, ?_⟩
  · intro hv h
    have e : (chp_curr s).fBold = v.toNat := by omega
    unfold wri_char_bold
    rw [if_neg (by omega), if_pos e]
  · intro hv h
    have e : (chp_curr s).fItalic = v.toNat := by omega
    unfold wri_char_italic
    rw [if_neg (by omega), if_pos e]
  · intro hv h
    have e : (chp_curr s).fUline = v.toNat := by omega
    unfold wri_char_underline
    rw [if_neg (by omega), if_pos e]
  · intro hv h
    have e : (chp_curr s).hpsPos = v.toNat := by omega
    unfold wri_char_script
    rw [if_neg (by simp only [WRI_NORMAL, WRI_SUBSCRIPT, WRI_SUPERSCRIPT] at hv ⊢; omega),
      if_pos e]
  · intro hv h
    have e : (pap_curr s).jc = v.toNat := by omega
    unfold wri_para_justify
    rw [if_neg (by simp only [WRI_LEFT, WRI_CENTER, WRI_RIGHT, WRI_BOTH] at hv ⊢; omega),
      if_pos e]
  · intro hv h
    have e : (pap_curr s).dyaLine = v.toNat := by omega
    unfold wri_para_interline
    rw [if_neg (by omega), if_pos e]
  · intro hv h
    have e : (pap_curr s).dxaLeft = v.toNat := by omega
    unfold wri_para_indent_left
    rw [if_neg (by omega), if_pos e]
  · intro hv h
    have e : (pap_curr s).dxaRight = v.toNat := by omega
    unfold wri_para_indent_right
    rw [if_neg (by omega), if_pos e]
  · intro h
    unfold wri_para_indent_first
    rw [if_pos h]

/-- Witness for C4: in `doc_abc` (current run non-empty, record shared) setting
the interline spacing to its current value 240 changes nothing. -/
theorem setter_same_value_noop_witness :
    (0 ≤ (240 : Int) ∧ (240 : Int) ≤ 32767) ∧ ((pap_curr doc_abc).dyaLine : Int) = 240 ∧
    (pap_curr doc_abc).res1 = 2 ∧ doc_abc.lchp_curr.cpFirst ≠ doc_abc.lchp_curr.cpLim ∧
    wri_para_interline 240 doc_abc = (0, doc_abc) :=
  ⟨by decide, by decide, by decide, by decide,
   (setter_same_value_noop doc_abc 240).2.2.2.2.2.1 (by decide) (by decide)⟩

/-! ### Character setters keep every property closed under their primitive steps -/

theorem malloc_of_succeeds (s : State) (h : alloc_succeeds s) :
    malloc s = (true, { s with malloc_ok := s.malloc_ok.tail }) := by
  unfold malloc
  rw [show s.malloc_ok.headD true = true from h]

section chp_closed
variable {P : State → Prop} (hP : ChpClosed P)
include hP

theorem wri_char_bold_keeps (v : Int) (s : State) (h : P s) : P (wri_char_bold v s).2 := by
  have h1 := hP.new_chp s h
  unfold wri_char_bold
  split_ifs
  · exact h
  · exact h
  · split
    · simp_all
    · rename_i s1 he
      rw [he] at h1
      exact hP.set_chp _ _ h1

theorem wri_char_italic_keeps (v : Int) (s : State) (h : P s) : P (wri_char_italic v s).2 := by
  have h1 := hP.new_chp s h
  unfold wri_char_italic
  split_ifs
  · exact h
  · exact h
  · split
    · simp_all
    · rename_i s1 he
      rw [he] at h1
      exact hP.set_chp _ _ h1

theorem wri_char_underline_keeps (v : Int) (s : State) (h : P s) :
    P (wri_char_underline v s).2 := by
  have h1 := hP.new_chp s h
  unfold wri_char_underline
  split_ifs
  · exact h
  · exact h
  · split
    · simp_all
    · rename_i s1 he
      rw [he] at h1
      exact hP.set_chp _ _ h1

theorem wri_char_reduce_keeps (s : State) (h : P s) : P (wri_char_reduce s).2 := by
  have h1 := hP.new_chp s h
  unfold wri_char_reduce
  split_ifs
  · exact h
  · dsimp only
    split
    · simp_all
    · rename_i s1 he
      rw [he] at h1
      exact hP.set_chp _ _ h1

theorem wri_char_enlarge_keeps (s : State) (h : P s) : P (wri_char_enlarge s).2 := by
  have h1 := hP.new_chp s h
  unfold wri_char_enlarge
  split_ifs
  · exact h
  · dsimp only
    split
    · simp_all
    · rename_i s1 he
      rw [he] at h1
      exact hP.set_chp _ _ h1

theorem new_chp_set_keeps (s : State) (g : State → CHP) (h : P s) :
    P (match new_chp s with
      | (false, s1) => ((1 : Int), s1)
      | (true, s1) => (0, set_chp_curr s1 (g s1))).2 := by
  have h1 := hP.new_chp s h
  split
  · simp_all
  · rename_i s1 he
    rw [he] at h1
    exact hP.set_chp _ _ h1

theorem wri_char_script_keeps (v : Int) (s : State) (h : P s) : P (wri_char_script v s).2 := by
  unfold wri_char_script
  by_cases c1 : v ≠ WRI_NORMAL ∧ v ≠ WRI_SUBSCRIPT ∧ v ≠ WRI_SUPERSCRIPT
  · rw [if_pos c1]; exact h
  rw [if_neg c1]
  by_cases c2 : (chp_curr s).hpsPos = v.toNat
  · rw [if_pos c2]; exact h
  rw [if_neg c2]
  have hr : P (if (chp_curr s).hpsPos = 0 ∧ v ≠ WRI_NORMAL then wri_char_reduce s
      else if (chp_curr s).hpsPos ≠ 0 ∧ v = WRI_NORMAL then wri_char_enlarge s
      else ((0 : Int), s)).2 := by
    split_ifs
    · exact wri_char_reduce_keeps hP s h
    · exact wri_char_enlarge_keeps hP s h
    · exact h
  generalize (if (chp_curr s).hpsPos = 0 ∧ v ≠ WRI_NORMAL then wri_char_reduce s
      else if (chp_curr s).hpsPos ≠ 0 ∧ v = WRI_NORMAL then wri_char_enlarge s
      else ((0 : Int), s)) = r at hr ⊢
  dsimp only
  split_ifs
  · exact hr
  · exact new_chp_set_keeps hP _ _ hr

theorem wri_char_normal_keeps (s : State) (h : P s) : P (wri_char_normal s).2 := by
  unfold wri_char_normal
  dsimp only
  have h1 := wri_char_bold_keeps hP 0 s h
  generalize wri_char_bold 0 s = r1 at h1 ⊢
  have h2 := wri_char_italic_keeps hP 0 _ h1
  generalize wri_char_italic 0 r1.2 = r2 at h2 ⊢
  have h3 := wri_char_underline_keeps hP 0 _ h2
  generalize wri_char_underline 0 r2.2 = r3 at h3 ⊢
  have h4 := wri_char_script_keeps hP WRI_NORMAL _ h3
  generalize wri_char_script WRI_NORMAL r3.2 = r4 at h4 ⊢
  split_ifs
  · exact h1
  · exact h2
  · exact h3
  · exact h4
  · exact h4

theorem wri_char_font_name_keeps (n : List Nat) (s : State) (h : P s) :
    P (wri_char_font_name n s).2 := by
  have h0 := hP.font n 0 s h
  unfold wri_char_font_name
  generalize _wri_cvt_font_name_to_code n 0 s = q at h0 ⊢
  rcases q with ⟨ftc, s0⟩
  dsimp only at h0 ⊢
  split_ifs
  · exact h0
  · exact new_chp_set_keeps hP _ _ h0

theorem wri_char_font_size_keeps (v : Int) (s : State) (h : P s) :
    P (wri_char_font_size v s).2 := by
  unfold wri_char_font_size
  split_ifs
  · exact h
  · exact new_chp_set_keeps hP _ _ h

theorem _wri_chp_special_keeps (x : Int) (s : State) (h : P s) :
    P (_wri_chp_special x s).2 := by
  unfold _wri_chp_special
  exact new_chp_set_keeps hP _ _ h

theorem _wri_set_default_chp_keeps (s : State) (h : P s) : P (_wri_set_default_chp s).2 := by
  unfold _wri_set_default_chp
  split_ifs
  · exact h
  · exact new_chp_set_keeps hP _ (fun _ => _wri_default_chp) h

theorem _wri_restore_chp_keeps (s : State) (h : P s) : P (_wri_restore_chp s).2 := by
  unfold _wri_restore_chp
  split_ifs
  · exact h
  · exact new_chp_set_keeps hP _ (fun s1 => s1.saved_chp) h

theorem char_setter_keeps (c : Call) (hc : c.is_char_setter = true) (s : State) (h : P s) :
    P (c.run s).2 := by
  cases c <;> simp [Call.is_char_setter] at hc <;> simp only [Call.run]
  · exact wri_char_normal_keeps hP s h
  · exact wri_char_bold_keeps hP _ s h
  · exact wri_char_italic_keeps hP _ s h
  · exact wri_char_underline_keeps hP _ s h
  · exact wri_char_script_keeps hP _ s h
  · exact wri_char_font_name_keeps hP _ s h
  · exact wri_char_font_size_keeps hP _ s h
  · exact wri_char_reduce_keeps hP s h
  · exact wri_char_enlarge_keeps hP s h

end chp_closed

/-! ### `new_chp` -/

theorem new_chp_of_empty (s : State) (h : s.lchp_curr.cpFirst = s.lchp_curr.cpLim) :
    new_chp s = (true, s) := by
  unfold new_chp
  rw [if_pos h.symm]

theorem new_chp_of_nonempty (s : State) (h : s.lchp_curr.cpFirst ≠ s.lchp_curr.cpLim)
    (ha : alloc_succeeds s) :
    new_chp s = (true, { s with
      malloc_ok := s.malloc_ok.tail,
      lchp_list := s.lchp_list ++ [s.lchp_curr],
      lchp_curr := { cpFirst := s.lchp_curr.cpLim, cpLim := s.lchp_curr.cpLim,
                     prop := s.lchp_curr.prop } }) := by
  unfold new_chp _wri_new_lprop
  rw [if_neg (fun e => h e.symm), malloc_of_succeeds s ha]

theorem not_two_empty_closed : ChpClosed (fun s => ¬ two_empty_at_tail s) where
  set_chp := fun _ _ h => h
  new_chp := by
    intro s h
    unfold new_chp
    split
    · exact h
    · rename_i hne
      unfold _wri_new_lprop malloc
      cases s.malloc_ok.headD true
      · exact h
      · rintro ⟨p, hp, h1, _⟩
        simp at hp
        subst hp
        exact hne h1.symm
  font := by
    intro n f s h
    unfold _wri_cvt_font_name_to_code
    split
    · dsimp only
      split <;> exact h
    · split
      · exact h
      · unfold malloc
        cases s.malloc_ok.headD true <;> exact h

/-- C6. `new_chp`: when the current run is empty the state (hence the list) is
unchanged and the current run is returned; otherwise, when `malloc` succeeds,
exactly one run is appended after the runs already there, with
`cpFirst = cpLim =` the previous run's `cpLim` and the previous run's record, and
it is the current run.  Consequently a character setter never brings a list
whose last two runs are not both empty into one whose last two runs are. -/
theorem new_chp_spec (s : State) :
    (s.lchp_curr.cpFirst = s.lchp_curr.cpLim → new_chp s = (true, s)) ∧
    (s.lchp_curr.cpFirst ≠ s.lchp_curr.cpLim → alloc_succeeds s →
      (new_chp s).1 = true ∧
      lchp_runs (new_chp s).2 = lchp_runs s ++
        [{ cpFirst := s.lchp_curr.cpLim, cpLim := s.lchp_curr.cpLim, prop := s.lchp_curr.prop }] ∧
      (new_chp s).2.lchp_curr =
        { cpFirst := s.lchp_curr.cpLim, cpLim := s.lchp_curr.cpLim, prop := s.lchp_curr.prop } ∧
      (new_chp s).2 = { s with
        malloc_ok := s.malloc_ok.tail,
        lchp_list := s.lchp_list ++ [s.lchp_curr],
        lchp_curr := { cpFirst := s.lchp_curr.cpLim, cpLim := s.lchp_curr.cpLim,
                       prop := s.lchp_curr.prop } }) ∧
    (∀ c : Call, c.is_char_setter = true → ¬ two_empty_at_tail s →
      ¬ two_empty_at_tail (c.run s).2) := by
  refine ⟨new_chp_of_empty s, ?_, ?_⟩
  · intro h ha
    rw [new_chp_of_nonempty s h ha]
    exact ⟨rfl, rfl, rfl, rfl⟩
  · intro c hc h
    exact char_setter_keeps not_two_empty_closed c hc s h

/-- Witness for C6: in `doc_abc` the current run `[0, 5)` is not empty, and
`new_chp` appends the empty run `[5, 5)` with the same record. -/
theorem new_chp_spec_witness :
    doc_abc.lchp_curr.cpFirst ≠ doc_abc.lchp_curr.cpLim ∧ alloc_succeeds doc_abc ∧
    (lchp_runs (new_chp doc_abc).2).map (fun r => (r.cpFirst, r.cpLim)) = [(0, 5), (5, 5)] :=
  ⟨by decide, rfl,
   by rw [((new_chp_spec doc_abc).2.1 (by decide) rfl).2.1]; decide⟩

/-- C5 (the code at the failing input). In `doc_abc` the current character run
is non-empty with `hps = 24` and `ftc = 0`; `wri_char_font_size 12` (24
half-points) and `wri_char_font_name "Arial"` (font code 0) both return 0 and
both add a run to the character list. -/
theorem font_setters_same_value_add_run :
    doc_abc.lchp_curr.cpFirst ≠ doc_abc.lchp_curr.cpLim ∧
    (chp_curr doc_abc).hps = 2 * 12 ∧ (chp_curr doc_abc).ftc = 0 ∧
    (_wri_cvt_font_name_to_code [65, 114, 105, 97, 108] 0 doc_abc).1 = 0 ∧
    (lchp_runs doc_abc).length = 1 ∧
    (wri_char_font_size 12 doc_abc).1 = 0 ∧
    (lchp_runs (wri_char_font_size 12 doc_abc).2).length = 2 ∧
    (wri_char_font_name [65, 114, 105, 97, 108] doc_abc).1 = 0 ∧
    (lchp_runs (wri_char_font_name [65, 114, 105, 97, 108] doc_abc).2).length = 2 := by
  decide

/-! ### `clone_pap`, `this_para`, `_wri_new_paragraph` -/

theorem pap_at_set_same (s : State) (a : Nat) (p : PAP) (h : a < s.paps.length) :
    pap_at (set_pap_at s a p) a = p := by
  simp [pap_at, set_pap_at, List.getD_eq_getElem?_getD, h]

theorem pap_at_set_other (s : State) (a b : Nat) (p : PAP) (h : a ≠ b) :
    pap_at (set_pap_at s a p) b = pap_at s b := by
  simp [pap_at, set_pap_at, List.getD_eq_getElem?_getD, List.getElem?_set, h]

theorem clone_pap_of_succeeds (s : State) (ha : alloc_succeeds s)
    (hp : s.lpap_curr.prop < s.paps.length) :
    clone_pap s = (true, { s with
      malloc_ok := s.malloc_ok.tail,
      paps := s.paps.set s.lpap_curr.prop
          { pap_curr s with res1 := ((pap_curr s).res1 + 255) % 256 }
        ++ [{ pap_curr s with res1 := 1 }],
      lpap_curr := { s.lpap_curr with prop := s.paps.length } }) := by
  unfold clone_pap
  rw [malloc_of_succeeds s ha]
  simp only [set_pap_at, pap_at, pap_curr, Prod.mk.injEq, true_and]
  congr 1
  have e1 : (s.paps ++ [s.paps.getD s.lpap_curr.prop _wri_default_pap]).getD s.lpap_curr.prop
      _wri_default_pap = s.paps.getD s.lpap_curr.prop _wri_default_pap := by
    simp [List.getD_eq_getElem?_getD, List.getElem?_append_left hp]
  rw [e1]
  rw [List.set_append_left _ _ hp]
  have e2 : (s.paps.set s.lpap_curr.prop
      { s.paps.getD s.lpap_curr.prop _wri_default_pap with
        res1 := ((s.paps.getD s.lpap_curr.prop _wri_default_pap).res1 + 255) % 256 }).length
      = s.paps.length := by simp
  rw [List.set_append_right _ _ (by rw [e2]), e2]
  simp [List.getD_eq_getElem?_getD, List.getElem?_append_right]

/-- C7. Get-for-write (`this_para`): when the count of the current run's record
is 1 the same record is returned and the state is unchanged; otherwise, when
`malloc` succeeds, a record is created at a fresh address whose bytes 1..16 are
those of the old record and whose count is 1, the count of the old record is
decremented by one in its 8 bits (so the count plus one is the old count
whenever that was between 1 and 255), the current run alone is pointed at the
new record, and no other run or record changes. -/
theorem this_para_spec (s : State) :
    ((pap_curr s).res1 = 1 → this_para s = (true, s)) ∧
    ((pap_curr s).res1 ≠ 1 → alloc_succeeds s → s.lpap_curr.prop < s.paps.length →
      (this_para s).1 = true ∧
      (this_para s).2.lpap_curr.prop = s.paps.length ∧
      (this_para s).2.paps.length = s.paps.length + 1 ∧
      pap_curr (this_para s).2 = { pap_curr s with res1 := 1 } ∧
      pap_at (this_para s).2 s.lpap_curr.prop =
        { pap_curr s with res1 := ((pap_curr s).res1 + 255) % 256 } ∧
      (1 ≤ (pap_curr s).res1 → (pap_curr s).res1 ≤ 255 →
        (pap_at (this_para s).2 s.lpap_curr.prop).res1 + 1 = (pap_curr s).res1) ∧
      (∀ a, a ≠ s.lpap_curr.prop → a < s.paps.length →
        pap_at (this_para s).2 a = pap_at s a) ∧
      (this_para s).2.lpap_list = s.lpap_list ∧
      (this_para s).2.lpap_curr = { s.lpap_curr with prop := s.paps.length } ∧
      (this_para s).2 = { s with
        malloc_ok := s.malloc_ok.tail,
        paps := s.paps.set s.lpap_curr.prop
            { pap_curr s with res1 := ((pap_curr s).res1 + 255) % 256 }
          ++ [{ pap_curr s with res1 := 1 }],
        lpap_curr := { s.lpap_curr with prop := s.paps.length } }) := by
  constructor
  · intro h
    unfold this_para
    rw [if_pos h]
  · intro h ha hp
    have e : this_para s = clone_pap s := by
      unfold this_para
      rw [if_neg h]
    rw [e, clone_pap_of_succeeds s ha hp]
    have hlen : (s.paps.set s.lpap_curr.prop
        { pap_curr s with res1 := ((pap_curr s).res1 + 255) % 256 }).length = s.paps.length := by
      simp
    have hold : ∀ q : PAP, ((s.paps.set s.lpap_curr.prop q) ++ [{ pap_curr s with res1 := 1 }]).getD
        s.lpap_curr.prop _wri_default_pap = q := by
      intro q
      simp [List.getD_eq_getElem?_getD, List.getElem?_append_left, hp]
    refine ⟨rfl, rfl, ?_, ?_, ?_, ?_, ?_, rfl, rfl, rfl⟩
    · simp
    · simp [pap_curr, pap_at, List.getD_eq_getElem?_getD, List.getElem?_append_right]
    · simp only [pap_at]
      rw [hold]
    · intro h1 h2
      simp only [pap_at]
      rw [hold]
      dsimp only
      omega
    · intro a ha1 ha2
      have hne : s.lpap_curr.prop ≠ a := fun e => ha1 e.symm
      simp [pap_at, List.getD_eq_getElem?_getD, List.getElem?_append_left, ha2,
        List.getElem?_set, hne]

/-- Witness for C7: in `doc_abc` the record of the current paragraph has count 2;
`this_para` clones it to address 1 and leaves the old record with count 1. -/
theorem this_para_spec_witness :
    (pap_curr doc_abc).res1 ≠ 1 ∧ alloc_succeeds doc_abc ∧
    doc_abc.lpap_curr.prop < doc_abc.paps.length ∧
    (this_para doc_abc).2.lpap_curr.prop = 1 ∧
    (pap_at (this_para doc_abc).2 0).res1 + 1 = 2 :=
  ⟨by decide, rfl, by decide,
   ((this_para_spec doc_abc).2 (by decide) rfl (by decide)).2.1,
   ((this_para_spec doc_abc).2 (by decide) rfl (by decide)).2.2.2.2.2.1 (by decide) (by decide)⟩

theorem new_paragraph_of_succeeds (s : State) (ha : alloc_succeeds s)
    (h0 : (pap_curr s).res1 ≠ 0) :
    _wri_new_paragraph s = (0, { s with
      malloc_ok := s.malloc_ok.tail,
      lpap_list := s.lpap_list ++ [s.lpap_curr],
      lpap_curr := { cpFirst := s.lpap_curr.cpLim, cpLim := s.lpap_curr.cpLim,
                     prop := s.lpap_curr.prop },
      paps := s.paps.set s.lpap_curr.prop
        { pap_curr s with res1 := ((pap_curr s).res1 + 1) % 256 } }) := by
  unfold _wri_new_paragraph _wri_new_lprop
  rw [malloc_of_succeeds s ha]
  simp only [pap_curr, pap_at, set_pap_curr, set_pap_at] at h0 ⊢
  rw [if_neg h0]

/-- C8. `_wri_new_paragraph`: when the record of the tail run has a count `c`
with `1 ≤ c ≤ 254` and `malloc` succeeds, the call returns 0, appends exactly
one run `[cpLim, cpLim)` at the previous tail's limit that points to the same
record, raises that record's count to `c + 1`, allocates no record and changes
no property byte (bytes 1..16) of any record. -/
theorem new_paragraph_spec (s : State) (c : Nat) (hc : (pap_curr s).res1 = c)
    (h1 : 1 ≤ c) (h2 : c ≤ 254) (ha : alloc_succeeds s) :
    (_wri_new_paragraph s).1 = 0 ∧
    lpap_runs (_wri_new_paragraph s).2 = lpap_runs s ++
      [{ cpFirst := s.lpap_curr.cpLim, cpLim := s.lpap_curr.cpLim, prop := s.lpap_curr.prop }] ∧
    (_wri_new_paragraph s).2.lpap_curr =
      { cpFirst := s.lpap_curr.cpLim, cpLim := s.lpap_curr.cpLim, prop := s.lpap_curr.prop } ∧
    (pap_curr (_wri_new_paragraph s).2).res1 = c + 1 ∧
    (_wri_new_paragraph s).2.paps.length = s.paps.length ∧
    (∀ a, { pap_at (_wri_new_paragraph s).2 a with res1 := 0 } = { pap_at s a with res1 := 0 }) ∧
    (∀ a, a ≠ s.lpap_curr.prop → pap_at (_wri_new_paragraph s).2 a = pap_at s a) := by
  rw [new_paragraph_of_succeeds s ha (by omega)]
  have hp : s.lpap_curr.prop < s.paps.length := by
    by_contra hge
    have e : pap_curr s = _wri_default_pap := by
      simp only [pap_curr, pap_at, List.getD_eq_getElem?_getD]
      rw [List.getElem?_eq_none (by omega)]
      rfl
    rw [e] at hc
    simp [_wri_default_pap] at hc
    omega
  have hmod : (c + 1) % 256 = c + 1 := Nat.mod_eq_of_lt (by omega)
  have hc2 : s.paps[s.lpap_curr.prop].res1 = c := by
    simpa [pap_curr, pap_at, List.getD_eq_getElem?_getD, hp] using hc
  refine ⟨rfl, rfl, rfl, ?_, ?_, ?_, ?_⟩
  · simp [pap_curr, pap_at, List.getD_eq_getElem?_getD, hp, hc2, hmod]
  · simp
  · intro a
    by_cases e : s.lpap_curr.prop = a
    · subst e
      simp [pap_curr, pap_at, List.getD_eq_getElem?_getD, hp]
    · simp [pap_at, List.getD_eq_getElem?_getD, List.getElem?_set, e]
  · intro a hne
    have e : s.lpap_curr.prop ≠ a := fun e => hne e.symm
    simp [pap_at, List.getD_eq_getElem?_getD, List.getElem?_set, e]

/-- Witness for C8: in `doc_abc` the record of the tail run has count 2; a new
paragraph shares it and raises the count to 3. -/
theorem new_paragraph_spec_witness :
    (pap_curr doc_abc).res1 = 2 ∧ alloc_succeeds doc_abc ∧
    (pap_curr (_wri_new_paragraph doc_abc).2).res1 = 2 + 1 ∧
    (_wri_new_paragraph doc_abc).2.paps.length = doc_abc.paps.length :=
  ⟨by decide, rfl,
   (new_paragraph_spec doc_abc 2 (by decide) (by decide) (by decide) rfl).2.2.2.1,
   (new_paragraph_spec doc_abc 2 (by decide) (by decide) (by decide) rfl).2.2.2.2.1⟩

set_option maxRecDepth 1000000 in
/-- C3 (the code at the failing input). After a reset and 254 calls of
`_wri_new_paragraph` the record of the tail run (address 0) has count 255 and
the `malloc` calls to come succeed; the next call of `_wri_new_paragraph`
returns 0, leaves the tail run pointing at the same record, creates no record
(the heap still has one cell) and leaves that record with count 0 instead of
255: the counter has wrapped and no clone was made. -/
theorem new_paragraph_at_255_wraps :
    (pap_curr (new_paragraphs 254 (wri_new (first_use [])).2)).res1 = 255 ∧
    (new_paragraphs 254 (wri_new (first_use [])).2).lpap_curr.prop = 0 ∧
    (_wri_new_paragraph (new_paragraphs 254 (wri_new (first_use [])).2)).1 = 0 ∧
    (_wri_new_paragraph (new_paragraphs 254 (wri_new (first_use [])).2)).2.lpap_curr.prop = 0 ∧
    (_wri_new_paragraph (new_paragraphs 254 (wri_new (first_use [])).2)).2.paps.length = 1 ∧
    (pap_at (_wri_new_paragraph (new_paragraphs 254 (wri_new (first_use [])).2)).2 0).res1 = 0 := by
  decide

set_option maxRecDepth 1000000 in
/-- C2 (the code at the failing input). After a reset and 255 calls of
`_wri_new_paragraph`, all with successful allocation, 256 runs of the paragraph
list point to the record at address 0 while the count stored in that record
is 0. -/
theorem refcount_not_conserved_after_255 :
    (new_paragraphs 255 (wri_new (first_use [])).2)._wri_error = 0 ∧
    pap_refs (new_paragraphs 255 (wri_new (first_use [])).2) 0 = 256 ∧
    (pap_at (new_paragraphs 255 (wri_new (first_use [])).2) 0).res1 = 0 := by
  decide

/-! ### Every call keeps every property closed under the primitive steps -/

section closed
variable {P : State → Prop} (hP : Closed P)
include hP

theorem set_pap_curr_keeps (s : State) (p : PAP) (h : P s) : P (set_pap_curr s p) :=
  hP.set_pap _ _ _ h

theorem this_para_keeps (s : State) (h : P s) : P (this_para s).2 := by
  unfold this_para
  split_ifs
  · exact h
  · exact hP.clone s h

theorem this_para_set_keeps (s : State) (g : State → PAP) (h : P s) :
    P (match this_para s with
      | (false, s1) => ((1 : Int), s1)
      | (true, s1) => (0, set_pap_curr s1 (g s1))).2 := by
  have h1 := this_para_keeps hP s h
  split
  · simp_all
  · rename_i s1 he
    rw [he] at h1
    exact hP.set_pap _ _ _ h1

theorem wri_para_justify_keeps (v : Int) (s : State) (h : P s) :
    P (wri_para_justify v s).2 := by
  unfold wri_para_justify
  split_ifs
  · exact h
  · exact h
  · exact this_para_set_keeps hP _ _ h

theorem wri_para_interline_keeps (v : Int) (s : State) (h : P s) :
    P (wri_para_interline v s).2 := by
  unfold wri_para_interline
  split_ifs
  · exact h
  · exact h
  · exact this_para_set_keeps hP _ _ h

theorem wri_para_indent_left_keeps (v : Int) (s : State) (h : P s) :
    P (wri_para_indent_left v s).2 := by
  unfold wri_para_indent_left
  split_ifs
  · exact h
  · exact h
  · exact this_para_set_keeps hP _ _ h

theorem wri_para_indent_right_keeps (v : Int) (s : State) (h : P s) :
    P (wri_para_indent_right v s).2 := by
  unfold wri_para_indent_right
  split_ifs
  · exact h
  · exact h
  · exact this_para_set_keeps hP _ _ h

theorem wri_para_indent_first_keeps (v : Int) (s : State) (h : P s) :
    P (wri_para_indent_first v s).2 := by
  unfold wri_para_indent_first
  split_ifs
  · exact h
  · exact this_para_set_keeps hP _ _ h

theorem wri_para_normal_keeps (s : State) (h : P s) : P (wri_para_normal s).2 := by
  unfold wri_para_normal
  dsimp only
  have h1 := wri_para_justify_keeps hP WRI_LEFT s h
  generalize wri_para_justify WRI_LEFT s = r1 at h1 ⊢
  have h2 := wri_para_interline_keeps hP WRI_SINGLE _ h1
  generalize wri_para_interline WRI_SINGLE r1.2 = r2 at h2 ⊢
  have h3 := wri_para_indent_left_keeps hP 0 _ h2
  generalize wri_para_indent_left 0 r2.2 = r3 at h3 ⊢
  have h4 := wri_para_indent_right_keeps hP 0 _ h3
  generalize wri_para_indent_right 0 r3.2 = r4 at h4 ⊢
  have h5 := wri_para_indent_first_keeps hP 0 _ h4
  generalize wri_para_indent_first 0 r4.2 = r5 at h5 ⊢
  split_ifs
  · exact h1
  · exact h2
  · exact h3
  · exact h4
  · exact h5
  · exact h5

theorem _wri_set_default_pap_keeps (s : State) (h : P s) : P (_wri_set_default_pap s).2 := by
  unfold _wri_set_default_pap
  exact this_para_set_keeps hP _ _ h

theorem _wri_restore_pap_keeps (s : State) (h : P s) : P (_wri_restore_pap s).2 := by
  unfold _wri_restore_pap
  exact this_para_set_keeps hP _ _ h

theorem wri_text_fuel_keeps (fuel : Nat) (t : List Nat) (s : State) (h : P s) :
    P (wri_text_fuel fuel t s).2 := by
  induction fuel generalizing t s with
  | zero => exact h
  | succ fuel ih =>
    unfold wri_text_fuel
    dsimp only
    have h0 : P (if s.text_fp = none then create_tempfile s else s) := by
      split_ifs
      · exact hP.tempfile s h
      · exact h
    generalize (if s.text_fp = none then create_tempfile s else s) = s0 at h0 ⊢
    have h6 := hP.do_text t s0 h0
    generalize do_text t s0 = r6 at h6 ⊢
    have h1 := hP.do_text (t.takeWhile (fun c => c ≠ 1)) s0 h0
    generalize do_text (t.takeWhile (fun c => c ≠ 1)) s0 = r1 at h1 ⊢
    have h2 := _wri_chp_special_keeps hP.toChpClosed 1 _ h1
    generalize _wri_chp_special 1 r1.2 = r2 at h2 ⊢
    have h3 := hP.do_text [1] _ h2
    generalize do_text [1] r2.2 = r3 at h3 ⊢
    have h4 := _wri_chp_special_keeps hP.toChpClosed 0 _ h3
    generalize _wri_chp_special 0 r3.2 = r4 at h4 ⊢
    have h5 := ih (t.dropWhile (fun c => c ≠ 1)).tail _ h4
    generalize wri_text_fuel fuel (t.dropWhile (fun c => c ≠ 1)).tail r4.2 = r5 at h5 ⊢
    split_ifs
    · exact h0
    · exact h1
    · exact h2
    · exact h3
    · exact h4
    · exact h5
    · exact h6
    · exact h6

theorem wri_text_keeps (t : List Nat) (s : State) (h : P s) : P (wri_text t s).2 :=
  wri_text_fuel_keeps hP _ t s h

theorem wri_doc_return_keeps (s : State) (h : P s) : P (wri_doc_return s).2 := by
  unfold wri_doc_return
  dsimp only
  have h1 := wri_text_keeps hP [10] s h
  generalize wri_text [10] s = r1 at h1 ⊢
  have h2 := _wri_restore_chp_keeps hP.toChpClosed _ h1
  generalize _wri_restore_chp r1.2 = r2 at h2 ⊢
  have h3 := _wri_restore_pap_keeps hP _ h2
  generalize _wri_restore_pap r2.2 = r3 at h3 ⊢
  have h4 := hP.in_rhc _ 0 h3
  split_ifs
  · exact h
  · exact h2
  · exact h3
  · exact h4

theorem start_rhc_body_keeps (hf : Int) (s : State) (h : P s) :
    P (start_rhc_body hf s).2 := by
  unfold start_rhc_body
  dsimp only
  have h1 : P (if s.lpap_curr.cpFirst ≠ s.lpap_curr.cpLim then _wri_new_paragraph s
      else ((0 : Int), s)).2 := by
    split_ifs
    · exact hP.new_par s h
    · exact h
  generalize (if s.lpap_curr.cpFirst ≠ s.lpap_curr.cpLim then _wri_new_paragraph s
      else ((0 : Int), s)) = r1 at h1 ⊢
  have h2 : P (_wri_preserve_pap (_wri_preserve_chp r1.2)) :=
    hP.saved_pap _ _ (hP.saved_chp _ _ h1)
  generalize _wri_preserve_pap (_wri_preserve_chp r1.2) = s2 at h2 ⊢
  have h3 := _wri_set_default_chp_keeps hP.toChpClosed _ h2
  generalize _wri_set_default_chp s2 = r3 at h3 ⊢
  have h4 := wri_char_font_size_keeps hP.toChpClosed 10 _ h3
  generalize wri_char_font_size 10 r3.2 = r4 at h4 ⊢
  have h5 := _wri_set_default_pap_keeps hP _ h4
  generalize _wri_set_default_pap r4.2 = r5 at h5 ⊢
  split_ifs
  · exact h1
  · exact h3
  · exact h5
  · exact hP.in_rhc _ 1 (set_pap_curr_keeps hP _ _ (set_pap_curr_keeps hP _ _ h5))

theorem start_rhc_keeps (hf : Int) (s : State) (h : P s) : P (start_rhc hf s).2 := by
  unfold start_rhc
  dsimp only
  have h3 := start_rhc_body_keeps hP hf _ h
  generalize start_rhc_body hf s = r3 at h3 ⊢
  have h1 := wri_doc_return_keeps hP s h
  generalize wri_doc_return s = r1 at h1 ⊢
  have h2 := start_rhc_body_keeps hP hf _ h1
  generalize start_rhc_body hf r1.2 = r2 at h2 ⊢
  split_ifs
  · exact h
  · exact h
  · exact h1
  · exact h2
  · exact h3

theorem call_keeps (c : Call) (s : State) (h : P s) : P (c.run s).2 := by
  cases c <;> simp only [Call.run]
  · exact wri_text_keeps hP _ s h
  · exact wri_char_normal_keeps hP.toChpClosed s h
  · exact wri_char_bold_keeps hP.toChpClosed _ s h
  · exact wri_char_italic_keeps hP.toChpClosed _ s h
  · exact wri_char_underline_keeps hP.toChpClosed _ s h
  · exact wri_char_script_keeps hP.toChpClosed _ s h
  · exact wri_char_font_name_keeps hP.toChpClosed _ s h
  · exact wri_char_font_size_keeps hP.toChpClosed _ s h
  · exact wri_char_reduce_keeps hP.toChpClosed s h
  · exact wri_char_enlarge_keeps hP.toChpClosed s h
  · exact wri_para_normal_keeps hP s h
  · exact wri_para_justify_keeps hP _ s h
  · exact wri_para_interline_keeps hP _ s h
  · exact wri_para_indent_left_keeps hP _ s h
  · exact wri_para_indent_right_keeps hP _ s h
  · exact wri_para_indent_first_keeps hP _ s h
  · exact start_rhc_keeps hP 0 s h
  · exact start_rhc_keeps hP 1 s h
  · exact wri_doc_return_keeps hP s h

theorem run_calls_keeps (cs : List Call) (s : State) (h : P s) : P (run_calls cs s) := by
  induction cs generalizing s with
  | nil => exact h
  | cons c cs ih => exact ih _ (call_keeps hP c s h)

end closed

/-! ### Gaplessness is kept by every primitive step -/

theorem covers_snoc {α : Type} (l : List (lprop α)) (r : lprop α) (a : Nat)
    (h : covers a l r.cpFirst) (hr : r.cpFirst ≤ r.cpLim) : covers a (l ++ [r]) r.cpLim := by
  induction l generalizing a with
  | nil =>
    simp only [covers] at h
    simp only [List.nil_append, covers]
    exact ⟨h.symm, hr, trivial⟩
  | cons x xs ih =>
    simp only [covers] at h
    simp only [List.cons_append, covers]
    exact ⟨h.1, h.2.1, ih _ h.2.2⟩

theorem AllocOK_tail (s : State) (h : AllocOK s) : ∀ b ∈ s.malloc_ok.tail, b = true :=
  fun b hb => h b (List.mem_of_mem_tail hb)

theorem AllocOK_succeeds (s : State) (h : AllocOK s) : alloc_succeeds s := by
  unfold alloc_succeeds
  cases hm : s.malloc_ok with
  | nil => rfl
  | cons b bs =>
    have := h b (by rw [hm]; exact List.mem_cons_self _ _)
    simp [this]

theorem malloc_of_AllocOK (s : State) (h : AllocOK s) :
    malloc s = (true, { s with malloc_ok := s.malloc_ok.tail }) :=
  malloc_of_succeeds s (AllocOK_succeeds s h)

theorem clone_pap_shape (s : State) (h : AllocOK s) :
    (clone_pap s).1 = true ∧ AllocOK (clone_pap s).2 ∧
    (clone_pap s).2.lchp_list = s.lchp_list ∧ (clone_pap s).2.lchp_curr = s.lchp_curr ∧
    (clone_pap s).2._wri_cpMac = s._wri_cpMac ∧
    (clone_pap s).2.lpap_list = s.lpap_list ∧
    (clone_pap s).2.lpap_curr.cpFirst = s.lpap_curr.cpFirst ∧
    (clone_pap s).2.lpap_curr.cpLim = s.lpap_curr.cpLim := by
  unfold clone_pap
  rw [malloc_of_AllocOK s h]
  exact ⟨rfl, AllocOK_tail s h, rfl, rfl, rfl, rfl, rfl, rfl⟩

theorem new_paragraph_shape (s : State) (h : AllocOK s) :
    (_wri_new_paragraph s).1 = 0 ∧ AllocOK (_wri_new_paragraph s).2 ∧
    (_wri_new_paragraph s).2.lchp_list = s.lchp_list ∧
    (_wri_new_paragraph s).2.lchp_curr = s.lchp_curr ∧
    (_wri_new_paragraph s).2._wri_cpMac = s._wri_cpMac ∧
    (_wri_new_paragraph s).2.lpap_list = s.lpap_list ++ [s.lpap_curr] ∧
    (_wri_new_paragraph s).2.lpap_curr.cpFirst = s.lpap_curr.cpLim ∧
    (_wri_new_paragraph s).2.lpap_curr.cpLim = s.lpap_curr.cpLim := by
  unfold _wri_new_paragraph _wri_new_lprop
  rw [malloc_of_AllocOK s h]
  dsimp only
  split_ifs
  · generalize hs3 : set_pap_curr _ _ = s3
    have h3 : AllocOK s3 := by
      rw [← hs3]
      exact AllocOK_tail s h
    have hc := clone_pap_shape s3 h3
    rcases hq : clone_pap s3 with ⟨b, s4⟩
    rw [hq] at hc
    dsimp only at hc
    rcases hc with ⟨hb, h4, e1, e2, e3, e4, e5, e6⟩
    subst hb
    dsimp only
    subst hs3
    exact ⟨rfl, h4, e1, e2, e3, e4, e5, e6⟩
  · exact ⟨rfl, AllocOK_tail s h, rfl, rfl, rfl, rfl, rfl, rfl⟩

theorem new_chp_Inv (s : State) (h : Inv s) : Inv (new_chp s).2 := by
  unfold new_chp
  split_ifs
  · exact h
  · unfold _wri_new_lprop
    rw [malloc_of_AllocOK s h.1]
    rcases h with ⟨ha, ⟨c1, c2, c3⟩, hp⟩
    exact ⟨AllocOK_tail s ha, ⟨covers_snoc _ _ _ c1 c2, le_refl _, c3⟩, hp⟩

theorem font_Inv (n : List Nat) (f : Nat) (s : State) (h : Inv s) :
    Inv (_wri_cvt_font_name_to_code n f s).2 := by
  unfold _wri_cvt_font_name_to_code
  split
  · dsimp only
    split <;> exact h
  · split
    · exact h
    · rw [malloc_of_AllocOK s h.1]
      exact ⟨AllocOK_tail s h.1, h.2.1, h.2.2⟩

theorem clone_pap_Inv (s : State) (h : Inv s) : Inv (clone_pap s).2 := by
  rcases clone_pap_shape s h.1 with ⟨_, h4, e1, e2, e3, e4, e5, e6⟩
  rcases h with ⟨_, hc, hp⟩
  refine ⟨h4, ?_, ?_⟩
  · rw [e1, e2, e3]; exact hc
  · unfold RunsTight at hp ⊢
    rw [e3, e4, e5, e6]; exact hp

theorem new_paragraph_Inv (s : State) (h : Inv s) : Inv (_wri_new_paragraph s).2 := by
  rcases new_paragraph_shape s h.1 with ⟨_, h4, e1, e2, e3, e4, e5, e6⟩
  rcases h with ⟨_, hc, ⟨p1, p2, p3⟩⟩
  refine ⟨h4, ?_, ?_⟩
  · rw [e1, e2, e3]; exact hc
  · unfold RunsTight
    rw [e3, e4, e5, e6]
    exact ⟨covers_snoc _ _ _ p1 p2, le_refl _, p3⟩

theorem do_text_loop_InvLoose (t : List Nat) (s : State) (h : InvLoose s) :
    (do_text_loop t s).1 = 0 ∧ InvLoose (do_text_loop t s).2 := by
  induction t generalizing s with
  | nil => exact ⟨rfl, h⟩
  | cons c rest ih =>
    unfold do_text_loop
    have hstep : ∀ s1 : State, InvLoose s1 →
        InvLoose { putc c s1 with _wri_cpMac := s1._wri_cpMac + 1 } := by
      intro s1 h1
      rcases h1 with ⟨a, ⟨c1, c2, c3⟩, ⟨p1, p2, p3⟩⟩
      exact ⟨a, ⟨c1, c2, Nat.le_succ_of_le c3⟩, ⟨p1, p2, Nat.le_succ_of_le p3⟩⟩
    have hcr : InvLoose (if c = 10 then { putc 13 s with _wri_cpMac := s._wri_cpMac + 1 } else s) := by
      split_ifs
      · rcases h with ⟨a, ⟨c1, c2, c3⟩, ⟨p1, p2, p3⟩⟩
        exact ⟨a, ⟨c1, c2, Nat.le_succ_of_le c3⟩, ⟨p1, p2, Nat.le_succ_of_le p3⟩⟩
      · exact h
    dsimp only
    generalize (if c = 10 then { putc 13 s with _wri_cpMac := s._wri_cpMac + 1 } else s) = s1
      at hcr ⊢
    have h2 := hstep s1 hcr
    generalize hs2 : ({ putc c s1 with _wri_cpMac := s1._wri_cpMac + 1 } : State) = s2 at h2 ⊢
    have e2 : s1._wri_cpMac + 1 = s2._wri_cpMac := by rw [← hs2]
    rw [e2]
    clear hs2 e2
    have h3 : InvLoose (_wri_extend_pap s2._wri_cpMac s2) := by
      rcases h2 with ⟨a, hc, ⟨p1, p2, p3⟩⟩
      exact ⟨a, hc, ⟨p1, le_trans p2 p3, le_refl _⟩⟩
    have h4 : (_wri_new_paragraph (_wri_extend_pap s2._wri_cpMac s2)).1 = 0 ∧
        InvLoose (_wri_new_paragraph (_wri_extend_pap s2._wri_cpMac s2)).2 := by
      rcases new_paragraph_shape _ h3.1 with ⟨r0, h4, e1, e2, e3, e4, e5, e6⟩
      rcases h3 with ⟨_, hc, ⟨p1, p2, p3⟩⟩
      refine ⟨r0, h4, ?_, ?_⟩
      · rw [e1, e2, e3]; exact hc
      · unfold RunsLoose
        rw [e3, e4, e5, e6]
        exact ⟨covers_snoc _ _ _ p1 p2, le_refl _, p3⟩
    generalize _wri_new_paragraph (_wri_extend_pap s2._wri_cpMac s2) = r4 at h4 ⊢
    rcases r4 with ⟨r, s4⟩
    dsimp only at h4 ⊢
    split_ifs
    · exact ih s h
    · exact ih s h
    · exact ih s h
    · exact absurd h4.1 (by assumption)
    · exact ih s4 h4.2
    · exact ih s2 h2

theorem do_text_Inv (t : List Nat) (s : State) (h : Inv s) : Inv (do_text t s).2 := by
  have hl : InvLoose s := by
    rcases h with ⟨a, ⟨c1, c2, c3⟩, ⟨p1, p2, p3⟩⟩
    exact ⟨a, ⟨c1, c2, le_of_eq c3⟩, ⟨p1, p2, le_of_eq p3⟩⟩
  have h1 := do_text_loop_InvLoose t s hl
  unfold do_text
  generalize do_text_loop t s = r1 at h1 ⊢
  rcases r1 with ⟨r, s1⟩
  dsimp only at h1 ⊢
  rw [if_neg (by rw [h1.1]; simp)]
  rcases h1.2 with ⟨a, ⟨c1, c2, c3⟩, ⟨p1, p2, p3⟩⟩
  dsimp only
  split_ifs
  · exact ⟨a, ⟨c1, le_trans c2 c3, rfl⟩, ⟨p1, le_trans p2 p3, rfl⟩⟩
  · exact ⟨a, ⟨c1, le_trans c2 c3, rfl⟩, ⟨p1, le_trans p2 p3, rfl⟩⟩

theorem Inv_closed : Closed Inv where
  set_chp := fun _ _ h => h
  new_chp := new_chp_Inv
  font := font_Inv
  set_pap := fun _ _ _ h => h
  clone := clone_pap_Inv
  new_par := new_paragraph_Inv
  do_text := do_text_Inv
  tempfile := fun _ h => h
  in_rhc := fun _ _ h => h
  saved_chp := fun _ _ h => h
  saved_pap := fun _ _ h => h

/-! ### Gaplessness in every reachable state -/

theorem covers_head {α : Type} (l : List (lprop α)) (a e : Nat) (r : lprop α)
    (h : covers a l e) (hr : l.head? = some r) : r.cpFirst = a := by
  cases l with
  | nil => simp at hr
  | cons x xs =>
    simp only [List.head?_cons, Option.some.injEq] at hr
    subst hr
    exact h.1

theorem covers_adjacent {α : Type} (l : List (lprop α)) (a e : Nat) (h : covers a l e)
    (i : Nat) (x y : lprop α) (hx : l[i]? = some x) (hy : l[i + 1]? = some y) :
    x.cpLim = y.cpFirst := by
  induction l generalizing a i with
  | nil => simp at hx
  | cons r rs ih =>
    cases i with
    | zero =>
      simp only [List.getElem?_cons_zero, Option.some.injEq] at hx
      simp only [zero_add, List.getElem?_cons_succ] at hy
      subst hx
      have hh : rs.head? = some y := by
        rw [← hy]
        cases rs <;> simp
      exact (covers_head rs _ e y h.2.2 hh).symm
    | succ j =>
      simp only [List.getElem?_cons_succ] at hx hy
      exact ih _ h.2.2 j hx hy

theorem covers_ordered {α : Type} (l : List (lprop α)) (a e : Nat) (h : covers a l e) :
    ∀ r ∈ l, r.cpFirst ≤ r.cpLim := by
  induction l generalizing a with
  | nil => intro r hr; simp at hr
  | cons x xs ih =>
    intro r hr
    rcases List.mem_cons.mp hr with e1 | e1
    · subst e1; exact h.2.1
    · exact ih _ h.2.2 r e1

theorem Gapless_of_RunsTight {α : Type} (l : List (lprop α)) (c : lprop α) (cpMac : Nat)
    (h : RunsTight l c cpMac) : Gapless (l ++ [c]) cpMac := by
  rcases h with ⟨h1, h2, h3⟩
  have hc := covers_snoc l c 0 h1 h2
  refine ⟨?_, ?_, covers_ordered _ _ _ hc, ⟨c, by simp, h3⟩⟩
  · cases hh : (l ++ [c]).head? with
    | none => simp at hh
    | some r => exact ⟨r, rfl, covers_head _ _ _ r hc hh⟩
  · intro i x y hx hy
    exact covers_adjacent _ _ _ hc i x y hx hy

theorem free_lpaps_frame (nodes : List lpap) (s : State) :
    free_lpaps nodes s = { s with paps := (free_lpaps nodes s).paps } := by
  induction nodes generalizing s with
  | nil => rfl
  | cons n ns ih =>
    have e : free_lpaps (n :: ns) s = free_lpaps ns (set_pap_at s n.prop
        { pap_at s n.prop with res1 := ((pap_at s n.prop).res1 + 255) % 256 }) := rfl
    rw [e, ih]
    rfl

theorem reinit_pap_shape (s : State) :
    (_wri_reinit_pap s).2.malloc_ok = s.malloc_ok ∧
    (_wri_reinit_pap s).2.lchp_list = s.lchp_list ∧
    (_wri_reinit_pap s).2.lchp_curr = s.lchp_curr ∧
    (_wri_reinit_pap s).2._wri_cpMac = s._wri_cpMac ∧
    (_wri_reinit_pap s).2.lpap_list = [] ∧
    (_wri_reinit_pap s).2.lpap_curr.cpFirst = 0 ∧
    (_wri_reinit_pap s).2.lpap_curr.cpLim = 0 := by
  unfold _wri_reinit_pap wri_doc_tab_cancel
  dsimp only
  rw [free_lpaps_frame]
  exact ⟨rfl, rfl, rfl, rfl, rfl, rfl, rfl⟩

theorem wri_new_unfold (s0 : State) :
    (wri_new s0).2 = (_wri_reinit_font (_wri_reinit_section (_wri_reinit_pap
      (_wri_reinit_chp (_wri_reinit_text { s0 with _wri_error := 0 }).2).2).2).2).2 := by
  have e : (_wri_reinit_pap (_wri_reinit_chp (_wri_reinit_text
      { s0 with _wri_error := 0 }).2).2).1 = 0 := rfl
  unfold wri_new reinit_all
  dsimp only
  rw [e]
  rfl

theorem wri_new_Inv (s0 : State) (h : AllocOK s0) : Inv (wri_new s0).2 := by
  rw [wri_new_unfold]
  generalize hs2 : (_wri_reinit_chp (_wri_reinit_text { s0 with _wri_error := 0 }).2).2 = s2
  have a0 : s2.malloc_ok = s0.malloc_ok := by rw [← hs2]; rfl
  have a1 : s2.lchp_list = [] := by rw [← hs2]; rfl
  have a2 : s2.lchp_curr.cpFirst = 0 := by rw [← hs2]; rfl
  have a3 : s2.lchp_curr.cpLim = 0 := by rw [← hs2]; rfl
  have a4 : s2._wri_cpMac = 0 := by rw [← hs2]; rfl
  rcases reinit_pap_shape s2 with ⟨e0, e1, e2, e3, e4, e5, e6⟩
  generalize (_wri_reinit_pap s2).2 = s3 at e0 e1 e2 e3 e4 e5 e6 ⊢
  refine ⟨?_, ?_, ?_⟩
  · intro b hb
    have hb2 : b ∈ s3.malloc_ok := hb
    rw [e0, a0] at hb2
    exact h b hb2
  · show RunsTight s3.lchp_list s3.lchp_curr s3._wri_cpMac
    unfold RunsTight
    rw [e1, e2, e3, a1, a2, a3, a4]
    exact ⟨rfl, le_refl _, rfl⟩
  · show RunsTight s3.lpap_list s3.lpap_curr s3._wri_cpMac
    unfold RunsTight
    rw [e3, e4, e5, e6, a4]
    exact ⟨rfl, le_refl _, rfl⟩

/-- C1. Gaplessness: in every state reached from a reset (`wri_new` applied to
any state) by any sequence of `wri_text`, `wri_char_*`, `wri_para_*` and
`wri_doc_header` / `wri_doc_footer` / `wri_doc_return` calls during which
`malloc` never fails, the character run list and the paragraph run list both
start at 0, have each run begin where the one before ends, have no run with its
limit before its start, and end at the text length `_wri_cpMac`. -/
theorem gapless_reachable (s0 : State) (cs : List Call) (h : AllocOK s0) :
    Gapless (lchp_runs (run_calls cs (wri_new s0).2)) (run_calls cs (wri_new s0).2)._wri_cpMac ∧
    Gapless (lpap_runs (run_calls cs (wri_new s0).2)) (run_calls cs (wri_new s0).2)._wri_cpMac := by
  have hi := run_calls_keeps Inv_closed cs _ (wri_new_Inv s0 h)
  exact ⟨Gapless_of_RunsTight _ _ _ hi.2.1, Gapless_of_RunsTight _ _ _ hi.2.2⟩

/-- Witness for C1 on `calls_sample` after a reset of the first-use state: six
character runs and four paragraph runs covering `[0, 11)`. -/
theorem gapless_reachable_witness :
    AllocOK (first_use []) ∧
    (lchp_runs (run_calls calls_sample (wri_new (first_use [])).2)).map
      (fun r => (r.cpFirst, r.cpLim)) = [(0, 1), (1, 2), (2, 4), (4, 8), (8, 10), (10, 11)] ∧
    (run_calls calls_sample (wri_new (first_use [])).2)._wri_cpMac = 11 ∧
    Gapless (lpap_runs (run_calls calls_sample (wri_new (first_use [])).2)) 11 :=
  ⟨fun _ hb => absurd hb (List.not_mem_nil _), by decide, by decide,
   (gapless_reachable (first_use []) calls_sample (fun _ hb => absurd hb (List.not_mem_nil _))).2⟩

/-! ### The recursion of `wri_text` never runs out of fuel -/

theorem length_after_page_number (t : List Nat) (h : 1 ∈ t) :
    (t.dropWhile (fun c => c ≠ 1)).tail.length < t.length := by
  have hpos : 0 < t.length := List.length_pos_of_mem h
  have hle : (t.dropWhile (fun c => c ≠ 1)).length ≤ t.length :=
    (List.dropWhile_sublist _).length_le
  rw [List.length_tail]
  omega

theorem wri_text_fuel_stable (fuel : Nat) :
    ∀ (fuel2 : Nat) (t : List Nat) (s : State), t.length < fuel → t.length < fuel2 →
      wri_text_fuel fuel t s = wri_text_fuel fuel2 t s := by
  induction fuel with
  | zero => intro fuel2 t s h; omega
  | succ fuel ih =>
    intro fuel2 t s h1 h2
    cases fuel2 with
    | zero => omega
    | succ fuel2 =>
      unfold wri_text_fuel
      dsimp only
      by_cases hm : 1 ∈ t
      · have hl := length_after_page_number t hm
        rw [ih fuel2 _ _ (by omega) (by omega)]
      · simp only [hm, if_false]

theorem wri_text_enough_fuel (fuel : Nat) (t : List Nat) (s : State) (h : t.length < fuel) :
    wri_text_fuel fuel t s = wri_text t s :=
  wri_text_fuel_stable fuel (t.length + 1) t s h (Nat.lt_succ_self _)

/-! ### Point-size reduce and enlarge -/

theorem new_chp_chp_curr (s : State) (h : (new_chp s).1 = true) :
    chp_curr (new_chp s).2 = chp_curr s := by
  unfold new_chp at h ⊢
  split_ifs at h ⊢
  · rfl
  · unfold _wri_new_lprop malloc at h ⊢
    cases hm : s.malloc_ok.headD true
    · rw [hm] at h
      simp at h
    · rfl

theorem reduce_loop_eq (h : Nat) :
    reduce_loop h (N_HPS_VALUES - 1) =
      if 96 < h then 9 else if 72 < h then 8 else if 60 < h then 7 else if 48 < h then 6
      else if 36 < h then 5 else if 28 < h then 4 else if 24 < h then 3 else if 20 < h then 2
      else if 16 < h then 1 else if 12 < h then 0 else -1 := rfl

theorem reduce_loop_spec (h : Nat) (hh : 12 < h) :
    0 ≤ reduce_loop h (N_HPS_VALUES - 1) ∧ reduce_loop h (N_HPS_VALUES - 1) ≤ 9 ∧
    hps_values.getD (reduce_loop h (N_HPS_VALUES - 1)).toNat 0 ∈ hps_values ∧
    hps_values.getD (reduce_loop h (N_HPS_VALUES - 1)).toNat 0 < h ∧
    (∀ v ∈ hps_values, v < h → v ≤ hps_values.getD (reduce_loop h (N_HPS_VALUES - 1)).toNat 0) := by
  rw [reduce_loop_eq]
  have hall : ∀ (P : Nat → Prop), (∀ v ∈ hps_values, P v) ↔
      (P 12 ∧ P 16 ∧ P 20 ∧ P 24 ∧ P 28 ∧ P 36 ∧ P 48 ∧ P 60 ∧ P 72 ∧ P 96) := by
    intro P
    simp [hps_values]
  rw [hall]
  have e0 : hps_values.getD (Int.toNat 0) 0 = 12 := rfl
  have e1 : hps_values.getD (Int.toNat 1) 0 = 16 := rfl
  have e2 : hps_values.getD (Int.toNat 2) 0 = 20 := rfl
  have e3 : hps_values.getD (Int.toNat 3) 0 = 24 := rfl
  have e4 : hps_values.getD (Int.toNat 4) 0 = 28 := rfl
  have e5 : hps_values.getD (Int.toNat 5) 0 = 36 := rfl
  have e6 : hps_values.getD (Int.toNat 6) 0 = 48 := rfl
  have e7 : hps_values.getD (Int.toNat 7) 0 = 60 := rfl
  have e8 : hps_values.getD (Int.toNat 8) 0 = 72 := rfl
  have e9 : hps_values.getD (Int.toNat 9) 0 = 96 := rfl
  split_ifs
  all_goals refine ⟨by decide, by decide, by decide, ?_, ?_⟩
  all_goals simp only [e0, e1, e2, e3, e4, e5, e6, e7, e8, e9]
  all_goals omega

/-- C19. `wri_char_reduce`: with current size `h` (half-points), the state is
unchanged and 0 is returned when `h ≤ 12`; otherwise, when `new_chp` gives a
run, the call returns 0 and the current run gets the largest value of the table
`hps_values` that is strictly less than `h`, nothing else of its record
changing; from 12 it is a no-op and from 16 it yields 12. -/
theorem wri_char_reduce_spec (s : State) :
    ((chp_curr s).hps ≤ 12 → wri_char_reduce s = (0, s)) ∧
    (12 < (chp_curr s).hps → (new_chp s).1 = true →
      (wri_char_reduce s).1 = 0 ∧
      (chp_curr (wri_char_reduce s).2).hps ∈ hps_values ∧
      (chp_curr (wri_char_reduce s).2).hps < (chp_curr s).hps ∧
      (∀ v ∈ hps_values, v < (chp_curr s).hps → v ≤ (chp_curr (wri_char_reduce s).2).hps) ∧
      chp_curr (wri_char_reduce s).2 =
        { chp_curr s with hps := (chp_curr (wri_char_reduce s).2).hps }) ∧
    ((chp_curr s).hps = 12 → wri_char_reduce s = (0, s)) ∧
    ((chp_curr s).hps = 16 → (new_chp s).1 = true →
      (chp_curr (wri_char_reduce s).2).hps = 12) := by
  have hsmall : (chp_curr s).hps ≤ 12 → wri_char_reduce s = (0, s) := by
    intro h
    unfold wri_char_reduce
    rw [if_pos (by simpa [hps_values] using h)]
  have hbig : 12 < (chp_curr s).hps → (new_chp s).1 = true →
      (wri_char_reduce s).1 = 0 ∧ chp_curr (wri_char_reduce s).2 =
        { chp_curr s with hps :=
            hps_values.getD (reduce_loop (chp_curr s).hps (N_HPS_VALUES - 1)).toNat 0 } := by
    intro h hn
    have hc := new_chp_chp_curr s hn
    unfold wri_char_reduce
    rw [if_neg (by simp [hps_values]; omega)]
    rcases hq : new_chp s with ⟨b, s1⟩
    rw [hq] at hn hc
    dsimp only at hn hc ⊢
    subst hn
    dsimp only
    rw [hc]
    exact ⟨rfl, rfl⟩
  refine ⟨hsmall, ?_, fun h => hsmall (le_of_eq h), ?_⟩
  · intro h hn
    rcases hbig h hn with ⟨r0, e⟩
    rcases reduce_loop_spec _ h with ⟨_, _, m1, m2, m3⟩
    have ehps : (chp_curr (wri_char_reduce s).2).hps =
        hps_values.getD (reduce_loop (chp_curr s).hps (N_HPS_VALUES - 1)).toNat 0 := by
      rw [e]
    refine ⟨r0, ?_, ?_, ?_, ?_⟩
    · rw [ehps]; exact m1
    · rw [ehps]; exact m2
    · rw [ehps]; exact m3
    · rw [ehps]; exact e
  · intro h hn
    rcases hbig (by omega) hn with ⟨_, e⟩
    rw [e, h]
    rfl

/-- Witness for C19: in `doc_abc` the size is 24 half-points and `malloc`
succeeds; `wri_char_reduce` leaves the current run with 20. -/
theorem wri_char_reduce_spec_witness :
    12 < (chp_curr doc_abc).hps ∧ (new_chp doc_abc).1 = true ∧
    (chp_curr (wri_char_reduce doc_abc).2).hps = 20 :=
  ⟨by decide, by decide, by
    have h := ((wri_char_reduce_spec doc_abc).2.1 (by decide) (by decide)).2.2.2.1
    have h2 := ((wri_char_reduce_spec doc_abc).2.1 (by decide) (by decide)).2.2.1
    exact le_antisymm (by
      have : (chp_curr doc_abc).hps = 24 := by decide
      rw [this] at h2
      have hm := ((wri_char_reduce_spec doc_abc).2.1 (by decide) (by decide)).2.1
      simp only [hps_values, List.mem_cons, List.mem_singleton, List.not_mem_nil, or_false] at hm
      omega) (h 20 (by decide) (by decide))⟩

theorem enlarge_loop_eq (h : Nat) :
    enlarge_loop h N_HPS_VALUES 0 =
      if 12 > h then 0 else if 16 > h then 1 else if 20 > h then 2 else if 24 > h then 3
      else if 28 > h then 4 else if 36 > h then 5 else if 48 > h then 6 else if 60 > h then 7
      else if 72 > h then 8 else 9 := rfl

theorem enlarge_loop_spec (h : Nat) (hh : h < 96) :
    enlarge_loop h N_HPS_VALUES 0 ≤ 9 ∧
    hps_values.getD (enlarge_loop h N_HPS_VALUES 0) 0 ∈ hps_values ∧
    h < hps_values.getD (enlarge_loop h N_HPS_VALUES 0) 0 ∧
    (∀ v ∈ hps_values, h < v → hps_values.getD (enlarge_loop h N_HPS_VALUES 0) 0 ≤ v) := by
  rw [enlarge_loop_eq]
  have hall : ∀ (P : Nat → Prop), (∀ v ∈ hps_values, P v) ↔
      (P 12 ∧ P 16 ∧ P 20 ∧ P 24 ∧ P 28 ∧ P 36 ∧ P 48 ∧ P 60 ∧ P 72 ∧ P 96) := by
    intro P
    simp [hps_values]
  rw [hall]
  have e0 : hps_values.getD 0 0 = 12 := rfl
  have e1 : hps_values.getD 1 0 = 16 := rfl
  have e2 : hps_values.getD 2 0 = 20 := rfl
  have e3 : hps_values.getD 3 0 = 24 := rfl
  have e4 : hps_values.getD 4 0 = 28 := rfl
  have e5 : hps_values.getD 5 0 = 36 := rfl
  have e6 : hps_values.getD 6 0 = 48 := rfl
  have e7 : hps_values.getD 7 0 = 60 := rfl
  have e8 : hps_values.getD 8 0 = 72 := rfl
  have e9 : hps_values.getD 9 0 = 96 := rfl
  split_ifs
  all_goals refine ⟨by decide, by decide, ?_, ?_⟩
  all_goals simp only [e0, e1, e2, e3, e4, e5, e6, e7, e8, e9]
  all_goals omega

theorem enlarge_loop_in_table (h : Nat) : enlarge_loop h N_HPS_VALUES 0 ≤ N_HPS_VALUES - 1 := by
  rw [enlarge_loop_eq]
  split_ifs <;> decide

/-- C20. `wri_char_enlarge`: with current size `h` (half-points), the state is
unchanged and 0 is returned when `h ≥ 96`; otherwise, when `new_chp` gives a
run, the call returns 0 and the current run gets the smallest value of the
table `hps_values` that is strictly greater than `h`, nothing else of its record
changing; the index the loop ends with is never past the last entry of the
table, whatever `h`; from 12 the size becomes 16. -/
theorem wri_char_enlarge_spec (s : State) :
    (96 ≤ (chp_curr s).hps → wri_char_enlarge s = (0, s)) ∧
    ((chp_curr s).hps < 96 → (new_chp s).1 = true →
      (wri_char_enlarge s).1 = 0 ∧
      (chp_curr (wri_char_enlarge s).2).hps ∈ hps_values ∧
      (chp_curr s).hps < (chp_curr (wri_char_enlarge s).2).hps ∧
      (∀ v ∈ hps_values, (chp_curr s).hps < v → (chp_curr (wri_char_enlarge s).2).hps ≤ v) ∧
      chp_curr (wri_char_enlarge s).2 =
        { chp_curr s with hps := (chp_curr (wri_char_enlarge s).2).hps }) ∧
    enlarge_loop (chp_curr s).hps N_HPS_VALUES 0 ≤ N_HPS_VALUES - 1 ∧
    ((chp_curr s).hps = 12 → (new_chp s).1 = true →
      (chp_curr (wri_char_enlarge s).2).hps = 16) := by
  have hbig : (chp_curr s).hps < 96 → (new_chp s).1 = true →
      (wri_char_enlarge s).1 = 0 ∧ chp_curr (wri_char_enlarge s).2 =
        { chp_curr s with hps :=
            hps_values.getD (enlarge_loop (chp_curr s).hps N_HPS_VALUES 0) 0 } := by
    intro h hn
    have hc := new_chp_chp_curr s hn
    unfold wri_char_enlarge
    rw [if_neg (by simp [hps_values, N_HPS_VALUES]; omega)]
    rcases hq : new_chp s with ⟨b, s1⟩
    rw [hq] at hn hc
    dsimp only at hn hc ⊢
    subst hn
    dsimp only
    rw [hc]
    exact ⟨rfl, rfl⟩
  refine ⟨?_, ?_, enlarge_loop_in_table _, ?_⟩
  · intro h
    unfold wri_char_enlarge
    rw [if_pos (by simpa [hps_values, N_HPS_VALUES] using h)]
  · intro h hn
    rcases hbig h hn with ⟨r0, e⟩
    rcases enlarge_loop_spec _ h with ⟨_, m1, m2, m3⟩
    have ehps : (chp_curr (wri_char_enlarge s).2).hps =
        hps_values.getD (enlarge_loop (chp_curr s).hps N_HPS_VALUES 0) 0 := by
      rw [e]
    refine ⟨r0, ?_, ?_, ?_, ?_⟩
    · rw [ehps]; exact m1
    · rw [ehps]; exact m2
    · rw [ehps]; exact m3
    · rw [ehps]; exact e
  · intro h hn
    rcases hbig (by omega) hn with ⟨_, e⟩
    rw [e, h]
    rfl

/-- Witness for C20: in `doc_abc` the size is 24 half-points and `malloc`
succeeds; `wri_char_enlarge` returns 0 and moves to a larger size of the table. -/
theorem wri_char_enlarge_spec_witness :
    (chp_curr doc_abc).hps < 96 ∧ (new_chp doc_abc).1 = true ∧
    (wri_char_enlarge doc_abc).1 = 0 ∧
    (chp_curr doc_abc).hps < (chp_curr (wri_char_enlarge doc_abc).2).hps :=
  ⟨by decide, by decide,
   ((wri_char_enlarge_spec doc_abc).2.1 (by decide) (by decide)).1,
   ((wri_char_enlarge_spec doc_abc).2.1 (by decide) (by decide)).2.2.1⟩

/-! ### Raw append of a character record -/

/-- C18. `_wri_append_chp(p, L)`: when `p` equals the record of the current run
the state is unchanged except that the current run's `cpLim` becomes `L`;
otherwise, when the current run is empty, its record becomes `p` and its `cpLim`
becomes `L`, and when it is not empty and `malloc` succeeds one run
`[previous cpLim, L)` carrying `p` is appended after the runs already there; in
each of these cases the call returns 0 and the resulting current run carries `p`
and ends at `L`. -/
theorem append_chp_spec (s : State) (p : CHP) (L : Nat) :
    (p = chp_curr s →
      _wri_append_chp p L s = (0, { s with lchp_curr := { s.lchp_curr with cpLim := L } })) ∧
    (p ≠ chp_curr s → s.lchp_curr.cpFirst = s.lchp_curr.cpLim →
      _wri_append_chp p L s =
        (0, { s with lchp_curr := { cpFirst := s.lchp_curr.cpFirst, cpLim := L, prop := p } })) ∧
    (p ≠ chp_curr s → s.lchp_curr.cpFirst ≠ s.lchp_curr.cpLim → alloc_succeeds s →
      _wri_append_chp p L s = (0, { s with
        malloc_ok := s.malloc_ok.tail,
        lchp_list := s.lchp_list ++ [s.lchp_curr],
        lchp_curr := { cpFirst := s.lchp_curr.cpLim, cpLim := L, prop := p } })) ∧
    ((p = chp_curr s ∨ s.lchp_curr.cpFirst = s.lchp_curr.cpLim ∨ alloc_succeeds s) →
      (_wri_append_chp p L s).1 = 0 ∧ chp_curr (_wri_append_chp p L s).2 = p ∧
      (_wri_append_chp p L s).2.lchp_curr.cpLim = L) := by
  have h1 : p = chp_curr s →
      _wri_append_chp p L s = (0, { s with lchp_curr := { s.lchp_curr with cpLim := L } }) := by
    intro h
    unfold _wri_append_chp
    rw [if_pos h]
    rfl
  have h2 : p ≠ chp_curr s → s.lchp_curr.cpFirst = s.lchp_curr.cpLim →
      _wri_append_chp p L s =
        (0, { s with lchp_curr := { cpFirst := s.lchp_curr.cpFirst, cpLim := L, prop := p } }) := by
    intro h he
    unfold _wri_append_chp
    rw [if_neg h, new_chp_of_empty s he]
    rfl
  have h3 : p ≠ chp_curr s → s.lchp_curr.cpFirst ≠ s.lchp_curr.cpLim → alloc_succeeds s →
      _wri_append_chp p L s = (0, { s with
        malloc_ok := s.malloc_ok.tail,
        lchp_list := s.lchp_list ++ [s.lchp_curr],
        lchp_curr := { cpFirst := s.lchp_curr.cpLim, cpLim := L, prop := p } }) := by
    intro h he ha
    unfold _wri_append_chp
    rw [if_neg h, new_chp_of_nonempty s he ha]
    rfl
  refine ⟨h1, h2, h3, ?_⟩
  intro h
  by_cases c1 : p = chp_curr s
  · rw [h1 c1]
    exact ⟨rfl, c1.symm, rfl⟩
  · by_cases c2 : s.lchp_curr.cpFirst = s.lchp_curr.cpLim
    · rw [h2 c1 c2]
      exact ⟨rfl, rfl, rfl⟩
    · have ha : alloc_succeeds s := by
        rcases h with h | h | h
        · exact absurd h c1
        · exact absurd h c2
        · exact h
      rw [h3 c1 c2 ha]
      exact ⟨rfl, rfl, rfl⟩

/-- Witness for C18: appending a bold record up to 2 to `doc_a`, whose current
run `[0, 1)` is not empty, adds the run `[1, 2)`. -/
theorem append_chp_spec_witness :
    chp_bold ≠ chp_curr doc_a ∧ doc_a.lchp_curr.cpFirst ≠ doc_a.lchp_curr.cpLim ∧
    alloc_succeeds doc_a ∧
    (lchp_runs (_wri_append_chp chp_bold 2 doc_a).2).map (fun r => (r.cpFirst, r.cpLim))
      = [(0, 1), (1, 2)] :=
  ⟨by decide, by decide, rfl, by
    rw [(append_chp_spec doc_a chp_bold 2).2.2.1 (by decide) (by decide) rfl]
    decide⟩

/-! ### Rollback of the run lists -/

/-- C16 (the code at three failing inputs), with `S = doc_a`, one run `[0, 1)`
carrying the default record, and `S' = (new_chp doc_a).2`, the runs `[0, 1)`,
`[1, 1)`.  (1) After the breakpoint, a successful `_wri_append_chp` of a bold
record up to 2 and the rollback, the list is the run `[0, 1)` again but
`lchp_curr` is not the last run of `S`: it is left at the freed node.
(2) After appending the default record up to 2 and a bold record up to 3, the
rollback leaves the run of `S` with limit 2 instead of 1.  (3) From `S'`, whose
current run is empty, appending a bold record up to 2 and rolling back leaves the
extents of `S'` but the record of its last run bold. -/
theorem rollback_chp_does_not_restore :
    (append_chps [(chp_bold, 2)] (_wri_breakpoint_chp doc_a)).1 = true ∧
    (_wri_rollback_chp (append_chps [(chp_bold, 2)] (_wri_breakpoint_chp doc_a)).2).is_restored
      = false ∧
    (append_chps [(_wri_default_chp, 2), (chp_bold, 3)] (_wri_breakpoint_chp doc_a)).1 = true ∧
    lchp_runs doc_a = [{ cpFirst := 0, cpLim := 1, prop := _wri_default_chp }] ∧
    (_wri_rollback_chp (append_chps [(_wri_default_chp, 2), (chp_bold, 3)]
        (_wri_breakpoint_chp doc_a)).2).state?.map lchp_runs
      = some [{ cpFirst := 0, cpLim := 2, prop := _wri_default_chp }] ∧
    (append_chps [(chp_bold, 2)] (_wri_breakpoint_chp (new_chp doc_a).2)).1 = true ∧
    lchp_runs (new_chp doc_a).2 = [{ cpFirst := 0, cpLim := 1, prop := _wri_default_chp },
      { cpFirst := 1, cpLim := 1, prop := _wri_default_chp }] ∧
    (_wri_rollback_chp (append_chps [(chp_bold, 2)]
        (_wri_breakpoint_chp (new_chp doc_a).2)).2).state?.map lchp_runs
      = some [{ cpFirst := 0, cpLim := 1, prop := _wri_default_chp },
        { cpFirst := 1, cpLim := 1, prop := chp_bold }] := by
  decide

/-- C17 (the code at the failing input), with `S = doc_abc`: paragraph runs
`[0, 4)` and `[4, 5)`, both pointing at the record at address 0, whose count is 2
and whose alignment is 0.  After the breakpoint, one successful
`_wri_append_pap` of a centred record up to 9 with `is_first_para` set, and the
rollback, the tail run is `[4, 9)`, it points at a record at address 1 with
alignment 1, and the count of the record at address 0 is 1. -/
theorem rollback_pap_does_not_restore :
    (lpap_runs doc_abc = [{ cpFirst := 0, cpLim := 4, prop := 0 },
      { cpFirst := 4, cpLim := 5, prop := 0 }]) ∧
    (pap_at doc_abc 0).res1 = 2 ∧ (pap_at doc_abc 0).jc = 0 ∧
    (append_paps [(pap_centred, 9)] 1 (_wri_breakpoint_pap doc_abc)).1 = true ∧
    (_wri_rollback_pap (append_paps [(pap_centred, 9)] 1
        (_wri_breakpoint_pap doc_abc)).2).state?.map lpap_runs
      = some [{ cpFirst := 0, cpLim := 4, prop := 0 }, { cpFirst := 4, cpLim := 9, prop := 1 }] ∧
    (_wri_rollback_pap (append_paps [(pap_centred, 9)] 1
        (_wri_breakpoint_pap doc_abc)).2).state?.map (fun s => (pap_curr s).jc) = some 1 ∧
    (_wri_rollback_pap (append_paps [(pap_centred, 9)] 1
        (_wri_breakpoint_pap doc_abc)).2).state?.map (fun s => (pap_at s 0).res1) = some 1 := by
  decide

/-! ### The page packer: bytes of the area -/

theorem write_bytes_length (area src : List Nat) (off : Nat)
    (h : off + src.length ≤ area.length) : (write_bytes area off src).length = area.length := by
  simp only [write_bytes, List.length_append, List.length_take, List.length_drop]
  omega

theorem write_fprop_area (area : List Nat) (start cch : Nat) (rec : List Nat)
    (hlen : rec.length = cch) (h1 : cch + 1 ≤ start) (h2 : start ≤ area.length) :
    write_bytes (write_bytes area (start - cch) rec) (start - cch - 1) [cch % 256]
      = area.take (start - cch - 1) ++ (cch % 256 :: rec) ++ area.drop start := by
  have e1 : start - cch = (start - cch - 1) + 1 := by omega
  simp only [write_bytes, List.length_singleton]
  have hA : (area.take (start - cch) ++ rec ++ area.drop (start - cch + rec.length)).take
      (start - cch - 1) = area.take (start - cch - 1) := by
    rw [List.append_assoc, List.take_append_of_le_length (by simp; omega), List.take_take]
    congr 1
    omega
  have hB : (area.take (start - cch) ++ rec ++ area.drop (start - cch + rec.length)).drop
      (start - cch - 1 + 1) = rec ++ area.drop start := by
    rw [← e1, List.append_assoc]
    rw [List.drop_append_of_le_length (by simp; omega)]
    have : (area.take (start - cch)).drop (start - cch) = [] := by
      apply List.drop_eq_nil_of_le
      simp
    rw [this, List.nil_append, hlen]
    congr 2
    omega
  rw [hA, hB]
  simp

theorem fprop_at_new (area : List Nat) (start cch : Nat) (rec : List Nat)
    (hlen : rec.length = cch) (_h1 : cch + 1 ≤ start) (h2 : start ≤ area.length)
    (h3 : cch < 256) :
    fprop_at (area.take (start - cch - 1) ++ (cch % 256 :: rec) ++ area.drop start)
      (start - cch - 1) = cch :: rec := by
  have hl : (area.take (start - cch - 1)).length = start - cch - 1 := by
    simp; omega
  unfold fprop_at
  rw [List.append_assoc, List.drop_append_of_le_length (by omega)]
  have : (area.take (start - cch - 1)).drop (start - cch - 1) = [] := by
    apply List.drop_eq_nil_of_le; omega
  rw [this, List.nil_append]
  have hg : (area.take (start - cch - 1) ++ (cch % 256 :: rec ++ area.drop start)).getD
      (start - cch - 1) 0 = cch := by
    rw [List.getD_eq_getElem?_getD, List.getElem?_append_right (by omega), hl]
    simp [Nat.mod_eq_of_lt h3]
  rw [hg, Nat.mod_eq_of_lt h3]
  rw [List.take_append_of_le_length (by simp; omega)]
  rw [List.take_of_length_le (by simp; omega)]

theorem area_drop_above (area : List Nat) (start cch : Nat) (rec : List Nat)
    (hlen : rec.length = cch) (h1 : cch + 1 ≤ start) (h2 : start ≤ area.length)
    (o : Nat) (ho : start ≤ o) :
    (area.take (start - cch - 1) ++ (cch % 256 :: rec) ++ area.drop start).drop o
      = area.drop o := by
  have hl : (area.take (start - cch - 1) ++ (cch % 256 :: rec)).length = start := by
    simp; omega
  rw [List.drop_append_eq_append_drop, hl]
  have : (area.take (start - cch - 1) ++ (cch % 256 :: rec)).drop o = [] := by
    apply List.drop_eq_nil_of_le; omega
  rw [this, List.nil_append, List.drop_drop]
  congr 1
  omega

theorem getD_eq_head_drop (l : List Nat) (o : Nat) : l.getD o 0 = (l.drop o).headD 0 := by
  rw [List.getD_eq_getElem?_getD]
  cases h : l.drop o with
  | nil =>
    have : l.length ≤ o := List.drop_eq_nil_iff.mp h
    rw [List.getElem?_eq_none this]
    rfl
  | cons x xs =>
    have hx : (l.drop o)[0]? = some x := by rw [h]; simp
    rw [List.getElem?_drop] at hx
    simp at hx
    rw [hx]
    rfl

theorem fprop_at_congr (a b : List Nat) (o : Nat) (h : a.drop o = b.drop o) :
    fprop_at a o = fprop_at b o := by
  unfold fprop_at
  rw [getD_eq_head_drop a, getD_eq_head_drop b, h]

theorem fprop_at_above (area : List Nat) (start cch : Nat) (rec : List Nat)
    (hlen : rec.length = cch) (h1 : cch + 1 ≤ start) (h2 : start ≤ area.length)
    (o : Nat) (ho : start ≤ o) :
    fprop_at (area.take (start - cch - 1) ++ (cch % 256 :: rec) ++ area.drop start) o
      = fprop_at area o :=
  fprop_at_congr _ _ _ (area_drop_above area start cch rec hlen h1 h2 o ho)

/-! ### The page packer: the invariant of the loop -/

theorem lowest_blob_snoc (l : List FOD) (f : FOD) :
    lowest_blob (l ++ [f]) =
      if f.bfprop = 65535 then lowest_blob l else min (lowest_blob l) f.bfprop := by
  induction l with
  | nil =>
    simp only [List.nil_append, lowest_blob]
    split_ifs
    · rfl
    · exact Nat.min_comm _ _
  | cons x xs ih =>
    simp only [List.cons_append, lowest_blob]
    have ih2 : lowest_blob (xs.append [f]) =
        if f.bfprop = 65535 then lowest_blob xs else min (lowest_blob xs) f.bfprop := ih
    rw [ih2]
    split_ifs <;> simp [Nat.min_assoc]

theorem PackInv.blobs_distinct {d : Bool} {pn0 : Nat} {k : Packer}
    {done : List (Nat × Option (List Nat))} (h : PackInv d pn0 k done) (hd : d = true) :
    k.fkp.blobs_distinct := by
  intro f hf g hg h1 h2 he
  exact h.cache_distinct _ (h.cache_fod hd f hf h1) _ (h.cache_fod hd g hg h2) he

theorem PackInv.cfod_le {d : Bool} {pn0 : Nat} {k : Packer}
    {done : List (Nat × Option (List Nat))} (h : PackInv d pn0 k done) :
    k.fkp.cfod ≤ MAX_FODS := by
  have h1 := h.space
  have h2 := h.start_le
  simp only [sizeof_FOD, sizeof_rgFPROP, PAGESIZE, sizeof_FC, MAX_FODS] at *
  omega

theorem PackInv.init_ok (d : Bool) (area : List Nat) (pn0 : Nat)
    (ha : area.length = sizeof_rgFPROP) : PackInv d pn0 (Packer.init area pn0) [] where
  area_len := ha
  start_le := le_refl _
  space := by simp [Packer.init, FKP.cfod]
  lowest := rfl
  fods := by intro f hf; simp [Packer.init] at hf
  cache_in := by intro o ho; simp [Packer.init] at ho
  cache_fod := by intro _ f hf; simp [Packer.init] at hf
  cache_distinct := by intro o ho; simp [Packer.init] at ho
  cache_count := by simp [Packer.init, FKP.cfod]
  no_cache := fun _ => rfl
  entries := rfl
  pages := by intro p hp; simp [Packer.init] at hp
  count := by simp [Packer.init]

theorem PackInv.new_page_ok {d : Bool} {pn0 : Nat} {k : Packer}
    {done : List (Nat × Option (List Nat))} (h : PackInv d pn0 k done) (c : Nat)
    (h1 : 1 ≤ k.fkp.cfod) : PackInv d pn0 (k.new_page c) done where
  area_len := h.area_len
  start_le := le_refl _
  space := by simp [Packer.new_page, FKP.cfod]
  lowest := rfl
  fods := by intro f hf; simp [Packer.new_page] at hf
  cache_in := by intro o ho; simp [Packer.new_page] at ho
  cache_fod := by intro _ f hf; simp [Packer.new_page] at hf
  cache_distinct := by intro o ho; simp [Packer.new_page] at ho
  cache_count := by simp [Packer.new_page, FKP.cfod]
  no_cache := fun _ => rfl
  entries := by
    have := h.entries
    simp only [Packer.new_page, List.map_append, List.flatten_append, List.map_cons, List.map_nil,
      List.flatten_cons, List.flatten_nil, List.append_nil, FKP.entries] at this ⊢
    exact this
  pages := by
    intro p hp
    simp only [Packer.new_page, List.mem_append, List.mem_singleton] at hp
    rcases hp with hp | hp
    · exact h.pages p hp
    · subst hp
      refine ⟨⟨h1, h.cfod_le, ?_, ?_, h.area_len⟩, fun hd => h.blobs_distinct hd⟩
      · rw [h.lowest]; have := h.space; omega
      · rw [h.lowest]; exact h.start_le
  count := by
    simp only [Packer.new_page, List.length_append, List.length_singleton]
    rw [h.count]; omega

theorem space_left_sub (sl t : Nat) (h1 : t ≤ sl) (h2 : sl ≤ sizeof_rgFPROP) :
    (sl + 4294967296 - t) % 4294967296 = sl - t := by
  simp only [sizeof_rgFPROP, PAGESIZE, sizeof_FC] at h2
  omega

theorem PackInv.add_sentinel {d : Bool} {pn0 : Nat} {k : Packer}
    {done : List (Nat × Option (List Nat))} (h : PackInv d pn0 k done) (fcLim : Nat)
    (hs : sizeof_FOD ≤ k.space_left) :
    PackInv d pn0 (k.add_fod fcLim 65535 sizeof_FOD) (done ++ [(fcLim, none)]) := by
  have hsp := h.space
  have hst := h.start_le
  have hsl : k.space_left ≤ sizeof_rgFPROP := by omega
  have hsub := space_left_sub k.space_left sizeof_FOD hs hsl
  refine
    { area_len := h.area_len, start_le := h.start_le, space := ?_, lowest := ?_, fods := ?_,
      cache_in := h.cache_in, cache_fod := ?_, cache_distinct := h.cache_distinct,
      cache_count := ?_, no_cache := h.no_cache, entries := ?_, pages := h.pages,
      count := h.count }
  · simp only [Packer.add_fod, FKP.cfod, List.length_append, List.length_singleton, hsub]
    simp only [FKP.cfod, sizeof_FOD] at hsp hs ⊢
    omega
  · simp only [Packer.add_fod, lowest_blob_snoc]
    exact h.lowest
  · intro f hf
    simp only [Packer.add_fod, List.mem_append, List.mem_singleton] at hf
    rcases hf with hf | hf
    · exact h.fods f hf
    · left; rw [hf]
  · intro hd f hf hne
    simp only [Packer.add_fod, List.mem_append, List.mem_singleton] at hf
    rcases hf with hf | hf
    · exact h.cache_fod hd f hf hne
    · rw [hf] at hne; exact absurd rfl hne
  · have := h.cache_count
    simp only [Packer.add_fod, FKP.cfod, List.length_append, List.length_singleton]
    simp only [FKP.cfod] at this
    exact ⟨by omega, this.2⟩
  · have := h.entries
    simp only [Packer.add_fod, FKP.entries, List.map_append, List.map_cons, List.map_nil] at this ⊢
    rw [← List.append_assoc, this]
    rfl

theorem PackInv.add_found {pn0 : Nat} {k : Packer}
    {done : List (Nat × Option (List Nat))} (h : PackInv true pn0 k done) (fcLim o : Nat)
    (ho : o ∈ k.old_pap) (hs : sizeof_FOD ≤ k.space_left) :
    PackInv true pn0 (k.add_fod fcLim o sizeof_FOD)
      (done ++ [(fcLim, some (fprop_at k.fkp.rgFPROP o))]) := by
  have hsp := h.space
  have hst := h.start_le
  have hsl : k.space_left ≤ sizeof_rgFPROP := by omega
  have hsub := space_left_sub k.space_left sizeof_FOD hs hsl
  have hoin := h.cache_in o ho
  have hmod : o % 65536 = o := Nat.mod_eq_of_lt (by omega)
  refine
    { area_len := h.area_len, start_le := h.start_le, space := ?_, lowest := ?_, fods := ?_,
      cache_in := h.cache_in, cache_fod := ?_, cache_distinct := h.cache_distinct,
      cache_count := ?_, no_cache := h.no_cache, entries := ?_, pages := h.pages,
      count := h.count }
  · simp only [Packer.add_fod, FKP.cfod, List.length_append, List.length_singleton, hsub]
    simp only [FKP.cfod, sizeof_FOD] at hsp hs ⊢
    omega
  · simp only [Packer.add_fod, lowest_blob_snoc, hmod]
    rw [if_neg (by omega), h.lowest]
    exact Nat.min_eq_left hoin.1
  · intro f hf
    simp only [Packer.add_fod, List.mem_append, List.mem_singleton] at hf
    rcases hf with hf | hf
    · exact h.fods f hf
    · right; rw [hf, hmod]; exact hoin
  · intro hd f hf hne
    simp only [Packer.add_fod, List.mem_append, List.mem_singleton] at hf
    rcases hf with hf | hf
    · exact h.cache_fod hd f hf hne
    · rw [hf, hmod]; exact ho
  · have := h.cache_count
    simp only [Packer.add_fod, FKP.cfod, List.length_append, List.length_singleton]
    simp only [FKP.cfod] at this
    exact ⟨by omega, this.2⟩
  · have := h.entries
    simp only [Packer.add_fod, FKP.entries, List.map_append, List.map_cons, List.map_nil,
      hmod] at this ⊢
    rw [← List.append_assoc, this, if_neg (by omega)]

theorem write_fprop_eq (k : Packer) (cch : Nat) (record : List Nat)
    (hc : cch ≤ record.length) (h1 : cch + 1 ≤ k.start_of_props)
    (h2 : k.start_of_props ≤ k.fkp.rgFPROP.length) :
    k.write_fprop cch record =
      { k with
        fkp := { k.fkp with rgFPROP := k.fkp.rgFPROP.take (k.start_of_props - cch - 1)
          ++ (cch % 256 :: record.take cch) ++ k.fkp.rgFPROP.drop k.start_of_props },
        start_of_props := k.start_of_props - cch - 1 } := by
  unfold Packer.write_fprop
  dsimp only
  rw [write_fprop_area k.fkp.rgFPROP k.start_of_props cch (record.take cch)
    (by simp; omega) h1 h2]

theorem entries_congr (fods : List FOD) (a b : List Nat) (fcFirst fcFirst2 : Nat)
    (h : ∀ f ∈ fods, f.bfprop ≠ 65535 → fprop_at a f.bfprop = fprop_at b f.bfprop) :
    FKP.entries { fcFirst := fcFirst, rgFOD := fods, rgFPROP := a }
      = FKP.entries { fcFirst := fcFirst2, rgFOD := fods, rgFPROP := b } := by
  unfold FKP.entries
  dsimp only
  apply List.map_congr_left
  intro f hf
  by_cases hs : f.bfprop = 65535
  · simp [hs]
  · simp [hs, h f hf hs]

theorem PackInv.add_new {d : Bool} {pn0 : Nat} {k : Packer}
    {done : List (Nat × Option (List Nat))} (h : PackInv d pn0 k done) (fcLim cch : Nat)
    (record : List Nat) (hc2 : 2 ≤ cch) (hc : cch ≤ record.length) (hc256 : cch < 256)
    (hs : sizeof_FOD + cch + 1 ≤ k.space_left)
    (hnew : d = true → ∀ o ∈ k.old_pap, fprop_at k.fkp.rgFPROP o ≠ cch :: record.take cch) :
    PackInv d pn0
      ((if d = true then
          memorize_pap (k.write_fprop cch record).start_of_props (k.write_fprop cch record)
        else k.write_fprop cch record).add_fod fcLim
        (if d = true then
          memorize_pap (k.write_fprop cch record).start_of_props (k.write_fprop cch record)
        else k.write_fprop cch record).start_of_props (sizeof_FOD + cch + 1))
      (done ++ [(fcLim, some (cch :: record.take cch))]) := by
  have hsp := h.space
  have hst := h.start_le
  have hal := h.area_len
  have hcc := h.cache_count
  simp only [sizeof_FOD, sizeof_rgFPROP, PAGESIZE, sizeof_FC, FKP.cfod] at hsp hst hal hcc hs
  have hsub : (k.space_left + 4294967296 - (sizeof_FOD + cch + 1)) % 4294967296
      = k.space_left - (6 + cch + 1) := by
    simp only [sizeof_FOD]
    omega
  have hw := write_fprop_eq k cch record hc (by omega) (by omega)
  have hrl : (record.take cch).length = cch := by simp; omega
  -- the state after the write and the memorising
  have hk2 : (if d = true then
        memorize_pap (k.write_fprop cch record).start_of_props (k.write_fprop cch record)
      else k.write_fprop cch record)
      = { k with
          fkp := { k.fkp with rgFPROP := k.fkp.rgFPROP.take (k.start_of_props - cch - 1)
            ++ (cch % 256 :: record.take cch) ++ k.fkp.rgFPROP.drop k.start_of_props },
          start_of_props := k.start_of_props - cch - 1,
          old_pap := if d = true then k.old_pap ++ [k.start_of_props - cch - 1]
            else k.old_pap } := by
    rw [hw]
    cases d
    · simp
    · simp only [if_true, memorize_pap, MAX_PAPS_PER_PAGE, PAGESIZE, sizeof_FC, sizeof_FOD]
      rw [if_pos (by omega)]
  rw [hk2]
  have hmod : (k.start_of_props - cch - 1) % 65536 = k.start_of_props - cch - 1 :=
    Nat.mod_eq_of_lt (by omega)
  have habove : ∀ o, k.start_of_props ≤ o →
      fprop_at (k.fkp.rgFPROP.take (k.start_of_props - cch - 1)
        ++ (cch % 256 :: record.take cch) ++ k.fkp.rgFPROP.drop k.start_of_props) o
      = fprop_at k.fkp.rgFPROP o :=
    fun o ho => fprop_at_above _ _ _ _ hrl (by omega) (by omega) o ho
  have hnewblob : fprop_at (k.fkp.rgFPROP.take (k.start_of_props - cch - 1)
        ++ (cch % 256 :: record.take cch) ++ k.fkp.rgFPROP.drop k.start_of_props)
        (k.start_of_props - cch - 1) = cch :: record.take cch :=
    fprop_at_new _ _ _ _ hrl (by omega) (by omega) hc256
  refine
    { area_len := ?_, start_le := ?_, space := ?_, lowest := ?_, fods := ?_,
      cache_in := ?_, cache_fod := ?_, cache_distinct := ?_,
      cache_count := ?_, no_cache := ?_, entries := ?_, pages := h.pages,
      count := h.count }
  · simp only [Packer.add_fod, List.length_append, List.length_take, List.length_cons,
      List.length_drop, hrl, sizeof_rgFPROP, PAGESIZE, sizeof_FC]
    omega
  · simp only [Packer.add_fod, sizeof_rgFPROP, PAGESIZE, sizeof_FC]
    omega
  · simp only [Packer.add_fod, FKP.cfod, List.length_append, List.length_singleton, hsub,
      sizeof_FOD]
    omega
  · simp only [Packer.add_fod, lowest_blob_snoc, hmod]
    rw [if_neg (by omega), h.lowest]
    exact Nat.min_eq_right (by omega)
  · intro f hf
    simp only [Packer.add_fod, List.mem_append, List.mem_singleton] at hf ⊢
    rcases hf with hf | hf
    · rcases h.fods f hf with h1 | h1
      · left; exact h1
      · right; exact ⟨by omega, h1.2⟩
    · right; rw [hf, hmod]; dsimp only; omega
  · intro o ho
    simp only [Packer.add_fod] at ho ⊢
    split_ifs at ho
    · rcases List.mem_append.mp ho with ho | ho
      · have := h.cache_in o ho; omega
      · rw [List.mem_singleton.mp ho]; omega
    · have := h.cache_in o ho; omega
  · intro hd f hf hne
    simp only [Packer.add_fod, List.mem_append, List.mem_singleton, hd, if_true] at hf ⊢
    rcases hf with hf | hf
    · left; exact h.cache_fod hd f hf hne
    · right; rw [hf, hmod]
  · intro o1 ho1 o2 ho2 he
    simp only [Packer.add_fod] at ho1 ho2 he
    have hold : ∀ o ∈ k.old_pap, fprop_at (k.fkp.rgFPROP.take (k.start_of_props - cch - 1)
        ++ (cch % 256 :: record.take cch) ++ k.fkp.rgFPROP.drop k.start_of_props) o
        = fprop_at k.fkp.rgFPROP o := fun o ho => habove o (h.cache_in o ho).1
    cases d with
    | false =>
      simp only [Bool.false_eq_true, if_false] at ho1 ho2
      rw [hold o1 ho1, hold o2 ho2] at he
      exact h.cache_distinct o1 ho1 o2 ho2 he
    | true =>
      simp only [if_true, List.mem_append, List.mem_singleton] at ho1 ho2
      rcases ho1 with ho1 | ho1 <;> rcases ho2 with ho2 | ho2
      · rw [hold o1 ho1, hold o2 ho2] at he
        exact h.cache_distinct o1 ho1 o2 ho2 he
      · rw [hold o1 ho1, ho2, hnewblob] at he
        exact absurd he (hnew rfl o1 ho1)
      · rw [hold o2 ho2, ho1, hnewblob] at he
        exact absurd he.symm (hnew rfl o2 ho2)
      · rw [ho1, ho2]
  · simp only [Packer.add_fod, FKP.cfod, List.length_append, List.length_singleton,
      sizeof_rgFPROP, PAGESIZE, sizeof_FC]
    split_ifs
    · simp only [List.length_append, List.length_singleton]
      omega
    · omega
  · intro hd
    simp only [Packer.add_fod, hd, Bool.false_eq_true, if_false]
    exact h.no_cache hd
  · have he := h.entries
    simp only [Packer.add_fod, hmod]
    rw [← he]
    refine Eq.trans ?_ (List.append_assoc _ _ _).symm
    congr 1
    have e1 : FKP.entries {
          fcFirst := k.fkp.fcFirst,
          rgFOD := k.fkp.rgFOD ++ [{ fcLim := fcLim, bfprop := k.start_of_props - cch - 1 }],
          rgFPROP := k.fkp.rgFPROP.take (k.start_of_props - cch - 1)
            ++ (cch % 256 :: record.take cch) ++ k.fkp.rgFPROP.drop k.start_of_props }
        = FKP.entries {
            fcFirst := k.fkp.fcFirst,
            rgFOD := k.fkp.rgFOD,
            rgFPROP := k.fkp.rgFPROP.take (k.start_of_props - cch - 1)
              ++ (cch % 256 :: record.take cch) ++ k.fkp.rgFPROP.drop k.start_of_props }
          ++ [(fcLim, some (cch :: record.take cch))] := by
      simp only [FKP.entries, List.map_append, List.map_cons, List.map_nil]
      rw [if_neg (by omega), hnewblob]
    rw [e1]
    congr 1
    apply entries_congr
    intro f hf hne
    rcases h.fods f hf with h1 | h1
    · exact absurd h1 hne
    · exact habove _ h1.1

/-! ### The page packer: `recall_pap` and the body of the loop -/

theorem fprop_at_eq_iff (area : List Nat) (o cch : Nat) (rec : List Nat)
    (hc : cch < 256) (h0 : 0 < cch) :
    fprop_at area o = cch :: rec ↔
      (cch % 256 = area.getD o 0 ∧ rec = (area.drop (o + 1)).take cch) := by
  have hm : cch % 256 = cch := Nat.mod_eq_of_lt hc
  rw [hm]
  by_cases ho : o < area.length
  · have hd : area.drop o = area[o] :: area.drop (o + 1) := List.drop_eq_getElem_cons ho
    have hg : area.getD o 0 = area[o] := by
      rw [List.getD_eq_getElem?_getD, List.getElem?_eq_getElem ho]
      rfl
    unfold fprop_at
    rw [hd, hg, List.take_succ_cons]
    constructor
    · intro h
      have h1 := List.cons.inj h
      refine ⟨h1.1.symm, ?_⟩
      rw [← h1.2, h1.1]
    · intro h
      rw [← h.1, ← h.2]
  · have hd : area.drop o = [] := List.drop_eq_nil_iff.mpr (by omega)
    have hg : area.getD o 0 = 0 := by
      rw [List.getD_eq_getElem?_getD, List.getElem?_eq_none (by omega)]
      rfl
    unfold fprop_at
    rw [hd, hg]
    constructor
    · intro h
      simp at h
    · intro h
      omega

theorem recall_pap_some (cch : Nat) (papp area old : List Nat) (o : Nat)
    (hc : cch < 256) (h0 : 0 < cch) (h : recall_pap cch papp area old = some o) :
    o ∈ old ∧ fprop_at area o = cch :: papp.take cch := by
  unfold recall_pap at h
  refine ⟨List.mem_of_find?_eq_some h, ?_⟩
  have hp := List.find?_some h
  rw [fprop_at_eq_iff area o cch _ hc h0]
  simpa using hp

theorem recall_pap_none (cch : Nat) (papp area old : List Nat)
    (hc : cch < 256) (h0 : 0 < cch) (h : recall_pap cch papp area old = none) :
    ∀ o ∈ old, fprop_at area o ≠ cch :: papp.take cch := by
  intro o ho he
  unfold recall_pap at h
  have hp := List.find?_eq_none.mp h o ho
  rw [fprop_at_eq_iff area o cch _ hc h0] at he
  have hq : ¬ (cch % 256 = area.getD o 0 ∧ papp.take cch = (area.drop (o + 1)).take cch) := by
    simpa using hp
  exact hq he

theorem PackInv.empty_page {d : Bool} {pn0 : Nat} {k : Packer}
    {done : List (Nat × Option (List Nat))} (h : PackInv d pn0 k done)
    (h0 : k.fkp.cfod = 0) : k.space_left = sizeof_rgFPROP := by
  have hsp := h.space
  have hlo := h.lowest
  have hnil : k.fkp.rgFOD = [] := List.length_eq_zero.mp h0
  rw [hnil] at hlo
  rw [h0] at hsp
  simp only [lowest_blob] at hlo
  omega

theorem PackInv.make_room {d : Bool} {pn0 : Nat} {k : Packer}
    {done : List (Nat × Option (List Nat))} (h : PackInv d pn0 k done) (c t : Nat)
    (ht : t ≤ sizeof_rgFPROP) :
    PackInv d pn0 (if t > k.space_left then k.new_page c else k) done ∧
      t ≤ (if t > k.space_left then k.new_page c else k).space_left := by
  by_cases hgt : t > k.space_left
  · rw [if_pos hgt]
    have h1 : 1 ≤ k.fkp.cfod := by
      by_contra hc
      have := h.empty_page (by omega)
      omega
    exact ⟨h.new_page_ok c h1, ht⟩
  · rw [if_neg hgt]
    exact ⟨h, by omega⟩

theorem PackInv.pack_run_ok {d : Bool} {pn0 : Nat} {k : Packer}
    {done : List (Nat × Option (List Nat))} (h : PackInv d pn0 k done) (cpFirst cpLim : Nat)
    (record dflt : List Nat) (size : Nat) (hs1 : 1 ≤ size) (hs2 : size ≤ sizeof_PAP)
    (hr : size ≤ record.length) :
    PackInv d pn0 (pack_run d cpFirst cpLim record dflt size k)
      (done ++ [run_entry cpLim record dflt size]) := by
  obtain ⟨hc1, hc2, -, -⟩ := find_cch_bounds record dflt size hs1
  unfold pack_run run_entry
  dsimp only
  generalize _wri_find_cch record dflt size = c at hc1 hc2 ⊢
  simp only [sizeof_PAP] at hs2
  by_cases hle : c ≤ 1
  · simp only [if_pos hle, show ¬ ((65535 : Nat) = 0) from by decide, if_false]
    obtain ⟨hk1, hsl⟩ := h.make_room cpFirst sizeof_FOD (by decide)
    exact hk1.add_sentinel _ hsl
  · have hn2 : 2 ≤ c.toNat := by omega
    have hn256 : c.toNat < 256 := by omega
    have hnr : c.toNat ≤ record.length := by omega
    simp only [if_neg hle]
    cases hf : (if d = true ∧ k.space_left ≥ sizeof_FOD then
        recall_pap c.toNat record k.fkp.rgFPROP k.old_pap else none) with
    | some o =>
      dsimp only
      have hcond : d = true ∧ k.space_left ≥ sizeof_FOD := by
        by_contra hcon
        rw [if_neg hcon] at hf
        exact Option.noConfusion hf
      rw [if_pos hcond] at hf
      obtain ⟨ho, hfp⟩ := recall_pap_some c.toNat record k.fkp.rgFPROP k.old_pap o
        hn256 (by omega) hf
      have hd : d = true := hcond.1
      subst hd
      have hoin := h.cache_in o ho
      have hcnt := h.cache_count
      have hsp := h.space
      have ho0 : ¬ o = 0 := by
        have : 1 ≤ k.old_pap.length := List.length_pos_of_mem ho
        simp only [sizeof_FOD] at hsp
        omega
      have hgt : ¬ sizeof_FOD > k.space_left := by
        have := hcond.2
        omega
      simp only [if_neg ho0, if_neg hgt]
      rw [← hfp]
      exact h.add_found _ o ho hcond.2
    | none =>
      dsimp only
      simp only [if_true]
      obtain ⟨hk1, hsl⟩ := h.make_room cpFirst (sizeof_FOD + c.toNat + 1)
        (by simp only [sizeof_FOD, sizeof_rgFPROP, PAGESIZE, sizeof_FC]; omega)
      refine hk1.add_new _ c.toNat record hn2 hnr hn256 hsl ?_
      intro hd
      by_cases hgt : sizeof_FOD + c.toNat + 1 > k.space_left
      · rw [if_pos hgt]
        intro o ho
        simp [Packer.new_page] at ho
      · rw [if_neg hgt]
        have hcond : d = true ∧ k.space_left ≥ sizeof_FOD := ⟨hd, by omega⟩
        rw [if_pos hcond] at hf
        exact recall_pap_none c.toNat record k.fkp.rgFPROP k.old_pap hn256 (by omega) hf

/-! ### The page packer: the loops of `_wri_save_chp` and `_wri_save_pap` -/

theorem save_chp_run_eq (r : lchp) (k : Packer) :
    save_chp_run r k =
      if r.cpFirst = r.cpLim then k
      else pack_run false r.cpFirst r.cpLim r.prop.bytes _wri_default_chp.bytes sizeof_CHP k := by
  unfold save_chp_run pack_run
  dsimp only
  by_cases he : r.cpFirst = r.cpLim
  · simp only [if_pos he]
  · simp only [if_neg he]
    generalize _wri_find_cch r.prop.bytes _wri_default_chp.bytes sizeof_CHP = c
    by_cases hle : c ≤ 1
    · have hgt : ¬ c > 1 := by omega
      simp only [if_pos hle, if_neg hgt, show ¬ ((65535 : Nat) = 0) from by decide, if_false]
    · have hgt : c > 1 := by omega
      simp only [if_neg hle, if_pos hgt, Bool.false_eq_true, false_and, if_false, if_true]

theorem save_pap_run_eq (s : State) (r : lpap) (k : Packer) :
    save_pap_run s r k =
      if r.cpFirst = r.cpLim then k
      else pack_run true r.cpFirst r.cpLim (save_pap_bytes s (pap_at s r.prop))
        _wri_default_pap_bytes sizeof_PAP k := by
  unfold save_pap_run pack_run
  dsimp only
  by_cases he : r.cpFirst = r.cpLim
  · simp only [if_pos he]
  · simp only [if_neg he, true_and, if_true]

theorem save_pap_bytes_length (s : State) (rec : PAP) (ht : s.tbd.length = itbdmax) :
    (save_pap_bytes s rec).length = sizeof_PAP := by
  have h4 : ∀ l : List TBD, ((l.map TBD.bytes).flatten).length = 4 * l.length := by
    intro l
    induction l with
    | nil => rfl
    | cons x xs ih =>
      simp only [List.map_cons, List.flatten_cons, List.length_append, ih, List.length_cons]
      simp only [TBD.bytes, bytes16, List.length_append, List.length_cons, List.length_nil]
      omega
  simp only [save_pap_bytes, PAP.full_bytes, PAP.bytes, bytes16, List.length_append,
    List.length_cons, List.length_nil, h4, ht, itbdmax, sizeof_PAP]

theorem PackInv.chp_loop {pn0 : Nat} (runs : List lchp) :
    ∀ {k : Packer} {done : List (Nat × Option (List Nat))}, PackInv false pn0 k done →
      PackInv false pn0 (save_chp_loop runs k) (done ++ chp_entries runs) := by
  induction runs with
  | nil =>
    intro k done h
    simpa [save_chp_loop, chp_entries] using h
  | cons r rs ih =>
    intro k done h
    have hstep : save_chp_loop (r :: rs) k = save_chp_loop rs (save_chp_run r k) := rfl
    rw [hstep, save_chp_run_eq]
    by_cases he : r.cpFirst = r.cpLim
    · rw [if_pos he]
      have hent : chp_entries (r :: rs) = chp_entries rs := by
        simp [chp_entries, List.filter_cons, he]
      rw [hent]
      exact ih h
    · rw [if_neg he]
      have hent : chp_entries (r :: rs) =
          run_entry r.cpLim r.prop.bytes _wri_default_chp.bytes sizeof_CHP :: chp_entries rs := by
        simp [chp_entries, List.filter_cons, he]
      rw [hent]
      have h1 := h.pack_run_ok r.cpFirst r.cpLim r.prop.bytes _wri_default_chp.bytes sizeof_CHP
        (by decide) (by decide) (by simp [CHP.bytes, sizeof_CHP])
      have h2 := ih h1
      rw [List.append_assoc] at h2
      exact h2

theorem PackInv.pap_loop {pn0 : Nat} (s : State) (ht : s.tbd.length = itbdmax)
    (runs : List lpap) :
    ∀ {k : Packer} {done : List (Nat × Option (List Nat))}, PackInv true pn0 k done →
      PackInv true pn0 (save_pap_loop s runs k) (done ++ pap_entries s runs) := by
  induction runs with
  | nil =>
    intro k done h
    simpa [save_pap_loop, pap_entries] using h
  | cons r rs ih =>
    intro k done h
    have hstep : save_pap_loop s (r :: rs) k = save_pap_loop s rs (save_pap_run s r k) := rfl
    rw [hstep, save_pap_run_eq]
    by_cases he : r.cpFirst = r.cpLim
    · rw [if_pos he]
      have hent : pap_entries s (r :: rs) = pap_entries s rs := by
        simp [pap_entries, List.filter_cons, he]
      rw [hent]
      exact ih h
    · rw [if_neg he]
      have hent : pap_entries s (r :: rs) =
          run_entry r.cpLim (save_pap_bytes s (pap_at s r.prop)) _wri_default_pap_bytes
            sizeof_PAP :: pap_entries s rs := by
        simp [pap_entries, List.filter_cons, he]
      rw [hent]
      have h1 := h.pack_run_ok r.cpFirst r.cpLim (save_pap_bytes s (pap_at s r.prop))
        _wri_default_pap_bytes sizeof_PAP (by decide) (by decide)
        (by rw [save_pap_bytes_length s _ ht])
      have h2 := ih h1
      rw [List.append_assoc] at h2
      exact h2

theorem PackInv.finish_ok {d : Bool} {pn0 : Nat} {k : Packer}
    {done : List (Nat × Option (List Nat))} (h : PackInv d pn0 k done) :
    (∀ p ∈ k.finish.written, p.well_packed ∧ (d = true → p.blobs_distinct)) ∧
    (k.finish.written.map FKP.entries).flatten = done ∧
    k.finish.pn = (pn0 + k.finish.written.length) % 65536 := by
  unfold Packer.finish
  by_cases h0 : k.fkp.cfod ≠ 0
  · rw [if_pos h0]
    refine ⟨?_, ?_, ?_⟩
    · intro p hp
      simp only [List.mem_append, List.mem_singleton] at hp
      rcases hp with hp | hp
      · exact h.pages p hp
      · subst hp
        refine ⟨⟨by omega, h.cfod_le, ?_, ?_, h.area_len⟩, fun hd => h.blobs_distinct hd⟩
        · rw [h.lowest]; have := h.space; omega
        · rw [h.lowest]; exact h.start_le
    · have := h.entries
      simpa using this
    · simp only [List.length_append, List.length_singleton]
      rw [h.count]; omega
  · rw [if_neg h0]
    refine ⟨h.pages, ?_, h.count⟩
    have he := h.entries
    have hnil : k.fkp.rgFOD = [] := List.length_eq_zero.mp (by simpa [FKP.cfod] using h0)
    simpa [FKP.entries, hnil] using he

theorem PackInv.to_space_ok {d : Bool} {pn0 : Nat} {k : Packer}
    {done : List (Nat × Option (List Nat))} (h : PackInv d pn0 k done) : k.space_ok := by
  refine ⟨?_, h.lowest, h.start_le⟩
  rw [h.lowest]
  have := h.space
  omega

/-! ### The pages never overlap -/

/-- C11. For every state, hence every run list, every page that `_wri_save_chp`
or `_wri_save_pap` writes holds between 1 and `MAX_FODS` = 20 descriptors and its
descriptor array ends (at `6 * cfod`) at or below the lowest FPROP of the page,
inside the 123 bytes of the area; and after every run of the loop of either
function the unsigned `space_left` holds exactly the offset of the lowest FPROP
minus `6 * cfod`, a value of at most 123, so that no subtraction wrapped
around. -/
theorem pages_never_overlap (s : State) (area : List Nat) (pnPara : Nat)
    (ha : area.length = sizeof_rgFPROP) (ht : s.tbd.length = itbdmax) :
    (∀ p ∈ (_wri_save_chp s area).written, p.well_packed) ∧
    (∀ p ∈ (_wri_save_pap s area pnPara).2.written, p.well_packed) ∧
    (∀ n : Nat, (save_chp_loop ((lchp_runs s).take n)
      (Packer.init area ((s._wri_cpMac + PAGESIZE + PAGESIZE - 1) / PAGESIZE))).space_ok) ∧
    (∀ n : Nat, (save_pap_loop (_wri_user_to_sep s) ((lpap_runs (_wri_user_to_sep s)).take n)
      (Packer.init area pnPara)).space_ok) := by
  refine ⟨?_, ?_, ?_, ?_⟩
  · intro p hp
    exact ((PackInv.chp_loop (lchp_runs s) (PackInv.init_ok false area _ ha)).finish_ok.1 p hp).1
  · intro p hp
    exact ((PackInv.pap_loop (_wri_user_to_sep s) ht (lpap_runs (_wri_user_to_sep s))
      (PackInv.init_ok true area pnPara ha)).finish_ok.1 p hp).1
  · intro n
    exact (PackInv.chp_loop ((lchp_runs s).take n) (PackInv.init_ok false area _ ha)).to_space_ok
  · intro n
    exact (PackInv.pap_loop (_wri_user_to_sep s) ht ((lpap_runs (_wri_user_to_sep s)).take n)
      (PackInv.init_ok true area pnPara ha)).to_space_ok

set_option maxRecDepth 1000000 in
/-- Witness for C11 on `doc_sample` and a zeroed page buffer: the one page of
character information that is written is well packed. -/
theorem pages_never_overlap_witness :
    zero_area.length = sizeof_rgFPROP ∧ doc_sample.tbd.length = itbdmax ∧
    (_wri_save_chp doc_sample zero_area).written.length = 1 ∧
    (∀ p ∈ (_wri_save_chp doc_sample zero_area).written, p.well_packed) :=
  ⟨by decide, by decide, by decide,
   (pages_never_overlap doc_sample zero_area 3 (by decide) (by decide)).1⟩

/-! ### What a run leaves in a page -/

theorem find_cch_le_one_iff (r d : List Nat) (n : Nat) (hn : 1 ≤ n) :
    _wri_find_cch r d n ≤ 1 ↔ ∀ i : Nat, 1 ≤ i → i < n → r.getD i 0 = d.getD i 0 := by
  obtain ⟨h1, h2, h3, h4⟩ := find_cch_bounds r d n hn
  constructor
  · intro hle i hi1 hi2
    exact h3 i (by omega) hi2
  · intro hall
    by_contra hgt
    have hgt1 : 1 < _wri_find_cch r d n := by omega
    refine h4 hgt1 (hall _ ?_ ?_)
    · omega
    · omega

theorem run_entry_cases (cpLim : Nat) (r d : List Nat) (n : Nat) (hn : 1 ≤ n) :
    ((∀ i : Nat, 1 ≤ i → i < n → r.getD i 0 = d.getD i 0) →
      run_entry cpLim r d n = (cpLim + PAGESIZE, none)) ∧
    (¬ (∀ i : Nat, 1 ≤ i → i < n → r.getD i 0 = d.getD i 0) →
      ∃ cch : Nat, 2 ≤ cch ∧ cch ≤ n ∧ (cch : Int) = _wri_find_cch r d n ∧
        run_entry cpLim r d n = (cpLim + PAGESIZE, some (cch :: r.take cch))) := by
  obtain ⟨h1, h2, -, -⟩ := find_cch_bounds r d n hn
  constructor
  · intro hall
    unfold run_entry
    rw [if_pos ((find_cch_le_one_iff r d n hn).mpr hall)]
  · intro hnot
    have hgt : ¬ _wri_find_cch r d n ≤ 1 := fun hle =>
      hnot ((find_cch_le_one_iff r d n hn).mp hle)
    refine ⟨(_wri_find_cch r d n).toNat, by omega, by omega, by omega, ?_⟩
    unfold run_entry
    rw [if_neg hgt]

theorem pack_run_default_area (d : Bool) (cpFirst cpLim : Nat) (record dflt : List Nat)
    (size : Nat) (k : Packer) (h : _wri_find_cch record dflt size ≤ 1) :
    (pack_run d cpFirst cpLim record dflt size k).fkp.rgFPROP = k.fkp.rgFPROP := by
  unfold pack_run
  dsimp only
  simp only [if_pos h, show ¬ ((65535 : Nat) = 0) from by decide, if_false]
  by_cases hgt : sizeof_FOD > k.space_left
  · rw [if_pos hgt]; rfl
  · rw [if_neg hgt]; rfl

theorem save_pap_bytes_head (s : State) (rec : PAP) : (save_pap_bytes s rec).head? = some 0 := by
  unfold save_pap_bytes save_pap_record PAP.full_bytes PAP.bytes
  dsimp only
  split_ifs <;> rfl

theorem save_pap_bytes_plain (s : State) (rec : PAP) (h : rec.rhcOdd = 0) :
    save_pap_bytes s rec = ({ rec with res1 := 0 } : PAP).full_bytes s.tbd := by
  unfold save_pap_bytes save_pap_record
  dsimp only
  rw [if_neg (by simp [h])]

set_option maxRecDepth 1000000 in
/-- C15, counterexample. In `doc_sample` the first paragraph run `[0, 4)` is a
header whose record has both indents 0; the FPROP its descriptor designates
holds 1800 (bytes 8, 7) for both indents, while the record itself, with byte 0
set to 0, has the bytes 0 there: the FPROP is not `cch` followed by the first
`cch` bytes of the record. -/
theorem header_fprop_is_not_the_record :
    (lpap_runs doc_sample).head?.map
        (fun r => (r.cpFirst, r.cpLim, (pap_at doc_sample r.prop).rhcOdd,
          (pap_at doc_sample r.prop).dxaLeft, (pap_at doc_sample r.prop).dxaRight))
      = some (0, 4, 1, 0, 0) ∧
    ((_wri_save_pap doc_sample zero_area 3).2.written.map FKP.entries).flatten.head?
      = some (132, some [17, 0, 0, 0, 0, 8, 7, 8, 7, 0, 0, 240, 0, 0, 0, 0, 0, 6]) ∧
    ((lpap_runs doc_sample).head?.map
        (fun r => (({ pap_at doc_sample r.prop with res1 := 0 } : PAP).full_bytes
          doc_sample.tbd).take 17))
      = some [0, 0, 0, 0, 0, 0, 0, 0, 0, 0, 240, 0, 0, 0, 0, 0, 6] := by
  decide

/-- C15, amended. Read in order, the descriptors of the pages that
`_wri_save_chp` and `_wri_save_pap` write are those of the non-empty runs in
order (an empty run leaves none), each with the limit of its run plus
`PAGESIZE`.  The bytes compared with the default are, for a character run, the
6 bytes of its record and, for a paragraph run, the 79 bytes `save_pap_bytes`:
the record with byte 0 set to 0 whatever its count is, followed by the tab
table of the document, and for a header or footer with the indents increased by
the page margins.  When these bytes equal the default at every index from 1 on,
the descriptor carries the sentinel 0xFFFF and the loop body leaves the FPROP
area as it was; otherwise the descriptor designates the byte `cch`, at least 2,
followed by the first `cch` of these bytes. -/
theorem blob_layout_and_sentinel (s : State) (area : List Nat) (pnPara : Nat)
    (ha : area.length = sizeof_rgFPROP) (ht : s.tbd.length = itbdmax) :
    ((_wri_save_chp s area).written.map FKP.entries).flatten = chp_entries (lchp_runs s) ∧
    ((_wri_save_pap s area pnPara).2.written.map FKP.entries).flatten
      = pap_entries (_wri_user_to_sep s) (lpap_runs (_wri_user_to_sep s)) ∧
    (∀ (cpLim : Nat) (record dflt : List Nat) (size : Nat), 1 ≤ size →
      ((∀ i : Nat, 1 ≤ i → i < size → record.getD i 0 = dflt.getD i 0) →
        run_entry cpLim record dflt size = (cpLim + PAGESIZE, none)) ∧
      (¬ (∀ i : Nat, 1 ≤ i → i < size → record.getD i 0 = dflt.getD i 0) →
        ∃ cch : Nat, 2 ≤ cch ∧ cch ≤ size ∧ (cch : Int) = _wri_find_cch record dflt size ∧
          run_entry cpLim record dflt size = (cpLim + PAGESIZE, some (cch :: record.take cch)))) ∧
    (∀ (r : lchp) (k : Packer),
      (∀ i : Nat, 1 ≤ i → i < sizeof_CHP →
        r.prop.bytes.getD i 0 = _wri_default_chp.bytes.getD i 0) →
      (save_chp_run r k).fkp.rgFPROP = k.fkp.rgFPROP) ∧
    (∀ (r : lpap) (k : Packer),
      (∀ i : Nat, 1 ≤ i → i < sizeof_PAP →
        (save_pap_bytes (_wri_user_to_sep s) (pap_at (_wri_user_to_sep s) r.prop)).getD i 0
          = _wri_default_pap_bytes.getD i 0) →
      (save_pap_run (_wri_user_to_sep s) r k).fkp.rgFPROP = k.fkp.rgFPROP) ∧
    (∀ rec : PAP, (save_pap_bytes (_wri_user_to_sep s) rec).head? = some 0) ∧
    (∀ rec : PAP, rec.rhcOdd = 0 →
      save_pap_bytes (_wri_user_to_sep s) rec = ({ rec with res1 := 0 } : PAP).full_bytes s.tbd) := by
  refine ⟨?_, ?_, ?_, ?_, ?_, ?_, ?_⟩
  · have h := (PackInv.chp_loop (lchp_runs s) (PackInv.init_ok false area
      ((s._wri_cpMac + PAGESIZE + PAGESIZE - 1) / PAGESIZE) ha)).finish_ok.2.1
    rw [List.nil_append] at h
    exact h
  · have h := (PackInv.pap_loop (_wri_user_to_sep s) ht (lpap_runs (_wri_user_to_sep s))
      (PackInv.init_ok true area pnPara ha)).finish_ok.2.1
    rw [List.nil_append] at h
    exact h
  · intro cpLim record dflt size hs
    exact run_entry_cases cpLim record dflt size hs
  · intro r k hall
    rw [save_chp_run_eq]
    by_cases he : r.cpFirst = r.cpLim
    · rw [if_pos he]
    · rw [if_neg he]
      exact pack_run_default_area _ _ _ _ _ _ _
        ((find_cch_le_one_iff _ _ sizeof_CHP (by decide)).mpr hall)
  · intro r k hall
    rw [save_pap_run_eq]
    by_cases he : r.cpFirst = r.cpLim
    · rw [if_pos he]
    · rw [if_neg he]
      exact pack_run_default_area _ _ _ _ _ _ _
        ((find_cch_le_one_iff _ _ sizeof_PAP (by decide)).mpr hall)
  · intro rec
    exact save_pap_bytes_head _ rec
  · intro rec h
    exact save_pap_bytes_plain _ rec h

set_option maxRecDepth 1000000 in
/-- Witness for C15 on `doc_sample` and a zeroed page buffer: the four non-empty
paragraph runs leave four descriptors, the second with the sentinel, the last
two with the same two-byte FPROP of the centred paragraphs. -/
theorem blob_layout_and_sentinel_witness :
    zero_area.length = sizeof_rgFPROP ∧ doc_sample.tbd.length = itbdmax ∧
    pap_entries (_wri_user_to_sep doc_sample) (lpap_runs (_wri_user_to_sep doc_sample))
      = [(132, some [17, 0, 0, 0, 0, 8, 7, 8, 7, 0, 0, 240, 0, 0, 0, 0, 0, 6]), (135, none),
         (138, some [2, 0, 1]), (139, some [2, 0, 1])] ∧
    ((_wri_save_pap doc_sample zero_area 3).2.written.map FKP.entries).flatten
      = pap_entries (_wri_user_to_sep doc_sample) (lpap_runs (_wri_user_to_sep doc_sample)) :=
  ⟨by decide, by decide, by decide,
   (blob_layout_and_sentinel doc_sample zero_area 3 (by decide) (by decide)).2.1⟩

/-! ### Paragraph runs with the same formatting in a page -/

theorem save_pap_loop_filter (s : State) (runs : List lpap) :
    ∀ k : Packer, save_pap_loop s runs k
      = save_pap_loop s (runs.filter (fun r => r.cpFirst ≠ r.cpLim)) k := by
  induction runs with
  | nil => intro k; rfl
  | cons r rs ih =>
    intro k
    have hstep : save_pap_loop s (r :: rs) k = save_pap_loop s rs (save_pap_run s r k) := rfl
    rw [hstep, ih]
    by_cases he : r.cpFirst = r.cpLim
    · have hk : save_pap_run s r k = k := by
        rw [save_pap_run_eq, if_pos he]
      rw [hk]
      simp [List.filter_cons, he]
    · simp only [List.filter_cons, he, ne_eq, not_false_eq_true, decide_True, if_true]
      rfl

theorem pack_run_first (cpFirst cpLim : Nat) (record dflt : List Nat) (size : Nat)
    (area : List Nat) (pn : Nat) (ha : area.length = sizeof_rgFPROP) (hs1 : 1 ≤ size)
    (hs2 : size ≤ sizeof_PAP) (hr : size ≤ record.length)
    (hc : 1 < _wri_find_cch record dflt size) :
    pack_run true cpFirst cpLim record dflt size (Packer.init area pn) =
      { written := [],
        fkp := { fcFirst := PAGESIZE,
                 rgFOD := [{ fcLim := cpLim + PAGESIZE,
                             bfprop := 122 - (_wri_find_cch record dflt size).toNat }],
                 rgFPROP := area.take (122 - (_wri_find_cch record dflt size).toNat)
                   ++ ((_wri_find_cch record dflt size).toNat
                        :: record.take (_wri_find_cch record dflt size).toNat) },
        start_of_props := 122 - (_wri_find_cch record dflt size).toNat,
        space_left := 116 - (_wri_find_cch record dflt size).toNat,
        pn := pn % 65536,
        old_pap := [122 - (_wri_find_cch record dflt size).toNat] } := by
  obtain ⟨hc1, hc2, -, -⟩ := find_cch_bounds record dflt size hs1
  unfold pack_run
  dsimp only
  generalize _wri_find_cch record dflt size = c at hc hc1 hc2 ⊢
  simp only [sizeof_PAP] at hs2
  simp only [sizeof_rgFPROP, PAGESIZE, sizeof_FC] at ha
  have hle : ¬ c ≤ 1 := by omega
  have hrec : recall_pap c.toNat record (Packer.init area pn).fkp.rgFPROP
      (Packer.init area pn).old_pap = none := rfl
  simp only [if_neg hle, hrec, ite_self, if_true]
  have hfit : ¬ sizeof_FOD + c.toNat + 1 > (Packer.init area pn).space_left := by
    simp only [Packer.init, sizeof_FOD, sizeof_rgFPROP, PAGESIZE, sizeof_FC]
    omega
  rw [if_neg hfit]
  have hw := write_fprop_eq (Packer.init area pn) c.toNat record (by omega)
    (by simp only [Packer.init, sizeof_rgFPROP, PAGESIZE, sizeof_FC]; omega)
    (by simp only [Packer.init, sizeof_rgFPROP, PAGESIZE, sizeof_FC]; omega)
  rw [hw]
  have hdrop : area.drop 123 = [] := List.drop_eq_nil_iff.mpr (by omega)
  have hmod : c.toNat % 256 = c.toNat := Nat.mod_eq_of_lt (by omega)
  have hmod2 : (122 - c.toNat) % 65536 = 122 - c.toNat := Nat.mod_eq_of_lt (by omega)
  have hsub : (123 + 4294967296 - (6 + c.toNat + 1)) % 4294967296 = 116 - c.toNat := by omega
  have h123 : 123 - c.toNat - 1 = 122 - c.toNat := by omega
  simp only [memorize_pap, Packer.init, Packer.add_fod, MAX_PAPS_PER_PAGE, sizeof_rgFPROP,
    PAGESIZE, sizeof_FC, sizeof_FOD, List.length_nil, Nat.reduceSub, Nat.reduceAdd, Nat.reduceDiv,
    Nat.reduceLT, if_true, List.nil_append, hdrop, List.append_nil, hmod, hmod2, hsub, h123]

theorem pack_run_again (cpFirst cpLim : Nat) (record dflt : List Nat) (size : Nat)
    (k : Packer) (o : Nat) (hs1 : 1 ≤ size) (hs2 : size ≤ sizeof_PAP)
    (hc : 1 < _wri_find_cch record dflt size) (hold : k.old_pap = [o]) (ho : o ≠ 0)
    (hsp : sizeof_FOD ≤ k.space_left)
    (hf : fprop_at k.fkp.rgFPROP o = (_wri_find_cch record dflt size).toNat
      :: record.take (_wri_find_cch record dflt size).toNat) :
    pack_run true cpFirst cpLim record dflt size k = k.add_fod (cpLim + PAGESIZE) o sizeof_FOD := by
  obtain ⟨hc1, hc2, -, -⟩ := find_cch_bounds record dflt size hs1
  unfold pack_run
  dsimp only
  generalize _wri_find_cch record dflt size = c at hc hc1 hc2 hf ⊢
  simp only [sizeof_PAP] at hs2
  have hle : ¬ c ≤ 1 := by omega
  have hrec : recall_pap c.toNat record k.fkp.rgFPROP k.old_pap = some o := by
    rw [hold]
    unfold recall_pap
    have hp := (fprop_at_eq_iff k.fkp.rgFPROP o c.toNat (record.take c.toNat) (by omega)
      (by omega)).mp hf
    rw [List.find?_cons_of_pos]
    simpa using hp
  have hcond : (true = true ∧ k.space_left ≥ sizeof_FOD) = True :=
    eq_true ⟨rfl, hsp⟩
  have hgt : (sizeof_FOD > k.space_left) = False := eq_false (by omega)
  have ho0 : (o = 0) = False := eq_false ho
  have hge : (k.space_left ≥ sizeof_FOD) = True := eq_true hsp
  simp only [if_neg hle, hcond, hrec, true_and, hge, if_true, ho0, hgt, if_false]

theorem fprop_at_top (l : List Nat) (c : Nat) (rec : List Nat) (o : Nat)
    (ho : l.length = o) (hl : rec.length = c) : fprop_at (l ++ (c :: rec)) o = c :: rec := by
  subst ho
  unfold fprop_at
  rw [getD_eq_head_drop, List.drop_left]
  simp only [List.headD_cons, List.take_succ_cons]
  rw [List.take_of_length_le (by omega)]

theorem three_runs_one_blob (s : State) (area : List Nat) (pn : Nat) (r1 r2 r3 : lpap)
    (ha : area.length = sizeof_rgFPROP) (ht : s.tbd.length = itbdmax)
    (h1 : r1.cpFirst ≠ r1.cpLim) (h2 : r2.cpFirst ≠ r2.cpLim) (h3 : r3.cpFirst ≠ r3.cpLim)
    (e2 : save_pap_bytes s (pap_at s r2.prop) = save_pap_bytes s (pap_at s r1.prop))
    (e3 : save_pap_bytes s (pap_at s r3.prop) = save_pap_bytes s (pap_at s r1.prop))
    (hc : 1 < _wri_find_cch (save_pap_bytes s (pap_at s r1.prop)) _wri_default_pap_bytes
      sizeof_PAP) :
    (save_pap_loop s [r1, r2, r3] (Packer.init area pn)).finish.written =
      [{ fcFirst := PAGESIZE,
         rgFOD := [
           { fcLim := r1.cpLim + PAGESIZE,
             bfprop := 122 - (_wri_find_cch (save_pap_bytes s (pap_at s r1.prop))
               _wri_default_pap_bytes sizeof_PAP).toNat },
           { fcLim := r2.cpLim + PAGESIZE,
             bfprop := 122 - (_wri_find_cch (save_pap_bytes s (pap_at s r1.prop))
               _wri_default_pap_bytes sizeof_PAP).toNat },
           { fcLim := r3.cpLim + PAGESIZE,
             bfprop := 122 - (_wri_find_cch (save_pap_bytes s (pap_at s r1.prop))
               _wri_default_pap_bytes sizeof_PAP).toNat }],
         rgFPROP := area.take (122 - (_wri_find_cch (save_pap_bytes s (pap_at s r1.prop))
               _wri_default_pap_bytes sizeof_PAP).toNat)
           ++ ((_wri_find_cch (save_pap_bytes s (pap_at s r1.prop))
               _wri_default_pap_bytes sizeof_PAP).toNat
             :: (save_pap_bytes s (pap_at s r1.prop)).take
               (_wri_find_cch (save_pap_bytes s (pap_at s r1.prop))
                 _wri_default_pap_bytes sizeof_PAP).toNat) }] := by
  have hlen := save_pap_bytes_length s (pap_at s r1.prop) ht
  obtain ⟨hc1, hc2, -, -⟩ := find_cch_bounds (save_pap_bytes s (pap_at s r1.prop))
    _wri_default_pap_bytes sizeof_PAP (by decide)
  have hloop : save_pap_loop s [r1, r2, r3] (Packer.init area pn)
      = save_pap_run s r3 (save_pap_run s r2 (save_pap_run s r1 (Packer.init area pn))) := by
    simp only [save_pap_loop, List.foldl_cons, List.foldl_nil]
  rw [hloop, save_pap_run_eq s r1, if_neg h1, save_pap_run_eq s r2, if_neg h2,
    save_pap_run_eq s r3, if_neg h3, e2, e3]
  generalize save_pap_bytes s (pap_at s r1.prop) = rec at hlen hc hc1 hc2 ⊢
  have step1 := pack_run_first r1.cpFirst r1.cpLim rec _wri_default_pap_bytes sizeof_PAP area pn
    ha (by decide) (le_refl _) (by rw [hlen]) hc
  have hs79 : ((sizeof_PAP : Nat) : Int) = 79 := rfl
  have hn79 : sizeof_PAP = 79 := rfl
  have hb : 2 ≤ (_wri_find_cch rec _wri_default_pap_bytes sizeof_PAP).toNat ∧
      (_wri_find_cch rec _wri_default_pap_bytes sizeof_PAP).toNat ≤ 79 := by omega
  simp only [sizeof_rgFPROP, PAGESIZE, sizeof_FC] at ha
  have htake : (area.take (122 - (_wri_find_cch rec _wri_default_pap_bytes sizeof_PAP).toNat)).length
      = 122 - (_wri_find_cch rec _wri_default_pap_bytes sizeof_PAP).toNat := by
    rw [List.length_take]; omega
  have hrl : (rec.take (_wri_find_cch rec _wri_default_pap_bytes sizeof_PAP).toNat).length
      = (_wri_find_cch rec _wri_default_pap_bytes sizeof_PAP).toNat := by
    rw [List.length_take]; omega
  have htop := fprop_at_top _ _ _ _ htake hrl
  generalize pack_run true r1.cpFirst r1.cpLim rec _wri_default_pap_bytes sizeof_PAP
    (Packer.init area pn) = K1 at step1 ⊢
  have k1old : K1.old_pap = [122 - (_wri_find_cch rec _wri_default_pap_bytes sizeof_PAP).toNat] := by
    rw [step1]
  have k1sp : K1.space_left = 116 - (_wri_find_cch rec _wri_default_pap_bytes sizeof_PAP).toNat := by
    rw [step1]
  have k1area : K1.fkp.rgFPROP
      = area.take (122 - (_wri_find_cch rec _wri_default_pap_bytes sizeof_PAP).toNat)
        ++ ((_wri_find_cch rec _wri_default_pap_bytes sizeof_PAP).toNat
          :: rec.take (_wri_find_cch rec _wri_default_pap_bytes sizeof_PAP).toNat) := by
    rw [step1]
  have step2 := pack_run_again r2.cpFirst r2.cpLim rec _wri_default_pap_bytes sizeof_PAP K1
    (122 - (_wri_find_cch rec _wri_default_pap_bytes sizeof_PAP).toNat) (by decide) (le_refl _)
    hc k1old (by omega) (by rw [k1sp]; simp only [sizeof_FOD]; omega) (by rw [k1area]; exact htop)
  have hsub : (116 - (_wri_find_cch rec _wri_default_pap_bytes sizeof_PAP).toNat + 4294967296
      - sizeof_FOD) % 4294967296
      = 110 - (_wri_find_cch rec _wri_default_pap_bytes sizeof_PAP).toNat := by
    simp only [sizeof_FOD]; omega
  have step3 := pack_run_again r3.cpFirst r3.cpLim rec _wri_default_pap_bytes sizeof_PAP
    (K1.add_fod (r2.cpLim + PAGESIZE)
      (122 - (_wri_find_cch rec _wri_default_pap_bytes sizeof_PAP).toNat) sizeof_FOD)
    (122 - (_wri_find_cch rec _wri_default_pap_bytes sizeof_PAP).toNat) (by decide) (le_refl _)
    hc k1old (by omega)
    (by
      show sizeof_FOD ≤ (K1.space_left + 4294967296 - sizeof_FOD) % 4294967296
      rw [k1sp, hsub]; simp only [sizeof_FOD]; omega)
    (by
      show fprop_at K1.fkp.rgFPROP _ = _
      rw [k1area]; exact htop)
  rw [step2, step3]
  have hmod : (122 - (_wri_find_cch rec _wri_default_pap_bytes sizeof_PAP).toNat) % 65536
      = 122 - (_wri_find_cch rec _wri_default_pap_bytes sizeof_PAP).toNat := Nat.mod_eq_of_lt (by omega)
  generalize (_wri_find_cch rec _wri_default_pap_bytes sizeof_PAP).toNat = c at *
  subst step1
  simp only [Packer.finish, Packer.add_fod, FKP.cfod, hmod, List.length_append, List.length_cons,
    List.length_nil, List.nil_append, List.cons_append, ne_eq, Nat.reduceAdd,
    OfNat.ofNat_ne_zero, not_false_eq_true, if_true, PAGESIZE]

/-- C12. In every page that `_wri_save_pap` writes, two descriptors that
designate byte-identical FPROPs carry the same offset, so no FPROP is stored
twice in a page; and the descriptors, read in order, designate for every
non-default run the byte `cch` followed by the first `cch` bytes that the
function lays out for the record of the run.  In particular, when the non-empty
runs are three runs whose bytes are identical and not the default, one page is
written: its three descriptors carry the same offset `122 - cch`, and its FPROP
area is the buffer as it was with the single FPROP stored at its top. -/
theorem same_page_dedup (s : State) (area : List Nat) (pnPara : Nat)
    (ha : area.length = sizeof_rgFPROP) (ht : s.tbd.length = itbdmax) :
    (∀ p ∈ (_wri_save_pap s area pnPara).2.written, p.blobs_distinct) ∧
    ((_wri_save_pap s area pnPara).2.written.map FKP.entries).flatten
      = pap_entries (_wri_user_to_sep s) (lpap_runs (_wri_user_to_sep s)) ∧
    (∀ r1 r2 r3 : lpap,
      (lpap_runs (_wri_user_to_sep s)).filter (fun r => r.cpFirst ≠ r.cpLim) = [r1, r2, r3] →
      save_pap_bytes (_wri_user_to_sep s) (pap_at (_wri_user_to_sep s) r2.prop)
        = save_pap_bytes (_wri_user_to_sep s) (pap_at (_wri_user_to_sep s) r1.prop) →
      save_pap_bytes (_wri_user_to_sep s) (pap_at (_wri_user_to_sep s) r3.prop)
        = save_pap_bytes (_wri_user_to_sep s) (pap_at (_wri_user_to_sep s) r1.prop) →
      1 < _wri_find_cch (save_pap_bytes (_wri_user_to_sep s) (pap_at (_wri_user_to_sep s) r1.prop))
        _wri_default_pap_bytes sizeof_PAP →
      ∃ cch : Nat,
        (cch : Int) = _wri_find_cch
          (save_pap_bytes (_wri_user_to_sep s) (pap_at (_wri_user_to_sep s) r1.prop))
          _wri_default_pap_bytes sizeof_PAP ∧
        (_wri_save_pap s area pnPara).2.written =
          [{ fcFirst := PAGESIZE,
             rgFOD := [{ fcLim := r1.cpLim + PAGESIZE, bfprop := 122 - cch },
                       { fcLim := r2.cpLim + PAGESIZE, bfprop := 122 - cch },
                       { fcLim := r3.cpLim + PAGESIZE, bfprop := 122 - cch }],
             rgFPROP := area.take (122 - cch) ++ (cch ::
               (save_pap_bytes (_wri_user_to_sep s)
                 (pap_at (_wri_user_to_sep s) r1.prop)).take cch) }]) := by
  have hinv := PackInv.pap_loop (_wri_user_to_sep s) ht (lpap_runs (_wri_user_to_sep s))
    (PackInv.init_ok true area pnPara ha)
  refine ⟨?_, ?_, ?_⟩
  · intro p hp
    exact (hinv.finish_ok.1 p hp).2 rfl
  · have h := hinv.finish_ok.2.1
    rw [List.nil_append] at h
    exact h
  · intro r1 r2 r3 hf e2 e3 hc
    have hmem : ∀ r ∈ [r1, r2, r3], r.cpFirst ≠ r.cpLim := by
      intro r hr
      rw [← hf] at hr
      simpa using (List.mem_filter.mp hr).2
    have hsave : (_wri_save_pap s area pnPara).2
        = (save_pap_loop (_wri_user_to_sep s) (lpap_runs (_wri_user_to_sep s))
            (Packer.init area pnPara)).finish := rfl
    have hb := (find_cch_bounds
      (save_pap_bytes (_wri_user_to_sep s) (pap_at (_wri_user_to_sep s) r1.prop))
      _wri_default_pap_bytes sizeof_PAP (by decide)).1
    refine ⟨(_wri_find_cch
      (save_pap_bytes (_wri_user_to_sep s) (pap_at (_wri_user_to_sep s) r1.prop))
      _wri_default_pap_bytes sizeof_PAP).toNat, by omega, ?_⟩
    rw [hsave, save_pap_loop_filter, hf]
    exact three_runs_one_blob (_wri_user_to_sep s) area pnPara r1 r2 r3 ha ht
      (hmem r1 (by simp)) (hmem r2 (by simp)) (hmem r3 (by simp)) e2 e3 hc

set_option maxRecDepth 1000000 in
/-- Witness for C12 on `doc_three`, three centred paragraphs that share one
record: one page, three descriptors with the offset 120 of the one FPROP
`[2, 0, 1]`. -/
theorem same_page_dedup_witness :
    zero_area.length = sizeof_rgFPROP ∧ doc_three.tbd.length = itbdmax ∧
    (lpap_runs (_wri_user_to_sep doc_three)).filter (fun r => r.cpFirst ≠ r.cpLim)
      = [{ cpFirst := 0, cpLim := 3, prop := 0 }, { cpFirst := 3, cpLim := 6, prop := 0 },
         { cpFirst := 6, cpLim := 7, prop := 0 }] ∧
    (∃ cch : Nat,
      (cch : Int) = _wri_find_cch
        (save_pap_bytes (_wri_user_to_sep doc_three) (pap_at (_wri_user_to_sep doc_three) 0))
        _wri_default_pap_bytes sizeof_PAP ∧
      (_wri_save_pap doc_three zero_area 3).2.written =
        [{ fcFirst := PAGESIZE,
           rgFOD := [{ fcLim := 3 + PAGESIZE, bfprop := 122 - cch },
                     { fcLim := 6 + PAGESIZE, bfprop := 122 - cch },
                     { fcLim := 7 + PAGESIZE, bfprop := 122 - cch }],
           rgFPROP := zero_area.take (122 - cch) ++ (cch ::
             (save_pap_bytes (_wri_user_to_sep doc_three)
               (pap_at (_wri_user_to_sep doc_three) 0)).take cch) }]) :=
  ⟨by decide, by decide, by decide,
   (same_page_dedup doc_three zero_area 3 (by decide) (by decide)).2.2
     { cpFirst := 0, cpLim := 3, prop := 0 } { cpFirst := 3, cpLim := 6, prop := 0 }
     { cpFirst := 6, cpLim := 7, prop := 0 } (by decide) rfl rfl (by decide)⟩

/-! ### The number of pages of character information -/

theorem chp_cost_bounds (r : lchp) : sizeof_FOD ≤ chp_cost r ∧ chp_cost r ≤ 13 := by
  obtain ⟨h1, h2, -, -⟩ := find_cch_bounds r.prop.bytes _wri_default_chp.bytes sizeof_CHP
    (by decide)
  have h6 : ((sizeof_CHP : Nat) : Int) = 6 := rfl
  unfold chp_cost
  simp only [sizeof_FOD]
  split_ifs
  · omega
  · omega

theorem save_chp_run_shape (r : lchp) (k : Packer) (he : r.cpFirst ≠ r.cpLim) :
    (save_chp_run r k).written
      = (if chp_cost r > k.space_left then k.written ++ [k.fkp] else k.written) ∧
    (save_chp_run r k).space_left
      = ((if chp_cost r > k.space_left then sizeof_rgFPROP else k.space_left)
          + 4294967296 - chp_cost r) % 4294967296 := by
  unfold save_chp_run chp_cost
  dsimp only
  rw [if_neg he]
  generalize _wri_find_cch r.prop.bytes _wri_default_chp.bytes sizeof_CHP = c
  by_cases hle : c ≤ 1
  · have hgt : ¬ c > 1 := by omega
    simp only [if_pos hle, if_neg hgt]
    by_cases hfit : sizeof_FOD > k.space_left
    · simp only [if_pos hfit, Packer.add_fod, Packer.new_page, and_self]
    · simp only [if_neg hfit, Packer.add_fod, and_self]
  · have hgt : c > 1 := by omega
    simp only [if_neg hle, if_pos hgt]
    by_cases hfit : sizeof_FOD + c.toNat + 1 > k.space_left
    · simp only [if_pos hfit, Packer.add_fod, Packer.new_page, Packer.write_fprop, and_self]
    · simp only [if_neg hfit, Packer.add_fod, Packer.write_fprop, and_self]

theorem PackInv.page_used_eq {d : Bool} {pn0 : Nat} {k : Packer}
    {done : List (Nat × Option (List Nat))} (h : PackInv d pn0 k done) :
    page_used k.fkp + k.space_left = sizeof_rgFPROP := by
  have h1 := h.space
  have h2 := h.lowest
  have h3 := h.start_le
  unfold page_used
  rw [h2]
  omega

theorem CostInv.step {pn0 : Nat} {k : Packer} {done : List (Nat × Option (List Nat))}
    {total : Nat} (h : PackInv false pn0 k done) (hc : CostInv k total) (r : lchp)
    (he : r.cpFirst ≠ r.cpLim) : CostInv (save_chp_run r k) (total + chp_cost r) := by
  obtain ⟨hw, hs⟩ := save_chp_run_shape r k he
  obtain ⟨hb1, hb2⟩ := chp_cost_bounds r
  have hu := h.page_used_eq
  have hsum := hc.sum
  simp only [sizeof_FOD] at hb1
  simp only [sizeof_rgFPROP, PAGESIZE, sizeof_FC] at hu hsum hs ⊢
  by_cases hfit : chp_cost r > k.space_left
  · rw [if_pos hfit] at hw hs
    refine ⟨?_, ?_, ?_⟩
    · rw [hw, hs]
      simp only [List.map_append, List.sum_append, List.map_cons, List.map_nil, List.sum_cons,
        List.sum_nil, sizeof_rgFPROP, PAGESIZE, sizeof_FC]
      omega
    · intro p hp
      rw [hw] at hp
      rcases List.mem_append.mp hp with hp | hp
      · exact hc.full p hp
      · rw [List.mem_singleton.mp hp]
        simp only [sizeof_rgFPROP, PAGESIZE, sizeof_FC]
        omega
    · intro _
      simp only [sizeof_rgFPROP, PAGESIZE, sizeof_FC]
      omega
  · rw [if_neg hfit] at hw hs
    refine ⟨?_, ?_, ?_⟩
    · rw [hw, hs]
      simp only [sizeof_rgFPROP, PAGESIZE, sizeof_FC]
      omega
    · intro p hp
      rw [hw] at hp
      exact hc.full p hp
    · intro hne
      rw [hw] at hne
      have := hc.big hne
      omega

theorem chp_loop_cost {pn0 : Nat} (runs : List lchp) :
    ∀ {k : Packer} {done : List (Nat × Option (List Nat))} {total : Nat},
      PackInv false pn0 k done → CostInv k total →
      CostInv (save_chp_loop runs k) (total + chp_total runs) := by
  induction runs with
  | nil =>
    intro k done total _ hc
    simpa [save_chp_loop, chp_total] using hc
  | cons r rs ih =>
    intro k done total h hc
    have hstep : save_chp_loop (r :: rs) k = save_chp_loop rs (save_chp_run r k) := rfl
    rw [hstep]
    by_cases he : r.cpFirst = r.cpLim
    · have hk : save_chp_run r k = k := by rw [save_chp_run_eq, if_pos he]
      have ht : chp_total (r :: rs) = chp_total rs := by
        simp [chp_total, List.filter_cons, he]
      rw [hk, ht]
      exact ih h hc
    · have ht : chp_total (r :: rs) = chp_cost r + chp_total rs := by
        simp [chp_total, List.filter_cons, he]
      have h1 : PackInv false pn0 (save_chp_run r k)
          (done ++ [run_entry r.cpLim r.prop.bytes _wri_default_chp.bytes sizeof_CHP]) := by
        rw [save_chp_run_eq, if_neg he]
        exact h.pack_run_ok r.cpFirst r.cpLim r.prop.bytes _wri_default_chp.bytes sizeof_CHP
          (by decide) (by decide) (by simp [CHP.bytes, sizeof_CHP])
      have h2 := ih h1 (hc.step h r he)
      rw [ht, ← Nat.add_assoc]
      exact h2

theorem CostInv.start_ok (area : List Nat) (pn : Nat) : CostInv (Packer.init area pn) 0 where
  sum := by simp [Packer.init]
  full := by intro p hp; simp [Packer.init] at hp
  big := by intro h; simp [Packer.init] at h

theorem sum_bounds (l : List FKP) (lo hi : Nat)
    (h : ∀ p ∈ l, lo ≤ page_used p ∧ page_used p ≤ hi) :
    lo * l.length ≤ (l.map page_used).sum ∧ (l.map page_used).sum ≤ hi * l.length := by
  induction l with
  | nil => simp
  | cons x xs ih =>
    have hx := h x (List.mem_cons_self _ _)
    have hxs := ih (fun p hp => h p (List.mem_cons_of_mem _ hp))
    simp only [List.map_cons, List.sum_cons, List.length_cons, Nat.mul_succ]
    omega

theorem finish_cost {pn0 : Nat} {k : Packer} {done : List (Nat × Option (List Nat))}
    {total : Nat} (h : PackInv false pn0 k done) (hc : CostInv k total) :
    total ≤ sizeof_rgFPROP * k.finish.written.length ∧
    (1 ≤ k.finish.written.length → 111 * (k.finish.written.length - 1) + 6 ≤ total) ∧
    (2 ≤ k.finish.written.length → sizeof_rgFPROP < total) := by
  have hu := h.page_used_eq
  have hsum := hc.sum
  have hb := sum_bounds k.written 111 sizeof_rgFPROP hc.full
  have hsp := h.space
  have hst := h.start_le
  unfold Packer.finish
  simp only [sizeof_rgFPROP, PAGESIZE, sizeof_FC, sizeof_FOD] at hu hsum hb hsp hst ⊢
  by_cases h0 : k.fkp.cfod ≠ 0
  · rw [if_pos h0]
    simp only [List.length_append, List.length_singleton]
    refine ⟨by omega, fun _ => by omega, ?_⟩
    intro h2
    have hne : k.written ≠ [] := by
      intro hnil
      rw [hnil] at h2
      simp at h2
    have := hc.big hne
    simp only [sizeof_rgFPROP, PAGESIZE, sizeof_FC] at this
    exact this
  · rw [if_neg h0]
    have hz : k.fkp.cfod = 0 := by omega
    have hsl := h.empty_page hz
    simp only [sizeof_rgFPROP, PAGESIZE, sizeof_FC] at hsl
    refine ⟨by omega, fun _ => by omega, ?_⟩
    intro h2
    have hne : k.written ≠ [] := by
      intro hnil
      rw [hnil] at h2
      simp at h2
    have := hc.big hne
    simp only [sizeof_rgFPROP, PAGESIZE, sizeof_FC] at this
    exact this

set_option maxRecDepth 1000000 in
/-- C13, counterexample. The 19 character runs of `doc_overflow` are non-empty,
their records are not the default and pairwise distinct, and their total
encoded size is 18 * 13 + 10 = 244 bytes, more than 123; `ceil(244 / 123)` is 2
but `_wri_save_chp` writes 3 pages: nine runs of 13 bytes fill 117 bytes of a
page and the tenth does not fit in the 6 bytes that remain. -/
theorem page_count_exceeds_ceiling :
    (lchp_runs doc_overflow).length = 19 ∧
    (∀ r ∈ lchp_runs doc_overflow, r.cpFirst ≠ r.cpLim ∧
      1 < _wri_find_cch r.prop.bytes _wri_default_chp.bytes sizeof_CHP) ∧
    ((lchp_runs doc_overflow).map (fun r => r.prop)).Nodup ∧
    chp_total (lchp_runs doc_overflow) = 244 ∧
    (244 + 122) / 123 = 2 ∧
    (_wri_save_chp doc_overflow zero_area).written.length = 3 ∧
    (_wri_save_chp doc_overflow zero_area).written.map FKP.cfod = [9, 9, 1] := by
  have hhps : (lchp_runs doc_overflow).map (fun r => r.prop.hps)
      = [20, 40, 42, 44, 46, 48, 50, 52, 54, 56, 58, 60, 62, 64, 66, 68, 70, 72, 96] := by
    decide
  have hnd : (((lchp_runs doc_overflow).map (fun r => r.prop)).map (fun c => c.hps)).Nodup := by
    rw [List.map_map]
    have e : ((fun c : CHP => c.hps) ∘ fun r : lchp => r.prop) = fun r => r.prop.hps := rfl
    rw [e, hhps]
    decide
  exact ⟨by decide, by decide, List.Nodup.of_map _ hnd, by decide, by decide, by decide,
    by decide⟩

/-- C13, amended. For every list of character runs, with `chp_total` the sum
over the non-empty runs of the descriptor size 6 plus, when the record is not
the default, `cch + 1`: the number `p` of pages that `_wri_save_chp` writes
satisfies `chp_total ≤ 123 * p`, hence `ceil(chp_total / 123) ≤ p`; when a page
is written, `111 * (p - 1) + 6 ≤ chp_total`, every page before the last being
left with less than 13 free bytes; and two pages are written only when
`chp_total` exceeds 123.  So `p = ceil(chp_total / 123)` as long as
`chp_total ≤ 227`. -/
theorem page_count_bounds (s : State) (area : List Nat) (ha : area.length = sizeof_rgFPROP) :
    chp_total (lchp_runs s) ≤ 123 * (_wri_save_chp s area).written.length ∧
    (chp_total (lchp_runs s) + 122) / 123 ≤ (_wri_save_chp s area).written.length ∧
    (1 ≤ (_wri_save_chp s area).written.length →
      111 * ((_wri_save_chp s area).written.length - 1) + 6 ≤ chp_total (lchp_runs s)) ∧
    (2 ≤ (_wri_save_chp s area).written.length → 123 < chp_total (lchp_runs s)) ∧
    (chp_total (lchp_runs s) ≤ 227 →
      (_wri_save_chp s area).written.length = (chp_total (lchp_runs s) + 122) / 123) := by
  have hinv := PackInv.chp_loop (lchp_runs s) (PackInv.init_ok false area
    ((s._wri_cpMac + PAGESIZE + PAGESIZE - 1) / PAGESIZE) ha)
  have hcost := chp_loop_cost (lchp_runs s) (PackInv.init_ok false area
    ((s._wri_cpMac + PAGESIZE + PAGESIZE - 1) / PAGESIZE) ha) (CostInv.start_ok area _)
  rw [Nat.zero_add] at hcost
  obtain ⟨h1, h2, h3⟩ := finish_cost hinv hcost
  have hsave : _wri_save_chp s area = (save_chp_loop (lchp_runs s) (Packer.init area
    ((s._wri_cpMac + PAGESIZE + PAGESIZE - 1) / PAGESIZE))).finish := rfl
  rw [hsave]
  generalize (save_chp_loop (lchp_runs s) (Packer.init area
    ((s._wri_cpMac + PAGESIZE + PAGESIZE - 1) / PAGESIZE))).finish = K at h1 h2 h3 ⊢
  generalize chp_total (lchp_runs s) = T at h1 h2 h3 ⊢
  simp only [sizeof_rgFPROP, PAGESIZE, sizeof_FC] at h1 h3 ⊢
  refine ⟨h1, by omega, h2, h3, ?_⟩
  intro hT
  by_cases hp : 1 ≤ K.written.length
  · have := h2 hp
    by_cases hp2 : 2 ≤ K.written.length
    · have := h3 hp2
      omega
    · omega
  · omega

set_option maxRecDepth 1000000 in
/-- Witness for C13 on `doc_overflow`: 244 bytes in 3 pages, between
`ceil(244 / 123) = 2` and `(244 - 6) / 111 + 1 = 3`. -/
theorem page_count_bounds_witness :
    zero_area.length = sizeof_rgFPROP ∧
    chp_total (lchp_runs doc_overflow) = 244 ∧
    (_wri_save_chp doc_overflow zero_area).written.length = 3 ∧
    chp_total (lchp_runs doc_overflow)
      ≤ 123 * (_wri_save_chp doc_overflow zero_area).written.length :=
  ⟨by decide, by decide, by decide, (page_count_bounds doc_overflow zero_area (by decide)).1⟩

/-! ### Decoding what the saver encodes -/

theorem CHP.of_bytes_bytes (c : CHP) (h : c.wf) : CHP.of_bytes c.bytes = c := by
  obtain ⟨h1, h2, h3, h4, h5, h6, h7, h8, h9, h10, h11, h12, h13, h14, h15, h16, h17⟩ := h
  cases c
  simp only [CHP.bytes, CHP.of_bytes, List.getD_cons_zero, List.getD_cons_succ, CHP.mk.injEq] at *
  refine ⟨?_, ?_, ?_, ?_, ?_, ?_, ?_, ?_, ?_, ?_, ?_, ?_, ?_, ?_, ?_, ?_, ?_⟩ <;> omega

theorem PAP.of_bytes_full_bytes (p : PAP) (tabs : List TBD) (h : p.wf) :
    PAP.of_bytes (p.full_bytes tabs) = p := by
  obtain ⟨h1, h2, h3, h4, h5, h6, h7, h8, h9, h10, h11, h12, h13, h14, h15, h16, h17, h18⟩ := h
  cases p with
  | mk res1 jc res2 res3 res4 dxaRight dxaLeft dxaLeft1 dyaLine dyaBefore dyaAfter rhcPage rhcOdd
      rhcEven rhcFirst fGraphics res5 =>
  simp only at h1 h2 h3 h4 h5 h6 h7 h8 h9 h10 h11 h12 h13 h14 h15 h16 h17 h18
  have hx : ((dxaLeft1 % 65536).toNat : Int) = dxaLeft1 % 65536 :=
    Int.toNat_of_nonneg (Int.emod_nonneg _ (by decide))
  generalize (dxaLeft1 % 65536).toNat = n at hx
  simp only [PAP.full_bytes, PAP.bytes, PAP.of_bytes, word16, bytes16, to_short, List.cons_append,
    List.nil_append, List.append_assoc, List.getD_cons_zero, List.getD_cons_succ, PAP.mk.injEq]
  refine ⟨?_, ?_, ?_, ?_, ?_, ?_, ?_, ?_, ?_, ?_, ?_, ?_, ?_, ?_, ?_, ?_, ?_⟩ <;> omega

/-! ### The paragraph list under `_wri_append_pap` -/

theorem pap_view_congr (t t2 : State) (runs : List lpap)
    (h : ∀ r ∈ runs, ({ pap_at t2 r.prop with res1 := 0 } : PAP) = { pap_at t r.prop with res1 := 0 }) :
    runs.map (pap_view t2) = runs.map (pap_view t) := by
  apply List.map_congr_left
  intro r hr
  unfold pap_view
  rw [h r hr]

theorem pap_at_append_left (s : State) (extra : List PAP) (a : Nat) (h : a < s.paps.length) :
    pap_at { s with paps := s.paps ++ extra } a = pap_at s a := by
  simp [pap_at, List.getD_eq_getElem?_getD, List.getElem?_append_left h]

theorem PapOwn.toTarget {t : State} {v : List (Nat × Nat × PAP)} (h : PapOwn t v) :
    PapTarget t v :=
  ⟨h.1, t.lpap_list, [], by simp, by simp, h.2.1, by simp, by simp [h.2.2]⟩

theorem PapTarget.count_one {t : State} {v : List (Nat × Nat × PAP)} (h : PapTarget t v)
    (h1 : (pap_curr t).res1 = 1) : PapOwn t v := by
  obtain ⟨hw, old, grp, hl, hg, ho, hn, hc⟩ := h
  have hz : grp.length = 0 := by
    rw [h1] at hc
    omega
  have hnil : grp = [] := List.length_eq_zero.mp hz
  subst hnil
  rw [List.append_nil] at hl
  exact ⟨hw, by rw [hl]; exact ho, h1⟩

theorem PapWeak.clone {t : State} {v : List (Nat × Nat × PAP)} (h : PapWeak t v) :
    (clone_pap t).1 = true ∧ PapOwn (clone_pap t).2 v := by
  obtain ⟨ha, hv, hp⟩ := h
  have hcur : t.lpap_curr.prop < t.paps.length := hp _ (by simp [lpap_runs])
  rw [clone_pap_of_succeeds t (AllocOK_succeeds t ha) hcur]
  refine ⟨rfl, ⟨AllocOK_tail t ha, ?_, ?_⟩, ?_, ?_⟩
  · rw [← hv]
    simp only [lpap_runs, List.map_append, List.map_cons, List.map_nil]
    congr 1
    · apply List.map_congr_left
      intro r hr
      have hr2 : r.prop < t.paps.length := hp r (by simp [lpap_runs, hr])
      unfold pap_view
      simp only [pap_at, List.getD_eq_getElem?_getD, List.getElem?_append_left
        (show r.prop < (t.paps.set t.lpap_curr.prop
          { pap_curr t with res1 := ((pap_curr t).res1 + 255) % 256 }).length by simpa using hr2),
        List.getElem?_set]
      by_cases e : t.lpap_curr.prop = r.prop
      · simp [e, hr2, pap_curr, pap_at, List.getD_eq_getElem?_getD]
      · simp [e]
    · unfold pap_view
      simp [pap_at, pap_curr, List.getD_eq_getElem?_getD]
  · intro r hr
    simp only [lpap_runs, List.mem_append, List.mem_singleton] at hr
    simp only [List.length_append, List.length_set, List.length_singleton]
    rcases hr with hr | hr
    · have := hp r (by simp [lpap_runs, hr]); omega
    · rw [hr]; simp
  · intro r hr
    have := hp r (by simp [lpap_runs]; left; exact hr)
    simp only
    omega
  · simp [pap_curr, pap_at, List.getD_eq_getElem?_getD]

theorem PapTarget.own_this_para {t : State} {v : List (Nat × Nat × PAP)} (h : PapTarget t v) :
    (this_para t).1 = true ∧ PapOwn (this_para t).2 v := by
  unfold this_para
  by_cases h1 : (pap_curr t).res1 = 1
  · rw [if_pos h1]
    exact ⟨rfl, h.count_one h1⟩
  · rw [if_neg h1]
    exact h.1.clone

theorem PapWeak.split {t : State} {v0 : List (Nat × Nat × PAP)} {v : Nat × Nat × PAP}
    (h : PapWeak t (v0 ++ [v])) :
    t.lpap_list.map (pap_view t) = v0 ∧ pap_view t t.lpap_curr = v := by
  have hv := h.2.1
  simp only [lpap_runs, List.map_append, List.map_cons, List.map_nil] at hv
  have hlen : (t.lpap_list.map (pap_view t)).length = v0.length := by
    have := congrArg List.length hv
    simp only [List.length_append, List.length_singleton] at this
    omega
  obtain ⟨e1, e2⟩ := List.append_inj hv hlen
  exact ⟨e1, by simpa using e2⟩

theorem PapOwn.set_content {t : State} {v0 : List (Nat × Nat × PAP)} {v : Nat × Nat × PAP}
    (h : PapOwn t (v0 ++ [v])) (q : PAP) :
    PapOwn (set_pap_curr t { q with res1 := (pap_curr t).res1 })
      (v0 ++ [(t.lpap_curr.cpFirst, t.lpap_curr.cpLim, { q with res1 := 0 })]) := by
  obtain ⟨hw, hne, hc⟩ := h
  obtain ⟨hv0, -⟩ := hw.split
  obtain ⟨ha, -, hp⟩ := hw
  have hcur : t.lpap_curr.prop < t.paps.length := hp _ (by simp [lpap_runs])
  refine ⟨⟨ha, ?_, ?_⟩, hne, ?_⟩
  · show (t.lpap_list ++ [t.lpap_curr]).map (pap_view (set_pap_curr t _)) = _
    rw [List.map_append, ← hv0]
    congr 1
    · apply List.map_congr_left
      intro r hr
      unfold pap_view set_pap_curr
      rw [pap_at_set_other _ _ _ _ (fun e => hne r hr e.symm)]
    · unfold pap_view set_pap_curr
      simp only [List.map_cons, List.map_nil]
      rw [pap_at_set_same _ _ _ hcur]
  · intro r hr
    have := hp r hr
    simpa [set_pap_curr, set_pap_at] using this
  · unfold pap_curr set_pap_curr
    show (pap_at (set_pap_at t t.lpap_curr.prop _) t.lpap_curr.prop).res1 = 1
    rw [pap_at_set_same _ _ _ hcur]
    exact hc

theorem PapTarget.extend {t : State} {v0 : List (Nat × Nat × PAP)} {v : Nat × Nat × PAP}
    (h : PapTarget t (v0 ++ [v])) (L : Nat) :
    PapTarget (_wri_extend_pap L t) (v0 ++ [(v.1, L, v.2.2)]) := by
  obtain ⟨hw, hshare⟩ := h
  obtain ⟨hv0, hv⟩ := hw.split
  obtain ⟨ha, -, hp⟩ := hw
  refine ⟨⟨ha, ?_, ?_⟩, hshare⟩
  · show (t.lpap_list ++ [{ t.lpap_curr with cpLim := L }]).map (pap_view (_wri_extend_pap L t)) = _
    rw [List.map_append, ← hv0, ← hv]
    rfl
  · intro r hr
    simp only [lpap_runs, _wri_extend_pap, List.mem_append, List.mem_singleton] at hr
    rcases hr with hr | hr
    · exact hp r (by simp [lpap_runs, hr])
    · rw [hr]; exact hp t.lpap_curr (by simp [lpap_runs])

theorem PapTarget.new_paragraph {t : State} {v : List (Nat × Nat × PAP)} (h : PapTarget t v) :
    (_wri_new_paragraph t).1 = 0 ∧
    PapTarget (_wri_new_paragraph t).2
      (v ++ [(t.lpap_curr.cpLim, t.lpap_curr.cpLim, { pap_curr t with res1 := 0 })]) := by
  obtain ⟨⟨ha, hv, hp⟩, old, grp, hl, hg, ho, hn, hc⟩ := h
  have hcur : t.lpap_curr.prop < t.paps.length := hp _ (by simp [lpap_runs])
  -- the state after the node is linked and the count incremented
  have hweak : PapWeak { t with
      malloc_ok := t.malloc_ok.tail,
      lpap_list := t.lpap_list ++ [t.lpap_curr],
      lpap_curr := { cpFirst := t.lpap_curr.cpLim, cpLim := t.lpap_curr.cpLim,
                     prop := t.lpap_curr.prop },
      paps := t.paps.set t.lpap_curr.prop
        { pap_curr t with res1 := ((pap_curr t).res1 + 1) % 256 } }
      (v ++ [(t.lpap_curr.cpLim, t.lpap_curr.cpLim, { pap_curr t with res1 := 0 })]) := by
    refine ⟨AllocOK_tail t ha, ?_, ?_⟩
    · rw [← hv]
      simp only [lpap_runs, List.map_append, List.map_cons, List.map_nil]
      congr 1
      · congr 1
        · apply List.map_congr_left
          intro r hr
          unfold pap_view
          simp only [pap_at, List.getD_eq_getElem?_getD, List.getElem?_set]
          by_cases e : t.lpap_curr.prop = r.prop
          · simp [e, hp r (by simp [lpap_runs, hr]), pap_curr, pap_at,
              List.getD_eq_getElem?_getD]
          · simp [e]
        · unfold pap_view
          simp [pap_at, pap_curr, List.getD_eq_getElem?_getD, hcur]
      · unfold pap_view
        simp [pap_at, pap_curr, List.getD_eq_getElem?_getD, hcur]
    · intro r hr
      simp only [lpap_runs, List.mem_append, List.mem_singleton, List.length_set] at hr ⊢
      rcases hr with (hr | hr) | hr
      · exact hp r (by simp [lpap_runs, hr])
      · rw [hr]; exact hcur
      · rw [hr]; exact hcur
  by_cases h0 : (pap_curr t).res1 = 0
  · have hnp : _wri_new_paragraph t = (match clone_pap { t with
          malloc_ok := t.malloc_ok.tail,
          lpap_list := t.lpap_list ++ [t.lpap_curr],
          lpap_curr := { cpFirst := t.lpap_curr.cpLim, cpLim := t.lpap_curr.cpLim,
                         prop := t.lpap_curr.prop },
          paps := t.paps.set t.lpap_curr.prop
            { pap_curr t with res1 := ((pap_curr t).res1 + 1) % 256 } } with
        | (false, s4) => (1, s4)
        | (true, s4) => (0, s4)) := by
      unfold _wri_new_paragraph _wri_new_lprop
      rw [malloc_of_AllocOK t ha]
      dsimp only
      split_ifs with hif
      · rfl
      · exact absurd h0 hif
    rw [hnp]
    obtain ⟨hc1, hown⟩ := hweak.clone
    generalize clone_pap _ = r at hc1 hown ⊢
    obtain ⟨b, s4⟩ := r
    simp only at hc1
    subst hc1
    exact ⟨rfl, hown.toTarget⟩
  · rw [new_paragraph_of_succeeds t (AllocOK_succeeds t ha) h0]
    refine ⟨rfl, hweak, old, grp ++ [t.lpap_curr], ?_, ?_, ?_, ?_, ?_⟩
    · simp only [hl, List.append_assoc]
    · intro r hr
      rcases List.mem_append.mp hr with hr | hr
      · exact hg r hr
      · rw [List.mem_singleton.mp hr]
    · exact ho
    · rw [List.length_append, List.length_singleton]
      rw [hc] at h0
      omega
    · simp only [pap_curr, pap_at, List.getD_eq_getElem?_getD, List.getElem?_set, hcur,
        List.length_append, List.length_singleton]
      simp only [pap_curr, pap_at, List.getD_eq_getElem?_getD] at hc
      simp only [if_true, Option.getD_some, hc]
      omega

theorem PAP.res1_zero_eq (q : PAP) (hq : q.res1 = 0) : ({ q with res1 := 0 } : PAP) = q := by
  cases q
  simp only at hq
  subst hq
  rfl

theorem PapTarget.set_and_extend {t : State} {v0 : List (Nat × Nat × PAP)}
    {v : Nat × Nat × PAP} (h : PapTarget t (v0 ++ [v])) (q : PAP) (L : Nat) (hq : q.res1 = 0) :
    (if ({ q with res1 := 0 } : PAP) ≠ { pap_curr t with res1 := 0 } then
        match this_para t with
        | (false, s2) => ((1 : Int), s2)
        | (true, s2) =>
          (0, _wri_extend_pap L (set_pap_curr s2 { q with res1 := (pap_curr s2).res1 }))
      else (0, _wri_extend_pap L t)).1 = 0 ∧
    PapTarget (if ({ q with res1 := 0 } : PAP) ≠ { pap_curr t with res1 := 0 } then
        match this_para t with
        | (false, s2) => ((1 : Int), s2)
        | (true, s2) =>
          (0, _wri_extend_pap L (set_pap_curr s2 { q with res1 := (pap_curr s2).res1 }))
      else (0, _wri_extend_pap L t)).2 (v0 ++ [(v.1, L, q)]) := by
  by_cases hd : ({ q with res1 := 0 } : PAP) ≠ { pap_curr t with res1 := 0 }
  · rw [if_pos hd]
    obtain ⟨h1, hown⟩ := h.own_this_para
    generalize this_para t = r at h1 hown ⊢
    obtain ⟨b, s2⟩ := r
    simp only at h1 hown
    subst h1
    have hv := hown.1.split.2
    have hset := (hown.set_content q).toTarget.extend L
    simp only [PAP.res1_zero_eq q hq] at hset
    have e1 : s2.lpap_curr.cpFirst = v.1 := by rw [← hv]; rfl
    rw [e1] at hset
    exact ⟨rfl, hset⟩
  · rw [if_neg hd]
    have hsame : ({ q with res1 := 0 } : PAP) = { pap_curr t with res1 := 0 } := not_not.mp hd
    have hv := h.1.split.2
    have hext := h.extend L
    have e2 : v.2.2 = q := by
      rw [← hv, ← PAP.res1_zero_eq q hq, hsame]
      rfl
    rw [e2] at hext
    exact ⟨rfl, hext⟩

theorem PapTarget.append_first {t : State} {v0 : List (Nat × Nat × PAP)}
    {v : Nat × Nat × PAP} (h : PapTarget t (v0 ++ [v])) (q : PAP) (L : Nat) (hq : q.res1 = 0) :
    (_wri_append_pap q L 1 t).1 = 0 ∧
    PapTarget (_wri_append_pap q L 1 t).2 (v0 ++ [(v.1, L, q)]) := by
  unfold _wri_append_pap
  simp only [show ((1 : Int) = 0) = False from by decide, if_false, ne_eq, not_true_eq_false]
  exact h.set_and_extend q L hq

theorem PapTarget.append_next {t : State} {v : List (Nat × Nat × PAP)}
    (h : PapTarget t v) (q : PAP) (L : Nat) (hq : q.res1 = 0) :
    (_wri_append_pap q L 0 t).1 = 0 ∧
    PapTarget (_wri_append_pap q L 0 t).2 (v ++ [(t.lpap_curr.cpLim, L, q)]) := by
  obtain ⟨h1, h2⟩ := h.new_paragraph
  unfold _wri_append_pap
  simp only [if_true]
  generalize _wri_new_paragraph t = r at h1 h2 ⊢
  obtain ⟨b, t1⟩ := r
  simp only at h1 h2
  subst h1
  simp only [ne_eq, not_true_eq_false, if_false]
  exact h2.set_and_extend q L hq

/-! ### Superscript, subscript and the size -/

theorem new_chp_true (s : State) (h : (new_chp s).1 = true) :
    (new_chp s).2.lchp_curr.cpFirst = (new_chp s).2.lchp_curr.cpLim ∧
    chp_curr (new_chp s).2 = chp_curr s ∧
    ((new_chp s).2.lchp_list = s.lchp_list ∨
      (new_chp s).2.lchp_list = s.lchp_list ++ [s.lchp_curr]) := by
  unfold new_chp at h ⊢
  split_ifs at h ⊢ with he
  · exact ⟨he.symm, rfl, Or.inl rfl⟩
  · unfold _wri_new_lprop malloc at h ⊢
    cases hm : s.malloc_ok.headD true
    · rw [hm] at h
      simp at h
    · exact ⟨rfl, rfl, Or.inr rfl⟩

theorem new_chp_cases (s : State) :
    (s.lchp_curr.cpFirst = s.lchp_curr.cpLim ∧ new_chp s = (true, s)) ∨
    (s.lchp_curr.cpFirst ≠ s.lchp_curr.cpLim ∧ new_chp s = (true, { s with
      malloc_ok := s.malloc_ok.tail,
      lchp_list := s.lchp_list ++ [s.lchp_curr],
      lchp_curr := { cpFirst := s.lchp_curr.cpLim, cpLim := s.lchp_curr.cpLim,
                     prop := s.lchp_curr.prop } })) ∨
    (new_chp s).1 = false := by
  by_cases he : s.lchp_curr.cpFirst = s.lchp_curr.cpLim
  · exact Or.inl ⟨he, new_chp_of_empty s he⟩
  · by_cases ha : alloc_succeeds s
    · exact Or.inr (Or.inl ⟨he, new_chp_of_nonempty s he ha⟩)
    · right; right
      unfold new_chp _wri_new_lprop malloc
      rw [if_neg (fun e => he e.symm)]
      have : s.malloc_ok.headD true = false := by
        unfold alloc_succeeds at ha
        simpa using ha
      rw [this]

theorem new_chp_set_again (s1 : State) (c : CHP)
    (he : s1.lchp_curr.cpFirst = s1.lchp_curr.cpLim) :
    new_chp (set_chp_curr s1 c) = (true, set_chp_curr s1 c) :=
  new_chp_of_empty _ he

/-- C21. `wri_char_script(v)` with a valid `v` (0, 12 or 244) that differs from
the script position of the current run: when the call returns 0, the record of
the current run is the one it was with `hpsPos` set to `v` and with the size
`h` replaced, on entering a scripted mode from normal, by what
`wri_char_reduce` gives (`h` itself when `h ≤ 12`, else the table entry the
downward scan stops at), on returning to normal, by what `wri_char_enlarge`
gives (`h` itself when `h ≥ 96`, else the entry the upward scan stops at), and
left as it is between superscript and subscript; the runs before the current
one are those there were, with at most the old current run added. -/
theorem wri_char_script_spec (s : State) (v : Int)
    (hv : v = WRI_NORMAL ∨ v = WRI_SUBSCRIPT ∨ v = WRI_SUPERSCRIPT)
    (hne : (chp_curr s).hpsPos ≠ v.toNat) (hok : (wri_char_script v s).1 = 0) :
    chp_curr (wri_char_script v s).2 =
      { chp_curr s with
        hpsPos := v.toNat,
        hps :=
          if (chp_curr s).hpsPos = 0 then
            (if (chp_curr s).hps ≤ 12 then (chp_curr s).hps
             else hps_values.getD (reduce_loop (chp_curr s).hps (N_HPS_VALUES - 1)).toNat 0)
          else if v = WRI_NORMAL then
            (if (chp_curr s).hps ≥ 96 then (chp_curr s).hps
             else hps_values.getD (enlarge_loop (chp_curr s).hps N_HPS_VALUES 0) 0)
          else (chp_curr s).hps } ∧
    ((wri_char_script v s).2.lchp_list = s.lchp_list ∨
      (wri_char_script v s).2.lchp_list = s.lchp_list ++ [s.lchp_curr]) ∧
    (lchp_runs (wri_char_script v s).2).length ≤ (lchp_runs s).length + 1 := by
  have hvalid : ¬ (v ≠ WRI_NORMAL ∧ v ≠ WRI_SUBSCRIPT ∧ v ≠ WRI_SUPERSCRIPT) := by
    rcases hv with h | h | h <;> simp [h, WRI_NORMAL, WRI_SUBSCRIPT, WRI_SUPERSCRIPT]
  have hmod : v.toNat % 256 = v.toNat := by
    rcases hv with h | h | h <;> simp [h, WRI_NORMAL, WRI_SUBSCRIPT, WRI_SUPERSCRIPT]
  have e12 : hps_values.getD 0 0 = 12 := rfl
  have e96 : hps_values.getD (N_HPS_VALUES - 1) 0 = 96 := rfl
  unfold wri_char_script at hok ⊢
  rw [if_neg hvalid, if_neg hne] at hok ⊢
  rw [hmod] at hok ⊢
  dsimp only at hok ⊢
  by_cases hp0 : (chp_curr s).hpsPos = 0
  · -- entering a scripted mode
    have hvn : v ≠ WRI_NORMAL := by
      intro h
      rw [h, hp0] at hne
      exact hne rfl
    have hc1 : (chp_curr s).hpsPos = 0 ∧ v ≠ WRI_NORMAL := ⟨hp0, hvn⟩
    rw [if_pos hc1] at hok ⊢
    rw [if_pos hp0]
    unfold wri_char_reduce at hok ⊢
    rw [e12] at hok ⊢
    by_cases hsmall : (chp_curr s).hps ≤ 12
    · rw [if_pos hsmall] at hok ⊢
      rw [if_pos hsmall]
      rcases new_chp_cases s with ⟨_, hn⟩ | ⟨_, hn⟩ | hn
      · rw [hn]
        exact ⟨rfl, Or.inl rfl, by simp [lchp_runs, set_chp_curr]⟩
      · rw [hn]
        refine ⟨rfl, Or.inr rfl, ?_⟩
        simp [lchp_runs, set_chp_curr]
      · exfalso
        generalize new_chp s = r at hok hn
        obtain ⟨b, s1⟩ := r
        simp only at hn
        subst hn
        simp at hok
    · rw [if_neg hsmall] at hok ⊢
      rw [if_neg hsmall]
      rcases new_chp_cases s with ⟨he, hn⟩ | ⟨_, hn⟩ | hn
      · rw [hn]
        dsimp only
        rw [new_chp_set_again s _ he]
        exact ⟨rfl, Or.inl rfl, by simp [lchp_runs, set_chp_curr]⟩
      · rw [hn]
        dsimp only
        rw [new_chp_set_again _ _ rfl]
        refine ⟨rfl, Or.inr rfl, ?_⟩
        simp [lchp_runs, set_chp_curr]
      · exfalso
        generalize new_chp s = r at hok hn
        obtain ⟨b, s1⟩ := r
        simp only at hn
        subst hn
        simp at hok
  · by_cases hvn : v = WRI_NORMAL
    · -- leaving a scripted mode
      have hc1 : ¬ ((chp_curr s).hpsPos = 0 ∧ v ≠ WRI_NORMAL) := fun h => hp0 h.1
      have hc2 : (chp_curr s).hpsPos ≠ 0 ∧ v = WRI_NORMAL := ⟨hp0, hvn⟩
      rw [if_neg hc1, if_pos hc2] at hok ⊢
      rw [if_neg hp0, if_pos hvn]
      unfold wri_char_enlarge at hok ⊢
      rw [e96] at hok ⊢
      by_cases hbig : (chp_curr s).hps ≥ 96
      · rw [if_pos hbig] at hok ⊢
        rw [if_pos hbig]
        rcases new_chp_cases s with ⟨_, hn⟩ | ⟨_, hn⟩ | hn
        · rw [hn]
          exact ⟨rfl, Or.inl rfl, by simp [lchp_runs, set_chp_curr]⟩
        · rw [hn]
          refine ⟨rfl, Or.inr rfl, ?_⟩
          simp [lchp_runs, set_chp_curr]
        · exfalso
          generalize new_chp s = r at hok hn
          obtain ⟨b, s1⟩ := r
          simp only at hn
          subst hn
          simp at hok
      · rw [if_neg hbig] at hok ⊢
        rw [if_neg hbig]
        rcases new_chp_cases s with ⟨he, hn⟩ | ⟨_, hn⟩ | hn
        · rw [hn]
          dsimp only
          rw [new_chp_set_again s _ he]
          exact ⟨rfl, Or.inl rfl, by simp [lchp_runs, set_chp_curr]⟩
        · rw [hn]
          dsimp only
          rw [new_chp_set_again _ _ rfl]
          refine ⟨rfl, Or.inr rfl, ?_⟩
          simp [lchp_runs, set_chp_curr]
        · exfalso
          generalize new_chp s = r at hok hn
          obtain ⟨b, s1⟩ := r
          simp only at hn
          subst hn
          simp at hok
    · -- between superscript and subscript
      have hc1 : ¬ ((chp_curr s).hpsPos = 0 ∧ v ≠ WRI_NORMAL) := fun h => hp0 h.1
      have hc2 : ¬ ((chp_curr s).hpsPos ≠ 0 ∧ v = WRI_NORMAL) := fun h => hvn h.2
      rw [if_neg hc1, if_neg hc2] at hok ⊢
      rw [if_neg hp0, if_neg hvn]
      rcases new_chp_cases s with ⟨_, hn⟩ | ⟨_, hn⟩ | hn
      · rw [hn]
        exact ⟨rfl, Or.inl rfl, by simp [lchp_runs, set_chp_curr]⟩
      · rw [hn]
        refine ⟨rfl, Or.inr rfl, ?_⟩
        simp [lchp_runs, set_chp_curr]
      · exfalso
        generalize new_chp s = r at hok hn
        obtain ⟨b, s1⟩ := r
        simp only at hn
        subst hn
        simp at hok

/-- Witness for C21: in `doc_abc` the current run is normal with size 24;
`wri_char_script(12)` succeeds and at most one run is added. -/
theorem wri_char_script_spec_witness :
    (chp_curr doc_abc).hpsPos ≠ (12 : Int).toNat ∧ (wri_char_script 12 doc_abc).1 = 0 ∧
    (chp_curr (wri_char_script 12 doc_abc).2).hps = 20 ∧
    (lchp_runs (wri_char_script 12 doc_abc).2).length ≤ (lchp_runs doc_abc).length + 1 :=
  ⟨by decide, by decide, by decide,
   (wri_char_script_spec doc_abc 12 (Or.inr (Or.inr rfl)) (by decide) (by decide)).2.2⟩

/-! ### Arguments out of range -/

/-- C22. A call with an argument out of range returns 1 and leaves the whole
state as it was: `wri_char_bold`, `wri_char_italic`, `wri_char_underline` with a
value other than 0 and 1, `wri_char_script` with a value other than 0, 12 and
244, `wri_char_font_size` with a value outside 4..127, `wri_para_justify` with a
value outside 0..3, `wri_para_interline`, `wri_para_indent_left` and
`wri_para_indent_right` with a value outside 0..32767, and `wri_doc_tab_set`
with a position that is not positive. -/
theorem validation_failure_changes_nothing (s : State) (v d : Int) :
    ((v ≠ 0 ∧ v ≠ 1) →
      wri_char_bold v s = (1, s) ∧ wri_char_italic v s = (1, s) ∧
      wri_char_underline v s = (1, s)) ∧
    ((v ≠ 0 ∧ v ≠ 12 ∧ v ≠ 244) → wri_char_script v s = (1, s)) ∧
    ((v < 4 ∨ 127 < v) → wri_char_font_size v s = (1, s)) ∧
    ((v < 0 ∨ 3 < v) → wri_para_justify v s = (1, s)) ∧
    ((v < 0 ∨ 32767 < v) →
      wri_para_interline v s = (1, s) ∧ wri_para_indent_left v s = (1, s) ∧
      wri_para_indent_right v s = (1, s)) ∧
    (v ≤ 0 → wri_doc_tab_set v d s = (1, s)) := by
  refine ⟨?_, ?_, ?_, ?_, ?_, ?_⟩
  · intro h
    refine ⟨?_, ?_, ?_⟩
    · unfold wri_char_bold; rw [if_pos h]
    · unfold wri_char_italic; rw [if_pos h]
    · unfold wri_char_underline; rw [if_pos h]
  · intro h
    unfold wri_char_script
    rw [if_pos (by simpa [WRI_NORMAL, WRI_SUBSCRIPT, WRI_SUPERSCRIPT] using
      (⟨h.1, h.2.2, h.2.1⟩ : v ≠ 0 ∧ v ≠ 244 ∧ v ≠ 12))]
  · intro h
    unfold wri_char_font_size
    rw [if_pos (by omega)]
  · intro h
    unfold wri_para_justify
    rw [if_pos (by simp only [WRI_LEFT, WRI_CENTER, WRI_RIGHT, WRI_BOTH]; omega)]
  · intro h
    refine ⟨?_, ?_, ?_⟩
    · unfold wri_para_interline; rw [if_pos (by omega)]
    · unfold wri_para_indent_left; rw [if_pos (by omega)]
    · unfold wri_para_indent_right; rw [if_pos (by omega)]
  · intro h
    unfold wri_doc_tab_set
    rw [if_pos h]

/-- Witness for C22: the value 5 is no boolean and no script position, and -1
is no position of a tab; `doc_abc` is left as it is. -/
theorem validation_failure_changes_nothing_witness :
    ((5 : Int) ≠ 0 ∧ (5 : Int) ≠ 1) ∧ wri_char_bold 5 doc_abc = (1, doc_abc) ∧
    wri_char_script 5 doc_abc = (1, doc_abc) ∧ wri_doc_tab_set (-1) 0 doc_abc = (1, doc_abc) :=
  ⟨by decide,
   ((validation_failure_changes_nothing doc_abc 5 0).1 (by decide)).1,
   (validation_failure_changes_nothing doc_abc 5 0).2.1 (by decide),
   (validation_failure_changes_nothing doc_abc (-1) 0).2.2.2.2.2 (by decide)⟩

/-! ### Headers and footers come before the text -/

/-- C28. In a state whose flag `_wri_had_normal_text` is set, `wri_doc_header`
and `wri_doc_footer` return 1 and leave the state as it is; and if the flag
`_wri_in_rhc` is set as well, `wri_text` returns 1 and leaves the state as it
is, except that it has created the (empty) temporary file if there was none:
the text length, the text in the file, the run lists and the records are
unchanged. -/
theorem header_only_before_normal_text (s : State) (t : List Nat)
    (h : s._wri_had_normal_text ≠ 0) :
    wri_doc_header s = (1, s) ∧ wri_doc_footer s = (1, s) ∧
    (s._wri_in_rhc ≠ 0 →
      wri_text t s = (1, if s.text_fp = none then create_tempfile s else s) ∧
      (wri_text t s).2._wri_cpMac = s._wri_cpMac ∧
      (wri_text t s).2.text_fp.getD [] = s.text_fp.getD [] ∧
      lchp_runs (wri_text t s).2 = lchp_runs s ∧ lpap_runs (wri_text t s).2 = lpap_runs s ∧
      (wri_text t s).2.paps = s.paps) := by
  refine ⟨?_, ?_, ?_⟩
  · unfold wri_doc_header start_rhc
    rw [if_pos h]
  · unfold wri_doc_footer start_rhc
    rw [if_pos h]
  · intro hr
    have e : wri_text t s = (1, if s.text_fp = none then create_tempfile s else s) := by
      unfold wri_text wri_text_fuel
      dsimp only
      by_cases hf : s.text_fp = none
      · have h1 : (create_tempfile s)._wri_in_rhc ≠ 0 := hr
        have h2 : (create_tempfile s)._wri_had_normal_text ≠ 0 := h
        rw [if_pos hf, if_pos h1, if_pos h2]
      · rw [if_neg hf, if_pos hr, if_pos h]
    rw [e]
    refine ⟨rfl, ?_, ?_, ?_, ?_, ?_⟩
    all_goals
      by_cases hf : s.text_fp = none
      · rw [if_pos hf]
        first
          | rfl
          | (show (some ([] : List Nat)).getD [] = s.text_fp.getD []
             rw [hf]
             rfl)
      · rw [if_neg hf]

set_option maxRecDepth 1000000 in
/-- Witness for C28: `doc_abc` has had normal text; marked as inside a header,
`wri_text` returns 1 and the text keeps its 5 bytes. -/
theorem header_only_before_normal_text_witness :
    doc_abc._wri_had_normal_text ≠ 0 ∧ wri_doc_header doc_abc = (1, doc_abc) ∧
    doc_abc_in_rhc._wri_in_rhc ≠ 0 ∧ (wri_text [120] doc_abc_in_rhc).1 = 1 ∧
    (wri_text [120] doc_abc_in_rhc).2._wri_cpMac = 5 :=
  ⟨by decide, (header_only_before_normal_text doc_abc [] (by decide)).1, by decide,
   by rw [((header_only_before_normal_text doc_abc_in_rhc [120] (by decide)).2.2 (by decide)).1],
   by rw [((header_only_before_normal_text doc_abc_in_rhc [120] (by decide)).2.2 (by decide)).2.1]
      decide⟩

/-! ### The first use and the reset -/

theorem sep_default_right :
    ((default_sep.xaMac : Int) - default_sep.xaLeft - default_sep.dxaText)
      = 12240 - 1800 - 8640 := by decide

theorem sep_default_bottom :
    ((default_sep.yaMac : Int) - default_sep.yaTop - default_sep.dyaText)
      = 15840 - 1440 - 12960 := by decide

theorem sep_default_footer :
    ((default_sep.yaMac : Int) - default_sep.yaFooter) = 1080 := by decide

/-- After `wri_new` the state of the first use differs from what it was in the
current character record only. -/
theorem wri_new_first_use (allocs : List Bool) :
    wri_new (first_use allocs) =
      (0, { first_use allocs with
            lchp_curr := { cpFirst := 0, cpLim := 0, prop := _wri_default_chp } }) := by
  have e : wri_new (first_use allocs) =
      (0, { first_use allocs with
            lchp_curr := { cpFirst := 0, cpLim := 0, prop := _wri_default_chp },
            dxaRight := (default_sep.xaMac : Int) - default_sep.xaLeft - default_sep.dxaText,
            dyaBottom := (default_sep.yaMac : Int) - default_sep.yaTop - default_sep.dyaText,
            dyaFooter := (default_sep.yaMac : Int) - default_sep.yaFooter }) := rfl
  rw [e, sep_default_right, sep_default_bottom, sep_default_footer]
  rfl

/-- C27 (the code). Before any call the one character run carries a record
with `hps` = 20 (10 points), which is not the default record; `wri_new` leaves
every variable of that state as it is except that record, which becomes the
default record with `hps` = 24. -/
theorem first_use_differs_from_reset (allocs : List Bool) :
    (first_use allocs).lchp_curr.prop.hps = 20 ∧
    (first_use allocs).lchp_curr.prop ≠ _wri_default_chp ∧
    (wri_new (first_use allocs)).2.lchp_curr.prop = _wri_default_chp ∧
    (wri_new (first_use allocs)).2.lchp_curr.prop.hps = 24 ∧
    (wri_new (first_use allocs)).2 ≠ first_use allocs ∧
    wri_new (first_use allocs) =
      (0, { first_use allocs with
            lchp_curr := { cpFirst := 0, cpLim := 0, prop := _wri_default_chp } }) ∧
    pap_curr (first_use allocs) = { _wri_default_pap with res1 := 1 } := by
  refine ⟨rfl, ?_, rfl, rfl, ?_, wri_new_first_use allocs, rfl⟩
  · intro h
    have h1 : (20 : Nat) = 24 := congrArg (fun c => c.hps) h
    exact absurd h1 (by decide)
  · intro h
    have h1 : (24 : Nat) = 20 := congrArg (fun t => t.lchp_curr.prop.hps) h
    exact absurd h1 (by decide)

/-! ### The tab table and positions above 65535 -/

/-- C23 (the code at a failing input). From the empty table,
`wri_doc_tab_set(10, 0)` and `wri_doc_tab_set(65541, 0)` both return 0 and leave
the two used entries with the positions 10 and 5: not in ascending order.
Likewise `wri_doc_tab_set(5, 0)` and `wri_doc_tab_set(65541, 0)` leave the
position 5 twice. -/
theorem tab_order_broken_by_large_position :
    (wri_doc_tab_set 10 0 (first_use [])).1 = 0 ∧
    (wri_doc_tab_set 65541 0 (wri_doc_tab_set 10 0 (first_use [])).2).1 = 0 ∧
    tab_view (wri_doc_tab_set 65541 0 (wri_doc_tab_set 10 0 (first_use [])).2).2
      = [(10, 0), (5, 0)] ∧
    ¬ tabs_ascending (wri_doc_tab_set 65541 0 (wri_doc_tab_set 10 0 (first_use [])).2).2 ∧
    tab_view (wri_doc_tab_set 65541 0 (wri_doc_tab_set 5 0 (first_use [])).2).2
      = [(5, 0), (5, 0)] ∧
    ¬ tabs_ascending (wri_doc_tab_set 65541 0 (wri_doc_tab_set 5 0 (first_use [])).2).2 := by
  have h1 : tab_view (wri_doc_tab_set 65541 0 (wri_doc_tab_set 10 0 (first_use [])).2).2
      = [(10, 0), (5, 0)] := by decide
  have h2 : tab_view (wri_doc_tab_set 65541 0 (wri_doc_tab_set 5 0 (first_use [])).2).2
      = [(5, 0), (5, 0)] := by decide
  refine ⟨by decide, by decide, h1, ?_, h2, ?_⟩
  · unfold tabs_ascending
    rw [h1]
    decide
  · unfold tabs_ascending
    rw [h2]
    decide

/-- C25 (the code at a failing input). From the empty table, in which the
position 65541 is absent, `wri_doc_tab_set(65541, 0)` returns 0 and
`wri_doc_tab_clear(65541)` then returns 1: the table is left with one used
entry, of position 5, and not empty as it was. -/
theorem tab_set_clear_does_not_restore :
    tab_view (first_use []) = [] ∧
    (wri_doc_tab_set 65541 0 (first_use [])).1 = 0 ∧
    (wri_doc_tab_clear 65541 (wri_doc_tab_set 65541 0 (first_use [])).2).1 = 1 ∧
    tab_view (wri_doc_tab_clear 65541 (wri_doc_tab_set 65541 0 (first_use [])).2).2
      = [(5, 0)] ∧
    (wri_doc_tab_clear 65541 (wri_doc_tab_set 65541 0 (first_use [])).2).2.nTabs = 1 := by
  decide

/-! ### The tab table: `wri_doc_tab_set` -/

theorem tab_scan_spec (t : List TBD) (p : Int) (k i : Nat) :
    i ≤ (tab_scan t p k i).2 ∧ (tab_scan t p k i).2 ≤ i + k ∧
    (∀ m, i ≤ m → m < (tab_scan t p k i).2 → ((t.getD m {}).dxa : Int) < p) ∧
    ((tab_scan t p k i).1 = true →
      (tab_scan t p k i).2 < i + k ∧ ((t.getD (tab_scan t p k i).2 {}).dxa : Int) = p) ∧
    ((tab_scan t p k i).1 = false → (tab_scan t p k i).2 < i + k →
      p < ((t.getD (tab_scan t p k i).2 {}).dxa : Int)) := by
  induction k generalizing i with
  | zero =>
    unfold tab_scan
    refine ⟨le_refl _, le_refl _, ?_, ?_, ?_⟩
    · intro m h1 h2
      exact absurd h2 (by omega)
    · intro h
      exact Bool.noConfusion h
    · intro _ h
      exact absurd h (by omega)
  | succ k ih =>
    unfold tab_scan
    by_cases h1 : ((t.getD i {}).dxa : Int) = p
    · rw [if_pos h1]
      refine ⟨le_refl _, by omega, ?_, ?_, ?_⟩
      · intro m h2 h3
        exact absurd h3 (by omega)
      · intro _
        exact ⟨by omega, h1⟩
      · intro h
        exact Bool.noConfusion h
    · rw [if_neg h1]
      by_cases h2 : ((t.getD i {}).dxa : Int) > p
      · rw [if_pos h2]
        refine ⟨le_refl _, by omega, ?_, ?_, ?_⟩
        · intro m h3 h4
          exact absurd h4 (by omega)
        · intro h
          exact Bool.noConfusion h
        · intro _ _
          exact h2
      · rw [if_neg h2]
        obtain ⟨a1, a2, a3, a4, a5⟩ := ih (i + 1)
        refine ⟨by omega, by omega, ?_, ?_, ?_⟩
        · intro m h3 h4
          by_cases hm : m = i
          · subst hm
            omega
          · exact a3 m (by omega) h4
        · intro h
          obtain ⟨b1, b2⟩ := a4 h
          exact ⟨by omega, b2⟩
        · intro h h3
          exact a5 h (by omega)

theorem tab_shift_up_length (i : Nat) (k : Nat) (t : List TBD) :
    (tab_shift_up i k t).length = t.length := by
  induction k generalizing t with
  | zero => rfl
  | succ k ih =>
    unfold tab_shift_up
    rw [ih, List.length_set]

theorem getD_set_eq (t : List TBD) (j m : Nat) (e : TBD) (h : j < t.length) :
    (t.set j e).getD m {} = if m = j then e else t.getD m {} := by
  simp only [List.getD_eq_getElem?_getD, List.getElem?_set]
  by_cases hm : m = j
  · subst hm
    simp [h]
  · have : ¬ j = m := fun h => hm h.symm
    simp [hm, this]

theorem tab_shift_up_getD (i : Nat) (k : Nat) (t : List TBD) (h : i + k < t.length) (m : Nat) :
    (tab_shift_up i k t).getD m {} =
      if i < m ∧ m ≤ i + k then
        { t.getD m {} with dxa := (t.getD (m - 1) {}).dxa, jcTab := (t.getD (m - 1) {}).jcTab }
      else t.getD m {} := by
  induction k generalizing t with
  | zero =>
    unfold tab_shift_up
    rw [if_neg (by omega)]
  | succ k ih =>
    unfold tab_shift_up
    rw [ih _ (by rw [List.length_set]; omega)]
    have g : ∀ (m1 : Nat) (e : TBD), (t.set (i + k + 1) e).getD m1 {} =
        if m1 = i + k + 1 then e else t.getD m1 {} :=
      fun m1 e => getD_set_eq t _ m1 e (by omega)
    simp only [g]
    by_cases h1 : i < m ∧ m ≤ i + k
    · have e1 : ¬ m = i + k + 1 := by omega
      have e2 : ¬ m - 1 = i + k + 1 := by omega
      have e3 : i < m ∧ m ≤ i + (k + 1) := by omega
      simp only [if_pos h1, if_neg e1, if_neg e2, if_pos e3]
    · by_cases h2 : m = i + k + 1
      · have e3 : i < m ∧ m ≤ i + (k + 1) := by omega
        have e4 : m - 1 = i + k := by omega
        simp only [if_neg h1, if_pos h2, if_pos e3, e4]
        rw [h2]
      · have e3 : ¬ (i < m ∧ m ≤ i + (k + 1)) := by omega
        simp only [if_neg h1, if_neg h2, if_neg e3]

theorem view_getElem? (t : List TBD) (n m : Nat) (hn : n ≤ t.length) :
    ((t.take n).map (fun e => (e.dxa, e.jcTab)))[m]? =
      if m < n then some ((t.getD m {}).dxa, (t.getD m {}).jcTab) else none := by
  rw [List.getElem?_map, List.getElem?_take]
  by_cases h : m < n
  · rw [if_pos h, if_pos h, List.getD_eq_getElem?_getD,
      List.getElem?_eq_getElem (by omega : m < t.length)]
    rfl
  · rw [if_neg h, if_neg h]
    rfl

theorem tab_view_getElem? (s : State) (m : Nat) (h : s.nTabs.toNat ≤ s.tbd.length) :
    (tab_view s)[m]? =
      if m < s.nTabs.toNat then some ((s.tbd.getD m {}).dxa, (s.tbd.getD m {}).jcTab)
      else none :=
  view_getElem? s.tbd s.nTabs.toNat m h

theorem tab_view_length (s : State) (h : s.nTabs.toNat ≤ s.tbd.length) :
    (tab_view s).length = s.nTabs.toNat := by
  unfold tab_view
  rw [List.length_map, List.length_take]
  omega

theorem list_insert_ext {α : Type} (l l1 : List α) (i : Nat) (x : α) (hi : i ≤ l.length)
    (h1 : ∀ m, m < i → l1[m]? = l[m]?) (h2 : l1[i]? = some x)
    (h3 : ∀ m, i < m → l1[m]? = l[m - 1]?) :
    l1 = l.take i ++ [x] ++ l.drop i := by
  apply List.ext_getElem?
  intro m
  have hl : (l.take i ++ [x]).length = i + 1 := by
    rw [List.length_append, List.length_take, List.length_singleton]
    omega
  have hl0 : (l.take i).length = i := by
    rw [List.length_take]
    omega
  rcases Nat.lt_trichotomy m i with h | h | h
  · rw [h1 m h, List.getElem?_append_left (by omega),
      List.getElem?_append_left (by omega), List.getElem?_take_of_lt h]
  · subst h
    rw [h2, List.getElem?_append_left (by omega), List.getElem?_append_right (by omega), hl0]
    simp
  · rw [h3 m h, List.getElem?_append_right (by omega), hl, List.getElem?_drop]
    congr 1
    omega

theorem list_set_ext {α : Type} (l l1 : List α) (i : Nat) (x : α) (hi : i < l.length)
    (h1 : ∀ m, m ≠ i → l1[m]? = l[m]?) (h2 : l1[i]? = some x) :
    l1 = l.set i x := by
  apply List.ext_getElem?
  intro m
  rw [List.getElem?_set]
  by_cases h : i = m
  · subst h
    rw [if_pos rfl, if_pos hi, h2]
  · rw [if_neg h]
    exact h1 m (fun e => h e.symm)

/-- The positions of the used entries, by index, when they ascend. -/
theorem tabs_ascending_index (s : State) (h : s.nTabs.toNat ≤ s.tbd.length)
    (ha : tabs_ascending s) (a b : Nat) (hab : a < b) (hb : b < s.nTabs.toNat) :
    (s.tbd.getD a {}).dxa < (s.tbd.getD b {}).dxa := by
  have hl := tab_view_length s h
  have h1 := (List.pairwise_iff_getElem.1 ha) a b (by omega) (by omega) hab
  have ea := tab_view_getElem? s a h
  have eb := tab_view_getElem? s b h
  rw [if_pos (by omega), List.getElem?_eq_getElem (by omega)] at ea eb
  rw [Option.some.inj ea, Option.some.inj eb] at h1
  exact h1

theorem tab_set_found (s : State) (p d : Int) (i : Nat) (hp : 0 < p)
    (h : tab_scan s.tbd p s.nTabs.toNat 0 = (true, i)) :
    wri_doc_tab_set p d s =
      (0, { s with
            tbd := s.tbd.set i { s.tbd.getD i {} with jcTab := if d = 0 then 0 else 3 } }) := by
  unfold wri_doc_tab_set
  rw [if_neg (by omega)]
  dsimp only
  rw [h]
  by_cases hd : d = 0
  · simp only [hd, ne_eq, not_true_eq_false, if_false, if_true]
  · simp only [hd, ne_eq, not_false_eq_true, if_false, if_true, WRI_DECIMAL]

theorem tab_set_full (s : State) (p d : Int) (i : Nat)
    (h : tab_scan s.tbd p s.nTabs.toNat 0 = (false, i)) (hfull : s.nTabs ≥ 14) :
    wri_doc_tab_set p d s = (1, s) := by
  unfold wri_doc_tab_set
  by_cases hp : p ≤ 0
  · rw [if_pos hp]
  · rw [if_neg hp]
    dsimp only
    rw [h]
    dsimp only
    rw [if_pos (by simpa [itbdmax] using hfull)]

theorem tab_set_insert (s : State) (p d : Int) (i : Nat) (hp : 0 < p)
    (h : tab_scan s.tbd p s.nTabs.toNat 0 = (false, i)) (hlt : s.nTabs < 14) :
    wri_doc_tab_set p d s =
      (0, { s with
            tbd := (tab_shift_up i (s.nTabs.toNat - i) s.tbd).set i
                { (tab_shift_up i (s.nTabs.toNat - i) s.tbd).getD i {} with
                  dxa := (p % 65536).toNat
                  jcTab := if d = 0 then 0 else 3 },
            nTabs := s.nTabs + 1 }) := by
  unfold wri_doc_tab_set
  rw [if_neg (by omega)]
  dsimp only
  rw [h]
  dsimp only
  rw [if_neg (by simp only [itbdmax]; push_cast; omega)]
  by_cases hd : d = 0
  · simp only [hd, ne_eq, not_true_eq_false, if_false, if_true]
  · simp only [hd, ne_eq, not_false_eq_true, if_false, if_true, WRI_DECIMAL]

theorem tab_view_mem_fst (s : State) (h : s.nTabs.toNat ≤ s.tbd.length) (P : Nat) :
    P ∈ (tab_view s).map Prod.fst ↔ ∃ j, j < s.nTabs.toNat ∧ (s.tbd.getD j {}).dxa = P := by
  rw [List.mem_iff_getElem?]
  constructor
  · rintro ⟨j, hj⟩
    rw [List.getElem?_map, tab_view_getElem? s j h] at hj
    by_cases hlt : j < s.nTabs.toNat
    · rw [if_pos hlt] at hj
      exact ⟨j, hlt, Option.some.inj hj⟩
    · rw [if_neg hlt] at hj
      exact absurd hj (by simp)
  · rintro ⟨j, hj, e⟩
    refine ⟨j, ?_⟩
    rw [List.getElem?_map, tab_view_getElem? s j h, if_pos hj, ← e]
    rfl

theorem tab_view_mem (s : State) (h : s.nTabs.toNat ≤ s.tbd.length) (e : Nat × Nat)
    (i : Nat) :
    (e ∈ (tab_view s).take i →
      ∃ j, j < i ∧ j < s.nTabs.toNat ∧ e = ((s.tbd.getD j {}).dxa, (s.tbd.getD j {}).jcTab)) ∧
    (e ∈ (tab_view s).drop i →
      ∃ j, i ≤ j ∧ j < s.nTabs.toNat ∧ e = ((s.tbd.getD j {}).dxa, (s.tbd.getD j {}).jcTab)) := by
  constructor
  · intro he
    obtain ⟨j, hj⟩ := List.mem_iff_getElem?.1 he
    rw [List.getElem?_take] at hj
    by_cases h1 : j < i
    · rw [if_pos h1, tab_view_getElem? s j h] at hj
      by_cases h2 : j < s.nTabs.toNat
      · rw [if_pos h2] at hj
        exact ⟨j, h1, h2, (Option.some.inj hj).symm⟩
      · rw [if_neg h2] at hj
        exact absurd hj (by simp)
    · rw [if_neg h1] at hj
      exact absurd hj (by simp)
  · intro he
    obtain ⟨j, hj⟩ := List.mem_iff_getElem?.1 he
    rw [List.getElem?_drop, tab_view_getElem? s _ h] at hj
    by_cases h2 : i + j < s.nTabs.toNat
    · rw [if_pos h2] at hj
      exact ⟨i + j, by omega, h2, (Option.some.inj hj).symm⟩
    · rw [if_neg h2] at hj
      exact absurd hj (by simp)

theorem tbd_getD_dxa_lt (t : List TBD) (h : ∀ e ∈ t, e.dxa < 65536) (m : Nat) :
    (t.getD m {}).dxa < 65536 := by
  by_cases hm : m < t.length
  · rw [List.getD_eq_getElem _ _ hm]
    exact h _ (List.getElem_mem hm)
  · rw [List.getD_eq_default _ _ (by omega)]
    decide

theorem tab_set_found_spec (s : State) (P dec i : Nat)
    (hlen : s.tbd.length = 14) (hn : s.nTabs.toNat ≤ 14) (hn0 : 0 ≤ s.nTabs)
    (hdxa : ∀ e ∈ s.tbd, e.dxa < 65536) (hasc : tabs_ascending s)
    (hi : i < s.nTabs.toNat) (hP : (s.tbd.getD i {}).dxa = P) :
    tab_view { s with tbd := s.tbd.set i { s.tbd.getD i {} with jcTab := dec } }
      = (tab_view s).set i (P, dec) ∧
    tabs_wf { s with tbd := s.tbd.set i { s.tbd.getD i {} with jcTab := dec } } ∧
    tabs_ascending { s with tbd := s.tbd.set i { s.tbd.getD i {} with jcTab := dec } } := by
  have hle : s.nTabs.toNat ≤ s.tbd.length := by omega
  have hvl := tab_view_length s hle
  generalize hs1 : ({ s with tbd := s.tbd.set i { s.tbd.getD i {} with jcTab := dec } } : State)
    = s1
  have e1 : s1.tbd = s.tbd.set i { s.tbd.getD i {} with jcTab := dec } := by rw [← hs1]
  have e2 : s1.nTabs = s.nTabs := by rw [← hs1]
  have hle1 : s1.nTabs.toNat ≤ s1.tbd.length := by
    rw [e1, e2, List.length_set]
    exact hle
  have g : ∀ m, s1.tbd.getD m {} =
      if m = i then { s.tbd.getD i {} with jcTab := dec } else s.tbd.getD m {} := by
    intro m
    rw [e1]
    exact getD_set_eq _ _ _ _ (by omega)
  have hview : tab_view s1 = (tab_view s).set i (P, dec) := by
    apply list_set_ext _ _ _ _ (by omega)
    · intro m hm
      rw [tab_view_getElem? s1 m hle1, tab_view_getElem? s m hle, e2, g m, if_neg hm]
    · rw [tab_view_getElem? s1 i hle1, e2, if_pos hi, g i, if_pos rfl, ← hP]
  refine ⟨hview, ⟨?_, ?_, ?_, ?_⟩, ?_⟩
  · rw [e1, List.length_set]
    exact hlen
  · rw [e2]
    exact hn0
  · rw [e2]
    have : (s.nTabs.toNat : Int) = s.nTabs := Int.toNat_of_nonneg hn0
    simp only [itbdmax]
    omega
  · intro x hx
    rw [e1] at hx
    rcases List.mem_or_eq_of_mem_set hx with h | h
    · exact hdxa x h
    · rw [h]
      exact tbd_getD_dxa_lt s.tbd hdxa i
  · unfold tabs_ascending
    rw [hview]
    have hfst : ∀ (a : Nat) (h1 : a < ((tab_view s).set i (P, dec)).length)
        (h2 : a < (tab_view s).length),
        (((tab_view s).set i (P, dec))[a]).1 = ((tab_view s)[a]).1 := by
      intro a h1 h2
      rw [List.getElem_set]
      by_cases hia : i = a
      · rw [if_pos hia]
        subst hia
        have ev := tab_view_getElem? s i hle
        rw [if_pos hi, List.getElem?_eq_getElem h2] at ev
        rw [Option.some.inj ev]
        exact hP.symm
      · rw [if_neg hia]
    apply List.pairwise_iff_getElem.2
    intro a b ha hb hab
    have ha2 : a < (tab_view s).length := by rw [List.length_set] at ha; exact ha
    have hb2 : b < (tab_view s).length := by rw [List.length_set] at hb; exact hb
    rw [hfst a ha ha2, hfst b hb hb2]
    exact List.pairwise_iff_getElem.1 hasc a b ha2 hb2 hab

theorem tab_set_insert_spec (s : State) (P dec i : Nat)
    (hlen : s.tbd.length = 14) (hn : s.nTabs.toNat < 14) (hn0 : 0 ≤ s.nTabs)
    (hdxa : ∀ e ∈ s.tbd, e.dxa < 65536) (hasc : tabs_ascending s) (hP : P < 65536)
    (hi : i ≤ s.nTabs.toNat)
    (hlo : ∀ m, m < i → (s.tbd.getD m {}).dxa < P)
    (hhi : ∀ m, i ≤ m → m < s.nTabs.toNat → P < (s.tbd.getD m {}).dxa) :
    (∀ e ∈ (tab_view s).take i, e.1 < P) ∧ (∀ e ∈ (tab_view s).drop i, P < e.1) ∧
    tab_view { s with
               tbd := (tab_shift_up i (s.nTabs.toNat - i) s.tbd).set i
                   { (tab_shift_up i (s.nTabs.toNat - i) s.tbd).getD i {} with
                     dxa := P
                     jcTab := dec },
               nTabs := s.nTabs + 1 }
      = (tab_view s).take i ++ [(P, dec)] ++ (tab_view s).drop i ∧
    tabs_wf { s with
               tbd := (tab_shift_up i (s.nTabs.toNat - i) s.tbd).set i
                   { (tab_shift_up i (s.nTabs.toNat - i) s.tbd).getD i {} with
                     dxa := P
                     jcTab := dec },
               nTabs := s.nTabs + 1 } ∧
    tabs_ascending { s with
               tbd := (tab_shift_up i (s.nTabs.toNat - i) s.tbd).set i
                   { (tab_shift_up i (s.nTabs.toNat - i) s.tbd).getD i {} with
                     dxa := P
                     jcTab := dec },
               nTabs := s.nTabs + 1 } := by
  have hle : s.nTabs.toNat ≤ s.tbd.length := by omega
  have hvl := tab_view_length s hle
  have hcast : (s.nTabs.toNat : Int) = s.nTabs := Int.toNat_of_nonneg hn0
  have hshl := tab_shift_up_length i (s.nTabs.toNat - i) s.tbd
  have hsh := tab_shift_up_getD i (s.nTabs.toNat - i) s.tbd (by omega)
  generalize ht1 : tab_shift_up i (s.nTabs.toNat - i) s.tbd = t1 at hshl hsh
  generalize hs1 : ({ s with
      tbd := t1.set i { t1.getD i {} with dxa := P, jcTab := dec },
      nTabs := s.nTabs + 1 } : State) = s1
  have e1 : s1.tbd = t1.set i { t1.getD i {} with dxa := P, jcTab := dec } := by rw [← hs1]
  have e2 : s1.nTabs = s.nTabs + 1 := by rw [← hs1]
  have e3 : s1.nTabs.toNat = s.nTabs.toNat + 1 := by
    rw [e2]
    omega
  have hle1 : s1.nTabs.toNat ≤ s1.tbd.length := by
    rw [e1, e3, List.length_set, hshl]
    omega
  have g : ∀ m, s1.tbd.getD m {} =
      if m = i then { t1.getD i {} with dxa := P, jcTab := dec } else t1.getD m {} := by
    intro m
    rw [e1]
    exact getD_set_eq _ _ _ _ (by omega)
  have hlow : ∀ e ∈ (tab_view s).take i, e.1 < P := by
    intro e he
    obtain ⟨j, h1, _, h3⟩ := (tab_view_mem s hle e i).1 he
    rw [h3]
    exact hlo j h1
  have hhigh : ∀ e ∈ (tab_view s).drop i, P < e.1 := by
    intro e he
    obtain ⟨j, h1, h2, h3⟩ := (tab_view_mem s hle e i).2 he
    rw [h3]
    exact hhi j h1 h2
  have hview : tab_view s1 = (tab_view s).take i ++ [(P, dec)] ++ (tab_view s).drop i := by
    apply list_insert_ext _ _ _ _ (by omega)
    · intro m hm
      have a1 : m < s.nTabs.toNat + 1 := by omega
      have a2 : ¬ m = i := by omega
      have a3 : ¬ (i < m ∧ m ≤ i + (s.nTabs.toNat - i)) := by omega
      have a4 : m < s.nTabs.toNat := by omega
      rw [tab_view_getElem? s1 m hle1, tab_view_getElem? s m hle, e3, if_pos a1, if_pos a4,
        g m, if_neg a2, hsh m, if_neg a3]
    · have a1 : i < s.nTabs.toNat + 1 := by omega
      rw [tab_view_getElem? s1 i hle1, e3, if_pos a1, g i, if_pos rfl]
    · intro m hm
      rw [tab_view_getElem? s1 m hle1, tab_view_getElem? s (m - 1) hle, e3]
      by_cases h1 : m < s.nTabs.toNat + 1
      · have a2 : ¬ m = i := by omega
        have a3 : i < m ∧ m ≤ i + (s.nTabs.toNat - i) := by omega
        have a4 : m - 1 < s.nTabs.toNat := by omega
        rw [if_pos h1, if_pos a4, g m, if_neg a2, hsh m, if_pos a3]
      · have a4 : ¬ m - 1 < s.nTabs.toNat := by omega
        rw [if_neg h1, if_neg a4]
  refine ⟨hlow, hhigh, hview, ⟨?_, ?_, ?_, ?_⟩, ?_⟩
  · rw [e1, List.length_set, hshl]
    exact hlen
  · rw [e2]
    omega
  · rw [e2]
    simp only [itbdmax]
    omega
  · intro x hx
    rw [e1] at hx
    rcases List.mem_or_eq_of_mem_set hx with h | h
    · obtain ⟨m, hm⟩ := List.mem_iff_getElem?.1 h
      have ex : x = t1.getD m {} := by
        rw [List.getD_eq_getElem?_getD, hm]
        rfl
      rw [ex, hsh m]
      split_ifs
      · exact tbd_getD_dxa_lt s.tbd hdxa (m - 1)
      · exact tbd_getD_dxa_lt s.tbd hdxa m
    · rw [h]
      exact hP
  · unfold tabs_ascending
    rw [hview]
    have hp1 : ((tab_view s).take i).Pairwise (fun a b => a.1 < b.1) :=
      List.Pairwise.sublist (List.take_sublist _ _) hasc
    have hp2 : ((tab_view s).drop i).Pairwise (fun a b => a.1 < b.1) :=
      List.Pairwise.sublist (List.drop_sublist _ _) hasc
    rw [List.pairwise_append, List.pairwise_append]
    refine ⟨⟨hp1, List.pairwise_singleton _ _, ?_⟩, hp2, ?_⟩
    · intro a ha b hb
      rw [List.mem_singleton] at hb
      rw [hb]
      exact hlow a ha
    · intro a ha b hb
      rw [List.mem_append, List.mem_singleton] at ha
      rcases ha with ha | ha
      · exact lt_trans (hlow a ha) (hhigh b hb)
      · rw [ha]
        exact hhigh b hb

/-- C24. `wri_doc_tab_set(p, d)` on a table of 14 entries of which the used
ones ascend, for 1 ≤ p ≤ 65535, on the used entries as pairs of position and
alignment: if `p` is present, at index `i`, the call returns 0 and changes only
the alignment of entry `i`, to 0 when `d` is 0 and to 3 otherwise (whatever the
count); if `p` is absent and the count is 14 the call returns 1 and changes
nothing; if `p` is absent and the count less than 14 the call returns 0, the
count grows by 1, only the table and the count change, and the used entries are
the first `i` old ones, all below `p`, then `(p, alignment)`, then the other
old ones, all above `p`.  In every case the table is again well formed and
ascending. -/
theorem wri_doc_tab_set_spec (s : State) (p d : Int) (hwf : tabs_wf s)
    (hasc : tabs_ascending s) (hp1 : 1 ≤ p) (hp2 : p ≤ 65535) :
    (p.toNat ∈ (tab_view s).map Prod.fst →
      ∃ i, i < s.nTabs.toNat ∧ (s.tbd.getD i {}).dxa = p.toNat ∧
        wri_doc_tab_set p d s =
          (0, { s with
                tbd := s.tbd.set i
                  { s.tbd.getD i {} with jcTab := if d = 0 then 0 else 3 } }) ∧
        tab_view (wri_doc_tab_set p d s).2
          = (tab_view s).set i (p.toNat, if d = 0 then 0 else 3)) ∧
    (p.toNat ∉ (tab_view s).map Prod.fst → s.nTabs = 14 → wri_doc_tab_set p d s = (1, s)) ∧
    (p.toNat ∉ (tab_view s).map Prod.fst → s.nTabs < 14 →
      ∃ i, i ≤ s.nTabs.toNat ∧
        (∀ e ∈ (tab_view s).take i, e.1 < p.toNat) ∧
        (∀ e ∈ (tab_view s).drop i, p.toNat < e.1) ∧
        (wri_doc_tab_set p d s).1 = 0 ∧
        (wri_doc_tab_set p d s).2 =
          { s with tbd := (wri_doc_tab_set p d s).2.tbd, nTabs := s.nTabs + 1 } ∧
        tab_view (wri_doc_tab_set p d s).2
          = (tab_view s).take i ++ [(p.toNat, if d = 0 then 0 else 3)]
              ++ (tab_view s).drop i) ∧
    tabs_wf (wri_doc_tab_set p d s).2 ∧ tabs_ascending (wri_doc_tab_set p d s).2 := by
  have hwf0 := hwf
  obtain ⟨hlen, hn0, hn14, hdxa⟩ := hwf
  simp only [itbdmax] at hlen hn14
  have hcast : (s.nTabs.toNat : Int) = s.nTabs := Int.toNat_of_nonneg hn0
  have hle : s.nTabs.toNat ≤ s.tbd.length := by omega
  obtain ⟨P, rfl⟩ := Int.eq_ofNat_of_zero_le (by omega : 0 ≤ p)
  have hPt : ((P : Nat) : Int).toNat = P := by simp
  simp only [hPt]
  have hidx := tabs_ascending_index s hle hasc
  have hmem := tab_view_mem_fst s hle P
  have hsc := tab_scan_spec s.tbd P s.nTabs.toNat 0
  rcases hr : tab_scan s.tbd (P : Int) s.nTabs.toNat 0 with ⟨b, i⟩
  rw [hr] at hsc
  obtain ⟨-, a2, a3, a4, a5⟩ := hsc
  have a2n : i ≤ s.nTabs.toNat := by
    have : i ≤ 0 + s.nTabs.toNat := a2
    omega
  cases b
  · have hlo : ∀ m, m < i → (s.tbd.getD m {}).dxa < P := by
      intro m hm
      have := a3 m (Nat.zero_le _) hm
      omega
    have hhi : ∀ m, i ≤ m → m < s.nTabs.toNat → P < (s.tbd.getD m {}).dxa := by
      intro m h1 h2
      have h5 : (P : Int) < (s.tbd.getD i {}).dxa := a5 rfl (by show i < 0 + s.nTabs.toNat; omega)
      by_cases hmi : m = i
      · subst hmi
        omega
      · have := hidx i m (by omega) h2
        omega
    have habs : P ∉ (tab_view s).map Prod.fst := by
      rw [hmem]
      rintro ⟨j, hj, e⟩
      by_cases h : j < i
      · have := hlo j h
        omega
      · have := hhi j (by omega) hj
        omega
    by_cases hfull : s.nTabs = 14
    · have e := tab_set_full s P d i hr (by omega)
      rw [e]
      exact ⟨fun h => absurd h habs, fun _ _ => rfl, fun _ h => absurd h (by omega), hwf0, hasc⟩
    · have hlt : s.nTabs < 14 := by omega
      have e := tab_set_insert s P d i (by omega) hr hlt
      have hmod : ((P : Int) % 65536).toNat = P := by
        rw [Int.emod_eq_of_lt (by omega) (by omega)]
        exact hPt
      rw [hmod] at e
      obtain ⟨b1, b2, b3, b4, b5⟩ := tab_set_insert_spec s P (if d = 0 then 0 else 3) i hlen
        (by omega) hn0 hdxa hasc (by omega) a2n hlo hhi
      rw [e]
      exact ⟨fun h => absurd h habs, fun _ h => absurd h hfull,
        fun _ _ => ⟨i, a2n, b1, b2, rfl, rfl, b3⟩, b4, b5⟩
  · obtain ⟨c1, c2⟩ := a4 rfl
    have c1n : i < s.nTabs.toNat := by
      have : i < 0 + s.nTabs.toNat := c1
      omega
    have hPi : (s.tbd.getD i {}).dxa = P := by exact_mod_cast c2
    have e := tab_set_found s P d i (by omega) hr
    obtain ⟨b1, b2, b3⟩ := tab_set_found_spec s P (if d = 0 then 0 else 3) i hlen
      (by omega) hn0 hdxa hasc c1n hPi
    have hpres : P ∈ (tab_view s).map Prod.fst := hmem.2 ⟨i, c1n, hPi⟩
    rw [e]
    exact ⟨fun _ => ⟨i, c1n, hPi, rfl, b1⟩, fun h => absurd hpres h,
      fun h => absurd hpres h, b2, b3⟩

/-- Witness for C24: into the table with the positions 10 and 30, the position
20 with a decimal alignment goes between the two. -/
theorem wri_doc_tab_set_spec_witness :
    tabs_wf doc_tabs ∧ tabs_ascending doc_tabs ∧ tab_view doc_tabs = [(10, 0), (30, 0)] ∧
    tab_view (wri_doc_tab_set 20 1 doc_tabs).2 = [(10, 0), (20, 3), (30, 0)] ∧
    tabs_ascending (wri_doc_tab_set 20 1 doc_tabs).2 := by
  have hv : tab_view doc_tabs = [(10, 0), (30, 0)] := by decide
  have hw : tabs_wf doc_tabs := by
    unfold tabs_wf
    decide
  have ha : tabs_ascending doc_tabs := by
    unfold tabs_ascending
    rw [hv]
    decide
  exact ⟨hw, ha, hv, by decide,
    (wri_doc_tab_set_spec doc_tabs 20 1 hw ha (by decide) (by decide)).2.2.2.2⟩

/-! ### Every call keeps every property kept by its steps -/

theorem same_paragraphs_refl (s : State) : same_paragraphs s s :=
  ⟨rfl, rfl, rfl, rfl, rfl, rfl, rfl, fun _ h => h⟩

theorem same_paragraphs_new_chp (s : State) : same_paragraphs s (new_chp s).2 := by
  unfold new_chp
  split_ifs
  · exact same_paragraphs_refl s
  · unfold _wri_new_lprop malloc
    cases s.malloc_ok.headD true
    · exact ⟨rfl, rfl, rfl, rfl, rfl, rfl, rfl, fun _ h => List.mem_of_mem_tail h⟩
    · exact ⟨rfl, rfl, rfl, rfl, rfl, rfl, rfl, fun _ h => List.mem_of_mem_tail h⟩

theorem same_paragraphs_font (n : List Nat) (f : Nat) (s : State) :
    same_paragraphs s (_wri_cvt_font_name_to_code n f s).2 := by
  unfold _wri_cvt_font_name_to_code
  split
  · dsimp only
    split_ifs
    · exact ⟨rfl, rfl, rfl, rfl, rfl, rfl, rfl, fun _ h => h⟩
    · exact same_paragraphs_refl s
  · split
    · exact same_paragraphs_refl s
    · unfold malloc
      cases s.malloc_ok.headD true
      · exact ⟨rfl, rfl, rfl, rfl, rfl, rfl, rfl, fun _ h => List.mem_of_mem_tail h⟩
      · exact ⟨rfl, rfl, rfl, rfl, rfl, rfl, rfl, fun _ h => List.mem_of_mem_tail h⟩

section step_kept
variable {P : State → Prop} (hP : StepKept P)
include hP

theorem StepKept.chp_closed : ChpClosed P where
  set_chp := fun s _ h => hP.same s _ ⟨rfl, rfl, rfl, rfl, rfl, rfl, rfl, fun _ h => h⟩ h
  new_chp := fun s h => hP.same s _ (same_paragraphs_new_chp s) h
  font := fun n f s h => hP.same s _ (same_paragraphs_font n f s) h

theorem this_para_field_kept (s : State) (g : State → PAP)
    (hg : ∀ s1, (g s1).res1 = (pap_curr s1).res1 ∧ (g s1).rhcOdd = (pap_curr s1).rhcOdd)
    (h : P s) :
    P (match this_para s with
      | (false, s1) => ((1 : Int), s1)
      | (true, s1) => (0, set_pap_curr s1 (g s1))).2 := by
  have h1 := hP.this_para s h
  split
  · simp_all
  · rename_i s1 he
    rw [he] at h1
    exact hP.set_field _ _ h1 (hg s1).1 (hg s1).2

theorem wri_para_justify_kept (v : Int) (s : State) (h : P s) :
    P (wri_para_justify v s).2 := by
  unfold wri_para_justify
  split_ifs
  · exact h
  · exact h
  · exact this_para_field_kept hP _ _ (fun _ => ⟨rfl, rfl⟩) h

theorem wri_para_interline_kept (v : Int) (s : State) (h : P s) :
    P (wri_para_interline v s).2 := by
  unfold wri_para_interline
  split_ifs
  · exact h
  · exact h
  · exact this_para_field_kept hP _ _ (fun _ => ⟨rfl, rfl⟩) h

theorem wri_para_indent_left_kept (v : Int) (s : State) (h : P s) :
    P (wri_para_indent_left v s).2 := by
  unfold wri_para_indent_left
  split_ifs
  · exact h
  · exact h
  · exact this_para_field_kept hP _ _ (fun _ => ⟨rfl, rfl⟩) h

theorem wri_para_indent_right_kept (v : Int) (s : State) (h : P s) :
    P (wri_para_indent_right v s).2 := by
  unfold wri_para_indent_right
  split_ifs
  · exact h
  · exact h
  · exact this_para_field_kept hP _ _ (fun _ => ⟨rfl, rfl⟩) h

theorem wri_para_indent_first_kept (v : Int) (s : State) (h : P s) :
    P (wri_para_indent_first v s).2 := by
  unfold wri_para_indent_first
  split_ifs
  · exact h
  · exact this_para_field_kept hP _ _ (fun _ => ⟨rfl, rfl⟩) h

theorem wri_para_normal_kept (s : State) (h : P s) : P (wri_para_normal s).2 := by
  unfold wri_para_normal
  dsimp only
  have h1 := wri_para_justify_kept hP WRI_LEFT s h
  generalize wri_para_justify WRI_LEFT s = r1 at h1 ⊢
  have h2 := wri_para_interline_kept hP WRI_SINGLE _ h1
  generalize wri_para_interline WRI_SINGLE r1.2 = r2 at h2 ⊢
  have h3 := wri_para_indent_left_kept hP 0 _ h2
  generalize wri_para_indent_left 0 r2.2 = r3 at h3 ⊢
  have h4 := wri_para_indent_right_kept hP 0 _ h3
  generalize wri_para_indent_right 0 r3.2 = r4 at h4 ⊢
  have h5 := wri_para_indent_first_kept hP 0 _ h4
  generalize wri_para_indent_first 0 r4.2 = r5 at h5 ⊢
  split_ifs
  · exact h1
  · exact h2
  · exact h3
  · exact h4
  · exact h5
  · exact h5

theorem do_text_loop_kept (t : List Nat) (s : State) (h : P s) : P (do_text_loop t s).2 := by
  induction t generalizing s with
  | nil => exact h
  | cons c rest ih =>
    unfold do_text_loop
    have hcr : P (if c = 10 then { putc 13 s with _wri_cpMac := s._wri_cpMac + 1 } else s) := by
      split_ifs
      · exact hP.same s _ ⟨rfl, rfl, rfl, rfl, rfl, rfl, rfl, fun _ h => h⟩ h
      · exact h
    dsimp only
    generalize (if c = 10 then { putc 13 s with _wri_cpMac := s._wri_cpMac + 1 } else s) = s1
      at hcr ⊢
    have h2 : P { putc c s1 with _wri_cpMac := s1._wri_cpMac + 1 } :=
      hP.same s1 _ ⟨rfl, rfl, rfl, rfl, rfl, rfl, rfl, fun _ h => h⟩ hcr
    generalize hs2 : ({ putc c s1 with _wri_cpMac := s1._wri_cpMac + 1 } : State) = s2 at h2 ⊢
    have e2 : s1._wri_cpMac + 1 = s2._wri_cpMac := by rw [← hs2]
    rw [e2]
    clear hs2 e2
    have h3 : P (_wri_extend_pap s2._wri_cpMac s2) :=
      hP.same s2 _ ⟨rfl, rfl, rfl, rfl, rfl, rfl, rfl, fun _ h => h⟩ h2
    have h4 := hP.new_par _ h3
    generalize _wri_new_paragraph (_wri_extend_pap s2._wri_cpMac s2) = r4 at h4 ⊢
    rcases r4 with ⟨r, s4⟩
    dsimp only at h4 ⊢
    split_ifs
    · exact ih s h
    · exact ih s h
    · exact ih s h
    · exact h4
    · exact ih s4 h4
    · exact ih s2 h2

theorem do_text_kept (t : List Nat) (s : State) (h : P s) : P (do_text t s).2 := by
  have h1 := do_text_loop_kept hP t s h
  unfold do_text
  generalize do_text_loop t s = r1 at h1 ⊢
  rcases r1 with ⟨r, s1⟩
  dsimp only at h1 ⊢
  split_ifs
  · exact h1
  · exact hP.same s1 _ ⟨rfl, rfl, rfl, rfl, rfl, rfl, rfl, fun _ h => h⟩ h1
  · exact hP.same s1 _ ⟨rfl, rfl, rfl, rfl, rfl, rfl, rfl, fun _ h => h⟩ h1

theorem wri_text_fuel_kept (fuel : Nat) (t : List Nat) (s : State) (h : P s) :
    P (wri_text_fuel fuel t s).2 := by
  induction fuel generalizing t s with
  | zero => exact h
  | succ fuel ih =>
    unfold wri_text_fuel
    dsimp only
    have h0 : P (if s.text_fp = none then create_tempfile s else s) := by
      split_ifs
      · exact hP.same s _ ⟨rfl, rfl, rfl, rfl, rfl, rfl, rfl, fun _ h => h⟩ h
      · exact h
    generalize (if s.text_fp = none then create_tempfile s else s) = s0 at h0 ⊢
    have h6 := do_text_kept hP t s0 h0
    generalize do_text t s0 = r6 at h6 ⊢
    have h1 := do_text_kept hP (t.takeWhile (fun c => c ≠ 1)) s0 h0
    generalize do_text (t.takeWhile (fun c => c ≠ 1)) s0 = r1 at h1 ⊢
    have h2 := _wri_chp_special_keeps (StepKept.chp_closed hP) 1 _ h1
    generalize _wri_chp_special 1 r1.2 = r2 at h2 ⊢
    have h3 := do_text_kept hP [1] _ h2
    generalize do_text [1] r2.2 = r3 at h3 ⊢
    have h4 := _wri_chp_special_keeps (StepKept.chp_closed hP) 0 _ h3
    generalize _wri_chp_special 0 r3.2 = r4 at h4 ⊢
    have h5 := ih (t.dropWhile (fun c => c ≠ 1)).tail _ h4
    generalize wri_text_fuel fuel (t.dropWhile (fun c => c ≠ 1)).tail r4.2 = r5 at h5 ⊢
    split_ifs
    · exact h0
    · exact h1
    · exact h2
    · exact h3
    · exact h4
    · exact h5
    · exact h6
    · exact h6

theorem wri_text_kept (t : List Nat) (s : State) (h : P s) : P (wri_text t s).2 :=
  wri_text_fuel_kept hP _ t s h

theorem in_bracket_kept (c : Call) (hc : c.in_bracket = true) (s : State) (h : P s) :
    P (c.run s).2 := by
  cases c <;> simp [Call.in_bracket, Call.is_char_setter, Call.is_para_setter] at hc <;>
    simp only [Call.run]
  · exact wri_text_kept hP _ s h
  · exact wri_char_normal_keeps (StepKept.chp_closed hP) s h
  · exact wri_char_bold_keeps (StepKept.chp_closed hP) _ s h
  · exact wri_char_italic_keeps (StepKept.chp_closed hP) _ s h
  · exact wri_char_underline_keeps (StepKept.chp_closed hP) _ s h
  · exact wri_char_script_keeps (StepKept.chp_closed hP) _ s h
  · exact wri_char_font_name_keeps (StepKept.chp_closed hP) _ s h
  · exact wri_char_font_size_keeps (StepKept.chp_closed hP) _ s h
  · exact wri_char_reduce_keeps (StepKept.chp_closed hP) s h
  · exact wri_char_enlarge_keeps (StepKept.chp_closed hP) s h
  · exact wri_para_normal_kept hP s h
  · exact wri_para_justify_kept hP _ s h
  · exact wri_para_interline_kept hP _ s h
  · exact wri_para_indent_left_kept hP _ s h
  · exact wri_para_indent_right_kept hP _ s h
  · exact wri_para_indent_first_kept hP _ s h

theorem in_bracket_calls_kept (cs : List Call) (hcs : ∀ c ∈ cs, c.in_bracket = true)
    (s : State) (h : P s) : P (run_calls cs s) := by
  induction cs generalizing s with
  | nil => exact h
  | cons c cs ih =>
    exact ih (fun c1 h1 => hcs c1 (List.mem_cons_of_mem _ h1)) _
      (in_bracket_kept hP c (hcs c (List.mem_cons_self _ _)) s h)

end step_kept

section doc_kept
variable {P : State → Prop} (hP : DocKept P)
include hP

theorem this_para_curr_kept (s : State) (g : State → PAP)
    (hg : ∀ s1, (g s1).res1 = (pap_curr s1).res1) (h : P s) :
    P (match this_para s with
      | (false, s1) => ((1 : Int), s1)
      | (true, s1) => (0, set_pap_curr s1 (g s1))).2 := by
  have h1 := hP.this_para s h
  split
  · simp_all
  · rename_i s1 he
    rw [he] at h1
    exact hP.set_curr _ _ h1 (hg s1)

theorem _wri_set_default_pap_kept (s : State) (h : P s) : P (_wri_set_default_pap s).2 := by
  unfold _wri_set_default_pap
  exact this_para_curr_kept hP _ _ (fun _ => rfl) h

theorem _wri_restore_pap_kept (s : State) (h : P s) : P (_wri_restore_pap s).2 := by
  unfold _wri_restore_pap
  exact this_para_curr_kept hP _ _ (fun _ => rfl) h

theorem wri_doc_return_kept (s : State) (h : P s) : P (wri_doc_return s).2 := by
  unfold wri_doc_return
  dsimp only
  have h1 := wri_text_kept hP.toStepKept [10] s h
  generalize wri_text [10] s = r1 at h1 ⊢
  have h2 := _wri_restore_chp_keeps (StepKept.chp_closed hP.toStepKept) _ h1
  generalize _wri_restore_chp r1.2 = r2 at h2 ⊢
  have h3 := _wri_restore_pap_kept hP _ h2
  generalize _wri_restore_pap r2.2 = r3 at h3 ⊢
  have h4 : P { r3.2 with _wri_in_rhc := 0 } :=
    hP.same r3.2 _ ⟨rfl, rfl, rfl, rfl, rfl, rfl, rfl, fun _ h => h⟩ h3
  split_ifs
  · exact h
  · exact h2
  · exact h3
  · exact h4

theorem start_rhc_body_kept (hf : Int) (s : State) (h : P s) :
    P (start_rhc_body hf s).2 := by
  unfold start_rhc_body
  dsimp only
  have h1 : P (if s.lpap_curr.cpFirst ≠ s.lpap_curr.cpLim then _wri_new_paragraph s
      else ((0 : Int), s)).2 := by
    split_ifs
    · exact hP.new_par s h
    · exact h
  generalize (if s.lpap_curr.cpFirst ≠ s.lpap_curr.cpLim then _wri_new_paragraph s
      else ((0 : Int), s)) = r1 at h1 ⊢
  have h2 : P (_wri_preserve_pap (_wri_preserve_chp r1.2)) :=
    hP.saved_pap _ _ (hP.saved_chp _ _ h1)
  generalize _wri_preserve_pap (_wri_preserve_chp r1.2) = s2 at h2 ⊢
  have h3 := _wri_set_default_chp_keeps (StepKept.chp_closed hP.toStepKept) _ h2
  generalize _wri_set_default_chp s2 = r3 at h3 ⊢
  have h4 := wri_char_font_size_keeps (StepKept.chp_closed hP.toStepKept) 10 _ h3
  generalize wri_char_font_size 10 r3.2 = r4 at h4 ⊢
  have h5 := _wri_set_default_pap_kept hP _ h4
  generalize _wri_set_default_pap r4.2 = r5 at h5 ⊢
  split_ifs
  · exact h1
  · exact h3
  · exact h5
  · have h6 := hP.set_curr r5.2 { pap_curr r5.2 with rhcOdd := 1, rhcEven := 1 } h5 rfl
    have h7 := hP.set_curr _ { pap_curr (set_pap_curr r5.2
      { pap_curr r5.2 with rhcOdd := 1, rhcEven := 1 }) with rhcPage := (hf % 2).toNat } h6 rfl
    have h8 : ∀ t : State, P t → P { t with _wri_in_rhc := 1 } :=
      fun t ht => hP.same t _ ⟨rfl, rfl, rfl, rfl, rfl, rfl, rfl, fun _ h => h⟩ ht
    exact h8 _ h7

theorem start_rhc_kept (hf : Int) (s : State) (h : P s) : P (start_rhc hf s).2 := by
  unfold start_rhc
  dsimp only
  have h3 := start_rhc_body_kept hP hf _ h
  generalize start_rhc_body hf s = r3 at h3 ⊢
  have h1 := wri_doc_return_kept hP s h
  generalize wri_doc_return s = r1 at h1 ⊢
  have h2 := start_rhc_body_kept hP hf _ h1
  generalize start_rhc_body hf r1.2 = r2 at h2 ⊢
  split_ifs
  · exact h
  · exact h
  · exact h1
  · exact h2
  · exact h3

theorem call_kept (c : Call) (s : State) (h : P s) : P (c.run s).2 := by
  by_cases hc : c.in_bracket = true
  · exact in_bracket_kept hP.toStepKept c hc s h
  · cases c <;> simp [Call.in_bracket, Call.is_char_setter, Call.is_para_setter] at hc <;>
      simp only [Call.run]
    · exact start_rhc_kept hP 0 s h
    · exact start_rhc_kept hP 1 s h
    · exact wri_doc_return_kept hP s h

end doc_kept

/-! ### The steps of the paragraph-run manager, whatever the allocator answers -/

theorem clone_pap_frame (s : State) :
    (clone_pap s).2.tbd = s.tbd ∧ (clone_pap s).2.nTabs = s.nTabs ∧
    (clone_pap s).2.saved_chp = s.saved_chp ∧ (clone_pap s).2.saved_pap = s.saved_pap ∧
    (clone_pap s).2.lpap_list = s.lpap_list ∧
    s.paps.length ≤ (clone_pap s).2.paps.length := by
  unfold clone_pap malloc
  cases s.malloc_ok.headD true
  · exact ⟨rfl, rfl, rfl, rfl, rfl, le_refl _⟩
  · refine ⟨rfl, rfl, rfl, rfl, rfl, ?_⟩
    simp [set_pap_at]

theorem this_para_frame (s : State) :
    (this_para s).2.tbd = s.tbd ∧ (this_para s).2.nTabs = s.nTabs ∧
    (this_para s).2.saved_chp = s.saved_chp ∧ (this_para s).2.saved_pap = s.saved_pap ∧
    (this_para s).2.lpap_list = s.lpap_list ∧
    s.paps.length ≤ (this_para s).2.paps.length := by
  unfold this_para
  split_ifs
  · exact ⟨rfl, rfl, rfl, rfl, rfl, le_refl _⟩
  · exact clone_pap_frame s

theorem new_paragraph_frame (s : State) :
    (_wri_new_paragraph s).2.tbd = s.tbd ∧ (_wri_new_paragraph s).2.nTabs = s.nTabs ∧
    (_wri_new_paragraph s).2.saved_chp = s.saved_chp ∧
    (_wri_new_paragraph s).2.saved_pap = s.saved_pap ∧
    s.paps.length ≤ (_wri_new_paragraph s).2.paps.length ∧
    (((_wri_new_paragraph s).2.lpap_list = s.lpap_list ∧
        (_wri_new_paragraph s).2.lpap_curr = s.lpap_curr ∧
        (_wri_new_paragraph s).2.paps = s.paps) ∨
      (_wri_new_paragraph s).2.lpap_list = s.lpap_list ++ [s.lpap_curr]) := by
  unfold _wri_new_paragraph _wri_new_lprop malloc
  cases s.malloc_ok.headD true
  · exact ⟨rfl, rfl, rfl, rfl, le_refl _, Or.inl ⟨rfl, rfl, rfl⟩⟩
  · dsimp only
    split_ifs
    · generalize hs3 : set_pap_curr _ _ = s3
      have e1 : s3.tbd = s.tbd := by rw [← hs3]; rfl
      have e2 : s3.nTabs = s.nTabs := by rw [← hs3]; rfl
      have e3 : s3.saved_chp = s.saved_chp := by rw [← hs3]; rfl
      have e4 : s3.saved_pap = s.saved_pap := by rw [← hs3]; rfl
      have e5 : s3.lpap_list = s.lpap_list ++ [s.lpap_curr] := by rw [← hs3]; rfl
      have e6 : s3.paps.length = s.paps.length := by
        rw [← hs3]
        simp [set_pap_curr, set_pap_at]
      obtain ⟨c1, c2, c3, c4, c5, c6⟩ := clone_pap_frame s3
      rcases hq : clone_pap s3 with ⟨b, s4⟩
      rw [hq] at c1 c2 c3 c4 c5 c6
      dsimp only at c1 c2 c3 c4 c5 c6
      cases b
      · dsimp only
        exact ⟨c1.trans e1, c2.trans e2, c3.trans e3, c4.trans e4, by omega,
          Or.inr (c5.trans e5)⟩
      · dsimp only
        exact ⟨c1.trans e1, c2.trans e2, c3.trans e3, c4.trans e4, by omega,
          Or.inr (c5.trans e5)⟩
    · refine ⟨rfl, rfl, rfl, rfl, ?_, Or.inr rfl⟩
      simp [set_pap_curr, set_pap_at]

/-! ### The tab table is no business of the builder -/

theorem tabs_are_kept (T : List TBD) (N : Int) : DocKept (tabs_are T N) where
  same := fun _ _ hst h => ⟨hst.2.2.2.2.2.1.trans h.1, hst.2.2.2.2.2.2.1.trans h.2⟩
  this_para := fun s h =>
    ⟨(this_para_frame s).1.trans h.1, (this_para_frame s).2.1.trans h.2⟩
  set_field := fun _ _ h _ _ => h
  new_par := fun s h =>
    ⟨(new_paragraph_frame s).1.trans h.1, (new_paragraph_frame s).2.1.trans h.2⟩
  set_curr := fun _ _ h _ => h
  saved_chp := fun _ _ h => h
  saved_pap := fun _ _ h => h

/-! ### The first node of the paragraph list stays at `first_pap` -/

theorem wri_doc_return_outside (s : State) (h : (pap_curr s).rhcOdd = 0) :
    wri_doc_return s = (0, s) := by
  unfold wri_doc_return
  rw [if_pos h]

theorem user_to_sep_twice (s : State) :
    _wri_user_to_sep (_wri_user_to_sep s) = _wri_user_to_sep s := rfl

theorem wri_save_cases (fails : SaveStep → Bool) (s : State) (h : (wri_save fails s).1 = 1) :
    (wri_save fails s).2 = { s with _wri_error := 1 } ∨
    (wri_save fails s).2 = { (wri_doc_return s).2 with _wri_error := 1 } ∨
    (wri_save fails s).2 = { _wri_user_to_sep (wri_doc_return s).2 with _wri_error := 1 } := by
  unfold wri_save at h ⊢
  generalize (wri_doc_return s).2 = s1 at h ⊢
  dsimp only at h ⊢
  rw [user_to_sep_twice] at h ⊢
  generalize _wri_user_to_sep s1 = s2 at h ⊢
  by_cases h1 : fails .fopen = true
  · rw [if_pos h1]
    exact Or.inl rfl
  rw [if_neg h1] at h ⊢
  by_cases h2 : fails .save_text = true
  · rw [if_pos h2]
    exact Or.inr (Or.inl rfl)
  rw [if_neg h2] at h ⊢
  by_cases h3 : fails .save_chp = true
  · rw [if_pos h3]
    exact Or.inr (Or.inl rfl)
  rw [if_neg h3] at h ⊢
  by_cases h4 : fails .save_pap = true
  · rw [if_pos h4]
    exact Or.inr (Or.inr rfl)
  rw [if_neg h4] at h ⊢
  by_cases h5 : fails .save_section = true
  · rw [if_pos h5]
    exact Or.inr (Or.inr rfl)
  rw [if_neg h5] at h ⊢
  by_cases h6 : fails .save_fonts = true
  · rw [if_pos h6]
    exact Or.inr (Or.inr rfl)
  rw [if_neg h6] at h ⊢
  by_cases h7 : fails .save_header = true
  · rw [if_pos h7]
    exact Or.inr (Or.inr rfl)
  rw [if_neg h7] at h ⊢
  by_cases h8 : fails .ferror = true
  · rw [if_pos h8]
    exact Or.inr (Or.inr rfl)
  rw [if_neg h8] at h ⊢
  by_cases h9 : fails .fclose = true
  · rw [if_pos h9]
    exact Or.inr (Or.inr rfl)
  rw [if_neg h9] at h
  have h0 : (0 : Int) = 1 := h
  exact absurd h0 (by decide)

/-- C30 (counterexamples). With a header under way (one byte of text), a save
whose I/O fails in `_wri_save_text` returns 1 after `wri_doc_return()` has
closed the header: the text has 3 bytes, the character list 2 runs instead of
1 and the paragraph list 2 runs instead of 1.  In the empty document after
`wri_doc_margin_left(100)`, a save whose I/O fails in `_wri_save_section`
returns 1 with the width of the text area in the section record recomputed,
10340 instead of 8640. -/
theorem failed_save_changes_the_model :
    (wri_save (fails_at .save_text) doc_header_open).1 = 1 ∧
    doc_header_open._wri_cpMac = 1 ∧
    (wri_save (fails_at .save_text) doc_header_open).2._wri_cpMac = 3 ∧
    (lchp_runs doc_header_open).length = 1 ∧
    (lchp_runs (wri_save (fails_at .save_text) doc_header_open).2).length = 2 ∧
    (lpap_runs doc_header_open).length = 1 ∧
    (lpap_runs (wri_save (fails_at .save_text) doc_header_open).2).length = 2 ∧
    (wri_save (fails_at .save_section) doc_margin).1 = 1 ∧
    doc_margin._wri_sep.dxaText = 8640 ∧
    (wri_save (fails_at .save_section) doc_margin).2._wri_sep.dxaText = 10340 := by
  refine ⟨by decide, by decide, by decide, by decide, by decide, by decide, by decide,
    by decide, by decide, by decide⟩

/-- C30 (amended). When `wri_save` returns 1, the state it leaves is the one
before the call, or that state after `wri_doc_return()`, or that state after
`wri_doc_return()` and `_wri_user_to_sep()`, in each case with `_wri_error`
set.  The tab table is as before.  When the current paragraph was not flagged
as header or footer, the text and its length, both run lists, the paragraph
records and the margins the user sets are as before, and the section record is
as before except for `dxaText`, `dyaText` and `yaFooter`. -/
theorem failed_save_frame (fails : SaveStep → Bool) (s : State)
    (h : (wri_save fails s).1 = 1) :
    (wri_save fails s).2._wri_error = 1 ∧
    ((wri_save fails s).2 = { s with _wri_error := 1 } ∨
      (wri_save fails s).2 = { (wri_doc_return s).2 with _wri_error := 1 } ∨
      (wri_save fails s).2 = { _wri_user_to_sep (wri_doc_return s).2 with _wri_error := 1 }) ∧
    (wri_save fails s).2.tbd = s.tbd ∧ (wri_save fails s).2.nTabs = s.nTabs ∧
    ((pap_curr s).rhcOdd = 0 →
      (wri_save fails s).2._wri_cpMac = s._wri_cpMac ∧
      (wri_save fails s).2.text_fp = s.text_fp ∧
      (wri_save fails s).2.lchp_list = s.lchp_list ∧
      (wri_save fails s).2.lchp_curr = s.lchp_curr ∧
      (wri_save fails s).2.lpap_list = s.lpap_list ∧
      (wri_save fails s).2.lpap_curr = s.lpap_curr ∧
      (wri_save fails s).2.paps = s.paps ∧
      (wri_save fails s).2.dxaRight = s.dxaRight ∧
      (wri_save fails s).2.dyaBottom = s.dyaBottom ∧
      (wri_save fails s).2.dyaFooter = s.dyaFooter ∧
      { (wri_save fails s).2._wri_sep with
        dxaText := s._wri_sep.dxaText
        dyaText := s._wri_sep.dyaText
        yaFooter := s._wri_sep.yaFooter } = s._wri_sep) := by
  have hc := wri_save_cases fails s h
  have ht : tabs_are s.tbd s.nTabs (wri_doc_return s).2 :=
    wri_doc_return_kept (tabs_are_kept s.tbd s.nTabs) s ⟨rfl, rfl⟩
  refine ⟨?_, hc, ?_, ?_, ?_⟩
  · rcases hc with e | e | e <;> rw [e]
  · rcases hc with e | e | e <;> rw [e]
    · exact ht.1
    · exact ht.1
  · rcases hc with e | e | e <;> rw [e]
    · exact ht.2
    · exact ht.2
  · intro hr
    have e0 : (wri_doc_return s).2 = s := by rw [wri_doc_return_outside s hr]
    rw [e0] at hc
    rcases hc with e | e | e <;> rw [e] <;>
      exact ⟨rfl, rfl, rfl, rfl, rfl, rfl, rfl, rfl, rfl, rfl, rfl⟩

/-- Witness for C30: on `doc_abc` a save that fails in `_wri_save_chp` returns 1
and leaves the 5 bytes of text and the run lists as they were. -/
theorem failed_save_frame_witness :
    (wri_save (fails_at .save_chp) doc_abc).1 = 1 ∧ (pap_curr doc_abc).rhcOdd = 0 ∧
    (wri_save (fails_at .save_chp) doc_abc).2._wri_cpMac = doc_abc._wri_cpMac ∧
    (wri_save (fails_at .save_chp) doc_abc).2.lchp_list = doc_abc.lchp_list :=
  ⟨by decide, by decide,
   ((failed_save_frame (fails_at .save_chp) doc_abc (by decide)).2.2.2.2 (by decide)).1,
   ((failed_save_frame (fails_at .save_chp) doc_abc (by decide)).2.2.2.2 (by decide)).2.2.1⟩

/-! ### The reset -/

theorem same_paragraphs_carries (s t : State) (h : same_paragraphs s t) :
    pap_curr t = pap_curr s ∧ (pap_valid s → pap_valid t) ∧ (AllocOK s → AllocOK t) := by
  obtain ⟨e1, _, e3, _, _, _, _, e8⟩ := h
  refine ⟨?_, ?_, ?_⟩
  · unfold pap_curr pap_at
    rw [e1, e3]
  · unfold pap_valid
    rw [e1, e3]
    exact id
  · intro ha b hb
    exact ha b (e8 b hb)

theorem same_paragraphs_trans (s t u : State) (h1 : same_paragraphs s t)
    (h2 : same_paragraphs t u) : same_paragraphs s u := by
  obtain ⟨a1, a2, a3, a4, a5, a6, a7, a8⟩ := h1
  obtain ⟨b1, b2, b3, b4, b5, b6, b7, b8⟩ := h2
  exact ⟨b1.trans a1, b2.trans a2, b3.trans a3, b4.trans a4, b5.trans a5, b6.trans a6,
    b7.trans a7, fun b hb => a8 b (b8 b hb)⟩

theorem new_chp_ok (s : State) (ha : AllocOK s) :
    (new_chp s).1 = true ∧ chp_curr (new_chp s).2 = chp_curr s := by
  rcases new_chp_cases s with ⟨_, hn⟩ | ⟨_, hn⟩ | hn
  · rw [hn]
    exact ⟨rfl, rfl⟩
  · rw [hn]
    exact ⟨rfl, rfl⟩
  · exfalso
    by_cases he : s.lchp_curr.cpFirst = s.lchp_curr.cpLim
    · rw [new_chp_of_empty s he] at hn
      exact Bool.noConfusion hn
    · rw [new_chp_of_nonempty s he (AllocOK_succeeds s ha)] at hn
      exact Bool.noConfusion hn

/-- Under a working allocator, `new_chp` followed by an assignment to the
current record succeeds and leaves that record current. -/
theorem new_chp_set_ok (s : State) (g : State → CHP) (ha : AllocOK s) :
    (match new_chp s with
      | (false, s1) => ((1 : Int), s1)
      | (true, s1) => (0, set_chp_curr s1 (g s1))).1 = 0 ∧
    chp_curr (match new_chp s with
      | (false, s1) => ((1 : Int), s1)
      | (true, s1) => (0, set_chp_curr s1 (g s1))).2 = g (new_chp s).2 ∧
    same_paragraphs s (match new_chp s with
      | (false, s1) => ((1 : Int), s1)
      | (true, s1) => (0, set_chp_curr s1 (g s1))).2 := by
  have h1 := new_chp_ok s ha
  have h2 := same_paragraphs_new_chp s
  generalize new_chp s = r at h1 h2 ⊢
  obtain ⟨b, s1⟩ := r
  dsimp only at h1 h2 ⊢
  rw [h1.1]
  dsimp only
  refine ⟨rfl, rfl, ?_⟩
  exact same_paragraphs_trans s s1 _ h2 ⟨rfl, rfl, rfl, rfl, rfl, rfl, rfl, fun _ h => h⟩

theorem pap_curr_set (s : State) (p : PAP) (hv : pap_valid s) :
    pap_curr (set_pap_curr s p) = p ∧ pap_valid (set_pap_curr s p) := by
  constructor
  · exact pap_at_set_same s _ p hv
  · unfold pap_valid set_pap_curr set_pap_at
    rw [List.length_set]
    exact hv

/-- Under a working allocator `clone_pap` succeeds; the current record is then
a copy, with the count 1, of the one that was current. -/
theorem clone_pap_ok (s : State) (ha : AllocOK s) (hv : pap_valid s) :
    (clone_pap s).1 = true ∧ AllocOK (clone_pap s).2 ∧ pap_valid (clone_pap s).2 ∧
    pap_curr (clone_pap s).2 = { pap_curr s with res1 := 1 } ∧
    (clone_pap s).2.saved_chp = s.saved_chp ∧ (clone_pap s).2.saved_pap = s.saved_pap ∧
    (clone_pap s).2.lchp_curr = s.lchp_curr := by
  rw [clone_pap_of_succeeds s (AllocOK_succeeds s ha) hv]
  refine ⟨rfl, AllocOK_tail s ha, ?_, ?_, rfl, rfl, rfl⟩
  · unfold pap_valid
    simp
  · simp [pap_curr, pap_at, List.getD_eq_getElem?_getD, List.getElem?_append_right]

theorem this_para_ok (s : State) (ha : AllocOK s) (hv : pap_valid s) :
    (this_para s).1 = true ∧ AllocOK (this_para s).2 ∧ pap_valid (this_para s).2 ∧
    { pap_curr (this_para s).2 with res1 := 0 } = { pap_curr s with res1 := 0 } ∧
    (this_para s).2.saved_chp = s.saved_chp ∧ (this_para s).2.saved_pap = s.saved_pap ∧
    (this_para s).2.lchp_curr = s.lchp_curr := by
  unfold this_para
  split_ifs
  · exact ⟨rfl, ha, hv, rfl, rfl, rfl, rfl⟩
  · obtain ⟨c1, c2, c3, c4, c5, c6, c7⟩ := clone_pap_ok s ha hv
    refine ⟨c1, c2, c3, ?_, c5, c6, c7⟩
    rw [c4]

theorem new_paragraph_ok (s : State) (ha : AllocOK s) (hv : pap_valid s) :
    (_wri_new_paragraph s).1 = 0 ∧ AllocOK (_wri_new_paragraph s).2 ∧
    pap_valid (_wri_new_paragraph s).2 ∧
    { pap_curr (_wri_new_paragraph s).2 with res1 := 0 } = { pap_curr s with res1 := 0 } ∧
    (_wri_new_paragraph s).2.saved_chp = s.saved_chp ∧
    (_wri_new_paragraph s).2.saved_pap = s.saved_pap ∧
    (_wri_new_paragraph s).2.lchp_curr = s.lchp_curr := by
  unfold _wri_new_paragraph _wri_new_lprop
  rw [malloc_of_AllocOK s ha]
  dsimp only
  generalize hs2 : ({ s with
      malloc_ok := s.malloc_ok.tail,
      lpap_list := s.lpap_list ++ [s.lpap_curr],
      lpap_curr := { s.lpap_curr with cpFirst := s.lpap_curr.cpLim } } : State) = s2
  have a2 : AllocOK s2 := by
    rw [← hs2]
    exact AllocOK_tail s ha
  have v2 : pap_valid s2 := by
    rw [← hs2]
    exact hv
  have p2 : pap_curr s2 = pap_curr s := by rw [← hs2]; rfl
  have f2 : s2.saved_chp = s.saved_chp ∧ s2.saved_pap = s.saved_pap ∧
      s2.lchp_curr = s.lchp_curr := by
    rw [← hs2]
    exact ⟨rfl, rfl, rfl⟩
  obtain ⟨q1, q2⟩ := pap_curr_set s2 { pap_curr s2 with res1 := ((pap_curr s2).res1 + 1) % 256 } v2
  generalize hs3 : set_pap_curr s2
    { pap_curr s2 with res1 := ((pap_curr s2).res1 + 1) % 256 } = s3 at q1 q2
  have a3 : AllocOK s3 := by
    rw [← hs3]
    exact a2
  have f3 : s3.saved_chp = s.saved_chp ∧ s3.saved_pap = s.saved_pap ∧
      s3.lchp_curr = s.lchp_curr := by
    rw [← hs3]
    exact f2
  have p3 : { pap_curr s3 with res1 := 0 } = { pap_curr s with res1 := 0 } := by
    rw [q1, p2]
  by_cases h0 : (pap_curr s2).res1 = 0
  · rw [if_pos h0]
    obtain ⟨c1, c2, c3, c4, c5, c6, c7⟩ := clone_pap_ok s3 a3 q2
    generalize clone_pap s3 = r at c1 c2 c3 c4 c5 c6 c7 ⊢
    obtain ⟨b, s4⟩ := r
    dsimp only at c1 c2 c3 c4 c5 c6 c7 ⊢
    rw [c1]
    dsimp only
    refine ⟨rfl, c2, c3, ?_, c5.trans f3.1, c6.trans f3.2.1, c7.trans f3.2.2⟩
    rw [c4, ← p3]
  · rw [if_neg h0]
    exact ⟨rfl, a3, q2, p3, f3.1, f3.2.1, f3.2.2⟩

/-- Under a working allocator, `this_para` followed by an assignment to the
current record succeeds and leaves that record current. -/
theorem this_para_set_ok (s : State) (g : State → PAP) (ha : AllocOK s) (hv : pap_valid s) :
    (match this_para s with
      | (false, s1) => ((1 : Int), s1)
      | (true, s1) => (0, set_pap_curr s1 (g s1))).1 = 0 ∧
    AllocOK (match this_para s with
      | (false, s1) => ((1 : Int), s1)
      | (true, s1) => (0, set_pap_curr s1 (g s1))).2 ∧
    pap_valid (match this_para s with
      | (false, s1) => ((1 : Int), s1)
      | (true, s1) => (0, set_pap_curr s1 (g s1))).2 ∧
    pap_curr (match this_para s with
      | (false, s1) => ((1 : Int), s1)
      | (true, s1) => (0, set_pap_curr s1 (g s1))).2 = g (this_para s).2 ∧
    (match this_para s with
      | (false, s1) => ((1 : Int), s1)
      | (true, s1) => (0, set_pap_curr s1 (g s1))).2.saved_chp = s.saved_chp ∧
    (match this_para s with
      | (false, s1) => ((1 : Int), s1)
      | (true, s1) => (0, set_pap_curr s1 (g s1))).2.saved_pap = s.saved_pap ∧
    (match this_para s with
      | (false, s1) => ((1 : Int), s1)
      | (true, s1) => (0, set_pap_curr s1 (g s1))).2.lchp_curr = s.lchp_curr := by
  obtain ⟨c1, c2, c3, -, c5, c6, c7⟩ := this_para_ok s ha hv
  generalize this_para s = r at c1 c2 c3 c5 c6 c7 ⊢
  obtain ⟨b, s1⟩ := r
  dsimp only at c1 c2 c3 c5 c6 c7 ⊢
  rw [c1]
  dsimp only
  obtain ⟨q1, q2⟩ := pap_curr_set s1 (g s1) c3
  exact ⟨rfl, c2, q2, q1, c5, c6, c7⟩

theorem in_bracket_with_kept (c0 : CHP) (p0 : PAP) : StepKept (in_bracket_with c0 p0) where
  same := by
    rintro s t hst ⟨h1, h2, h3, h4, h5⟩
    obtain ⟨e1, e2, e3⟩ := same_paragraphs_carries s t hst
    refine ⟨e3 h1, e2 h2, hst.2.2.2.1.trans h3, hst.2.2.2.2.1.trans h4, ?_⟩
    rw [e1]
    exact h5
  this_para := by
    rintro s ⟨h1, h2, h3, h4, h5⟩
    obtain ⟨-, c2, c3, c4, c5, c6, -⟩ := this_para_ok s h1 h2
    refine ⟨c2, c3, c5.trans h3, c6.trans h4, ?_⟩
    have e : (pap_curr (this_para s).2).rhcOdd = (pap_curr s).rhcOdd :=
      congrArg (fun p => p.rhcOdd) c4
    rw [e]
    exact h5
  set_field := by
    rintro s p ⟨h1, h2, h3, h4, h5⟩ - hp
    obtain ⟨q1, q2⟩ := pap_curr_set s p h2
    refine ⟨h1, q2, h3, h4, ?_⟩
    rw [q1, hp]
    exact h5
  new_par := by
    rintro s ⟨h1, h2, h3, h4, h5⟩
    obtain ⟨-, c2, c3, c4, c5, c6, -⟩ := new_paragraph_ok s h1 h2
    refine ⟨c2, c3, c5.trans h3, c6.trans h4, ?_⟩
    have e : (pap_curr (_wri_new_paragraph s).2).rhcOdd = (pap_curr s).rhcOdd :=
      congrArg (fun p => p.rhcOdd) c4
    rw [e]
    exact h5

theorem set_default_chp_ok (s : State) (ha : AllocOK s) :
    (_wri_set_default_chp s).1 = 0 ∧ chp_curr (_wri_set_default_chp s).2 = _wri_default_chp ∧
    same_paragraphs s (_wri_set_default_chp s).2 := by
  unfold _wri_set_default_chp
  split_ifs with h
  · exact ⟨rfl, h, same_paragraphs_refl s⟩
  · exact new_chp_set_ok s (fun _ => _wri_default_chp) ha

theorem restore_chp_ok (s : State) (ha : AllocOK s) :
    (_wri_restore_chp s).1 = 0 ∧ chp_curr (_wri_restore_chp s).2 = s.saved_chp ∧
    same_paragraphs s (_wri_restore_chp s).2 := by
  unfold _wri_restore_chp
  split_ifs with h
  · exact ⟨rfl, h, same_paragraphs_refl s⟩
  · obtain ⟨c1, c2, c3⟩ := new_chp_set_ok s (fun s1 => s1.saved_chp) ha
    exact ⟨c1, c2.trans (same_paragraphs_new_chp s).2.2.2.1, c3⟩

theorem font_size_ok (v : Int) (s : State) (ha : AllocOK s) (h4 : 4 ≤ v) (h127 : v ≤ 127) :
    (wri_char_font_size v s).1 = 0 ∧
    chp_curr (wri_char_font_size v s).2 = { chp_curr s with hps := (v * 2).toNat % 256 } ∧
    same_paragraphs s (wri_char_font_size v s).2 := by
  unfold wri_char_font_size
  rw [if_neg (by omega)]
  dsimp only
  obtain ⟨c1, c2, c3⟩ := new_chp_set_ok s
    (fun s1 => { chp_curr s1 with hps := (v * 2).toNat % 256 }) ha
  refine ⟨c1, c2.trans ?_, c3⟩
  show { chp_curr (new_chp s).2 with hps := (v * 2).toNat % 256 } = _
  rw [(new_chp_ok s ha).2]

/-- What `start_rhc` does after a pending header or footer has been closed,
under a working allocator: it succeeds, saves the current formatting and makes
the default formatting of a header current. -/
theorem start_rhc_body_ok (hf : Int) (s : State) (ha : AllocOK s) (hv : pap_valid s) :
    (start_rhc_body hf s).1 = 0 ∧
    in_bracket_with (chp_curr s) (start_rhc_body hf s).2.saved_pap (start_rhc_body hf s).2 ∧
    { (start_rhc_body hf s).2.saved_pap with res1 := 0 } = { pap_curr s with res1 := 0 } ∧
    chp_curr (start_rhc_body hf s).2 = { _wri_default_chp with hps := 20 } ∧
    { pap_curr (start_rhc_body hf s).2 with res1 := 0 } =
      { _wri_default_pap with rhcOdd := 1, rhcEven := 1, rhcPage := (hf % 2).toNat } ∧
    (start_rhc_body hf s).2._wri_in_rhc = 1 := by
  generalize hr : start_rhc_body hf s = r
  unfold start_rhc_body at hr
  dsimp only at hr
  have h1 : (if s.lpap_curr.cpFirst ≠ s.lpap_curr.cpLim then _wri_new_paragraph s
        else ((0 : Int), s)).1 = 0 ∧
      AllocOK (if s.lpap_curr.cpFirst ≠ s.lpap_curr.cpLim then _wri_new_paragraph s
        else ((0 : Int), s)).2 ∧
      pap_valid (if s.lpap_curr.cpFirst ≠ s.lpap_curr.cpLim then _wri_new_paragraph s
        else ((0 : Int), s)).2 ∧
      { pap_curr (if s.lpap_curr.cpFirst ≠ s.lpap_curr.cpLim then _wri_new_paragraph s
        else ((0 : Int), s)).2 with res1 := 0 } = { pap_curr s with res1 := 0 } ∧
      (if s.lpap_curr.cpFirst ≠ s.lpap_curr.cpLim then _wri_new_paragraph s
        else ((0 : Int), s)).2.lchp_curr = s.lchp_curr := by
    split_ifs
    · obtain ⟨c1, c2, c3, c4, c5, c6, c7⟩ := new_paragraph_ok s ha hv
      exact ⟨c1, c2, c3, c4, c7⟩
    · exact ⟨rfl, ha, hv, rfl, rfl⟩
  generalize (if s.lpap_curr.cpFirst ≠ s.lpap_curr.cpLim then _wri_new_paragraph s
      else ((0 : Int), s)) = r1 at h1 hr
  obtain ⟨a1, a2, a3, a4, a5⟩ := h1
  rw [if_neg (by rw [a1]; decide)] at hr
  have b1 : AllocOK (_wri_preserve_pap (_wri_preserve_chp r1.2)) := a2
  have b2 : pap_valid (_wri_preserve_pap (_wri_preserve_chp r1.2)) := a3
  have b3 : (_wri_preserve_pap (_wri_preserve_chp r1.2)).saved_chp = chp_curr s := by
    show chp_curr r1.2 = chp_curr s
    unfold chp_curr
    rw [a5]
  have b4 : { (_wri_preserve_pap (_wri_preserve_chp r1.2)).saved_pap with res1 := 0 }
      = { pap_curr s with res1 := 0 } := a4
  generalize _wri_preserve_pap (_wri_preserve_chp r1.2) = s2 at b1 b2 b3 b4 hr
  obtain ⟨c1, c2, c3⟩ := set_default_chp_ok s2 b1
  obtain ⟨c4, c5, c6⟩ := same_paragraphs_carries s2 (_wri_set_default_chp s2).2 c3
  have c7 := c3.2.2.2.1
  have c8 := c3.2.2.2.2.1
  generalize _wri_set_default_chp s2 = r3 at c1 c2 c3 c4 c5 c6 c7 c8 hr
  rw [if_neg (by rw [c1]; decide)] at hr
  obtain ⟨d1, d2, d3⟩ := font_size_ok 10 r3.2 (c6 b1) (by decide) (by decide)
  obtain ⟨d4, d5, d6⟩ := same_paragraphs_carries r3.2 (wri_char_font_size 10 r3.2).2 d3
  have d7 := d3.2.2.2.1
  have d8 := d3.2.2.2.2.1
  rw [c2] at d2
  generalize (wri_char_font_size 10 r3.2).2 = s4 at d1 d2 d3 d4 d5 d6 d7 d8 hr
  have e0 := this_para_set_ok s4
    (fun s1 => { _wri_default_pap with res1 := (pap_curr s1).res1 }) (d6 (c6 b1)) (d5 (c5 b2))
  have e9 : _wri_set_default_pap s4 = (match this_para s4 with
      | (false, s1) => ((1 : Int), s1)
      | (true, s1) => (0, set_pap_curr s1
          ((fun s1 => { _wri_default_pap with res1 := (pap_curr s1).res1 }) s1))) := rfl
  rw [← e9] at e0
  obtain ⟨e1, e2, e3, e4, e5, e6, e7⟩ := e0
  generalize _wri_set_default_pap s4 = r5 at e1 e2 e3 e4 e5 e6 e7 hr
  rw [if_neg (by rw [e1]; decide)] at hr
  obtain ⟨f1, f2⟩ := pap_curr_set r5.2 { pap_curr r5.2 with rhcOdd := 1, rhcEven := 1 } e3
  generalize hs6 : set_pap_curr r5.2 { pap_curr r5.2 with rhcOdd := 1, rhcEven := 1 } = s6
    at f1 f2 hr
  have f3 : AllocOK s6 := by rw [← hs6]; exact e2
  have f4 : s6.saved_chp = r5.2.saved_chp ∧ s6.saved_pap = r5.2.saved_pap ∧
      s6.lchp_curr = r5.2.lchp_curr := by
    rw [← hs6]
    exact ⟨rfl, rfl, rfl⟩
  obtain ⟨g1, g2⟩ := pap_curr_set s6 { pap_curr s6 with rhcPage := (hf % 2).toNat } f2
  generalize hs7 : set_pap_curr s6 { pap_curr s6 with rhcPage := (hf % 2).toNat } = s7
    at g1 g2 hr
  have g3 : AllocOK s7 := by rw [← hs7]; exact f3
  have g4 : s7.saved_chp = s6.saved_chp ∧ s7.saved_pap = s6.saved_pap ∧
      s7.lchp_curr = s6.lchp_curr := by
    rw [← hs7]
    exact ⟨rfl, rfl, rfl⟩
  have hsc : s7.saved_chp = chp_curr s := by
    rw [g4.1, f4.1, e5, d7, c7, b3]
  have hsp : s7.saved_pap = s2.saved_pap := by
    rw [g4.2.1, f4.2.1, e6, d8, c8]
  have hch : chp_curr s7 = { _wri_default_chp with hps := 20 } := by
    unfold chp_curr at d2 ⊢
    rw [g4.2.2, f4.2.2, e7, d2]
    rfl
  have hpc : pap_curr s7 = { _wri_default_pap with
      res1 := (pap_curr (this_para s4).2).res1, rhcOdd := 1, rhcEven := 1,
      rhcPage := (hf % 2).toNat } := by
    rw [g1, f1, e4]
  subst hr
  refine ⟨rfl, ⟨g3, g2, hsc, rfl, ?_⟩, ?_, hch, ?_, rfl⟩
  · show (pap_curr s7).rhcOdd ≠ 0
    rw [hpc]
    exact Nat.succ_ne_zero 0
  · show { s7.saved_pap with res1 := 0 } = { pap_curr s with res1 := 0 }
    rw [hsp]
    exact b4
  · show { pap_curr s7 with res1 := 0 } = _
    rw [hpc]
    rfl

/-- Under a working allocator `wri_doc_return` inside a header or footer
succeeds and makes the saved formatting current again. -/
theorem wri_doc_return_ok (c0 : CHP) (p0 : PAP) (s : State) (h : in_bracket_with c0 p0 s) :
    (wri_doc_return s).1 = 0 ∧ chp_curr (wri_doc_return s).2 = c0 ∧
    { pap_curr (wri_doc_return s).2 with res1 := 0 } = { p0 with res1 := 0 } ∧
    (wri_doc_return s).2._wri_in_rhc = 0 := by
  have h1 := wri_text_kept (in_bracket_with_kept c0 p0) [10] s h
  generalize hr : wri_doc_return s = r
  unfold wri_doc_return at hr
  rw [if_neg h.2.2.2.2] at hr
  dsimp only at hr
  generalize (wri_text [10] s).2 = s1 at h1 hr
  obtain ⟨a1, a2, a3, a4, a5⟩ := h1
  obtain ⟨c1, c2, c3⟩ := restore_chp_ok s1 a1
  obtain ⟨c4, c5, c6⟩ := same_paragraphs_carries s1 (_wri_restore_chp s1).2 c3
  have c8 := c3.2.2.2.2.1
  generalize _wri_restore_chp s1 = r2 at c1 c2 c3 c4 c5 c6 c8 hr
  rw [if_neg (by rw [c1]; decide)] at hr
  have e0 := this_para_set_ok r2.2
    (fun s1 => { s1.saved_pap with res1 := (pap_curr s1).res1 }) (c6 a1) (c5 a2)
  have e9 : _wri_restore_pap r2.2 = (match this_para r2.2 with
      | (false, s1) => ((1 : Int), s1)
      | (true, s1) => (0, set_pap_curr s1
          ((fun s1 => { s1.saved_pap with res1 := (pap_curr s1).res1 }) s1))) := rfl
  rw [← e9] at e0
  obtain ⟨e1, e2, e3, e4, e5, e6, e7⟩ := e0
  have e8 : (this_para r2.2).2.saved_pap = p0 := by
    rw [(this_para_ok r2.2 (c6 a1) (c5 a2)).2.2.2.2.2.1, c8, a4]
  generalize _wri_restore_pap r2.2 = r3 at e1 e2 e3 e4 e5 e6 e7 hr
  rw [if_neg (by rw [e1]; decide)] at hr
  subst hr
  refine ⟨rfl, ?_, ?_, rfl⟩
  · show chp_curr r3.2 = c0
    unfold chp_curr at c2 ⊢
    rw [e7, c2, a3]
  · show { pap_curr r3.2 with res1 := 0 } = { p0 with res1 := 0 }
    rw [e4]
    dsimp only
    rw [e8]

/-- The header/footer bracket when no allocation fails.  From a state with a
working allocator, no normal text, and a current
paragraph record that is there and is not flagged as header or footer:
`wri_doc_header` or `wri_doc_footer` returns 0 and makes current the default
character record with `hps` 20 and the default paragraph content with `rhcOdd`
and `rhcEven` set (and `rhcPage` 0 for a header, 1 for a footer); after any
sequence of `wri_text`, character setters and paragraph setters,
`wri_doc_return` returns 0, the current character record is the one that was
current before the header or footer began, and the current paragraph record
has, apart from the count, the content it had before. -/
theorem bracket_restores_formatting (s : State) (opening : Call) (cs : List Call)
    (hopen : opening = .doc_header ∨ opening = .doc_footer)
    (hcs : ∀ c ∈ cs, c.in_bracket = true)
    (ha : AllocOK s) (hv : pap_valid s) (hnt : s._wri_had_normal_text = 0)
    (hrhc : (pap_curr s).rhcOdd = 0) :
    (opening.run s).1 = 0 ∧
    chp_curr (opening.run s).2 = { _wri_default_chp with hps := 20 } ∧
    { pap_curr (opening.run s).2 with res1 := 0 } =
      { _wri_default_pap with
        rhcOdd := 1
        rhcEven := 1
        rhcPage := if opening = .doc_header then 0 else 1 } ∧
    (opening.run s).2._wri_in_rhc = 1 ∧
    (wri_doc_return (run_calls cs (opening.run s).2)).1 = 0 ∧
    chp_curr (wri_doc_return (run_calls cs (opening.run s).2)).2 = chp_curr s ∧
    { pap_curr (wri_doc_return (run_calls cs (opening.run s).2)).2 with res1 := 0 } =
      { pap_curr s with res1 := 0 } ∧
    (pap_curr (wri_doc_return (run_calls cs (opening.run s).2)).2).rhcOdd = 0 ∧
    (wri_doc_return (run_calls cs (opening.run s).2)).2._wri_in_rhc = 0 := by
  have hrun : ∃ hf : Int, (hf = 0 ∨ hf = 1) ∧ opening.run s = start_rhc_body hf s ∧
      (hf % 2).toNat = (if opening = .doc_header then 0 else 1) := by
    rcases hopen with e | e
    · refine ⟨0, Or.inl rfl, ?_, ?_⟩
      · rw [e]
        show start_rhc 0 s = _
        unfold start_rhc
        rw [if_neg (by rw [hnt]; decide), if_neg (by rw [hrhc]; decide)]
      · rw [e]
        rfl
    · refine ⟨1, Or.inr rfl, ?_, ?_⟩
      · rw [e]
        show start_rhc 1 s = _
        unfold start_rhc
        rw [if_neg (by rw [hnt]; decide), if_neg (by rw [hrhc]; decide)]
      · rw [e]
        rfl
  obtain ⟨hf, -, e, ehf⟩ := hrun
  rw [e]
  obtain ⟨b1, b2, b3, b4, b5, b6⟩ := start_rhc_body_ok hf s ha hv
  rw [ehf] at b5
  have hin := in_bracket_calls_kept (in_bracket_with_kept _ _) cs hcs _ b2
  obtain ⟨r1, r2, r3, r4⟩ := wri_doc_return_ok _ _ _ hin
  have r5 : { pap_curr (wri_doc_return (run_calls cs (start_rhc_body hf s).2)).2
      with res1 := 0 } = { pap_curr s with res1 := 0 } := r3.trans b3
  refine ⟨b1, b4, b5, b6, r1, r2, r5, ?_, r4⟩
  have e2 := congrArg (fun p => p.rhcOdd) r5
  exact e2.trans hrhc

/-- An instance of the bracket: a header on the empty document with bold, centred text and
a page number; after `wri_doc_return` the default formatting is current again. -/
theorem bracket_restores_formatting_witness :
    AllocOK doc_empty ∧ pap_valid doc_empty ∧
    (chp_curr (run_calls calls_in_header (wri_doc_header doc_empty).2)).fBold = 1 ∧
    (pap_curr (run_calls calls_in_header (wri_doc_header doc_empty).2)).jc = 1 ∧
    chp_curr (wri_doc_return (run_calls calls_in_header (wri_doc_header doc_empty).2)).2
      = chp_curr doc_empty ∧
    (pap_curr (wri_doc_return
      (run_calls calls_in_header (wri_doc_header doc_empty).2)).2).rhcOdd = 0 :=
  ⟨fun _ hb => absurd hb (List.not_mem_nil _), by unfold pap_valid; decide, by decide,
   by decide,
   (bracket_restores_formatting doc_empty .doc_header calls_in_header (Or.inl rfl)
     (by decide) (fun _ hb => absurd hb (List.not_mem_nil _)) (by unfold pap_valid; decide)
     (by decide) (by decide)).2.2.2.2.2.1,
   (bracket_restores_formatting doc_empty .doc_header calls_in_header (Or.inl rfl)
     (by decide) (fun _ hb => absurd hb (List.not_mem_nil _)) (by unfold pap_valid; decide)
     (by decide) (by decide)).2.2.2.2.2.2.2.1⟩

/-! ### The tab table: `wri_doc_tab_clear` -/

theorem tab_shift_down_length (j k : Nat) (t : List TBD) :
    (tab_shift_down j k t).length = t.length := by
  induction k generalizing j t with
  | zero => rfl
  | succ k ih =>
    unfold tab_shift_down
    rw [ih, List.length_set]

theorem tab_shift_down_getD (j k : Nat) (t : List TBD) (hj : 1 ≤ j) (h : j + k ≤ t.length)
    (m : Nat) :
    (tab_shift_down j k t).getD m {} =
      if j - 1 ≤ m ∧ m < j - 1 + k then
        { t.getD m {} with dxa := (t.getD (m + 1) {}).dxa, jcTab := (t.getD (m + 1) {}).jcTab }
      else t.getD m {} := by
  induction k generalizing j t with
  | zero =>
    unfold tab_shift_down
    rw [if_neg (by omega)]
  | succ k ih =>
    unfold tab_shift_down
    rw [ih (j + 1) _ (by omega) (by rw [List.length_set]; omega)]
    have g : ∀ (m1 : Nat) (e : TBD), (t.set (j - 1) e).getD m1 {} =
        if m1 = j - 1 then e else t.getD m1 {} :=
      fun m1 e => getD_set_eq t _ m1 e (by omega)
    simp only [g]
    by_cases h1 : j + 1 - 1 ≤ m ∧ m < j + 1 - 1 + k
    · have e1 : ¬ m = j - 1 := by omega
      have e2 : ¬ m + 1 = j - 1 := by omega
      have e3 : j - 1 ≤ m ∧ m < j - 1 + (k + 1) := by omega
      simp only [if_pos h1, if_neg e1, if_neg e2, if_pos e3]
    · by_cases h2 : m = j - 1
      · have e3 : j - 1 ≤ m ∧ m < j - 1 + (k + 1) := by omega
        have e4 : m + 1 = j := by omega
        simp only [if_neg h1, if_pos h2, if_pos e3, e4]
        rw [h2]
      · have e3 : ¬ (j - 1 ≤ m ∧ m < j - 1 + (k + 1)) := by omega
        simp only [if_neg h1, if_neg h2, if_neg e3]

theorem tab_clear_found (s : State) (p : Int) (i : Nat) (hp : 0 < p) (hn : s.nTabs ≠ 0)
    (h : tab_scan s.tbd p s.nTabs.toNat 0 = (true, i)) :
    wri_doc_tab_clear p s =
      (0, { s with
            tbd := (tab_shift_down (i + 1) (s.nTabs.toNat - (i + 1)) s.tbd).set
                (s.nTabs - 1).toNat
                { (tab_shift_down (i + 1) (s.nTabs.toNat - (i + 1)) s.tbd).getD
                    (s.nTabs - 1).toNat {} with
                  dxa := 0
                  jcTab := 0 },
            nTabs := s.nTabs - 1 }) := by
  unfold wri_doc_tab_clear
  rw [if_neg hn, if_neg (by omega)]
  rw [h]

theorem tab_clear_absent (s : State) (p : Int) (i : Nat)
    (h : tab_scan s.tbd p s.nTabs.toNat 0 = (false, i)) :
    wri_doc_tab_clear p s = (1, s) := by
  unfold wri_doc_tab_clear
  by_cases hn : s.nTabs = 0
  · rw [if_pos hn]
  · rw [if_neg hn]
    by_cases hp : p ≤ 0
    · rw [if_pos hp]
    · rw [if_neg hp, h]

theorem list_erase_ext {α : Type} (l l1 : List α) (i : Nat)
    (h1 : ∀ m, m < i → l1[m]? = l[m]?) (h2 : ∀ m, i ≤ m → l1[m]? = l[m + 1]?) :
    l1 = l.eraseIdx i := by
  apply List.ext_getElem?
  intro m
  rw [List.getElem?_eraseIdx]
  by_cases h : m < i
  · rw [if_pos h]
    exact h1 m h
  · rw [if_neg h]
    exact h2 m (by omega)

theorem tab_clear_found_spec (s : State) (i : Nat)
    (hlen : s.tbd.length = 14) (hn : s.nTabs.toNat ≤ 14) (hn0 : 0 ≤ s.nTabs)
    (hdxa : ∀ e ∈ s.tbd, e.dxa < 65536) (hasc : tabs_ascending s)
    (hi : i < s.nTabs.toNat) :
    tab_view { s with
               tbd := (tab_shift_down (i + 1) (s.nTabs.toNat - (i + 1)) s.tbd).set
                   (s.nTabs - 1).toNat
                   { (tab_shift_down (i + 1) (s.nTabs.toNat - (i + 1)) s.tbd).getD
                       (s.nTabs - 1).toNat {} with
                     dxa := 0
                     jcTab := 0 },
               nTabs := s.nTabs - 1 }
      = (tab_view s).eraseIdx i ∧
    tabs_wf { s with
               tbd := (tab_shift_down (i + 1) (s.nTabs.toNat - (i + 1)) s.tbd).set
                   (s.nTabs - 1).toNat
                   { (tab_shift_down (i + 1) (s.nTabs.toNat - (i + 1)) s.tbd).getD
                       (s.nTabs - 1).toNat {} with
                     dxa := 0
                     jcTab := 0 },
               nTabs := s.nTabs - 1 } ∧
    tabs_ascending { s with
               tbd := (tab_shift_down (i + 1) (s.nTabs.toNat - (i + 1)) s.tbd).set
                   (s.nTabs - 1).toNat
                   { (tab_shift_down (i + 1) (s.nTabs.toNat - (i + 1)) s.tbd).getD
                       (s.nTabs - 1).toNat {} with
                     dxa := 0
                     jcTab := 0 },
               nTabs := s.nTabs - 1 } ∧
    (({ s with
        tbd := (tab_shift_down (i + 1) (s.nTabs.toNat - (i + 1)) s.tbd).set
            (s.nTabs - 1).toNat
            { (tab_shift_down (i + 1) (s.nTabs.toNat - (i + 1)) s.tbd).getD
                (s.nTabs - 1).toNat {} with
              dxa := 0
              jcTab := 0 },
        nTabs := s.nTabs - 1 } : State).tbd.getD (s.nTabs.toNat - 1) {}).dxa = 0 := by
  have hle : s.nTabs.toNat ≤ s.tbd.length := by omega
  have hvl := tab_view_length s hle
  have hcast : (s.nTabs.toNat : Int) = s.nTabs := Int.toNat_of_nonneg hn0
  have hn1 : (s.nTabs - 1).toNat = s.nTabs.toNat - 1 := by omega
  rw [hn1]
  have hshl := tab_shift_down_length (i + 1) (s.nTabs.toNat - (i + 1)) s.tbd
  have hsh := tab_shift_down_getD (i + 1) (s.nTabs.toNat - (i + 1)) s.tbd (by omega) (by omega)
  generalize ht1 : tab_shift_down (i + 1) (s.nTabs.toNat - (i + 1)) s.tbd = t1 at hshl hsh
  generalize hs1 : ({ s with
      tbd := t1.set (s.nTabs.toNat - 1) { t1.getD (s.nTabs.toNat - 1) {} with dxa := 0, jcTab := 0 },
      nTabs := s.nTabs - 1 } : State) = s1
  have e1 : s1.tbd = t1.set (s.nTabs.toNat - 1)
      { t1.getD (s.nTabs.toNat - 1) {} with dxa := 0, jcTab := 0 } := by rw [← hs1]
  have e2 : s1.nTabs = s.nTabs - 1 := by rw [← hs1]
  have e3 : s1.nTabs.toNat = s.nTabs.toNat - 1 := by
    rw [e2]
    omega
  have hle1 : s1.nTabs.toNat ≤ s1.tbd.length := by
    rw [e1, e3, List.length_set, hshl]
    omega
  have g : ∀ m, s1.tbd.getD m {} =
      if m = s.nTabs.toNat - 1 then { t1.getD (s.nTabs.toNat - 1) {} with dxa := 0, jcTab := 0 }
      else t1.getD m {} := by
    intro m
    rw [e1]
    exact getD_set_eq _ _ _ _ (by omega)
  have hview : tab_view s1 = (tab_view s).eraseIdx i := by
    apply list_erase_ext
    · intro m hm
      have a1 : m < s.nTabs.toNat - 1 := by omega
      have a2 : ¬ m = s.nTabs.toNat - 1 := by omega
      have a3 : ¬ (i + 1 - 1 ≤ m ∧ m < i + 1 - 1 + (s.nTabs.toNat - (i + 1))) := by omega
      have a4 : m < s.nTabs.toNat := by omega
      rw [tab_view_getElem? s1 m hle1, tab_view_getElem? s m hle, e3, if_pos a1, if_pos a4,
        g m, if_neg a2, hsh m, if_neg a3]
    · intro m hm
      rw [tab_view_getElem? s1 m hle1, tab_view_getElem? s (m + 1) hle, e3]
      by_cases h1 : m < s.nTabs.toNat - 1
      · have a2 : ¬ m = s.nTabs.toNat - 1 := by omega
        have a3 : i + 1 - 1 ≤ m ∧ m < i + 1 - 1 + (s.nTabs.toNat - (i + 1)) := by omega
        have a4 : m + 1 < s.nTabs.toNat := by omega
        rw [if_pos h1, if_pos a4, g m, if_neg a2, hsh m, if_pos a3]
      · have a4 : ¬ m + 1 < s.nTabs.toNat := by omega
        rw [if_neg h1, if_neg a4]
  refine ⟨hview, ⟨?_, ?_, ?_, ?_⟩, ?_, ?_⟩
  · rw [e1, List.length_set, hshl]
    exact hlen
  · rw [e2]
    omega
  · rw [e2]
    simp only [itbdmax]
    omega
  · intro x hx
    rw [e1] at hx
    rcases List.mem_or_eq_of_mem_set hx with h | h
    · obtain ⟨m, hm⟩ := List.mem_iff_getElem?.1 h
      have ex : x = t1.getD m {} := by
        rw [List.getD_eq_getElem?_getD, hm]
        rfl
      rw [ex, hsh m]
      split_ifs
      · exact tbd_getD_dxa_lt s.tbd hdxa (m + 1)
      · exact tbd_getD_dxa_lt s.tbd hdxa m
    · rw [h]
      exact Nat.zero_lt_succ _
  · unfold tabs_ascending
    rw [hview]
    exact List.Pairwise.sublist (List.eraseIdx_sublist _ _) hasc
  · rw [g, if_pos rfl]

/-- The position `P` is absent from an ascending table: the search stops
without a match at the index where `P` belongs. -/
theorem tab_scan_absent (s : State) (P : Nat) (hle : s.nTabs.toNat ≤ s.tbd.length)
    (hasc : tabs_ascending s) (habs : P ∉ (tab_view s).map Prod.fst) :
    ∃ i, tab_scan s.tbd (P : Int) s.nTabs.toNat 0 = (false, i) ∧ i ≤ s.nTabs.toNat ∧
      (∀ m, m < i → (s.tbd.getD m {}).dxa < P) ∧
      (∀ m, i ≤ m → m < s.nTabs.toNat → P < (s.tbd.getD m {}).dxa) := by
  have hidx := tabs_ascending_index s hle hasc
  have hmem := tab_view_mem_fst s hle P
  have hsc := tab_scan_spec s.tbd P s.nTabs.toNat 0
  rcases hr : tab_scan s.tbd (P : Int) s.nTabs.toNat 0 with ⟨b, i⟩
  rw [hr] at hsc
  obtain ⟨_, a2, a3, a4, a5⟩ := hsc
  have a2n : i ≤ s.nTabs.toNat := by
    have : i ≤ 0 + s.nTabs.toNat := a2
    omega
  cases b
  · refine ⟨i, rfl, a2n, ?_, ?_⟩
    · intro m hm
      have := a3 m (Nat.zero_le _) hm
      omega
    · intro m h1 h2
      have h5 : (P : Int) < (s.tbd.getD i {}).dxa :=
        a5 rfl (by show i < 0 + s.nTabs.toNat; omega)
      by_cases hmi : m = i
      · subst hmi
        omega
      · have := hidx i m (by omega) h2
        omega
  · exfalso
    obtain ⟨c1, c2⟩ := a4 rfl
    apply habs
    rw [hmem]
    refine ⟨i, ?_, ?_⟩
    · have : i < 0 + s.nTabs.toNat := c1
      omega
    · exact_mod_cast c2

/-- The position `P` is present in an ascending table: the search stops at it. -/
theorem tab_scan_present (s : State) (P : Nat) (hle : s.nTabs.toNat ≤ s.tbd.length)
    (hasc : tabs_ascending s) (hpres : P ∈ (tab_view s).map Prod.fst) :
    ∃ i, tab_scan s.tbd (P : Int) s.nTabs.toNat 0 = (true, i) ∧ i < s.nTabs.toNat ∧
      (s.tbd.getD i {}).dxa = P := by
  have hidx := tabs_ascending_index s hle hasc
  have hmem := tab_view_mem_fst s hle P
  have hsc := tab_scan_spec s.tbd P s.nTabs.toNat 0
  rcases hr : tab_scan s.tbd (P : Int) s.nTabs.toNat 0 with ⟨b, i⟩
  rw [hr] at hsc
  obtain ⟨_, a2, a3, a4, a5⟩ := hsc
  have a2n : i ≤ s.nTabs.toNat := by
    have : i ≤ 0 + s.nTabs.toNat := a2
    omega
  cases b
  · exfalso
    obtain ⟨j, hj, e⟩ := hmem.1 hpres
    by_cases h : j < i
    · have := a3 j (Nat.zero_le _) h
      omega
    · have h5 : (P : Int) < (s.tbd.getD i {}).dxa :=
        a5 rfl (by show i < 0 + s.nTabs.toNat; omega)
      by_cases hji : j = i
      · subst hji
        omega
      · have := hidx i j (by omega) hj
        omega
  · obtain ⟨c1, c2⟩ := a4 rfl
    refine ⟨i, rfl, ?_, ?_⟩
    · have : i < 0 + s.nTabs.toNat := c1
      omega
    · exact_mod_cast c2

/-- `wri_doc_tab_clear(p)` on a table of 14 entries of which the used ones
ascend, for any `p`: the call returns 0 exactly when `p` is positive and the
position of a used entry; it then removes that entry, keeps the others in their
order, lowers the count by 1, zeroes the vacated slot and changes nothing but
the table and the count; otherwise it returns 1 and changes nothing. -/
theorem wri_doc_tab_clear_spec (s : State) (p : Int) (hwf : tabs_wf s)
    (hasc : tabs_ascending s) :
    ((wri_doc_tab_clear p s).1 = 0 ↔ 0 < p ∧ p.toNat ∈ (tab_view s).map Prod.fst) ∧
    ((wri_doc_tab_clear p s).1 = 0 →
      ∃ i, i < s.nTabs.toNat ∧ ((s.tbd.getD i {}).dxa : Int) = p ∧
        tab_view (wri_doc_tab_clear p s).2 = (tab_view s).eraseIdx i ∧
        (wri_doc_tab_clear p s).2 =
          { s with tbd := (wri_doc_tab_clear p s).2.tbd, nTabs := s.nTabs - 1 } ∧
        ((wri_doc_tab_clear p s).2.tbd.getD (s.nTabs.toNat - 1) {}).dxa = 0 ∧
        tabs_wf (wri_doc_tab_clear p s).2 ∧ tabs_ascending (wri_doc_tab_clear p s).2) ∧
    ((wri_doc_tab_clear p s).1 ≠ 0 → wri_doc_tab_clear p s = (1, s)) := by
  obtain ⟨hlen, hn0, hn14, hdxa⟩ := hwf
  simp only [itbdmax] at hlen hn14
  have hcast : (s.nTabs.toNat : Int) = s.nTabs := Int.toNat_of_nonneg hn0
  have hle : s.nTabs.toNat ≤ s.tbd.length := by omega
  have hone : ((1 : Int), s).1 ≠ 0 := fun h => absurd (show (1 : Int) = 0 from h) (by decide)
  by_cases hp : p ≤ 0
  · have e : wri_doc_tab_clear p s = (1, s) := by
      unfold wri_doc_tab_clear
      by_cases hn : s.nTabs = 0
      · rw [if_pos hn]
      · rw [if_neg hn, if_pos hp]
    rw [e]
    exact ⟨⟨fun h => absurd h hone, fun h => absurd h.1 (by omega)⟩,
      fun h => absurd h hone, fun _ => rfl⟩
  · obtain ⟨P, rfl⟩ := Int.eq_ofNat_of_zero_le (by omega : 0 ≤ p)
    have hPt : ((P : Nat) : Int).toNat = P := by simp
    simp only [hPt]
    by_cases hpres : P ∈ (tab_view s).map Prod.fst
    · obtain ⟨i, hr, hi, hPi⟩ := tab_scan_present s P hle hasc hpres
      have hn : s.nTabs ≠ 0 := by omega
      have e := tab_clear_found s P i (by omega) hn hr
      obtain ⟨b1, b2, b3, b4⟩ := tab_clear_found_spec s i hlen (by omega) hn0 hdxa hasc hi
      rw [e]
      refine ⟨⟨fun _ => ⟨by omega, hpres⟩, fun _ => rfl⟩, fun _ => ?_,
        fun h => absurd rfl h⟩
      exact ⟨i, hi, by exact_mod_cast hPi, b1, rfl, b4, b2, b3⟩
    · obtain ⟨i, hr, _, _, _⟩ := tab_scan_absent s P hle hasc hpres
      have e := tab_clear_absent s P i hr
      rw [e]
      exact ⟨⟨fun h => absurd h hone, fun h => absurd h.2 hpres⟩,
        fun h => absurd h hone, fun _ => rfl⟩

theorem insert_getElem? {α : Type} (l : List α) (i m : Nat) (x : α) (hi : i ≤ l.length) :
    (l.take i ++ [x] ++ l.drop i)[m]? =
      if m < i then l[m]? else if m = i then some x else l[m - 1]? := by
  have hl : (l.take i ++ [x]).length = i + 1 := by
    rw [List.length_append, List.length_take, List.length_singleton]
    omega
  have hl0 : (l.take i).length = i := by
    rw [List.length_take]
    omega
  rcases Nat.lt_trichotomy m i with h | h | h
  · rw [if_pos h, List.getElem?_append_left (by omega),
      List.getElem?_append_left (by omega), List.getElem?_take_of_lt h]
  · subst h
    rw [if_neg (by omega), if_pos rfl, List.getElem?_append_left (by omega),
      List.getElem?_append_right (by omega), hl0]
    simp
  · rw [if_neg (by omega), if_neg (by omega), List.getElem?_append_right (by omega), hl,
      List.getElem?_drop]
    congr 1
    omega

theorem insert_eraseIdx {α : Type} (l : List α) (i : Nat) (x : α) (hi : i ≤ l.length) :
    (l.take i ++ [x] ++ l.drop i).eraseIdx i = l := by
  symm
  apply list_erase_ext
  · intro m hm
    rw [insert_getElem? l i m x hi, if_pos hm]
  · intro m hm
    rw [insert_getElem? l i (m + 1) x hi, if_neg (by omega), if_neg (by omega)]
    rfl

/-- Setting an absent position between 1 and 65535 in a table with room and
clearing it again gives back the used entries and the count. -/
theorem tab_set_then_clear (s : State) (p d : Int) (hwf : tabs_wf s)
    (hasc : tabs_ascending s) (hp1 : 1 ≤ p) (hp2 : p ≤ 65535)
    (habs : p.toNat ∉ (tab_view s).map Prod.fst) (hlt : s.nTabs < 14) :
    (wri_doc_tab_set p d s).1 = 0 ∧
    (wri_doc_tab_clear p (wri_doc_tab_set p d s).2).1 = 0 ∧
    tab_view (wri_doc_tab_clear p (wri_doc_tab_set p d s).2).2 = tab_view s ∧
    (wri_doc_tab_clear p (wri_doc_tab_set p d s).2).2.nTabs = s.nTabs := by
  obtain ⟨hlen, hn0, hn14, hdxa⟩ := hwf
  simp only [itbdmax] at hlen hn14
  have hcast : (s.nTabs.toNat : Int) = s.nTabs := Int.toNat_of_nonneg hn0
  have hle : s.nTabs.toNat ≤ s.tbd.length := by omega
  obtain ⟨P, rfl⟩ := Int.eq_ofNat_of_zero_le (by omega : 0 ≤ p)
  have hPt : ((P : Nat) : Int).toNat = P := by simp
  rw [hPt] at habs
  obtain ⟨i, hr, hi, hlo, hhi⟩ := tab_scan_absent s P hle hasc habs
  have e := tab_set_insert s P d i (by omega) hr hlt
  have hmod : ((P : Int) % 65536).toNat = P := by
    rw [Int.emod_eq_of_lt (by omega) (by omega)]
    exact hPt
  rw [hmod] at e
  obtain ⟨_, _, b3, b4, b5⟩ := tab_set_insert_spec s P (if d = 0 then 0 else 3) i hlen
    (by omega) hn0 hdxa hasc (by omega) hi hlo hhi
  rw [e]
  dsimp only
  generalize hs1 : ({ s with
      tbd := (tab_shift_up i (s.nTabs.toNat - i) s.tbd).set i
          { (tab_shift_up i (s.nTabs.toNat - i) s.tbd).getD i {} with
            dxa := P
            jcTab := if d = 0 then 0 else 3 },
      nTabs := s.nTabs + 1 } : State) = s1 at b3 b4 b5
  have n1 : s1.nTabs = s.nTabs + 1 := by rw [← hs1]
  obtain ⟨hlen1, hn01, hn141, hdxa1⟩ := b4
  simp only [itbdmax] at hlen1 hn141
  have hle1 : s1.nTabs.toNat ≤ s1.tbd.length := by omega
  have hvl := tab_view_length s hle
  have hat : (tab_view s1)[i]? = some (P, if d = 0 then 0 else 3) := by
    rw [b3, insert_getElem? _ i i _ (by omega), if_neg (by omega), if_pos rfl]
  have hdi : (s1.tbd.getD i {}).dxa = P := by
    rw [tab_view_getElem? s1 i hle1] at hat
    by_cases hc : i < s1.nTabs.toNat
    · rw [if_pos hc] at hat
      exact congrArg Prod.fst (Option.some.inj hat)
    · rw [if_neg hc] at hat
      exact absurd hat (by simp)
  have hpres : P ∈ (tab_view s1).map Prod.fst :=
    (tab_view_mem_fst s1 hle1 P).2 ⟨i, by omega, hdi⟩
  obtain ⟨j, hrj, hj, hPj⟩ := tab_scan_present s1 P hle1 b5 hpres
  have hji : j = i := by
    have hidx := tabs_ascending_index s1 hle1 b5
    rcases Nat.lt_trichotomy j i with h | h | h
    · have := hidx j i h (by omega)
      omega
    · exact h
    · have := hidx i j h hj
      omega
  subst hji
  have e2 := tab_clear_found s1 P j (by omega) (by omega) hrj
  obtain ⟨c1, _, _, _⟩ := tab_clear_found_spec s1 j hlen1 (by omega) hn01 hdxa1 b5 hj
  rw [e2]
  refine ⟨rfl, rfl, ?_, ?_⟩
  · rw [c1, b3]
    exact insert_eraseIdx _ _ _ (by omega)
  · show s1.nTabs - 1 = s.nTabs
    omega

/-! ### Round trip: what a FOD decodes to -/

theorem fprop_decode_take (dflt X : List Nat) (c : Nat) :
    fprop_decode dflt (X.take c) c = fprop_decode dflt X c := by
  unfold fprop_decode
  rw [List.take_take, Nat.min_self]

theorem read_fprop_entry (dflt area : List Nat) (b : Nat) :
    read_fprop dflt area b =
      entry_bytes dflt (if b = 65535 then none else some (fprop_at area b)) := by
  unfold read_fprop
  by_cases hb : b = 65535
  · rw [if_pos hb, if_pos hb]
    rfl
  · rw [if_neg hb, if_neg hb]
    show _ = fprop_decode dflt (fprop_at area b).tail ((fprop_at area b).headD 0)
    unfold fprop_at
    by_cases hl : b < area.length
    · have hg : area.getD b 0 = area[b] := by
        simp [List.getD_eq_getElem?_getD, hl]
      rw [List.drop_eq_getElem_cons hl, hg, List.take_succ_cons]
      simp only [List.tail_cons, List.headD_cons]
      rw [fprop_decode_take]
    · have h1 : area.drop b = [] := List.drop_eq_nil_iff.mpr (by omega)
      have h2 : area.drop (b + 1) = [] := List.drop_eq_nil_iff.mpr (by omega)
      have hg : area.getD b 0 = 0 := by
        simp [List.getD_eq_getElem?_getD, List.getElem?_eq_none (by omega : area.length ≤ b)]
      rw [h1, h2, hg]
      rfl

theorem entry_bytes_run_entry (L : Nat) (record dflt : List Nat) (n : Nat) (hn : 1 ≤ n)
    (hr : record.length = n) (hd : dflt.length = n)
    (h0 : record.getD 0 0 = dflt.getD 0 0) :
    entry_bytes dflt (run_entry L record dflt n).2 = record := by
  obtain ⟨h1, h2, h3, -⟩ := find_cch_bounds record dflt n hn
  unfold run_entry
  by_cases hle : _wri_find_cch record dflt n ≤ 1
  · rw [if_pos hle]
    show dflt = record
    have hz : fprop_decode dflt record 0 = record := by
      rw [fprop_decode_eq_iff record dflt n 0 hr hd]
      intro i _ hi
      by_cases hi0 : i = 0
      · rw [hi0]; exact h0
      · exact h3 i (by omega) hi
    have hz2 : fprop_decode dflt record 0 = dflt := by
      simp [fprop_decode]
    rw [← hz2, hz]
  · rw [if_neg hle]
    show fprop_decode dflt (record.take (_wri_find_cch record dflt n).toNat)
      (_wri_find_cch record dflt n).toNat = record
    rw [fprop_decode_take, fprop_decode_eq_iff record dflt n _ hr hd]
    intro i hi1 hi2
    exact h3 i (by omega) hi2

theorem read_chp_record_entry (c : CHP) (L : Nat) (h : c.wf) (h1 : c.res1 = 0)
    (h2 : c.res2 = 0) :
    read_chp_record id (entry_bytes _wri_default_chp.bytes
      (run_entry L c.bytes _wri_default_chp.bytes sizeof_CHP).2) = c := by
  have h0 : c.bytes.getD 0 0 = _wri_default_chp.bytes.getD 0 0 := by
    show c.res1 % 256 = 0
    rw [h1]
  rw [entry_bytes_run_entry L c.bytes _wri_default_chp.bytes sizeof_CHP (by decide) rfl rfl h0]
  unfold read_chp_record
  rw [CHP.of_bytes_bytes c h]
  obtain ⟨-, -, -, h4, -⟩ := h
  cases c
  simp only at h1 h2 h4
  subst h1 h2
  simp only [id, Nat.mod_eq_of_lt h4]
  rfl

theorem read_pap_record_entry (s : State) (rec : PAP) (L : Nat) (hw : rec.wf)
    (h2 : rec.res2 = 0) (h3 : rec.res3 = 0) (h4 : rec.res4 = 0) (h5 : rec.res5 = 0)
    (hr : rec.rhcOdd = 0) (ht : s.tbd.length = itbdmax) :
    read_pap_record (entry_bytes _wri_default_pap_bytes
      (run_entry L (save_pap_bytes s rec) _wri_default_pap_bytes sizeof_PAP).2)
        = { rec with res1 := 0 } ∧
    (PAP.of_bytes (entry_bytes _wri_default_pap_bytes
      (run_entry L (save_pap_bytes s rec) _wri_default_pap_bytes sizeof_PAP).2)).rhcOdd = 0 ∧
    tabs_of_bytes (entry_bytes _wri_default_pap_bytes
      (run_entry L (save_pap_bytes s rec) _wri_default_pap_bytes sizeof_PAP).2)
        = tabs_of_bytes (save_pap_bytes s rec) := by
  have h0 : (save_pap_bytes s rec).getD 0 0 = _wri_default_pap_bytes.getD 0 0 := by
    have := save_pap_bytes_head s rec
    rw [List.getD_eq_getElem?_getD, ← List.head?_eq_getElem?, this]
    rfl
  rw [entry_bytes_run_entry L _ _ sizeof_PAP (by decide) (save_pap_bytes_length s rec ht)
    (by decide) h0]
  rw [save_pap_bytes_plain s rec hr]
  have hw0 : ({ rec with res1 := 0 } : PAP).wf := by
    obtain ⟨-, hrest⟩ := hw
    exact ⟨Nat.zero_lt_succ _, hrest⟩
  unfold read_pap_record
  rw [PAP.of_bytes_full_bytes _ s.tbd hw0]
  refine ⟨?_, hr, rfl⟩
  cases rec
  simp only at h2 h3 h4 h5
  subst h2 h3 h4 h5
  rfl

/-! ### Round trip: the character runs -/

theorem read_chps_pages_entries (fcStart it : Nat) (fm : Nat → Nat) (pages : List FKP) :
    ∀ s : State, read_chps_pages fcStart it fm pages s =
      ((pages.map FKP.entries).flatten).foldl
        (fun st e => read_chps_entry fcStart it fm e st) s := by
  induction pages with
  | nil => intro s; rfl
  | cons p ps ih =>
    intro s
    have hstep : read_chps_pages fcStart it fm (p :: ps) s =
        read_chps_pages fcStart it fm ps
          (p.rgFOD.foldl (fun st f => read_chps_fod fcStart it fm p.rgFPROP f st) s) := rfl
    rw [hstep, ih]
    simp only [List.map_cons, List.flatten_cons, List.foldl_append]
    congr 1
    unfold FKP.entries
    rw [List.foldl_map]
    congr 1
    funext st f
    unfold read_chps_fod read_chps_entry
    simp only [read_fprop_entry]

theorem read_chps_entry_run (r : lchp) (t : State) (hw : r.prop.wf) (h1 : r.prop.res1 = 0)
    (h2 : r.prop.res2 = 0) (hpos : 0 < r.cpLim) :
    read_chps_entry PAGESIZE 0 id
      (run_entry r.cpLim r.prop.bytes _wri_default_chp.bytes sizeof_CHP) t
      = (_wri_append_chp r.prop r.cpLim t).2 := by
  unfold read_chps_entry
  have e1 : (run_entry r.cpLim r.prop.bytes _wri_default_chp.bytes sizeof_CHP).1
      = r.cpLim + PAGESIZE := rfl
  rw [e1, if_pos (by omega), read_chp_record_entry r.prop r.cpLim hw h1 h2]
  have e2 : 0 + (r.cpLim + PAGESIZE) - PAGESIZE = r.cpLim := by omega
  rw [e2]

theorem append_chp_same (s : State) (p : CHP) (L : Nat) (h : p = chp_curr s) :
    _wri_append_chp p L s = (0, { s with lchp_curr := { s.lchp_curr with cpLim := L } }) := by
  unfold _wri_append_chp
  rw [if_pos h]
  rfl

theorem append_chp_into_empty (s : State) (p : CHP) (L : Nat) (h : p ≠ chp_curr s)
    (he : s.lchp_curr.cpFirst = s.lchp_curr.cpLim) :
    _wri_append_chp p L s =
      (0, { s with lchp_curr := { cpFirst := s.lchp_curr.cpFirst, cpLim := L, prop := p } }) := by
  unfold _wri_append_chp
  rw [if_neg h, new_chp_of_empty s he]
  rfl

theorem append_chp_new_run (s : State) (p : CHP) (L : Nat) (h : p ≠ chp_curr s)
    (he : s.lchp_curr.cpFirst ≠ s.lchp_curr.cpLim) (ha : alloc_succeeds s) :
    _wri_append_chp p L s = (0, { s with
      malloc_ok := s.malloc_ok.tail,
      lchp_list := s.lchp_list ++ [s.lchp_curr],
      lchp_curr := { cpFirst := s.lchp_curr.cpLim, cpLim := L, prop := p } }) := by
  unfold _wri_append_chp
  rw [if_neg h, new_chp_of_nonempty s he ha]
  rfl

theorem covers_filter {α : Type} (runs : List (lprop α)) :
    ∀ a e : Nat, covers a runs e → covers a (nonempty_runs runs) e := by
  induction runs with
  | nil => intro a e h; exact h
  | cons r rs ih =>
    intro a e h
    obtain ⟨h1, h2, h3⟩ := h
    unfold nonempty_runs
    by_cases hne : r.cpFirst = r.cpLim
    · rw [List.filter_cons_of_neg (by simpa using hne)]
      have := ih r.cpLim e h3
      rw [← hne, h1] at this
      exact this
    · rw [List.filter_cons_of_pos (by simpa using hne)]
      exact ⟨h1, h2, ih r.cpLim e h3⟩

theorem covers_le {α : Type} (runs : List (lprop α)) :
    ∀ a e : Nat, covers a runs e → a ≤ e ∧ ∀ r ∈ runs, a ≤ r.cpFirst ∧ r.cpLim ≤ e := by
  induction runs with
  | nil =>
    intro a e h
    have h0 : a = e := h
    exact ⟨by omega, fun r hr => absurd hr (List.not_mem_nil r)⟩
  | cons r rs ih =>
    intro a e h
    obtain ⟨h1, h2, h3⟩ := h
    obtain ⟨i1, i2⟩ := ih r.cpLim e h3
    refine ⟨by omega, ?_⟩
    intro x hx
    rcases List.mem_cons.mp hx with hx | hx
    · rw [hx]; exact ⟨by omega, i1⟩
    · have := i2 x hx
      exact ⟨by omega, this.2⟩

theorem nonempty_runs_mem {α : Type} (runs : List (lprop α)) (r : lprop α)
    (h : r ∈ nonempty_runs runs) : r ∈ runs ∧ r.cpFirst ≠ r.cpLim := by
  unfold nonempty_runs at h
  have := List.mem_filter.mp h
  exact ⟨this.1, by simpa using this.2⟩

theorem nonempty_runs_self {α : Type} (runs : List (lprop α))
    (h : ∀ r ∈ runs, r.cpFirst ≠ r.cpLim) : nonempty_runs runs = runs := by
  unfold nonempty_runs
  exact List.filter_eq_self.mpr (fun r hr => by simpa using h r hr)

theorem chp_fold_next (R : List lchp) : ∀ (t : State) (a e : Nat),
    covers a R e → (∀ r ∈ R, r.cpFirst ≠ r.cpLim) →
    (∀ r ∈ R, r.prop.wf ∧ r.prop.res1 = 0 ∧ r.prop.res2 = 0) →
    List.Chain (fun x y => x.prop ≠ y.prop) t.lchp_curr R → AllocOK t →
    t.lchp_curr.cpLim = a → t.lchp_curr.cpFirst ≠ t.lchp_curr.cpLim →
    lchp_runs ((R.map (fun r => run_entry r.cpLim r.prop.bytes _wri_default_chp.bytes
        sizeof_CHP)).foldl (fun st e => read_chps_entry PAGESIZE 0 id e st) t)
      = lchp_runs t ++ R ∧
    AllocOK ((R.map (fun r => run_entry r.cpLim r.prop.bytes _wri_default_chp.bytes
        sizeof_CHP)).foldl (fun st e => read_chps_entry PAGESIZE 0 id e st) t) ∧
    ((R.map (fun r => run_entry r.cpLim r.prop.bytes _wri_default_chp.bytes
        sizeof_CHP)).foldl (fun st e => read_chps_entry PAGESIZE 0 id e st) t).paps = t.paps ∧
    ((R.map (fun r => run_entry r.cpLim r.prop.bytes _wri_default_chp.bytes
        sizeof_CHP)).foldl (fun st e => read_chps_entry PAGESIZE 0 id e st) t).lpap_list
      = t.lpap_list ∧
    ((R.map (fun r => run_entry r.cpLim r.prop.bytes _wri_default_chp.bytes
        sizeof_CHP)).foldl (fun st e => read_chps_entry PAGESIZE 0 id e st) t).lpap_curr
      = t.lpap_curr := by
  induction R with
  | nil =>
    intro t a e _ _ _ _ ha _ _
    exact ⟨by simp, ha, rfl, rfl, rfl⟩
  | cons r rs ih =>
    intro t a e hc hne hwf hch ha hlim hcur
    obtain ⟨c1, c2, c3⟩ := hc
    have hr := hne r (List.mem_cons_self _ _)
    obtain ⟨w1, w2, w3⟩ := hwf r (List.mem_cons_self _ _)
    obtain ⟨d1, d2⟩ := List.chain_cons.mp hch
    simp only [List.map_cons, List.foldl_cons]
    rw [read_chps_entry_run r t w1 w2 w3 (by omega)]
    have hp : r.prop ≠ chp_curr t := fun h => d1 h.symm
    rw [append_chp_new_run t r.prop r.cpLim hp hcur (AllocOK_succeeds t ha)]
    have hnew : ({ cpFirst := t.lchp_curr.cpLim, cpLim := r.cpLim, prop := r.prop } : lchp) = r := by
      rw [hlim, ← c1]
    have := ih { t with
      malloc_ok := t.malloc_ok.tail,
      lchp_list := t.lchp_list ++ [t.lchp_curr],
      lchp_curr := { cpFirst := t.lchp_curr.cpLim, cpLim := r.cpLim, prop := r.prop } }
      r.cpLim e c3 (fun x hx => hne x (List.mem_cons_of_mem _ hx))
      (fun x hx => hwf x (List.mem_cons_of_mem _ hx))
      (by show List.Chain _ ({ cpFirst := t.lchp_curr.cpLim, cpLim := r.cpLim, prop := r.prop } : lchp) rs
          rw [hnew]; exact d2)
      (AllocOK_tail t ha) rfl
      (by show t.lchp_curr.cpLim ≠ r.cpLim
          rw [hlim, ← c1]; exact hr)
    obtain ⟨g1, g2, g3, g4, g5⟩ := this
    refine ⟨?_, g2, g3, g4, g5⟩
    rw [g1]
    show (t.lchp_list ++ [t.lchp_curr]) ++ [_] ++ rs = (t.lchp_list ++ [t.lchp_curr]) ++ r :: rs
    rw [hnew]
    simp

theorem chp_fold_first (r : lchp) (t : State) (hr0 : r.cpFirst = 0)
    (hcur : t.lchp_curr = { cpFirst := 0, cpLim := 0, prop := _wri_default_chp }) :
    ∃ m, (_wri_append_chp r.prop r.cpLim t).2 = { t with malloc_ok := m, lchp_curr := r } ∧
      (AllocOK t → ∀ b ∈ m, b = true) := by
  by_cases hp : r.prop = chp_curr t
  · rw [append_chp_same t r.prop r.cpLim hp]
    refine ⟨t.malloc_ok, ?_, fun h => h⟩
    have : ({ t.lchp_curr with cpLim := r.cpLim } : lchp) = r := by
      have hp2 : r.prop = _wri_default_chp := by rw [hp]; unfold chp_curr; rw [hcur]
      rw [hcur]
      cases r
      simp only at hr0 hp2
      subst hr0 hp2
      rfl
    show { t with lchp_curr := _ } = _
    rw [this]
  · rw [append_chp_into_empty t r.prop r.cpLim hp (by rw [hcur])]
    refine ⟨t.malloc_ok, ?_, fun h => h⟩
    have : ({ cpFirst := t.lchp_curr.cpFirst, cpLim := r.cpLim, prop := r.prop } : lchp) = r := by
      rw [hcur]
      cases r
      simp only at hr0
      subst hr0
      rfl
    show { t with lchp_curr := _ } = _
    rw [this]

theorem read_chps_round (R : List lchp) (t : State) (e : Nat)
    (hc : covers 0 R e) (hne : ∀ r ∈ R, r.cpFirst ≠ r.cpLim)
    (hwf : ∀ r ∈ R, r.prop.wf ∧ r.prop.res1 = 0 ∧ r.prop.res2 = 0)
    (hch : List.Chain' (fun x y : lchp => x.prop ≠ y.prop) R) (ha : AllocOK t)
    (hl : t.lchp_list = [])
    (hcur : t.lchp_curr = { cpFirst := 0, cpLim := 0, prop := _wri_default_chp }) :
    nonempty_runs (lchp_runs ((R.map (fun r => run_entry r.cpLim r.prop.bytes
        _wri_default_chp.bytes sizeof_CHP)).foldl
        (fun st e => read_chps_entry PAGESIZE 0 id e st) t)) = R ∧
    ((R.map (fun r => run_entry r.cpLim r.prop.bytes _wri_default_chp.bytes
        sizeof_CHP)).foldl (fun st e => read_chps_entry PAGESIZE 0 id e st) t).paps = t.paps ∧
    ((R.map (fun r => run_entry r.cpLim r.prop.bytes _wri_default_chp.bytes
        sizeof_CHP)).foldl (fun st e => read_chps_entry PAGESIZE 0 id e st) t).lpap_list
      = t.lpap_list ∧
    ((R.map (fun r => run_entry r.cpLim r.prop.bytes _wri_default_chp.bytes
        sizeof_CHP)).foldl (fun st e => read_chps_entry PAGESIZE 0 id e st) t).lpap_curr
      = t.lpap_curr := by
  cases R with
  | nil =>
    refine ⟨?_, rfl, rfl, rfl⟩
    simp only [List.map_nil, List.foldl_nil, lchp_runs, hl, hcur, List.nil_append]
    rfl
  | cons r rs =>
    obtain ⟨c1, c2, c3⟩ := hc
    have hr := hne r (List.mem_cons_self _ _)
    obtain ⟨w1, w2, w3⟩ := hwf r (List.mem_cons_self _ _)
    simp only [List.map_cons, List.foldl_cons]
    rw [read_chps_entry_run r t w1 w2 w3 (by omega)]
    obtain ⟨m, hm, hma⟩ := chp_fold_first r t c1 hcur
    rw [hm]
    have := chp_fold_next rs { t with malloc_ok := m, lchp_curr := r } r.cpLim e c3
      (fun x hx => hne x (List.mem_cons_of_mem _ hx))
      (fun x hx => hwf x (List.mem_cons_of_mem _ hx))
      (show List.Chain (fun x y : lchp => x.prop ≠ y.prop) r rs from hch)
      (hma ha) rfl hr
    obtain ⟨g1, -, g3, g4, g5⟩ := this
    refine ⟨?_, g3, g4, g5⟩
    rw [g1]
    show nonempty_runs ((t.lchp_list ++ [r]) ++ rs) = r :: rs
    rw [hl]
    exact nonempty_runs_self _ hne

/-! ### Round trip: where the pages start -/

theorem memorize_pap_pages (o : Nat) (k : Packer) :
    (memorize_pap o k).written = k.written ∧ (memorize_pap o k).fkp = k.fkp := by
  unfold memorize_pap
  split_ifs
  · exact ⟨rfl, rfl⟩
  · exact ⟨rfl, rfl⟩

theorem pack_run_starts (d : Bool) (cpFirst cpLim : Nat) (record dflt : List Nat) (size : Nat)
    (k : Packer) :
    ((pack_run d cpFirst cpLim record dflt size k).written = k.written ∧
      (pack_run d cpFirst cpLim record dflt size k).fkp.fcFirst = k.fkp.fcFirst ∧
      (pack_run d cpFirst cpLim record dflt size k).fkp.rgFOD.map FOD.fcLim
        = k.fkp.rgFOD.map FOD.fcLim ++ [cpLim + PAGESIZE]) ∨
    ((pack_run d cpFirst cpLim record dflt size k).written = k.written ++ [k.fkp] ∧
      (pack_run d cpFirst cpLim record dflt size k).fkp.fcFirst = cpFirst + PAGESIZE ∧
      (pack_run d cpFirst cpLim record dflt size k).fkp.rgFOD.map FOD.fcLim
        = [cpLim + PAGESIZE]) := by
  have key : ∀ (k1 k2 : Packer) (b ts : Nat), k2.written = k1.written →
      k2.fkp.fcFirst = k1.fkp.fcFirst → k2.fkp.rgFOD = k1.fkp.rgFOD →
      (k2.add_fod (cpLim + PAGESIZE) b ts).written = k1.written ∧
      (k2.add_fod (cpLim + PAGESIZE) b ts).fkp.fcFirst = k1.fkp.fcFirst ∧
      (k2.add_fod (cpLim + PAGESIZE) b ts).fkp.rgFOD.map FOD.fcLim
        = k1.fkp.rgFOD.map FOD.fcLim ++ [cpLim + PAGESIZE] := by
    intro k1 k2 b ts h1 h2 h3
    refine ⟨h1, h2, ?_⟩
    show (k2.fkp.rgFOD ++ [_]).map FOD.fcLim = _
    rw [h3, List.map_append]
    rfl
  have mid : ∀ (k1 : Packer) (c : Prop) [Decidable c] (n : Nat),
      (if c then
        (if d = true then
          memorize_pap (k1.write_fprop n record).start_of_props (k1.write_fprop n record)
         else k1.write_fprop n record)
       else k1).written = k1.written ∧
      (if c then
        (if d = true then
          memorize_pap (k1.write_fprop n record).start_of_props (k1.write_fprop n record)
         else k1.write_fprop n record)
       else k1).fkp.fcFirst = k1.fkp.fcFirst ∧
      (if c then
        (if d = true then
          memorize_pap (k1.write_fprop n record).start_of_props (k1.write_fprop n record)
         else k1.write_fprop n record)
       else k1).fkp.rgFOD = k1.fkp.rgFOD := by
    intro k1 c _ n
    by_cases hc : c
    · rw [if_pos hc]
      by_cases hd : d = true
      · rw [if_pos hd]
        obtain ⟨m1, m2⟩ := memorize_pap_pages (k1.write_fprop n record).start_of_props
          (k1.write_fprop n record)
        rw [m1, m2]
        exact ⟨rfl, rfl, rfl⟩
      · rw [if_neg hd]
        exact ⟨rfl, rfl, rfl⟩
    · rw [if_neg hc]
      exact ⟨rfl, rfl, rfl⟩
  generalize hr : pack_run d cpFirst cpLim record dflt size k = r
  unfold pack_run at hr
  dsimp only at hr
  generalize hk1 : (if _ > k.space_left then k.new_page cpFirst else k) = k1 at hr
  have hor : k1 = k.new_page cpFirst ∨ k1 = k := by
    rw [← hk1]
    exact ite_eq_or_eq _ _ _
  have both : ∀ (k1 : Packer) (c : Prop) [Decidable c] (n b ts : Nat),
      ((if c then
        (if d = true then
          memorize_pap (k1.write_fprop n record).start_of_props (k1.write_fprop n record)
         else k1.write_fprop n record)
       else k1).add_fod (cpLim + PAGESIZE) b ts).written = k1.written ∧
      ((if c then
        (if d = true then
          memorize_pap (k1.write_fprop n record).start_of_props (k1.write_fprop n record)
         else k1.write_fprop n record)
       else k1).add_fod (cpLim + PAGESIZE) b ts).fkp.fcFirst = k1.fkp.fcFirst ∧
      ((if c then
        (if d = true then
          memorize_pap (k1.write_fprop n record).start_of_props (k1.write_fprop n record)
         else k1.write_fprop n record)
       else k1).add_fod (cpLim + PAGESIZE) b ts).fkp.rgFOD.map FOD.fcLim
        = k1.fkp.rgFOD.map FOD.fcLim ++ [cpLim + PAGESIZE] := by
    intro k1 c _ n b ts
    exact key k1 _ b ts (mid k1 c n).1 (mid k1 c n).2.1 (mid k1 c n).2.2
  subst hr
  rcases hor with h | h
  · right
    show _ = (k.new_page cpFirst).written ∧ _ = (k.new_page cpFirst).fkp.fcFirst ∧
      _ = List.map FOD.fcLim (k.new_page cpFirst).fkp.rgFOD ++ [cpLim + PAGESIZE]
    rw [← h]
    exact both k1 _ _ _ _
  · left
    rw [← h]
    exact both k1 _ _ _ _

theorem head?_append_some {α : Type} (l m : List α) (x : α) (h : l.head? = some x) :
    (l ++ m).head? = some x := by
  cases l with
  | nil => exact absurd h (by simp)
  | cons a as => exact h

theorem starts_ok_init (area : List Nat) (pn fcEnd : Nat) :
    (Packer.init area pn).starts_ok fcEnd 0 := by
  refine ⟨?_, ?_, ?_⟩
  · intro p hp x hx
    have hp2 : p = (Packer.init area pn).fkp := by simpa [Packer.init] using hp
    rw [hp2] at hx
    exact absurd hx (by simp [Packer.init])
  · intro x hx
    have hx2 : x = PAGESIZE := by simpa [Packer.init] using hx
    omega
  · intro p hp
    have hp2 : (Packer.init area pn).fkp = p := by simpa [Packer.init] using hp
    rw [← hp2]
    rfl

theorem starts_ok_pack (d : Bool) (cpFirst cpLim : Nat) (record dflt : List Nat) (size : Nat)
    (k : Packer) (fcEnd lim : Nat) (h : k.starts_ok fcEnd lim) (h1 : lim ≤ cpFirst)
    (h2 : cpFirst < cpLim) (h3 : cpLim + PAGESIZE ≤ fcEnd) :
    (pack_run d cpFirst cpLim record dflt size k).starts_ok fcEnd cpLim := by
  obtain ⟨i1, i2, i3⟩ := h
  rcases pack_run_starts d cpFirst cpLim record dflt size k with ⟨w, f, m⟩ | ⟨w, f, m⟩
  · refine ⟨?_, ?_, ?_⟩
    · intro p hp
      rw [w] at hp
      rcases List.mem_append.mp hp with hp | hp
      · exact i1 p (List.mem_append_left _ hp)
      · rw [List.mem_singleton.mp hp]
        intro x hx
        rw [f, m, ← List.cons_append, List.dropLast_concat] at hx
        have := i2 x hx
        omega
    · intro x hx
      rw [f, m, ← List.cons_append] at hx
      rcases List.mem_append.mp hx with hx | hx
      · have := i2 x hx
        omega
      · rw [List.mem_singleton.mp hx]
    · intro p hp
      rw [w] at hp
      cases hw : k.written with
      | nil =>
        rw [hw] at hp
        have hp2 : (pack_run d cpFirst cpLim record dflt size k).fkp = p := by simpa using hp
        rw [← hp2, f]
        exact i3 k.fkp (by rw [hw]; rfl)
      | cons a as =>
        rw [hw] at hp
        exact i3 p (by rw [hw]; exact hp)
  · refine ⟨?_, ?_, ?_⟩
    · intro p hp
      rw [w] at hp
      rcases List.mem_append.mp hp with hp | hp
      · exact i1 p hp
      · rw [List.mem_singleton.mp hp]
        intro x hx
        rw [f, m] at hx
        have hx2 : x = cpFirst + PAGESIZE := by simpa using hx
        omega
    · intro x hx
      rw [f, m] at hx
      have hx2 : x = cpFirst + PAGESIZE ∨ x = cpLim + PAGESIZE := by simpa using hx
      omega
    · intro p hp
      rw [w] at hp
      cases hh : (k.written ++ [k.fkp]).head? with
      | none => simp at hh
      | some q =>
        rw [head?_append_some _ _ q hh] at hp
        have hq := i3 q hh
        have : q = p := Option.some.inj hp
        rw [← this]
        exact hq

theorem starts_ok_pap_loop (s : State) (fcEnd : Nat) (runs : List lpap) :
    ∀ (k : Packer) (a e : Nat), covers a runs e → e + PAGESIZE ≤ fcEnd →
      k.starts_ok fcEnd a → (save_pap_loop s runs k).starts_ok fcEnd e := by
  induction runs with
  | nil =>
    intro k a e hc _ h
    have h0 : a = e := hc
    rw [← h0]
    exact h
  | cons r rs ih =>
    intro k a e hc he h
    obtain ⟨c1, c2, c3⟩ := hc
    have hstep : save_pap_loop s (r :: rs) k = save_pap_loop s rs (save_pap_run s r k) := rfl
    rw [hstep, save_pap_run_eq]
    have hle := (covers_le rs r.cpLim e c3).1
    by_cases hemp : r.cpFirst = r.cpLim
    · rw [if_pos hemp]
      refine ih k r.cpLim e c3 he ?_
      rw [← hemp, c1]
      exact h
    · rw [if_neg hemp]
      refine ih _ r.cpLim e c3 he ?_
      exact starts_ok_pack true r.cpFirst r.cpLim _ _ _ k fcEnd a h (by omega) (by omega)
        (by omega)

theorem starts_ok_finish (k : Packer) (fcEnd lim : Nat) (h : k.starts_ok fcEnd lim) :
    (∀ p ∈ k.finish.written, p.starts_below fcEnd) ∧
    (∀ p, k.finish.written.head? = some p → p.fcFirst = PAGESIZE) := by
  obtain ⟨i1, -, i3⟩ := h
  unfold Packer.finish
  by_cases h0 : k.fkp.cfod ≠ 0
  · rw [if_pos h0]
    exact ⟨i1, i3⟩
  · rw [if_neg h0]
    refine ⟨fun p hp => i1 p (List.mem_append_left _ hp), ?_⟩
    intro p hp
    exact i3 p (head?_append_some _ _ p hp)

/-! ### Round trip: the paragraph runs -/

theorem PapTarget.set_tabs {t : State} {v : List (Nat × Nat × PAP)} (T : List TBD)
    (h : PapTarget t v) : PapTarget (_wri_set_tabs T t) v := h

theorem this_para_chp_frame (t : State) (h : AllocOK t) :
    (this_para t).1 = true ∧ (this_para t).2.lchp_list = t.lchp_list ∧
    (this_para t).2.lchp_curr = t.lchp_curr := by
  unfold this_para
  by_cases h1 : (pap_curr t).res1 = 1
  · rw [if_pos h1]
    exact ⟨rfl, rfl, rfl⟩
  · rw [if_neg h1]
    obtain ⟨c1, -, c3, c4, -⟩ := clone_pap_shape t h
    exact ⟨c1, c3, c4⟩

theorem set_extend_chp_frame (q : PAP) (L : Nat) (t : State) (h : AllocOK t) :
    (if ({ q with res1 := 0 } : PAP) ≠ { pap_curr t with res1 := 0 } then
        match this_para t with
        | (false, s2) => ((1 : Int), s2)
        | (true, s2) =>
          (0, _wri_extend_pap L (set_pap_curr s2 { q with res1 := (pap_curr s2).res1 }))
      else (0, _wri_extend_pap L t)).2.lchp_list = t.lchp_list ∧
    (if ({ q with res1 := 0 } : PAP) ≠ { pap_curr t with res1 := 0 } then
        match this_para t with
        | (false, s2) => ((1 : Int), s2)
        | (true, s2) =>
          (0, _wri_extend_pap L (set_pap_curr s2 { q with res1 := (pap_curr s2).res1 }))
      else (0, _wri_extend_pap L t)).2.lchp_curr = t.lchp_curr := by
  by_cases hd : ({ q with res1 := 0 } : PAP) ≠ { pap_curr t with res1 := 0 }
  · rw [if_pos hd]
    obtain ⟨c1, c2, c3⟩ := this_para_chp_frame t h
    generalize this_para t = r at c1 c2 c3 ⊢
    obtain ⟨b, s2⟩ := r
    simp only at c1 c2 c3
    subst c1
    exact ⟨c2, c3⟩
  · rw [if_neg hd]
    exact ⟨rfl, rfl⟩

theorem append_pap_chp_frame (q : PAP) (L : Nat) (i : Int) (t : State) (h : AllocOK t) :
    (_wri_append_pap q L i t).2.lchp_list = t.lchp_list ∧
    (_wri_append_pap q L i t).2.lchp_curr = t.lchp_curr := by
  unfold _wri_append_pap
  by_cases hi : i = 0
  · simp only [if_pos hi]
    obtain ⟨n1, n2, n3, n4, -⟩ := new_paragraph_shape t h
    generalize _wri_new_paragraph t = r at n1 n2 n3 n4 ⊢
    obtain ⟨b, t1⟩ := r
    simp only at n1 n2 n3 n4
    subst n1
    simp only [ne_eq, not_true_eq_false, if_false]
    obtain ⟨e1, e2⟩ := set_extend_chp_frame q L t1 n2
    simp only [ne_eq] at e1 e2
    exact ⟨e1.trans n3, e2.trans n4⟩
  · simp only [if_neg hi, ne_eq, not_true_eq_false, if_false]
    have := set_extend_chp_frame q L t h
    simpa only [ne_eq] using this

theorem append_pap_target (s1 : State) (r : lpap) (first : Bool)
    (done : List (Nat × Nat × PAP)) (t : State)
    (hT : PapTarget t
      (done ++ if first = true then [(0, 0, { _wri_default_pap with res1 := 0 })] else []))
    (hl : t.lpap_curr.cpLim = r.cpFirst) (h7 : first = true → done = [] ∧ r.cpFirst = 0) :
    (_wri_append_pap { pap_at s1 r.prop with res1 := 0 } r.cpLim
      (if first = true then 1 else 0) t).1 = 0 ∧
    PapTarget (_wri_append_pap { pap_at s1 r.prop with res1 := 0 } r.cpLim
      (if first = true then 1 else 0) t).2 (done ++ [pap_view s1 r]) := by
  cases first with
  | true =>
    obtain ⟨e1, e2⟩ := h7 rfl
    subst e1
    simp only [if_true] at hT ⊢
    have := PapTarget.append_first hT { pap_at s1 r.prop with res1 := 0 } r.cpLim rfl
    have hv : pap_view s1 r = (0, r.cpLim, { pap_at s1 r.prop with res1 := 0 }) := by
      unfold pap_view
      rw [e2]
    rw [hv]
    exact this
  | false =>
    simp only [Bool.false_eq_true, if_false, List.append_nil] at hT ⊢
    have := PapTarget.append_next hT { pap_at s1 r.prop with res1 := 0 } r.cpLim rfl
    have hv : pap_view s1 r = (t.lpap_curr.cpLim, r.cpLim, { pap_at s1 r.prop with res1 := 0 }) := by
      unfold pap_view
      rw [hl]
    rw [hv]
    exact this

theorem PapTarget.curr_lim {t : State} {v0 : List (Nat × Nat × PAP)} {v : Nat × Nat × PAP}
    (h : PapTarget t (v0 ++ [v])) : t.lpap_curr.cpLim = v.2.1 := by
  have := h.1.split.2
  rw [← this]
  rfl

theorem read_paps_fod_ok (fcEnd : Nat) (area : List Nat) (f : FOD) (k : PapReader)
    (first : Bool) (done : List (Nat × Nat × PAP)) (chl : List lchp) (chc : lchp)
    (s1 : State) (r : lpap)
    (hk : k.ok first done r.cpFirst chl chc)
    (hfc : k.fcFirst < fcEnd) (hfirst : first = true → k.fcFirst = PAGESIZE)
    (he : (f.fcLim, if f.bfprop = 65535 then none else some (fprop_at area f.bfprop))
      = run_entry r.cpLim (save_pap_bytes s1 (pap_at s1 r.prop)) _wri_default_pap_bytes
          sizeof_PAP)
    (hw : (pap_at s1 r.prop).wf) (h2 : (pap_at s1 r.prop).res2 = 0)
    (h3 : (pap_at s1 r.prop).res3 = 0) (h4 : (pap_at s1 r.prop).res4 = 0)
    (h5 : (pap_at s1 r.prop).res5 = 0) (hr : (pap_at s1 r.prop).rhcOdd = 0)
    (ht : s1.tbd.length = itbdmax) (hlim : r.cpLim + PAGESIZE ≤ fcEnd) :
    (read_paps_fod fcEnd 0 area f k).ok false (done ++ [pap_view s1 r]) r.cpLim chl chc ∧
    (read_paps_fod fcEnd 0 area f k).fcFirst = f.fcLim := by
  obtain ⟨k1, k2, k3, k4, k5, k6, k7, k8, k9⟩ := hk
  have hf1 : f.fcLim = r.cpLim + PAGESIZE := congrArg Prod.fst he
  have hb : read_fprop _wri_default_pap_bytes area f.bfprop
      = entry_bytes _wri_default_pap_bytes (run_entry r.cpLim
          (save_pap_bytes s1 (pap_at s1 r.prop)) _wri_default_pap_bytes sizeof_PAP).2 := by
    rw [read_fprop_entry]
    exact congrArg (fun e => entry_bytes _wri_default_pap_bytes e.2) he
  obtain ⟨d1, d2, -⟩ := read_pap_record_entry s1 (pap_at s1 r.prop) r.cpLim hw h2 h3 h4 h5 hr ht
  rw [← hb] at d1 d2
  have happ : ∀ t : State, PapTarget t
        (done ++ if first = true then [(0, 0, { _wri_default_pap with res1 := 0 })] else []) →
      t.lpap_curr.cpLim = r.cpFirst → t.lchp_list = chl → t.lchp_curr = chc →
      (_wri_append_pap { pap_at s1 r.prop with res1 := 0 } r.cpLim
        (if first = true then 1 else 0) t).1 = 0 ∧
      PapTarget (_wri_append_pap { pap_at s1 r.prop with res1 := 0 } r.cpLim
        (if first = true then 1 else 0) t).2 (done ++ [pap_view s1 r]) ∧
      (_wri_append_pap { pap_at s1 r.prop with res1 := 0 } r.cpLim
        (if first = true then 1 else 0) t).2.lpap_curr.cpLim = r.cpLim ∧
      (_wri_append_pap { pap_at s1 r.prop with res1 := 0 } r.cpLim
        (if first = true then 1 else 0) t).2.lchp_list = chl ∧
      (_wri_append_pap { pap_at s1 r.prop with res1 := 0 } r.cpLim
        (if first = true then 1 else 0) t).2.lchp_curr = chc := by
    intro t hT hl hcl hcc
    obtain ⟨a1, a2⟩ := append_pap_target s1 r first done t hT hl k7
    obtain ⟨a3, a4⟩ := append_pap_chp_frame { pap_at s1 r.prop with res1 := 0 } r.cpLim
      (if first = true then 1 else 0) t hT.1.1
    exact ⟨a1, a2, a2.curr_lim, a3.trans hcl, a4.trans hcc⟩
  generalize hres : read_paps_fod fcEnd 0 area f k = res
  unfold read_paps_fod at hres
  obtain ⟨s, fcStart, ign, fll, ifp, wt, fcF, failed⟩ := k
  simp only at k1 k2 k3 k4 k5 k6 k8 k9 hfc hfirst
  subst k1 k2 k3 k4
  have hL : 0 + min f.fcLim fcEnd - PAGESIZE = r.cpLim := by
    rw [hf1, Nat.min_eq_left hlim]
    omega
  cases ign with
  | true =>
    have hF := hfirst rfl
    subst hF
    have hge : ¬ PAGESIZE ≥ fcEnd := by omega
    simp only [if_true] at happ
    cases wt with
    | true =>
      obtain ⟨a1, a2, a3, a4, a5⟩ := happ (_wri_set_tabs (tabs_of_bytes
        (read_fprop _wri_default_pap_bytes area f.bfprop)) s) (PapTarget.set_tabs _ k5) k6 k8 k9
      simp only [Bool.false_eq_true, if_false, if_true, d1, d2, true_and, and_true, and_false,
        if_neg hge, hL, a1, ne_eq, not_true_eq_false] at hres
      subst hres
      exact ⟨⟨rfl, rfl, rfl, rfl, by simpa using a2, a3, by simp, a4, a5⟩, rfl⟩
    | false =>
      obtain ⟨a1, a2, a3, a4, a5⟩ := happ s k5 k6 k8 k9
      simp only [Bool.false_eq_true, if_false, if_true, d1, d2, true_and, and_true, and_false,
        if_neg hge, hL, a1, ne_eq, not_true_eq_false] at hres
      subst hres
      exact ⟨⟨rfl, rfl, rfl, rfl, by simpa using a2, a3, by simp, a4, a5⟩, rfl⟩
  | false =>
    have hge : ¬ fcF ≥ fcEnd := by omega
    simp only [Bool.false_eq_true, if_false] at happ
    cases wt with
    | true =>
      obtain ⟨a1, a2, a3, a4, a5⟩ := happ (_wri_set_tabs (tabs_of_bytes
        (read_fprop _wri_default_pap_bytes area f.bfprop)) s) (PapTarget.set_tabs _ k5) k6 k8 k9
      simp only [Bool.false_eq_true, if_false, if_true, d1, d2, true_and, and_true, and_false,
        if_neg hge, hL, a1, ne_eq, not_true_eq_false] at hres
      subst hres
      exact ⟨⟨rfl, rfl, rfl, rfl, by simpa using a2, a3, by simp, a4, a5⟩, rfl⟩
    | false =>
      obtain ⟨a1, a2, a3, a4, a5⟩ := happ s k5 k6 k8 k9
      simp only [Bool.false_eq_true, if_false, if_true, d1, d2, true_and, and_true, and_false,
        if_neg hge, hL, a1, ne_eq, not_true_eq_false] at hres
      subst hres
      exact ⟨⟨rfl, rfl, rfl, rfl, by simpa using a2, a3, by simp, a4, a5⟩, rfl⟩

theorem covers_append {α : Type} (R1 R2 : List (lprop α)) :
    ∀ a e : Nat, covers a (R1 ++ R2) e → ∃ m, covers a R1 m ∧ covers m R2 e := by
  induction R1 with
  | nil =>
    intro a e h
    exact ⟨a, rfl, h⟩
  | cons r rs ih =>
    intro a e h
    obtain ⟨h1, h2, h3⟩ := h
    obtain ⟨m, i1, i2⟩ := ih r.cpLim e h3
    exact ⟨m, ⟨h1, h2, i1⟩, i2⟩

theorem read_paps_fods_ok (fcEnd : Nat) (area : List Nat) (s1 : State)
    (ht : s1.tbd.length = itbdmax) (chl : List lchp) (chc : lchp) :
    ∀ (fods : List FOD) (R : List lpap) (k : PapReader) (first : Bool)
      (done : List (Nat × Nat × PAP)) (a e : Nat),
      fods.map (fun f =>
          (f.fcLim, if f.bfprop = 65535 then none else some (fprop_at area f.bfprop)))
        = R.map (fun r => run_entry r.cpLim (save_pap_bytes s1 (pap_at s1 r.prop))
            _wri_default_pap_bytes sizeof_PAP) →
      covers a R e → e + PAGESIZE ≤ fcEnd → (∀ r ∈ R, pap_plain s1 r) →
      k.ok first done a chl chc →
      (∀ x ∈ (k.fcFirst :: fods.map FOD.fcLim).dropLast, x < fcEnd) →
      (first = true → k.fcFirst = PAGESIZE) →
      (fods.foldl (fun k f => read_paps_fod fcEnd 0 area f k) k).ok (first && R.isEmpty)
        (done ++ R.map (pap_view s1)) e chl chc := by
  intro fods
  induction fods with
  | nil =>
    intro R k first done a e hm hc _ _ hk _ _
    have hR : R = [] := by
      cases R with
      | nil => rfl
      | cons r rs => simp at hm
    subst hR
    have h0 : a = e := hc
    subst h0
    simpa using hk
  | cons f fs ih =>
    intro R k first done a e hm hc he hg hk hx hfirst
    cases R with
    | nil => simp at hm
    | cons r rs =>
      simp only [List.map_cons, List.cons.injEq] at hm
      obtain ⟨hm1, hm2⟩ := hm
      obtain ⟨c1, c2, c3⟩ := hc
      obtain ⟨g1, g2, g3, g4, g5, g6⟩ := hg r (List.mem_cons_self _ _)
      have hle := (covers_le rs r.cpLim e c3).1
      have hfc : k.fcFirst < fcEnd := hx k.fcFirst (by simp [List.dropLast])
      rw [← c1] at hk
      obtain ⟨s1ok, s1fc⟩ := read_paps_fod_ok fcEnd area f k first done chl chc s1 r hk hfc hfirst
        hm1 g1 g2 g3 g4 g5 g6 ht (by omega)
      have := ih rs (read_paps_fod fcEnd 0 area f k) false (done ++ [pap_view s1 r]) r.cpLim e
        hm2 c3 he (fun x hx2 => hg x (List.mem_cons_of_mem _ hx2)) s1ok
        (by
          intro x hx2
          rw [s1fc] at hx2
          apply hx x
          simp only [List.map_cons, List.dropLast_cons₂]
          exact List.mem_cons_of_mem _ hx2)
        (by intro h; exact absurd h (by decide))
      simpa using this

theorem read_paps_page_ok (fcEnd : Nat) (s1 : State) (ht : s1.tbd.length = itbdmax)
    (chl : List lchp) (chc : lchp) (p : FKP) (R : List lpap) (k : PapReader) (first : Bool)
    (done : List (Nat × Nat × PAP)) (a e : Nat)
    (hm : p.entries = R.map (fun r => run_entry r.cpLim (save_pap_bytes s1 (pap_at s1 r.prop))
      _wri_default_pap_bytes sizeof_PAP))
    (hc : covers a R e) (he : e + PAGESIZE ≤ fcEnd) (hg : ∀ r ∈ R, pap_plain s1 r)
    (hk : k.ok first done a chl chc) (hx : p.starts_below fcEnd)
    (hfirst : first = true → p.fcFirst = PAGESIZE) :
    (read_paps_page fcEnd 0 p k).ok (first && R.isEmpty) (done ++ R.map (pap_view s1)) e
      chl chc := by
  unfold read_paps_page
  rw [if_neg (by rw [hk.1]; decide)]
  exact read_paps_fods_ok fcEnd p.rgFPROP s1 ht chl chc p.rgFOD R
    { k with fcFirst := p.fcFirst, fcLimLast := some p.fcFirst } first done a e hm hc he hg hk hx
    hfirst

theorem read_paps_pages_ok (fcEnd : Nat) (s1 : State) (ht : s1.tbd.length = itbdmax)
    (chl : List lchp) (chc : lchp) :
    ∀ (pages : List FKP) (R : List lpap) (k : PapReader) (first : Bool)
      (done : List (Nat × Nat × PAP)) (a e : Nat),
      (pages.map FKP.entries).flatten
        = R.map (fun r => run_entry r.cpLim (save_pap_bytes s1 (pap_at s1 r.prop))
            _wri_default_pap_bytes sizeof_PAP) →
      covers a R e → e + PAGESIZE ≤ fcEnd → (∀ r ∈ R, pap_plain s1 r) →
      (∀ p ∈ pages, p.starts_below fcEnd ∧ p.rgFOD ≠ []) →
      (first = true → ∀ p, pages.head? = some p → p.fcFirst = PAGESIZE) →
      k.ok first done a chl chc →
      (pages.foldl (fun k p => read_paps_page fcEnd 0 p k) k).ok (first && R.isEmpty)
        (done ++ R.map (pap_view s1)) e chl chc := by
  intro pages
  induction pages with
  | nil =>
    intro R k first done a e hm hc _ _ _ _ hk
    have hR : R = [] := by
      cases R with
      | nil => rfl
      | cons r rs => simp at hm
    subst hR
    have h0 : a = e := hc
    subst h0
    simpa using hk
  | cons p ps ih =>
    intro R k first done a e hm hc he hg hp hfirst hk
    simp only [List.map_cons, List.flatten_cons] at hm
    obtain ⟨R1, R2, hR, h1, h2⟩ := List.map_eq_append_iff.mp hm.symm
    subst hR
    obtain ⟨m, cm1, cm2⟩ := covers_append R1 R2 a e hc
    have hme := (covers_le R2 m e cm2).1
    obtain ⟨hp1, hp2⟩ := hp p (List.mem_cons_self _ _)
    have hpage := read_paps_page_ok fcEnd s1 ht chl chc p R1 k first done a m h1.symm cm1
      (by omega) (fun r hr => hg r (List.mem_append_left _ hr)) hk hp1
      (fun h => hfirst h p rfl)
    have hR1 : R1 ≠ [] := by
      intro h
      rw [h] at h1
      have : p.entries = [] := by simpa using h1.symm
      unfold FKP.entries at this
      exact hp2 (List.map_eq_nil_iff.mp this)
    have hemp : R1.isEmpty = false := by
      cases R1 with
      | nil => exact absurd rfl hR1
      | cons x xs => rfl
    rw [hemp, Bool.and_false] at hpage
    have := ih R2 (read_paps_page fcEnd 0 p k) false (done ++ R1.map (pap_view s1)) m e h2.symm cm2
      he (fun r hr => hg r (List.mem_append_right _ hr))
      (fun q hq => hp q (List.mem_cons_of_mem _ hq))
      (by intro h; exact absurd h (by decide)) hpage
    have hemp2 : (R1 ++ R2).isEmpty = false := by
      cases R1 with
      | nil => exact absurd rfl hR1
      | cons x xs => rfl
    rw [hemp2, Bool.and_false]
    simpa using this

/-! ### Round trip: saving the run lists and reading them back -/

theorem Fresh.target {t : State} (h : Fresh t) :
    PapTarget t [(0, 0, { _wri_default_pap with res1 := 0 })] := by
  obtain ⟨ha, h1, h2, h3, h4, h5, h6⟩ := h
  refine ⟨⟨ha, ?_, ?_⟩, [], [], ?_, ?_, ?_, ?_, ?_⟩
  · simp only [lpap_runs, h3, h4, List.nil_append, List.map_cons, List.map_nil, pap_view, h6]
  · intro r hr
    simp only [lpap_runs, h3, h4, List.nil_append, List.mem_singleton] at hr
    rw [hr]
    exact h5
  · rw [h3]; rfl
  · intro r hr; exact absurd hr (List.not_mem_nil r)
  · intro r hr; exact absurd hr (List.not_mem_nil r)
  · exact Nat.zero_lt_succ _
  · unfold pap_curr
    rw [h4, h6]
    rfl

theorem Fresh.reader_ok {t : State} (h : Fresh t) (wt : Bool) :
    PapReader.ok (PapReader.start t wt)
      true [] 0 [] { cpFirst := 0, cpLim := 0, prop := _wri_default_chp } :=
  ⟨rfl, rfl, rfl, rfl, h.target, by
    show t.lpap_curr.cpLim = 0
    rw [h.2.2.2.2.1], fun _ => ⟨rfl, rfl⟩, h.2.1, h.2.2.1⟩

theorem chain_of_zip_tail (R : List lchp) (h : ∀ p ∈ R.zip R.tail, p.1.prop ≠ p.2.prop) :
    List.Chain' (fun x y : lchp => x.prop ≠ y.prop) R := by
  induction R with
  | nil => exact List.chain'_nil
  | cons a l ih =>
    cases l with
    | nil => exact List.chain'_singleton a
    | cons b m =>
      rw [List.chain'_cons]
      refine ⟨h (a, b) (by simp), ih ?_⟩
      intro p hp
      exact h p (by
        simp only [List.tail_cons, List.zip_cons_cons, List.mem_cons]
        right
        exact hp)

theorem Inv.covers_runs {s : State} (h : Inv s) :
    covers 0 (lchp_runs s) s._wri_cpMac ∧ covers 0 (lpap_runs s) s._wri_cpMac := by
  obtain ⟨-, ⟨c1, c2, c3⟩, ⟨p1, p2, p3⟩⟩ := h
  constructor
  · rw [← c3]
    exact covers_snoc _ _ 0 c1 c2
  · rw [← p3]
    exact covers_snoc _ _ 0 p1 p2

theorem views_filter (t : State) (runs : List lpap) :
    (nonempty_runs runs).map (pap_view t)
      = (runs.map (pap_view t)).filter (fun v => v.1 ≠ v.2.1) := by
  unfold nonempty_runs
  rw [List.filter_map]
  rfl

theorem views_nonempty (t : State) (R : List lpap) (h : ∀ r ∈ R, r.cpFirst ≠ r.cpLim) :
    (R.map (pap_view t)).filter (fun v => v.1 ≠ v.2.1) = R.map (pap_view t) := by
  rw [← views_filter, nonempty_runs_self R h]

/-- C14. Round trip.  For a document whose character and paragraph lists
cover `[0, _wri_cpMac)` without gaps, whose character records are within their
bits with the reserved fields 0, in which no two non-empty character runs that
follow each other have the same record, and whose paragraph records are within
their bits, with the reserved fields 0, none being a header or footer: the pages
that `_wri_save_chp` and `_wri_save_pap` write, read by `read_paps` and then
`read_chps` (identity font map) into a document as a reset leaves it, give a
document whose non-empty character runs are those of the original, boundaries
and records, and whose non-empty paragraph runs have the boundaries and the
record contents of those of the original. -/
theorem save_read_round_trip (s t : State) (area1 area2 : List Nat) (want_tabs : Bool)
    (hc : covers 0 (lchp_runs s) s._wri_cpMac) (hp : covers 0 (lpap_runs s) s._wri_cpMac)
    (hchp : ∀ r ∈ lchp_runs s, chp_plain r.prop)
    (hadj : adjacent_distinct (lchp_runs s))
    (hpap : ∀ r ∈ lpap_runs s, pap_plain s r)
    (htbd : s.tbd.length = itbdmax)
    (ha1 : area1.length = sizeof_rgFPROP) (ha2 : area2.length = sizeof_rgFPROP)
    (ht : Fresh t) (ht0 : t._wri_cpMac = 0) :
    nonempty_runs (lchp_runs (read_props (s._wri_cpMac + PAGESIZE) id want_tabs
        (_wri_save_chp s area1).written
        (_wri_save_pap s area2 (_wri_save_chp s area1).pn).2.written t))
      = nonempty_runs (lchp_runs s) ∧
    (nonempty_runs (lpap_runs (read_props (s._wri_cpMac + PAGESIZE) id want_tabs
        (_wri_save_chp s area1).written
        (_wri_save_pap s area2 (_wri_save_chp s area1).pn).2.written t))).map
      (pap_view (read_props (s._wri_cpMac + PAGESIZE) id want_tabs
        (_wri_save_chp s area1).written
        (_wri_save_pap s area2 (_wri_save_chp s area1).pn).2.written t))
      = (nonempty_runs (lpap_runs s)).map (pap_view s) := by
  generalize hpn : (_wri_save_chp s area1).pn = pn
  -- the paragraph pages
  have hPI := PackInv.pap_loop (_wri_user_to_sep s) htbd (lpap_runs (_wri_user_to_sep s))
    (PackInv.init_ok true area2 pn ha2)
  obtain ⟨hpk, hflat, -⟩ := hPI.finish_ok
  have hst := starts_ok_finish _ (s._wri_cpMac + PAGESIZE) s._wri_cpMac
    (starts_ok_pap_loop (_wri_user_to_sep s) (s._wri_cpMac + PAGESIZE)
      (lpap_runs (_wri_user_to_sep s)) (Packer.init area2 pn) 0 s._wri_cpMac hp (le_refl _)
      (starts_ok_init area2 pn _))
  obtain ⟨hst1, hst2⟩ := hst
  have hpages : (_wri_save_pap s area2 pn).2.written
      = (save_pap_loop (_wri_user_to_sep s) (lpap_runs (_wri_user_to_sep s))
          (Packer.init area2 pn)).finish.written := rfl
  rw [hpages]
  generalize (save_pap_loop (_wri_user_to_sep s) (lpap_runs (_wri_user_to_sep s))
    (Packer.init area2 pn)).finish.written = ppages at hpk hflat hst1 hst2
  -- the character pages
  have hCI := PackInv.chp_loop (lchp_runs s)
    (PackInv.init_ok false area1 ((s._wri_cpMac + PAGESIZE + PAGESIZE - 1) / PAGESIZE) ha1)
  obtain ⟨-, hcflat, -⟩ := hCI.finish_ok
  have hcpages : (_wri_save_chp s area1).written
      = (save_chp_loop (lchp_runs s) (Packer.init area1
          ((s._wri_cpMac + PAGESIZE + PAGESIZE - 1) / PAGESIZE))).finish.written := rfl
  rw [hcpages]
  generalize (save_chp_loop (lchp_runs s) (Packer.init area1
    ((s._wri_cpMac + PAGESIZE + PAGESIZE - 1) / PAGESIZE))).finish.written = cpages at hcflat
  -- reading the paragraph pages
  have hR := read_paps_pages_ok (s._wri_cpMac + PAGESIZE) (_wri_user_to_sep s) htbd []
    { cpFirst := 0, cpLim := 0, prop := _wri_default_chp } ppages
    (nonempty_runs (lpap_runs s))
    (PapReader.start t want_tabs)
    true [] 0 s._wri_cpMac
    (by rw [hflat]; rfl)
    (covers_filter _ 0 _ hp) (le_refl _)
    (fun r hr => hpap r (nonempty_runs_mem _ r hr).1)
    (fun p hp2 => ⟨hst1 p hp2, fun h0 => by
      have := (hpk p hp2).1.1
      unfold FKP.cfod at this
      rw [h0] at this
      exact absurd this (by decide)⟩)
    (fun _ p hp2 => hst2 p hp2)
    (ht.reader_ok want_tabs)
  unfold read_props
  rw [ht0]
  have hrp : (read_paps (s._wri_cpMac + PAGESIZE) 0 want_tabs ppages t).2
      = ppages.foldl (fun k p => read_paps_page (s._wri_cpMac + PAGESIZE) 0 p k)
          (PapReader.start t want_tabs) := rfl
  rw [hrp]
  generalize ppages.foldl (fun k p => read_paps_page (s._wri_cpMac + PAGESIZE) 0 p k)
      (PapReader.start t want_tabs) = k at hR
  obtain ⟨-, r2, -, -, r5, -, -, r8, r9⟩ := hR
  rw [r2]
  -- reading the character pages
  have hrc : (read_chps PAGESIZE (s._wri_cpMac + PAGESIZE) 0 id cpages k.s).2
      = read_chps_pages PAGESIZE 0 id cpages k.s := rfl
  rw [hrc, read_chps_pages_entries, hcflat]
  have hce : ([] : List (Nat × Option (List Nat))) ++ chp_entries (lchp_runs s)
      = (nonempty_runs (lchp_runs s)).map (fun r => run_entry r.cpLim r.prop.bytes
          _wri_default_chp.bytes sizeof_CHP) := rfl
  rw [hce]
  obtain ⟨q1, q2, q3, q4⟩ := read_chps_round (nonempty_runs (lchp_runs s)) k.s s._wri_cpMac
    (covers_filter _ 0 _ hc) (fun r hr => (nonempty_runs_mem _ r hr).2)
    (fun r hr => hchp r (nonempty_runs_mem _ r hr).1) (chain_of_zip_tail _ hadj) r5.1.1 r8 r9
  refine ⟨q1, ?_⟩
  generalize (List.map (fun r => run_entry r.cpLim r.prop.bytes _wri_default_chp.bytes
      sizeof_CHP) (nonempty_runs (lchp_runs s))).foldl
      (fun st e => read_chps_entry PAGESIZE 0 id e st) k.s = t2 at q2 q3 q4
  have hv : pap_view t2 = pap_view k.s := by
    funext r
    unfold pap_view pap_at
    rw [q2]
  have hruns : lpap_runs t2 = lpap_runs k.s := by
    unfold lpap_runs
    rw [q3, q4]
  rw [hv, hruns, views_filter, r5.1.2.1, List.nil_append, List.filter_append,
    views_nonempty _ _ (fun r hr => (nonempty_runs_mem _ r hr).2)]
  have htail : List.filter (fun v : Nat × Nat × PAP => decide (v.1 ≠ v.2.1))
      (if (true && (nonempty_runs (lpap_runs s)).isEmpty) = true then
        [(0, 0, { _wri_default_pap with res1 := 0 })] else []) = [] := by
    split_ifs
    · rfl
    · rfl
  rw [htail, List.append_nil]
  rfl

set_option maxRecDepth 1000000 in
/-- Witness for C14 on `doc_round`, a document with two character runs and three
paragraphs, read back into the document that a reset leaves. -/
theorem save_read_round_trip_witness :
    (nonempty_runs (lchp_runs doc_round)).map (fun r => (r.cpFirst, r.cpLim)) = [(0, 1), (1, 8)] ∧
    (nonempty_runs (lpap_runs doc_round)).map (fun r => (r.cpFirst, r.cpLim))
      = [(0, 4), (4, 7), (7, 8)] ∧
    nonempty_runs (lchp_runs (read_props (doc_round._wri_cpMac + PAGESIZE) id true
        (_wri_save_chp doc_round zero_area).written
        (_wri_save_pap doc_round zero_area (_wri_save_chp doc_round zero_area).pn).2.written
        doc_empty))
      = nonempty_runs (lchp_runs doc_round) ∧
    (nonempty_runs (lpap_runs (read_props (doc_round._wri_cpMac + PAGESIZE) id true
        (_wri_save_chp doc_round zero_area).written
        (_wri_save_pap doc_round zero_area (_wri_save_chp doc_round zero_area).pn).2.written
        doc_empty))).map
      (pap_view (read_props (doc_round._wri_cpMac + PAGESIZE) id true
        (_wri_save_chp doc_round zero_area).written
        (_wri_save_pap doc_round zero_area (_wri_save_chp doc_round zero_area).pn).2.written
        doc_empty))
      = (nonempty_runs (lpap_runs doc_round)).map (pap_view doc_round) :=
  ⟨by decide, by decide,
   save_read_round_trip doc_round doc_empty zero_area zero_area true
    (run_calls_keeps Inv_closed calls_round _
      (wri_new_Inv (first_use []) (fun _ hb => absurd hb (List.not_mem_nil _)))).covers_runs.1
    (run_calls_keeps Inv_closed calls_round _
      (wri_new_Inv (first_use []) (fun _ hb => absurd hb (List.not_mem_nil _)))).covers_runs.2
    (by decide) (by decide) (by decide) (by decide) (by decide) (by decide)
    (by unfold Fresh AllocOK; decide) (by decide)⟩

/-! ### Margins, print on first page, imported tabs -/

/-- C38 (the code). `wri_doc_margin_right(m)` and `wri_doc_margin_bottom(m)`
store the margin, whatever its value, and return 1, while
`wri_doc_margin_left(m)` and `wri_doc_margin_top(m)` return 0 for a margin in
`0..32767`, here 100. -/
theorem margin_right_bottom_return_one (m : Int) (s : State) :
    wri_doc_margin_right m s = (1, { s with dxaRight := m }) ∧
    wri_doc_margin_bottom m s = (1, { s with dyaBottom := m }) ∧
    (wri_doc_margin_left 100 s).1 = 0 ∧ (wri_doc_margin_top 100 s).1 = 0 :=
  ⟨rfl, rfl, rfl, rfl⟩

theorem pofp_one_bit (x : Int) (s : State) (h : (pap_curr s).rhcOdd ≠ 0)
    (hp : (pap_curr s).rhcPage = 0) :
    (wri_doc_pofp x s).1 = 0 ∧
    (save_pap_record (_wri_user_to_sep (wri_doc_pofp x s).2)
      (pap_curr (wri_doc_pofp x s).2)).rhcFirst = (x % 2).toNat := by
  have h3 : wri_doc_pofp x s = (0, { s with pofp := (x, s.pofp.2) }) := by
    unfold wri_doc_pofp
    rw [if_neg h, if_pos hp]
  rw [h3]
  refine ⟨rfl, ?_⟩
  have h4 : pap_curr { s with pofp := (x, s.pofp.2) } = pap_curr s := rfl
  show (save_pap_record _ (pap_curr { s with pofp := (x, s.pofp.2) })).rhcFirst = _
  rw [h4]
  unfold save_pap_record
  dsimp only
  rw [if_pos h]
  dsimp only
  rw [if_pos hp]
  rfl

set_option maxRecDepth 1000000 in
/-- C39 (the code at the failing input). Inside the header of
`doc_header_open`, `wri_doc_pofp(x)` with an even `x = 2 * k`, such as 2,
returns 0, and the header paragraph is then encoded by `_wri_save_pap` with
`rhcFirst` 0: the `int` is assigned to a one-bit field. -/
theorem pofp_even_value_not_printed (k : Int) :
    (pap_curr doc_header_open).rhcOdd = 1 ∧
    (wri_doc_pofp (2 * k) doc_header_open).1 = 0 ∧
    (save_pap_record (_wri_user_to_sep (wri_doc_pofp (2 * k) doc_header_open).2)
      (pap_curr (wri_doc_pofp (2 * k) doc_header_open).2)).rhcFirst = 0 := by
  have h1 : (pap_curr doc_header_open).rhcOdd = 1 := by decide
  have h2 : (pap_curr doc_header_open).rhcPage = 0 := by decide
  obtain ⟨a1, a2⟩ := pofp_one_bit (2 * k) doc_header_open (by rw [h1]; decide) h2
  refine ⟨h1, a1, ?_⟩
  rw [a2]
  omega

set_option maxRecDepth 1000000 in
/-- C37 (the code at the failing input). `_wri_set_tabs` copies the array and
leaves the count `nTabs` as it is.  After a reset (count 0) and the import of
`tabs_imported`, an array with one tab at position 10, the count is 0,
`wri_doc_tab_clear(10)` returns 1, and `wri_doc_tab_set(20, 0)` stores 20 in
entry 0, over the imported tab. -/
theorem imported_tabs_not_counted :
    (∀ (a : List TBD) (s : State), (_wri_set_tabs a s).nTabs = s.nTabs) ∧
    (tabs_imported.filter (fun t => t.dxa ≠ 0)).length = 1 ∧
    (_wri_set_tabs tabs_imported doc_empty).nTabs = 0 ∧
    (wri_doc_tab_clear 10 (_wri_set_tabs tabs_imported doc_empty)).1 = 1 ∧
    (wri_doc_tab_set 20 0 (_wri_set_tabs tabs_imported doc_empty)).1 = 0 ∧
    (wri_doc_tab_set 20 0 (_wri_set_tabs tabs_imported doc_empty)).2.tbd.map TBD.dxa
      = 20 :: List.replicate 13 0 :=
  ⟨fun _ _ => rfl, by decide, by decide, by decide, by decide, by decide⟩

/-! ### In and out of a scripted mode -/

theorem wri_char_reduce_ok (s : State) (ha : AllocOK s) :
    (wri_char_reduce s).1 = 0 ∧ AllocOK (wri_char_reduce s).2 ∧
    chp_curr (wri_char_reduce s).2 = { chp_curr s with hps := reduce_hps (chp_curr s).hps } := by
  unfold wri_char_reduce reduce_hps
  by_cases h : (chp_curr s).hps ≤ hps_values.getD 0 0
  · rw [if_pos h, if_pos h]
    exact ⟨rfl, ha, rfl⟩
  · rw [if_neg h, if_neg h]
    dsimp only
    obtain ⟨c1, c2, c3⟩ := new_chp_set_ok s (fun s1 => { chp_curr s1 with
      hps := hps_values.getD (reduce_loop (chp_curr s).hps (N_HPS_VALUES - 1)).toNat 0 }) ha
    refine ⟨c1, (same_paragraphs_carries _ _ c3).2.2 ha, c2.trans ?_⟩
    dsimp only
    rw [(new_chp_ok s ha).2]

theorem wri_char_enlarge_ok (s : State) (ha : AllocOK s) :
    (wri_char_enlarge s).1 = 0 ∧ AllocOK (wri_char_enlarge s).2 ∧
    chp_curr (wri_char_enlarge s).2
      = { chp_curr s with hps := enlarge_hps (chp_curr s).hps } := by
  unfold wri_char_enlarge enlarge_hps
  by_cases h : (chp_curr s).hps ≥ hps_values.getD (N_HPS_VALUES - 1) 0
  · rw [if_pos h, if_pos h]
    exact ⟨rfl, ha, rfl⟩
  · rw [if_neg h, if_neg h]
    dsimp only
    obtain ⟨c1, c2, c3⟩ := new_chp_set_ok s (fun s1 => { chp_curr s1 with
      hps := hps_values.getD (enlarge_loop (chp_curr s).hps N_HPS_VALUES 0) 0 }) ha
    refine ⟨c1, (same_paragraphs_carries _ _ c3).2.2 ha, c2.trans ?_⟩
    dsimp only
    rw [(new_chp_ok s ha).2]

theorem wri_char_script_ok (s : State) (v : Int) (ha : AllocOK s)
    (hv : v = WRI_NORMAL ∨ v = WRI_SUBSCRIPT ∨ v = WRI_SUPERSCRIPT)
    (hne : (chp_curr s).hpsPos ≠ v.toNat) :
    (wri_char_script v s).1 = 0 ∧ AllocOK (wri_char_script v s).2 ∧
    chp_curr (wri_char_script v s).2 = { chp_curr s with
      hps := script_hps (chp_curr s).hpsPos v (chp_curr s).hps, hpsPos := v.toNat } := by
  have hvalid : ¬ (v ≠ WRI_NORMAL ∧ v ≠ WRI_SUBSCRIPT ∧ v ≠ WRI_SUPERSCRIPT) := by
    rcases hv with h | h | h <;> simp [h, WRI_NORMAL, WRI_SUBSCRIPT, WRI_SUPERSCRIPT]
  have hmod : v.toNat % 256 = v.toNat := by
    rcases hv with h | h | h <;> simp [h, WRI_NORMAL, WRI_SUBSCRIPT, WRI_SUPERSCRIPT]
  have hr : ∃ r : Int × State,
      (if (chp_curr s).hpsPos = 0 ∧ v ≠ WRI_NORMAL then wri_char_reduce s
        else if (chp_curr s).hpsPos ≠ 0 ∧ v = WRI_NORMAL then wri_char_enlarge s
        else (0, s)) = r ∧ r.1 = 0 ∧ AllocOK r.2 ∧
      chp_curr r.2 = { chp_curr s with
        hps := script_hps (chp_curr s).hpsPos v (chp_curr s).hps } := by
    unfold script_hps
    by_cases c1 : (chp_curr s).hpsPos = 0 ∧ v ≠ WRI_NORMAL
    · rw [if_pos c1, if_pos c1]
      exact ⟨_, rfl, wri_char_reduce_ok s ha⟩
    · rw [if_neg c1, if_neg c1]
      by_cases c2 : (chp_curr s).hpsPos ≠ 0 ∧ v = WRI_NORMAL
      · rw [if_pos c2, if_pos c2]
        exact ⟨_, rfl, wri_char_enlarge_ok s ha⟩
      · rw [if_neg c2, if_neg c2]
        exact ⟨_, rfl, rfl, ha, rfl⟩
  obtain ⟨r, hr0, hr1, hr2, hr3⟩ := hr
  unfold wri_char_script
  rw [if_neg hvalid, if_neg hne]
  dsimp only
  rw [hr0, if_neg (by rw [hr1]; decide), hmod]
  obtain ⟨c1, c2, c3⟩ := new_chp_set_ok r.2 (fun s1 => { chp_curr s1 with hpsPos := v.toNat }) hr2
  refine ⟨c1, (same_paragraphs_carries _ _ c3).2.2 hr2, c2.trans ?_⟩
  dsimp only
  rw [(new_chp_ok r.2 hr2).2, hr3]

set_option maxRecDepth 100000 in
theorem script_round_values :
    ∀ h : Nat, h < 256 →
      ((enlarge_hps (reduce_hps h) = h ↔ h ∈ [16, 20, 24, 28, 36, 48, 60, 72, 96]) ∧
       (h = 12 → enlarge_hps (reduce_hps h) = 16)) := by
  decide

/-- C35. Scripted-mode round trip: from a run in normal mode with a size `h`
below 256, with a working allocator, `wri_char_script` to subscript or
superscript followed by `wri_char_script(WRI_NORMAL)` both return 0, and the
size of the current run is `h` again if and only if `h` is one of 16, 20, 24,
28, 36, 48, 60, 72, 96; from 12 it ends at 16. -/
theorem script_round_trip (s : State) (v : Int) (ha : AllocOK s)
    (hv : v = WRI_SUBSCRIPT ∨ v = WRI_SUPERSCRIPT) (hpos : (chp_curr s).hpsPos = 0)
    (hh : (chp_curr s).hps < 256) :
    (wri_char_script v s).1 = 0 ∧
    (wri_char_script WRI_NORMAL (wri_char_script v s).2).1 = 0 ∧
    (chp_curr (wri_char_script WRI_NORMAL (wri_char_script v s).2).2).hpsPos = 0 ∧
    ((chp_curr (wri_char_script WRI_NORMAL (wri_char_script v s).2).2).hps = (chp_curr s).hps ↔
      (chp_curr s).hps ∈ [16, 20, 24, 28, 36, 48, 60, 72, 96]) ∧
    ((chp_curr s).hps = 12 →
      (chp_curr (wri_char_script WRI_NORMAL (wri_char_script v s).2).2).hps = 16) := by
  have hv0 : v ≠ WRI_NORMAL ∧ v.toNat ≠ 0 := by
    rcases hv with h | h <;> simp [h, WRI_NORMAL, WRI_SUBSCRIPT, WRI_SUPERSCRIPT]
  obtain ⟨a1, a2, a3⟩ := wri_char_script_ok s v ha (Or.inr hv) (by rw [hpos]; exact hv0.2.symm)
  have hp1 : (chp_curr (wri_char_script v s).2).hpsPos = v.toNat := by rw [a3]
  have hh1 : (chp_curr (wri_char_script v s).2).hps = reduce_hps (chp_curr s).hps := by
    rw [a3]
    show script_hps (chp_curr s).hpsPos v (chp_curr s).hps = _
    unfold script_hps
    rw [if_pos ⟨hpos, hv0.1⟩]
  obtain ⟨b1, -, b3⟩ := wri_char_script_ok (wri_char_script v s).2 WRI_NORMAL a2 (Or.inl rfl)
    (by rw [hp1]; exact hv0.2)
  have hh2 : (chp_curr (wri_char_script WRI_NORMAL (wri_char_script v s).2).2).hps
      = enlarge_hps (reduce_hps (chp_curr s).hps) := by
    rw [b3]
    show script_hps (chp_curr (wri_char_script v s).2).hpsPos WRI_NORMAL
      (chp_curr (wri_char_script v s).2).hps = _
    unfold script_hps
    rw [if_neg (fun c => c.2 rfl), if_pos ⟨by rw [hp1]; exact hv0.2, rfl⟩, hh1]
  have hp2 : (chp_curr (wri_char_script WRI_NORMAL (wri_char_script v s).2).2).hpsPos = 0 := by
    rw [b3]
    rfl
  obtain ⟨r1, r2⟩ := script_round_values (chp_curr s).hps hh
  rw [hh2]
  exact ⟨a1, b1, hp2, r1, r2⟩

set_option maxRecDepth 1000000 in
/-- Witness for C35 on `doc_abc`, whose current run is normal with size 24:
superscript and back ends at size 24. -/
theorem script_round_trip_witness :
    AllocOK doc_abc ∧ (chp_curr doc_abc).hpsPos = 0 ∧ (chp_curr doc_abc).hps = 24 ∧
    (chp_curr (wri_char_script WRI_NORMAL (wri_char_script WRI_SUPERSCRIPT doc_abc).2).2).hps
      = 24 :=
  ⟨by unfold AllocOK; decide, by decide, by decide,
   ((script_round_trip doc_abc WRI_SUPERSCRIPT (by unfold AllocOK; decide) (Or.inr rfl)
      (by decide) (by decide)).2.2.2.1.mpr (by decide)).trans (by decide)⟩

/-! ### The font table: name to code -/

theorem strcasecmp_eq_self (a : List Nat) : strcasecmp_eq a a = true := by
  simp [strcasecmp_eq]

theorem strcasecmp_eq_congr (a b : List Nat) (h : strcasecmp_eq a b = true) (n : List Nat) :
    strcasecmp_eq n a = strcasecmp_eq n b := by
  simp only [strcasecmp_eq, beq_iff_eq] at h
  simp only [strcasecmp_eq, h]

theorem cvt_font_found (s : State) (name : List Nat) (ffid i : Nat)
    (h : s.ffntb.findIdx? (fun f => strcasecmp_eq f.font_name name) = some i) :
    (_wri_cvt_font_name_to_code name ffid s).1 = i ∧
    font_names (_wri_cvt_font_name_to_code name ffid s).2 = font_names s ∧
    NFontsUsed (_wri_cvt_font_name_to_code name ffid s).2 = NFontsUsed s := by
  unfold _wri_cvt_font_name_to_code
  rw [h]
  dsimp only
  obtain ⟨hi, -, -⟩ := List.findIdx?_eq_some_iff_getElem.mp h
  split_ifs
  · refine ⟨rfl, ?_, ?_⟩
    · unfold font_names
      dsimp only
      apply List.ext_getElem?
      intro j
      simp only [List.getElem?_map, List.getElem?_set]
      by_cases hj : i = j
      · subst hj
        simp [hi, List.getD_eq_getElem?_getD]
      · simp [hj]
    · unfold NFontsUsed
      dsimp only
      rw [List.length_set]
  · exact ⟨rfl, rfl, rfl⟩

theorem cvt_font_added (s : State) (name : List Nat) (ffid : Nat)
    (h : s.ffntb.findIdx? (fun f => strcasecmp_eq f.font_name name) = none)
    (hn : NFontsUsed s < MAX_FONTS) (ha : alloc_succeeds s) :
    (_wri_cvt_font_name_to_code name ffid s).1 = NFontsUsed s ∧
    font_names (_wri_cvt_font_name_to_code name ffid s).2 = font_names s ++ [name] := by
  unfold _wri_cvt_font_name_to_code
  rw [h]
  dsimp only
  rw [if_neg (by omega), malloc_of_succeeds s ha]
  dsimp only
  refine ⟨rfl, ?_⟩
  unfold font_names
  dsimp only
  rw [List.map_append]
  rfl

theorem cvt_font_full (s : State) (name : List Nat) (ffid : Nat)
    (h : s.ffntb.findIdx? (fun f => strcasecmp_eq f.font_name name) = none)
    (hn : NFontsUsed s ≥ MAX_FONTS) :
    _wri_cvt_font_name_to_code name ffid s = (-1, s) := by
  unfold _wri_cvt_font_name_to_code
  rw [h]
  dsimp only
  rw [if_pos hn]

theorem malloc_of_fails (s : State) (ha : ¬ alloc_succeeds s) :
    malloc s = (false, { s with malloc_ok := s.malloc_ok.tail }) := by
  unfold malloc
  have : s.malloc_ok.headD true = false := by
    unfold alloc_succeeds at ha
    simpa using ha
  rw [this]

theorem cvt_font_none_fails (s : State) (name : List Nat) (ffid : Nat)
    (h : s.ffntb.findIdx? (fun f => strcasecmp_eq f.font_name name) = none)
    (ha : ¬ alloc_succeeds s) :
    (_wri_cvt_font_name_to_code name ffid s).1 = -1 ∧
    font_names (_wri_cvt_font_name_to_code name ffid s).2 = font_names s := by
  unfold _wri_cvt_font_name_to_code
  rw [h]
  dsimp only
  by_cases hfull : NFontsUsed s ≥ MAX_FONTS
  · rw [if_pos hfull]
    exact ⟨rfl, rfl⟩
  · rw [if_neg hfull, malloc_of_fails s ha]
    exact ⟨rfl, rfl⟩

theorem font_names_findIdx (s : State) (name : List Nat) :
    s.ffntb.findIdx? (fun f => strcasecmp_eq f.font_name name)
      = (font_names s).findIdx? (fun n => strcasecmp_eq n name) := by
  unfold font_names
  rw [List.findIdx?_map]
  rfl

/-- What a call that does not fail leaves: the code is the index of the first
entry of the resulting table with that name, ignoring case. -/
theorem cvt_font_code (s : State) (name : List Nat) (ffid : Nat)
    (hn : NFontsUsed s ≤ MAX_FONTS)
    (hr : (_wri_cvt_font_name_to_code name ffid s).1 ≠ -1) :
    ∃ c : Nat, (_wri_cvt_font_name_to_code name ffid s).1 = c ∧ c < MAX_FONTS ∧
      (font_names (_wri_cvt_font_name_to_code name ffid s).2).findIdx?
        (fun n => strcasecmp_eq n name) = some c := by
  cases h : s.ffntb.findIdx? (fun f => strcasecmp_eq f.font_name name) with
  | some i =>
    obtain ⟨a1, a2, -⟩ := cvt_font_found s name ffid i h
    obtain ⟨hi, -, -⟩ := List.findIdx?_eq_some_iff_getElem.mp h
    refine ⟨i, a1, ?_, ?_⟩
    · unfold NFontsUsed at hn
      omega
    · rw [a2, ← font_names_findIdx, h]
  | none =>
    by_cases ha : alloc_succeeds s
    · by_cases hfull : NFontsUsed s < MAX_FONTS
      · obtain ⟨a1, a2⟩ := cvt_font_added s name ffid h hfull ha
        refine ⟨NFontsUsed s, a1, hfull, ?_⟩
        rw [a2, List.findIdx?_append, ← font_names_findIdx, h]
        simp [strcasecmp_eq_self, font_names, NFontsUsed]
      · rw [cvt_font_full s name ffid h (by omega)] at hr
        exact absurd rfl hr
    · exact absurd (cvt_font_none_fails s name ffid h ha).1 hr

/-- C31. `_wri_cvt_font_name_to_code(name, ffid)` on a table of at most 64
entries: when an entry has that name ignoring case, the index of the first
such entry is returned and the names and their number stay; when none has it,
there are fewer than 64 entries and `malloc` succeeds, the name is appended
and the former number of entries returned; when none has it and the table is
full, -1 is returned and nothing changes.  The names already in the table stay
where they are in every case.  A code other than -1 lies in `0..63`, and a
lookup of the same name in any letter case, in any table that starts with the
names of the resulting one, returns the same code. -/
theorem cvt_font_name_spec (s : State) (name : List Nat) (ffid : Nat)
    (hn : NFontsUsed s ≤ MAX_FONTS) :
    (∀ (i : Nat) (f : font), s.ffntb[i]? = some f → strcasecmp_eq f.font_name name = true →
      (∀ (j : Nat) (g : font), j < i → s.ffntb[j]? = some g →
        strcasecmp_eq g.font_name name = false) →
      (_wri_cvt_font_name_to_code name ffid s).1 = i ∧
      font_names (_wri_cvt_font_name_to_code name ffid s).2 = font_names s ∧
      NFontsUsed (_wri_cvt_font_name_to_code name ffid s).2 = NFontsUsed s) ∧
    ((∀ f ∈ s.ffntb, strcasecmp_eq f.font_name name = false) → NFontsUsed s < MAX_FONTS →
      alloc_succeeds s →
      (_wri_cvt_font_name_to_code name ffid s).1 = NFontsUsed s ∧
      font_names (_wri_cvt_font_name_to_code name ffid s).2 = font_names s ++ [name]) ∧
    ((∀ f ∈ s.ffntb, strcasecmp_eq f.font_name name = false) → NFontsUsed s = MAX_FONTS →
      _wri_cvt_font_name_to_code name ffid s = (-1, s)) ∧
    font_names s <+: font_names (_wri_cvt_font_name_to_code name ffid s).2 ∧
    ((_wri_cvt_font_name_to_code name ffid s).1 ≠ -1 →
      0 ≤ (_wri_cvt_font_name_to_code name ffid s).1 ∧
      (_wri_cvt_font_name_to_code name ffid s).1 < 64 ∧
      ∀ (t : State) (name2 : List Nat) (ffid2 : Nat),
        font_names (_wri_cvt_font_name_to_code name ffid s).2 <+: font_names t →
        strcasecmp_eq name2 name = true →
        (_wri_cvt_font_name_to_code name2 ffid2 t).1
          = (_wri_cvt_font_name_to_code name ffid s).1) := by
  refine ⟨?_, ?_, ?_, ?_, ?_⟩
  · intro i f hf hm hfirst
    have hi : i < s.ffntb.length := (List.getElem?_eq_some_iff.mp hf).1
    have hfi : s.ffntb[i] = f := (List.getElem?_eq_some_iff.mp hf).2
    apply cvt_font_found
    rw [List.findIdx?_eq_some_iff_getElem]
    refine ⟨hi, by rw [hfi]; exact hm, ?_⟩
    intro j hj
    have := hfirst j s.ffntb[j] hj (List.getElem?_eq_getElem (by omega))
    rw [this]
    decide
  · intro hnone hroom ha
    exact cvt_font_added s name ffid (List.findIdx?_eq_none_iff.mpr hnone) hroom ha
  · intro hnone hfull
    exact cvt_font_full s name ffid (List.findIdx?_eq_none_iff.mpr hnone) (by omega)
  · cases h : s.ffntb.findIdx? (fun f => strcasecmp_eq f.font_name name) with
    | some i =>
      rw [(cvt_font_found s name ffid i h).2.1]
    | none =>
      by_cases ha : alloc_succeeds s
      · by_cases hfull : NFontsUsed s < MAX_FONTS
        · rw [(cvt_font_added s name ffid h hfull ha).2]
          exact List.prefix_append _ _
        · rw [cvt_font_full s name ffid h (by omega)]
      · rw [(cvt_font_none_fails s name ffid h ha).2]
  · intro hr
    obtain ⟨c, hc1, hc2, hc3⟩ := cvt_font_code s name ffid hn hr
    rw [hc1]
    refine ⟨by omega, by unfold MAX_FONTS at hc2; omega, ?_⟩
    intro t name2 ffid2 hpre heq
    obtain ⟨ext, hext⟩ := hpre
    have hfind : t.ffntb.findIdx? (fun f => strcasecmp_eq f.font_name name2) = some c := by
      rw [font_names_findIdx, ← hext, List.findIdx?_append]
      have hp : (fun n => strcasecmp_eq n name2) = (fun n => strcasecmp_eq n name) := by
        funext n
        exact strcasecmp_eq_congr name2 name heq n
      rw [hp, hc3]
      rfl
    rw [(cvt_font_found t name2 ffid2 c hfind).1]

set_option maxRecDepth 1000000 in
/-- Witness for C31 on the table of a reset document, which holds "Arial" only:
"arial" has the code 0, "Courier" is added with the code 1, and "arial" still
has the code 0 in the table with "Courier". -/
theorem cvt_font_name_spec_witness :
    NFontsUsed doc_empty ≤ MAX_FONTS ∧
    (_wri_cvt_font_name_to_code name_arial 0 doc_empty).1 = 0 ∧
    (_wri_cvt_font_name_to_code name_courier 0 doc_empty).1 = 1 ∧
    (_wri_cvt_font_name_to_code name_arial 0
      (_wri_cvt_font_name_to_code name_courier 0 doc_empty).2).1 = 0 :=
  ⟨by decide,
   ((cvt_font_name_spec doc_empty name_arial 0 (by decide)).1 0
      { ffid := 32, font_name := [65, 114, 105, 97, 108] } (by decide) (by decide)
      (fun j _ hj => absurd hj (by omega))).1,
   ((cvt_font_name_spec doc_empty name_courier 0 (by decide)).2.1 (by decide) (by decide)
      rfl).1,
   by decide⟩

/-! ### What `wri_text` appends outside a header or footer -/

theorem clone_pap_text_frame (s : State) :
    (clone_pap s).2.text_fp = s.text_fp ∧ (clone_pap s).2._wri_in_rhc = s._wri_in_rhc ∧
    (clone_pap s).2._wri_cpMac = s._wri_cpMac := by
  unfold clone_pap malloc
  cases s.malloc_ok.headD true
  · exact ⟨rfl, rfl, rfl⟩
  · exact ⟨rfl, rfl, rfl⟩

theorem new_paragraph_text_frame (s : State) :
    (_wri_new_paragraph s).2.text_fp = s.text_fp ∧
    (_wri_new_paragraph s).2._wri_in_rhc = s._wri_in_rhc ∧
    (_wri_new_paragraph s).2._wri_cpMac = s._wri_cpMac := by
  unfold _wri_new_paragraph _wri_new_lprop malloc
  cases s.malloc_ok.headD true
  · exact ⟨rfl, rfl, rfl⟩
  · dsimp only
    split_ifs
    · generalize hs3 : set_pap_curr _ _ = s3
      have e1 : s3.text_fp = s.text_fp := by rw [← hs3]; rfl
      have e2 : s3._wri_in_rhc = s._wri_in_rhc := by rw [← hs3]; rfl
      have e3 : s3._wri_cpMac = s._wri_cpMac := by rw [← hs3]; rfl
      obtain ⟨c1, c2, c3⟩ := clone_pap_text_frame s3
      rcases hq : clone_pap s3 with ⟨b, s4⟩
      rw [hq] at c1 c2 c3
      dsimp only at c1 c2 c3
      cases b
      · dsimp only
        exact ⟨c1.trans e1, c2.trans e2, c3.trans e3⟩
      · dsimp only
        exact ⟨c1.trans e1, c2.trans e2, c3.trans e3⟩
    · exact ⟨rfl, rfl, rfl⟩

theorem new_paragraph_step (L : Nat) (s2 : State) (ha : AllocOK s2) :
    ∃ s4, _wri_new_paragraph (_wri_extend_pap L s2) = (0, s4) ∧ AllocOK s4 ∧
      s4.text_fp = s2.text_fp ∧ s4._wri_in_rhc = s2._wri_in_rhc ∧
      s4._wri_cpMac = s2._wri_cpMac := by
  have a1 : AllocOK (_wri_extend_pap L s2) := ha
  obtain ⟨n1, n2, -⟩ := new_paragraph_shape _ a1
  obtain ⟨t1, t2, t3⟩ := new_paragraph_text_frame (_wri_extend_pap L s2)
  generalize _wri_new_paragraph (_wri_extend_pap L s2) = r at n1 n2 t1 t2 t3
  obtain ⟨b, s4⟩ := r
  dsimp only at n1 n2 t1 t2 t3
  subst n1
  exact ⟨s4, rfl, n2, t1, t2, t3⟩

theorem do_text_loop_newline (rest : List Nat) (s : State) :
    do_text_loop (10 :: rest) s =
      (match _wri_new_paragraph (_wri_extend_pap (s._wri_cpMac + 2)
          { s with text_fp := s.text_fp.map (fun f => f ++ [13, 10]),
                   _wri_cpMac := s._wri_cpMac + 2 }) with
       | (r, s4) => if r ≠ 0 then (1, s4) else do_text_loop rest s4) := by
  have e : ({ putc 10 { putc 13 s with _wri_cpMac := s._wri_cpMac + 1 } with
        _wri_cpMac := s._wri_cpMac + 1 + 1 } : State)
      = { s with text_fp := s.text_fp.map (fun f => f ++ [13, 10]),
                 _wri_cpMac := s._wri_cpMac + 2 } := by
    unfold putc
    cases hf : s.text_fp with
    | none => simp [hf]
    | some f => simp [hf]
  rw [← e]
  rfl

theorem do_text_loop_formfeed (rest : List Nat) (s : State) :
    do_text_loop (12 :: rest) s =
      (match _wri_new_paragraph (_wri_extend_pap (s._wri_cpMac + 1)
          { putc 12 s with _wri_cpMac := s._wri_cpMac + 1 }) with
       | (r, s4) => if r ≠ 0 then (1, s4) else do_text_loop rest s4) := rfl

theorem do_text_loop_normalised (text : List Nat) :
    ∀ (s : State) (f : List Nat), AllocOK s → s._wri_in_rhc = 0 → s.text_fp = some f →
      (do_text_loop text s).1 = 0 ∧ AllocOK (do_text_loop text s).2 ∧
      (do_text_loop text s).2._wri_in_rhc = 0 ∧
      (do_text_loop text s).2.text_fp = some (f ++ text_normalised text) ∧
      (do_text_loop text s).2._wri_cpMac = s._wri_cpMac + (text_normalised text).length := by
  induction text with
  | nil =>
    intro s f ha hin hf
    exact ⟨rfl, ha, hin, by simp [do_text_loop, text_normalised, hf], rfl⟩
  | cons c rest ih =>
    intro s f ha hin hf
    by_cases h10 : c = 10
    · subst h10
      obtain ⟨s4, e4, a4, f4, i4, c4⟩ := new_paragraph_step (s._wri_cpMac + 2)
        { s with text_fp := s.text_fp.map (fun f => f ++ [13, 10]),
                 _wri_cpMac := s._wri_cpMac + 2 } ha
      have hn : text_normalised (10 :: rest) = 13 :: 10 :: text_normalised rest := rfl
      rw [do_text_loop_newline, e4, hn]
      dsimp only
      rw [if_neg (by decide)]
      obtain ⟨r1, r2, r3, r4, r5⟩ := ih s4 (f ++ [13, 10]) a4 (i4.trans hin)
        (by rw [f4]; simp [hf])
      refine ⟨r1, r2, r3, ?_, ?_⟩
      · rw [r4]; simp
      · rw [r5, c4]
        simp only [List.length_cons]
        omega
    · by_cases h12 : c = 12
      · subst h12
        obtain ⟨s4, e4, a4, f4, i4, c4⟩ := new_paragraph_step (s._wri_cpMac + 1)
          { putc 12 s with _wri_cpMac := s._wri_cpMac + 1 } ha
        have hn : text_normalised (12 :: rest) = 12 :: text_normalised rest := rfl
        rw [do_text_loop_formfeed, e4, hn]
        dsimp only
        rw [if_neg (by decide)]
        obtain ⟨r1, r2, r3, r4, r5⟩ := ih s4 (f ++ [12]) a4 (i4.trans hin)
          (by rw [f4]; simp [putc, hf])
        refine ⟨r1, r2, r3, ?_, ?_⟩
        · rw [r4]; simp
        · rw [r5, c4]
          simp only [List.length_cons]
          show s._wri_cpMac + 1 + _ = _
          omega
      · by_cases hdrop : c = 13 ∨ (c ≠ 9 ∧ c < 32)
        · have hL : do_text_loop (c :: rest) s = do_text_loop rest s := by
            rw [do_text_loop]
            by_cases h13 : c = 13
            · rw [if_pos h13]
            · rw [if_neg h13]
              by_cases h1 : c = 1 ∧ s._wri_in_rhc = 0
              · rw [if_pos h1]
              · rw [if_neg h1]
                have hc1 : c ≠ 1 := fun h => h1 ⟨h, hin⟩
                rw [if_pos (by omega)]
          have hN : text_normalised (c :: rest) = text_normalised rest := by
            rw [text_normalised]
            by_cases h13 : c = 13
            · rw [if_pos h13]
            · rw [if_neg h13, if_neg h10, if_neg (by omega), if_pos (by omega)]
          rw [hL, hN]
          exact ih s f ha hin hf
        · have hL : do_text_loop (c :: rest) s
              = do_text_loop rest { putc c s with _wri_cpMac := s._wri_cpMac + 1 } := by
            rw [do_text_loop]
            rw [if_neg (by omega), if_neg (by omega), if_neg (by omega)]
            dsimp only
            rw [if_neg h10, if_neg (by omega)]
          have hN : text_normalised (c :: rest) = c :: text_normalised rest := by
            rw [text_normalised]
            rw [if_neg (by omega), if_neg h10]
            by_cases h9 : c = 12 ∨ c = 9
            · rw [if_pos h9]
            · rw [if_neg h9, if_neg (by omega)]
          have f2 : ({ putc c s with _wri_cpMac := s._wri_cpMac + 1 } : State).text_fp
              = some (f ++ [c]) := by
            simp [putc, hf]
          obtain ⟨r1, r2, r3, r4, r5⟩ := ih { putc c s with _wri_cpMac := s._wri_cpMac + 1 }
            (f ++ [c]) ha hin f2
          rw [hL, hN]
          refine ⟨r1, r2, r3, ?_, ?_⟩
          · rw [r4]; simp
          · rw [r5]
            simp only [List.length_cons]
            show s._wri_cpMac + 1 + _ = _
            omega

theorem text_normalised_filter (t : List Nat) :
    text_normalised (t.filter (fun c => c ≠ 13)) = text_normalised t := by
  induction t with
  | nil => rfl
  | cons c rest ih =>
    by_cases h13 : c = 13
    · rw [List.filter_cons_of_neg (by simpa using h13), ih]
      rw [text_normalised.eq_2, if_pos h13]
    · rw [List.filter_cons_of_pos (by simpa using h13)]
      rw [text_normalised.eq_2, text_normalised.eq_2, ih]

theorem do_text_normalised (text : List Nat) (s : State) (f : List Nat) (ha : AllocOK s)
    (hin : s._wri_in_rhc = 0) (hf : s.text_fp = some f) :
    (do_text text s).1 = 0 ∧
    (do_text text s).2.text_fp = some (f ++ text_normalised text) ∧
    (do_text text s).2._wri_cpMac = s._wri_cpMac + (text_normalised text).length := by
  obtain ⟨r1, -, r3, r4, r5⟩ := do_text_loop_normalised text s f ha hin hf
  unfold do_text
  generalize do_text_loop text s = r at r1 r3 r4 r5
  obtain ⟨b, s1⟩ := r
  dsimp only at r1 r3 r4 r5 ⊢
  subst r1
  rw [if_neg (by decide)]
  dsimp only
  have hin2 : (_wri_extend_pap s1._wri_cpMac (_wri_extend_chp s1._wri_cpMac s1))._wri_in_rhc = 0 :=
    r3
  rw [if_pos hin2]
  exact ⟨rfl, r4, r5⟩

/-- C36. Text normalisation: outside a header or footer, with a working
allocator, `wri_text(text)` returns 0 and appends to the text exactly
`text_normalised text`: the string with every `'\r'` dropped, `'\r'` `'\n'` for
every `'\n'`, `'\f'` and `'\t'` kept, every other byte below 32 dropped and
every byte from 32 on kept; `_wri_cpMac` grows by the number of bytes
appended; and two strings that are equal once their `'\r'` are taken out append
the same bytes. -/
theorem wri_text_normalised (s : State) (text : List Nat) (ha : AllocOK s)
    (hin : s._wri_in_rhc = 0) :
    (wri_text text s).1 = 0 ∧
    (wri_text text s).2.text_fp = some (s.text_fp.getD [] ++ text_normalised text) ∧
    (wri_text text s).2._wri_cpMac = s._wri_cpMac + (text_normalised text).length ∧
    (∀ text2 : List Nat, text2.filter (fun c => c ≠ 13) = text.filter (fun c => c ≠ 13) →
      (wri_text text2 s).2.text_fp = (wri_text text s).2.text_fp) := by
  have key : ∀ t : List Nat, (wri_text t s).1 = 0 ∧
      (wri_text t s).2.text_fp = some (s.text_fp.getD [] ++ text_normalised t) ∧
      (wri_text t s).2._wri_cpMac = s._wri_cpMac + (text_normalised t).length := by
    intro t
    have hw : wri_text t s
        = do_text t (if s.text_fp = none then create_tempfile s else s) := by
      unfold wri_text
      rw [wri_text_fuel]
      dsimp only
      have hin2 : ¬ (if s.text_fp = none then create_tempfile s else s)._wri_in_rhc ≠ 0 := by
        split_ifs
        · exact fun h => h hin
        · exact fun h => h hin
      rw [if_neg hin2]
    rw [hw]
    cases hf : s.text_fp with
    | none =>
      rw [if_pos rfl]
      exact do_text_normalised t (create_tempfile s) [] ha hin rfl
    | some f =>
      rw [if_neg (by simp)]
      exact do_text_normalised t s f ha hin hf
  obtain ⟨k1, k2, k3⟩ := key text
  refine ⟨k1, k2, k3, ?_⟩
  intro text2 h2
  rw [(key text2).2.1, k2, ← text_normalised_filter text2, h2, text_normalised_filter]

set_option maxRecDepth 1000000 in
/-- Witness for C36 on the reset document: "a\001\r\nb" appends "a\r\nb", and
"\n", "\r\n" and "\n\r" append the same two bytes. -/
theorem wri_text_normalised_witness :
    AllocOK doc_empty ∧ doc_empty._wri_in_rhc = 0 ∧
    (wri_text [97, 1, 13, 10, 98] doc_empty).2.text_fp = some [97, 13, 10, 98] ∧
    text_normalised [10] = [13, 10] ∧ text_normalised [13, 10] = [13, 10] ∧
    text_normalised [10, 13] = [13, 10] :=
  ⟨by unfold AllocOK; decide, by decide,
   (wri_text_normalised doc_empty [97, 1, 13, 10, 98] (by unfold AllocOK; decide)
      (by decide)).2.1.trans (by decide),
   by decide, by decide, by decide⟩

/-! ### The cache of FPROPs of `_wri_save_pap` -/

theorem PackInv.cache_le {d : Bool} {pn0 : Nat} {k : Packer}
    {done : List (Nat × Option (List Nat))} (h : PackInv d pn0 k done) :
    9 * k.old_pap.length + k.space_left ≤ sizeof_rgFPROP := by
  have h1 := h.cache_count
  have h2 := h.space
  simp only [sizeof_FOD, sizeof_rgFPROP, PAGESIZE, sizeof_FC] at h1 h2 ⊢
  omega

/-- C40. The cache of `_wri_save_pap` never overflows.  At every point of the
loop over any list of paragraph runs: the cache holds at most
`MAX_PAPS_PER_PAGE` = 13 offsets; every FPROP that a FOD of the page under
construction designates is in the cache; and when an FPROP of `cch` bytes
(2 to 79) is about to be written, after room has been made for it, the cache
holds fewer than 13 offsets, so that `memorize_pap` stores the offset. -/
theorem dedup_cache_never_full (s : State) (area : List Nat) (pnPara : Nat)
    (runs : List lpap) (ha : area.length = sizeof_rgFPROP) (ht : s.tbd.length = itbdmax) :
    (save_pap_loop s runs (Packer.init area pnPara)).old_pap.length ≤ MAX_PAPS_PER_PAGE ∧
    (∀ f ∈ (save_pap_loop s runs (Packer.init area pnPara)).fkp.rgFOD, f.bfprop ≠ 65535 →
      f.bfprop ∈ (save_pap_loop s runs (Packer.init area pnPara)).old_pap) ∧
    (∀ (cch cpFirst o : Nat) (record : List Nat), 2 ≤ cch → cch ≤ sizeof_PAP →
      ((if sizeof_FOD + cch + 1 > (save_pap_loop s runs (Packer.init area pnPara)).space_left
          then (save_pap_loop s runs (Packer.init area pnPara)).new_page cpFirst
          else save_pap_loop s runs (Packer.init area pnPara)).write_fprop cch
            record).old_pap.length < MAX_PAPS_PER_PAGE ∧
      (memorize_pap o ((if sizeof_FOD + cch + 1
            > (save_pap_loop s runs (Packer.init area pnPara)).space_left
          then (save_pap_loop s runs (Packer.init area pnPara)).new_page cpFirst
          else save_pap_loop s runs (Packer.init area pnPara)).write_fprop cch record)).old_pap
        = ((if sizeof_FOD + cch + 1 > (save_pap_loop s runs (Packer.init area pnPara)).space_left
          then (save_pap_loop s runs (Packer.init area pnPara)).new_page cpFirst
          else save_pap_loop s runs (Packer.init area pnPara)).write_fprop cch
            record).old_pap ++ [o]) := by
  have hI := PackInv.pap_loop s ht runs (PackInv.init_ok true area pnPara ha)
  generalize save_pap_loop s runs (Packer.init area pnPara) = k at hI
  refine ⟨?_, ?_, ?_⟩
  · have := hI.cache_le
    simp only [sizeof_rgFPROP, PAGESIZE, sizeof_FC, MAX_PAPS_PER_PAGE, sizeof_FOD] at this ⊢
    omega
  · intro f hf hne
    exact hI.cache_fod rfl f hf hne
  · intro cch cpFirst o record h2 h79
    obtain ⟨hk1, hsl⟩ := hI.make_room cpFirst (sizeof_FOD + cch + 1)
      (by simp only [sizeof_FOD, sizeof_rgFPROP, PAGESIZE, sizeof_FC, sizeof_PAP] at h79 ⊢; omega)
    generalize (if sizeof_FOD + cch + 1 > k.space_left then k.new_page cpFirst else k) = k1
      at hk1 hsl
    have hlt : (k1.write_fprop cch record).old_pap.length < MAX_PAPS_PER_PAGE := by
      have := hk1.cache_le
      show k1.old_pap.length < MAX_PAPS_PER_PAGE
      simp only [sizeof_rgFPROP, PAGESIZE, sizeof_FC, MAX_PAPS_PER_PAGE, sizeof_FOD] at this hsl ⊢
      omega
    refine ⟨hlt, ?_⟩
    unfold memorize_pap
    rw [if_pos hlt]

set_option maxRecDepth 1000000 in
/-- Witness for C40 on `doc_sample` and a zeroed page buffer: after the loop
over its paragraph runs the cache holds two offsets. -/
theorem dedup_cache_never_full_witness :
    zero_area.length = sizeof_rgFPROP ∧ doc_sample.tbd.length = itbdmax ∧
    (save_pap_loop doc_sample (lpap_runs doc_sample) (Packer.init zero_area 3)).old_pap.length
      = 2 ∧
    (save_pap_loop doc_sample (lpap_runs doc_sample) (Packer.init zero_area 3)).old_pap.length
      ≤ MAX_PAPS_PER_PAGE :=
  ⟨by decide, by decide, by decide,
   (dedup_cache_never_full doc_sample zero_area 3 (lpap_runs doc_sample) (by decide)
      (by decide)).1⟩

/-! ### The chain of the pages -/

theorem covers_limits {α : Type} (R : List (lprop α)) :
    ∀ a e : Nat, covers a R e → (∀ r ∈ R, r.cpFirst ≠ r.cpLim) →
      (R.map (fun r => r.cpLim + PAGESIZE)).Pairwise (fun x y => x < y) ∧
      (∀ x ∈ R.map (fun r => r.cpLim + PAGESIZE), a + PAGESIZE < x) ∧
      (R ≠ [] → (R.map (fun r => r.cpLim + PAGESIZE)).getLast? = some (e + PAGESIZE)) := by
  induction R with
  | nil =>
    intro a e _ _
    exact ⟨List.Pairwise.nil, fun x hx => absurd hx (List.not_mem_nil x), fun h => absurd rfl h⟩
  | cons r rs ih =>
    intro a e hc hne
    obtain ⟨c1, c2, c3⟩ := hc
    have hr := hne r (List.mem_cons_self _ _)
    obtain ⟨i1, i2, i3⟩ := ih r.cpLim e c3 (fun x hx => hne x (List.mem_cons_of_mem _ hx))
    refine ⟨?_, ?_, ?_⟩
    · rw [List.map_cons, List.pairwise_cons]
      exact ⟨i2, i1⟩
    · intro x hx
      rw [List.map_cons] at hx
      rcases List.mem_cons.mp hx with hx | hx
      · rw [hx]; omega
      · have := i2 x hx
        omega
    · intro _
      cases rs with
      | nil =>
        have h0 : r.cpLim = e := c3
        rw [← h0]
        rfl
      | cons y ys =>
        have := i3 (List.cons_ne_nil _ _)
        rw [List.map_cons, List.map_cons, List.getLast?_cons_cons]
        rw [List.map_cons] at this
        exact this

theorem chain_ok_init (area : List Nat) (pn : Nat) : (Packer.init area pn).chain_ok 0 := by
  refine ⟨?_, ?_, ?_⟩
  · intro p hp
    have hp2 : (Packer.init area pn).fkp = p := by simpa [Packer.init] using hp
    rw [← hp2]
    rfl
  · exact List.chain'_singleton _
  · simp [Packer.init]

theorem chain_ok_pack (d : Bool) (cpFirst cpLim : Nat) (record dflt : List Nat) (size : Nat)
    (k : Packer) (h : k.chain_ok cpFirst)
    (hw : ∀ p ∈ (pack_run d cpFirst cpLim record dflt size k).written, 1 ≤ p.cfod) :
    (pack_run d cpFirst cpLim record dflt size k).chain_ok cpLim := by
  obtain ⟨i1, i2, i3⟩ := h
  rcases pack_run_starts d cpFirst cpLim record dflt size k with ⟨w, f, m⟩ | ⟨w, f, m⟩
  · refine ⟨?_, ?_, ?_⟩
    · intro p hp
      rw [w] at hp
      cases hk : k.written with
      | nil =>
        rw [hk] at hp
        have hp2 : (pack_run d cpFirst cpLim record dflt size k).fkp = p := by simpa using hp
        rw [← hp2, f]
        exact i1 k.fkp (by rw [hk]; rfl)
      | cons a as =>
        rw [hk] at hp
        exact i1 p (by rw [hk]; exact hp)
    · rw [w]
      rw [List.chain'_append] at i2 ⊢
      refine ⟨i2.1, List.chain'_singleton _, ?_⟩
      intro x hx y hy
      have hy2 : y = (pack_run d cpFirst cpLim record dflt size k).fkp := by
        simpa using hy.symm
      rw [hy2, f]
      exact i2.2.2 x hx k.fkp (by simp)
    · rw [f, m, ← List.cons_append, List.getLast?_concat]
  · have hcf : 1 ≤ k.fkp.cfod := hw k.fkp (by rw [w]; simp)
    have hlast : k.fkp.rgFOD.getLast?.map FOD.fcLim = some (cpFirst + PAGESIZE) := by
      rw [← List.getLast?_map, ← i3]
      cases hf : k.fkp.rgFOD with
      | nil =>
        unfold FKP.cfod at hcf
        rw [hf] at hcf
        exact absurd hcf (by decide)
      | cons a as =>
        rw [List.map_cons, List.getLast?_cons_cons]
    refine ⟨?_, ?_, ?_⟩
    · intro p hp
      rw [w] at hp
      cases hh : (k.written ++ [k.fkp]).head? with
      | none => simp at hh
      | some q =>
        rw [head?_append_some _ _ q hh] at hp
        have hq := i1 q hh
        have : q = p := Option.some.inj hp
        rw [← this]
        exact hq
    · rw [w, List.chain'_append]
      refine ⟨i2, List.chain'_singleton _, ?_⟩
      intro x hx y hy
      have hx2 : x = k.fkp := by simpa using hx.symm
      have hy2 : y = (pack_run d cpFirst cpLim record dflt size k).fkp := by
        simpa using hy.symm
      rw [hx2, hy2, f]
      exact hlast
    · rw [f, m]
      rfl

theorem chain_ok_chp_loop {pn0 : Nat} (runs : List lchp) :
    ∀ (k : Packer) (a e : Nat) (done : List (Nat × Option (List Nat))),
      covers a runs e → PackInv false pn0 k done → k.chain_ok a →
      (save_chp_loop runs k).chain_ok e := by
  induction runs with
  | nil =>
    intro k a e done hc _ h
    have h0 : a = e := hc
    rw [← h0]
    exact h
  | cons r rs ih =>
    intro k a e done hc hI h
    obtain ⟨c1, c2, c3⟩ := hc
    have hstep : save_chp_loop (r :: rs) k = save_chp_loop rs (save_chp_run r k) := rfl
    rw [hstep, save_chp_run_eq]
    by_cases hemp : r.cpFirst = r.cpLim
    · rw [if_pos hemp]
      refine ih k r.cpLim e done c3 hI ?_
      rw [← hemp, c1]
      exact h
    · rw [if_neg hemp]
      have h1 := hI.pack_run_ok r.cpFirst r.cpLim r.prop.bytes _wri_default_chp.bytes sizeof_CHP
        (by decide) (by decide) (le_refl _)
      refine ih _ r.cpLim e _ c3 h1 ?_
      rw [← c1] at h
      exact chain_ok_pack false r.cpFirst r.cpLim _ _ _ k h (fun p hp => (h1.pages p hp).1.1)

theorem chain_ok_pap_loop {pn0 : Nat} (s : State) (ht : s.tbd.length = itbdmax)
    (runs : List lpap) :
    ∀ (k : Packer) (a e : Nat) (done : List (Nat × Option (List Nat))),
      covers a runs e → PackInv true pn0 k done → k.chain_ok a →
      (save_pap_loop s runs k).chain_ok e := by
  induction runs with
  | nil =>
    intro k a e done hc _ h
    have h0 : a = e := hc
    rw [← h0]
    exact h
  | cons r rs ih =>
    intro k a e done hc hI h
    obtain ⟨c1, c2, c3⟩ := hc
    have hstep : save_pap_loop s (r :: rs) k = save_pap_loop s rs (save_pap_run s r k) := rfl
    rw [hstep, save_pap_run_eq]
    by_cases hemp : r.cpFirst = r.cpLim
    · rw [if_pos hemp]
      refine ih k r.cpLim e done c3 hI ?_
      rw [← hemp, c1]
      exact h
    · rw [if_neg hemp]
      have h1 := hI.pack_run_ok r.cpFirst r.cpLim (save_pap_bytes s (pap_at s r.prop))
        _wri_default_pap_bytes sizeof_PAP (by decide) (by decide)
        (by rw [save_pap_bytes_length s _ ht])
      refine ih _ r.cpLim e _ c3 h1 ?_
      rw [← c1] at h
      exact chain_ok_pack true r.cpFirst r.cpLim _ _ _ k h (fun p hp => (h1.pages p hp).1.1)

theorem entries_limits (pages : List FKP) :
    (pages.map (fun p => p.rgFOD.map FOD.fcLim)).flatten
      = ((pages.map FKP.entries).flatten).map Prod.fst := by
  rw [List.map_flatten, List.map_map]
  congr 1
  apply List.map_congr_left
  intro p _
  simp [FKP.entries, Function.comp_def]

/-- From the invariants at the end of a loop to the chain of the pages
written, for a run list whose non-empty runs `R` leave the entries
`R.map E`. -/
theorem pages_chained_of {α : Type} {d : Bool} {pn0 : Nat} {k : Packer} (R : List (lprop α))
    (E : lprop α → Nat × Option (List Nat)) (hE : ∀ r, (E r).1 = r.cpLim + PAGESIZE)
    (L : Nat) (hL : 0 < L) (hc : covers 0 R L) (hne : ∀ r ∈ R, r.cpFirst ≠ r.cpLim)
    (hI : PackInv d pn0 k (R.map E)) (hch : k.chain_ok L) :
    pages_chained L pn0 k.finish.pn k.finish.written := by
  obtain ⟨-, hflat, hpn⟩ := hI.finish_ok
  obtain ⟨l1, l2, l3⟩ := covers_limits R 0 L hc hne
  have hR : R ≠ [] := by
    intro h
    rw [h] at hc
    have h0 : 0 = L := hc
    omega
  have hlims : (k.finish.written.map (fun p => p.rgFOD.map FOD.fcLim)).flatten
      = R.map (fun r => r.cpLim + PAGESIZE) := by
    rw [entries_limits, hflat, List.map_map]
    apply List.map_congr_left
    intro r _
    exact hE r
  have hpages : k.finish.written ≠ [] := by
    intro h
    rw [h] at hflat
    have : R.map E = [] := by simpa using hflat.symm
    exact hR (List.map_eq_nil_iff.mp this)
  obtain ⟨i1, i2, -⟩ := hch
  refine ⟨hpages, ?_, ?_, ?_, ?_, hpn, fun hlt => hpn.trans (Nat.mod_eq_of_lt hlt)⟩
  · intro p hp
    unfold Packer.finish at hp
    by_cases h0 : k.fkp.cfod ≠ 0
    · rw [if_pos h0] at hp
      exact i1 p hp
    · rw [if_neg h0] at hp
      exact i1 p (head?_append_some _ _ p hp)
  · unfold Packer.finish
    by_cases h0 : k.fkp.cfod ≠ 0
    · rw [if_pos h0]
      exact i2
    · rw [if_neg h0]
      exact (List.chain'_append.mp i2).1
  · rw [hlims]
    exact l1
  · rw [hlims]
    exact l3 hR

/-- C34, amended. Page chain continuity.  For a document whose character and
paragraph lists cover `[0, L)` without gaps, `L > 0`: the pages written by
`_wri_save_chp`, and likewise those written by `_wri_save_pap`, are at least
one; the first starts at file offset 128; every other page starts at the limit
of the last FOD of the page before it; the limits of all the FODs, in the
order of the pages, are strictly increasing and the last of them is `L + 128`;
and the page counter of the header, an `unsigned short`, is its value at the
start plus the number of pages written modulo 65536: it has grown by the
number of pages when that sum is below 65536. -/
theorem pages_chain_continuous (s : State) (area1 area2 : List Nat) (pnPara L : Nat)
    (hL : 0 < L) (hc : covers 0 (lchp_runs s) L) (hp : covers 0 (lpap_runs s) L)
    (ha1 : area1.length = sizeof_rgFPROP) (ha2 : area2.length = sizeof_rgFPROP)
    (ht : s.tbd.length = itbdmax) :
    pages_chained L ((s._wri_cpMac + PAGESIZE + PAGESIZE - 1) / PAGESIZE)
      (_wri_save_chp s area1).pn (_wri_save_chp s area1).written ∧
    pages_chained L pnPara (_wri_save_pap s area2 pnPara).2.pn
      (_wri_save_pap s area2 pnPara).2.written := by
  constructor
  · have hI := PackInv.chp_loop (lchp_runs s)
      (PackInv.init_ok false area1 ((s._wri_cpMac + PAGESIZE + PAGESIZE - 1) / PAGESIZE) ha1)
    have hch := chain_ok_chp_loop (lchp_runs s) _ 0 L [] hc
      (PackInv.init_ok false area1 ((s._wri_cpMac + PAGESIZE + PAGESIZE - 1) / PAGESIZE) ha1)
      (chain_ok_init area1 _)
    exact pages_chained_of (nonempty_runs (lchp_runs s))
      (fun r => run_entry r.cpLim r.prop.bytes _wri_default_chp.bytes sizeof_CHP)
      (fun _ => rfl) L hL (covers_filter _ 0 L hc)
      (fun r hr => (nonempty_runs_mem _ r hr).2) hI hch
  · have hI := PackInv.pap_loop (_wri_user_to_sep s) ht (lpap_runs (_wri_user_to_sep s))
      (PackInv.init_ok true area2 pnPara ha2)
    have hch := chain_ok_pap_loop (_wri_user_to_sep s) ht (lpap_runs (_wri_user_to_sep s)) _ 0 L []
      hp (PackInv.init_ok true area2 pnPara ha2) (chain_ok_init area2 _)
    exact pages_chained_of (nonempty_runs (lpap_runs s))
      (fun r => run_entry r.cpLim (save_pap_bytes (_wri_user_to_sep s)
        (pap_at (_wri_user_to_sep s) r.prop)) _wri_default_pap_bytes sizeof_PAP)
      (fun _ => rfl) L hL (covers_filter _ 0 L hp)
      (fun r hr => (nonempty_runs_mem _ r hr).2) hI hch

set_option maxRecDepth 1000000 in
/-- Witness for C34 on `doc_overflow`, whose lists cover `[0, 19)`, and a
zeroed page buffer: three pages of character information; the first starts at
128, the second at 137 and the third at 146, the limits of the last FODs of
the pages before them; the counter goes from 2 to 5. -/
theorem pages_chain_continuous_witness :
    0 < doc_overflow._wri_cpMac ∧ zero_area.length = sizeof_rgFPROP ∧
    doc_overflow.tbd.length = itbdmax ∧
    (_wri_save_chp doc_overflow zero_area).written.map
      (fun p => (p.fcFirst, p.rgFOD.map FOD.fcLim))
      = [(128, [129, 130, 131, 132, 133, 134, 135, 136, 137]),
         (137, [138, 139, 140, 141, 142, 143, 144, 145, 146]),
         (146, [147])] ∧
    (_wri_save_chp doc_overflow zero_area).pn = 5 ∧
    pages_chained doc_overflow._wri_cpMac
      ((doc_overflow._wri_cpMac + PAGESIZE + PAGESIZE - 1) / PAGESIZE)
      (_wri_save_chp doc_overflow zero_area).pn (_wri_save_chp doc_overflow zero_area).written ∧
    pages_chained doc_overflow._wri_cpMac 5 (_wri_save_pap doc_overflow zero_area 5).2.pn
      (_wri_save_pap doc_overflow zero_area 5).2.written :=
  ⟨by decide, by decide, by decide, by decide, by decide,
   pages_chain_continuous doc_overflow zero_area zero_area 5 doc_overflow._wri_cpMac (by decide)
    (run_calls_keeps Inv_closed calls_overflow _
      (wri_new_Inv (first_use []) (fun _ hb => absurd hb (List.not_mem_nil _)))).covers_runs.1
    (run_calls_keeps Inv_closed calls_overflow _
      (wri_new_Inv (first_use []) (fun _ hb => absurd hb (List.not_mem_nil _)))).covers_runs.2
    (by decide) (by decide) (by decide)⟩

/-- The loop of `do_text` over `n` letters `a` appends them and leaves the rest
of the state as it is. -/
theorem do_text_loop_letters (n : Nat) (s : State) :
    do_text_loop (List.replicate n 97) s =
      (0, { s with text_fp := s.text_fp.map (fun f => f ++ List.replicate n 97),
                   _wri_cpMac := s._wri_cpMac + n }) := by
  induction n generalizing s with
  | zero =>
    rw [List.replicate_zero, do_text_loop]
    cases s
    simp
  | succ n ih =>
    rw [List.replicate_succ, do_text_loop]
    rw [if_neg (by decide), if_neg (fun h => absurd h.1 (by decide)),
      if_neg (fun h => absurd h.2.2.2.2 (by decide))]
    dsimp only
    rw [if_neg (by decide), if_neg (by decide), ih]
    unfold putc
    cases s
    simp [Nat.add_assoc, Nat.add_comm 1 n]
    congr 1
    funext f
    simp

/-- After `wri_text` of `n` letters `a` outside a header or footer the current
runs end `n` characters further and nothing else has changed in the lists. -/
theorem wri_text_letters (n : Nat) (s : State) (hin : s._wri_in_rhc = 0) :
    (wri_text (List.replicate n 97) s).2._wri_cpMac = s._wri_cpMac + n ∧
    lchp_runs (wri_text (List.replicate n 97) s).2
      = s.lchp_list ++ [{ s.lchp_curr with cpLim := s._wri_cpMac + n }] ∧
    lpap_runs (wri_text (List.replicate n 97) s).2
      = s.lpap_list ++ [{ s.lpap_curr with cpLim := s._wri_cpMac + n }] := by
  have hw : wri_text (List.replicate n 97) s
      = do_text (List.replicate n 97) (if s.text_fp = none then create_tempfile s else s) := by
    unfold wri_text
    rw [wri_text_fuel]
    dsimp only
    have hin2 : ¬ (if s.text_fp = none then create_tempfile s else s)._wri_in_rhc ≠ 0 := by
      split_ifs
      · exact fun h => h hin
      · exact fun h => h hin
    rw [if_neg hin2]
  rw [hw]
  unfold do_text
  rw [do_text_loop_letters]
  dsimp only
  rw [if_neg (by decide)]
  dsimp only
  unfold lchp_runs lpap_runs _wri_extend_pap _wri_extend_chp
  split_ifs <;> exact ⟨rfl, rfl, rfl⟩

theorem save_chp_of_runs (s : State) (area : List Nat) (runs : List lchp) (L : Nat)
    (h1 : lchp_runs s = runs) (h2 : s._wri_cpMac = L) :
    _wri_save_chp s area = (runs.foldl (fun k r => save_chp_run r k)
      (Packer.init area ((L + PAGESIZE + PAGESIZE - 1) / PAGESIZE))).finish := by
  unfold _wri_save_chp
  rw [h1, h2]

set_option maxRecDepth 1000000 in
/-- After a reset and `wri_text` of `n` letters each list is one run covering
`[0, n)`. -/
theorem letters_after_reset (n : Nat) :
    (wri_text (List.replicate n 97) doc_empty).2._wri_cpMac = n ∧
    lchp_runs (wri_text (List.replicate n 97) doc_empty).2
      = [{ cpFirst := 0, cpLim := n, prop := _wri_default_chp }] ∧
    lpap_runs (wri_text (List.replicate n 97) doc_empty).2
      = [{ cpFirst := 0, cpLim := n, prop := 0 }] := by
  obtain ⟨h1, h2, h3⟩ := wri_text_letters n doc_empty (by decide)
  have c0 : doc_empty._wri_cpMac = 0 := by decide
  have c1 : doc_empty.lchp_list = [] := by decide
  have c2 : doc_empty.lchp_curr = { cpFirst := 0, cpLim := 0, prop := _wri_default_chp } := by
    decide
  have c3 : doc_empty.lpap_list = [] := by decide
  have c4 : doc_empty.lpap_curr = { cpFirst := 0, cpLim := 0, prop := 0 } := by decide
  rw [c0, Nat.zero_add] at h1 h2 h3
  rw [c1, c2] at h2
  rw [c3, c4] at h3
  exact ⟨h1, h2, h3⟩

set_option maxRecDepth 1000000 in
/-- C34, counterexample. `doc_pages_wrap` has the text length and the run
lists of the document after a reset and `wri_text` of 8388300 letters: one
run covering `[0, 8388300)` in each list.  `_wri_save_chp` starts the page
counter `hp->pnPara` at `pnChar` = 65535 and writes one page, after which the
counter, an `unsigned short`, is 0 and not 65536: it has not grown by the
number of pages written. -/
theorem page_counter_wraps :
    (wri_text (List.replicate 8388300 97) doc_empty).2._wri_cpMac = doc_pages_wrap._wri_cpMac ∧
    lchp_runs (wri_text (List.replicate 8388300 97) doc_empty).2 = lchp_runs doc_pages_wrap ∧
    lpap_runs (wri_text (List.replicate 8388300 97) doc_empty).2 = lpap_runs doc_pages_wrap ∧
    covers 0 (lchp_runs doc_pages_wrap) 8388300 ∧
    covers 0 (lpap_runs doc_pages_wrap) 8388300 ∧
    (doc_pages_wrap._wri_cpMac + PAGESIZE + PAGESIZE - 1) / PAGESIZE = 65535 ∧
    (Packer.init zero_area
      ((doc_pages_wrap._wri_cpMac + PAGESIZE + PAGESIZE - 1) / PAGESIZE)).pn = 65535 ∧
    (_wri_save_chp doc_pages_wrap zero_area).written.length = 1 ∧
    (_wri_save_chp doc_pages_wrap zero_area).pn = 0 ∧
    ¬ pages_counted 65535 (_wri_save_chp doc_pages_wrap zero_area).pn
      (_wri_save_chp doc_pages_wrap zero_area).written := by
  have H := letters_after_reset 8388300
  have e2 : lchp_runs doc_pages_wrap
      = [{ cpFirst := 0, cpLim := 8388300, prop := _wri_default_chp }] := by decide
  have e3 : lpap_runs doc_pages_wrap = [{ cpFirst := 0, cpLim := 8388300, prop := 0 }] := by
    decide
  refine ⟨H.1.trans (by decide), H.2.1.trans e2.symm, H.2.2.trans e3.symm, ?_, ?_, by decide,
    by decide, by decide, by decide, ?_⟩
  · rw [e2]
    exact ⟨rfl, by decide, rfl⟩
  · rw [e3]
    exact ⟨rfl, by decide, rfl⟩
  · unfold pages_counted
    decide

/-! ### Reference counts of the paragraph records -/

theorem pap_refs_eq (s : State) (a : Nat) :
    pap_refs s a = s.lpap_list.countP (fun n => n.prop = a) +
      (if s.lpap_curr.prop = a then 1 else 0) := by
  unfold pap_refs lpap_runs
  rw [List.countP_append, List.countP_cons, List.countP_nil]
  simp

theorem countP_prop_zero (l : List lpap) (a n : Nat) (hl : ∀ r ∈ l, r.prop < n) (ha : n ≤ a) :
    l.countP (fun r => r.prop = a) = 0 := by
  rw [List.countP_eq_zero]
  intro r hr
  have := hl r hr
  simp
  omega

theorem pap_at_beyond (s : State) (a : Nat) (h : s.paps.length ≤ a) :
    pap_at s a = _wri_default_pap := by
  unfold pap_at
  rw [List.getD_eq_getElem?_getD, List.getElem?_eq_none h]
  rfl

theorem clone_pap_lists (s : State) (ha : AllocOK s) (hv : s.lpap_curr.prop < s.paps.length) :
    (clone_pap s).1 = true ∧ AllocOK (clone_pap s).2 ∧
    (clone_pap s).2.lpap_list = s.lpap_list ∧
    (clone_pap s).2.lpap_curr.prop = s.paps.length ∧
    (clone_pap s).2.paps.length = s.paps.length + 1 := by
  rw [clone_pap_of_succeeds s (AllocOK_succeeds s ha) hv]
  refine ⟨rfl, AllocOK_tail s ha, rfl, rfl, ?_⟩
  simp

theorem clone_pap_at (s : State) (ha : AllocOK s) (hv : s.lpap_curr.prop < s.paps.length)
    (a : Nat) :
    pap_at (clone_pap s).2 a =
      if a = s.lpap_curr.prop then
        { pap_curr s with res1 := ((pap_curr s).res1 + 255) % 256 }
      else if a = s.paps.length then { pap_curr s with res1 := 1 }
      else pap_at s a := by
  rw [clone_pap_of_succeeds s (AllocOK_succeeds s ha) hv]
  unfold pap_at
  dsimp only
  rw [List.getD_eq_getElem?_getD, List.getD_eq_getElem?_getD]
  by_cases h1 : a = s.lpap_curr.prop
  · rw [if_pos h1]
    subst h1
    rw [List.getElem?_append_left (by simpa using hv)]
    simp [hv]
  · rw [if_neg h1]
    by_cases h2 : a = s.paps.length
    · rw [if_pos h2]
      subst h2
      rw [List.getElem?_append_right (by simp)]
      simp
    · rw [if_neg h2]
      by_cases h3 : a < s.paps.length
      · rw [List.getElem?_append_left (by simpa using h3)]
        rw [List.getElem?_set_ne (fun e => h1 e.symm)]
      · rw [List.getElem?_eq_none (by simp; omega), List.getElem?_eq_none (by omega)]

/-- The copy made by `clone_pap` leaves exact counts, also when the record of
the current node had 257 runs. -/
theorem refs_clone (s : State) (h : RefsUpTo 257 s) : RefInv (clone_pap s).2 := by
  obtain ⟨ha, hl, hv, hc, hb, hk⟩ := h
  obtain ⟨-, c2, c3, c4, c5⟩ := clone_pap_lists s ha hv
  have hat := clone_pap_at s ha hv
  have hz : s.lpap_list.countP (fun r => r.prop = s.paps.length) = 0 :=
    countP_prop_zero _ _ _ hl (Nat.le_refl _)
  have hne : s.lpap_curr.prop ≠ s.paps.length := Nat.ne_of_lt hv
  have hrA := pap_refs_eq s s.lpap_curr.prop
  rw [if_pos rfl] at hrA
  have hcA := hc s.lpap_curr.prop (by omega)
  refine ⟨c2, ?_, ?_, ?_, ?_, ?_⟩
  · intro r hr
    rw [c3] at hr
    rw [c5]
    exact Nat.lt_succ_of_lt (hl r hr)
  · rw [c4, c5]
    exact Nat.lt_succ_self _
  · intro a h1
    have e := pap_refs_eq (clone_pap s).2 a
    rw [c3, c4] at e
    rw [hat a]
    by_cases ha1 : a = s.lpap_curr.prop
    · rw [if_pos ha1]
      subst ha1
      rw [if_neg hne.symm] at e
      dsimp only
      unfold pap_curr
      omega
    · rw [if_neg ha1]
      by_cases ha2 : a = s.paps.length
      · rw [if_pos ha2]
        subst ha2
        rw [if_pos rfl, hz] at e
        dsimp only
        omega
      · rw [if_neg ha2]
        rw [if_neg (fun e1 => ha2 e1.symm)] at e
        have e0 := pap_refs_eq s a
        rw [if_neg (fun e1 => ha1 e1.symm)] at e0
        have := hc a (by omega)
        omega
  · intro a ha1
    rw [c4] at ha1
    have e := pap_refs_eq (clone_pap s).2 a
    rw [c3, c4, if_neg (fun e1 => ha1 e1.symm)] at e
    by_cases ha2 : a = s.lpap_curr.prop
    · subst ha2
      omega
    · have e0 := pap_refs_eq s a
      rw [if_neg (fun e1 => ha2 e1.symm)] at e0
      have := hb a ha2
      omega
  · rw [c4]
    have e := pap_refs_eq (clone_pap s).2 s.paps.length
    rw [c3, c4, if_pos rfl, hz] at e
    omega

theorem clone_pap_content (s : State) (ha : AllocOK s) (hv : s.lpap_curr.prop < s.paps.length)
    (r : lpap) (hr : r.prop < s.paps.length) :
    pap_content (clone_pap s).2 r = pap_content s r := by
  unfold pap_content
  rw [clone_pap_at s ha hv]
  by_cases h1 : r.prop = s.lpap_curr.prop
  · rw [if_pos h1, h1]
    rfl
  · rw [if_neg h1, if_neg (Nat.ne_of_lt hr)]

theorem clone_pap_count (s : State) (ha : AllocOK s) (hv : s.lpap_curr.prop < s.paps.length) :
    (pap_curr (clone_pap s).2).res1 = 1 := by
  unfold pap_curr
  rw [(clone_pap_lists s ha hv).2.2.2.1, clone_pap_at s ha hv,
    if_neg (Nat.ne_of_lt hv).symm, if_pos rfl]

/-- What `this_para` does to a state with exact counts. -/
theorem this_para_cow (s : State) (h : RefInv s) :
    (this_para s).1 = true ∧ RefInv (this_para s).2 ∧
    (this_para s).2.lpap_list = s.lpap_list ∧
    (∀ r : lpap, r.prop < s.paps.length →
      pap_content (this_para s).2 r = pap_content s r) ∧
    (pap_curr (this_para s).2).res1 = 1 := by
  unfold this_para
  split_ifs with h1
  · exact ⟨rfl, h, rfl, fun _ _ => rfl, h1⟩
  · have h7 : RefsUpTo 257 s := by
      obtain ⟨a, b, c, d, e, f⟩ := h
      exact ⟨a, b, c, d, e, Nat.le_succ_of_le f⟩
    obtain ⟨c1, -, c3, -, -⟩ := clone_pap_lists s h.1 h.2.2.1
    exact ⟨c1, refs_clone s h7, c3, clone_pap_content s h.1 h.2.2.1,
      clone_pap_count s h.1 h.2.2.1⟩

/-- Storing a record with the same count into the current record keeps the
counts exact. -/
theorem refinv_set_curr (s : State) (p : PAP) (h : RefInv s)
    (hp : p.res1 = (pap_curr s).res1) : RefInv (set_pap_curr s p) := by
  obtain ⟨ha, hl, hv, hc, hb, hk⟩ := h
  have hlen : (set_pap_curr s p).paps.length = s.paps.length := by
    unfold set_pap_curr set_pap_at
    simp
  have hrefs : ∀ a, pap_refs (set_pap_curr s p) a = pap_refs s a := fun a => rfl
  refine ⟨ha, ?_, ?_, ?_, ?_, ?_⟩
  · intro r hr
    rw [hlen]
    exact hl r hr
  · rw [hlen]
    exact hv
  · intro a h1
    rw [hrefs] at h1 ⊢
    by_cases e : a = s.lpap_curr.prop
    · subst e
      unfold set_pap_curr
      rw [pap_at_set_same s _ p hv, hp]
      exact hc _ h1
    · unfold set_pap_curr
      rw [pap_at_set_other s _ _ p (fun e1 => e e1.symm)]
      exact hc a h1
  · intro a h1
    exact hb a h1
  · exact hk

theorem refinv_same (s t : State) (hst : same_paragraphs s t) (h : RefInv s) : RefInv t := by
  obtain ⟨e1, e2, e3, -, -, -, -, e8⟩ := hst
  obtain ⟨ha, hl, hv, hc, hb, hk⟩ := h
  have hrefs : ∀ a, pap_refs t a = pap_refs s a := by
    intro a
    rw [pap_refs_eq, pap_refs_eq, e2, e3]
  have hat : ∀ a, pap_at t a = pap_at s a := by
    intro a
    unfold pap_at
    rw [e1]
  refine ⟨fun b hb1 => ha b (e8 b hb1), ?_, ?_, ?_, ?_, ?_⟩
  · rw [e1, e2]
    exact hl
  · rw [e1, e3]
    exact hv
  · intro a h1
    rw [hrefs] at h1 ⊢
    rw [hat]
    exact hc a h1
  · intro a h1
    rw [hrefs]
    rw [e3] at h1
    exact hb a h1
  · rw [hrefs, e3]
    exact hk

/-- What `_wri_new_paragraph` does to a state with exact counts: it succeeds,
the counts stay exact, the node that was current is linked after the others,
and no record of the heap changes its content. -/
theorem new_paragraph_cow (s : State) (h : RefInv s) :
    (_wri_new_paragraph s).1 = 0 ∧ RefInv (_wri_new_paragraph s).2 ∧
    (∃ c : lpap, (_wri_new_paragraph s).2.lpap_list = s.lpap_list ++ [c] ∧
      c.prop = s.lpap_curr.prop) ∧
    (∀ r : lpap, r.prop < s.paps.length →
      pap_content (_wri_new_paragraph s).2 r = pap_content s r) := by
  obtain ⟨ha, hl, hv, hc, hb, hk⟩ := h
  have hrA := pap_refs_eq s s.lpap_curr.prop
  rw [if_pos rfl] at hrA
  have hcA := hc s.lpap_curr.prop (by omega)
  unfold _wri_new_paragraph _wri_new_lprop
  rw [malloc_of_AllocOK s ha]
  dsimp only
  generalize hs2 : ({ s with
      malloc_ok := s.malloc_ok.tail,
      lpap_list := s.lpap_list ++ [s.lpap_curr],
      lpap_curr := { s.lpap_curr with cpFirst := s.lpap_curr.cpLim } } : State) = s2
  have l2 : s2.lpap_list = s.lpap_list ++ [s.lpap_curr] := by rw [← hs2]
  have c2 : s2.lpap_curr.prop = s.lpap_curr.prop := by rw [← hs2]
  have n2 : s2.paps = s.paps := by rw [← hs2]
  have a2 : AllocOK s2 := by
    rw [← hs2]
    exact AllocOK_tail s ha
  have p2 : pap_curr s2 = pap_curr s := by rw [← hs2]; rfl
  have v2 : s2.lpap_curr.prop < s2.paps.length := by rw [c2, n2]; exact hv
  generalize hs3 : set_pap_curr s2
    { pap_curr s2 with res1 := ((pap_curr s2).res1 + 1) % 256 } = s3
  have l3 : s3.lpap_list = s.lpap_list ++ [s.lpap_curr] := by rw [← hs3]; exact l2
  have c3 : s3.lpap_curr.prop = s.lpap_curr.prop := by rw [← hs3]; exact c2
  have n3 : s3.paps.length = s.paps.length := by
    rw [← hs3, ← n2]
    unfold set_pap_curr set_pap_at
    simp
  have a3 : AllocOK s3 := by rw [← hs3]; exact a2
  have at3 : ∀ a, pap_at s3 a = if a = s.lpap_curr.prop then
      { pap_curr s with res1 := ((pap_curr s).res1 + 1) % 256 } else pap_at s a := by
    intro a
    rw [← hs3]
    unfold set_pap_curr
    by_cases e : a = s.lpap_curr.prop
    · rw [if_pos e, e, ← c2, pap_at_set_same s2 _ _ v2, p2]
    · rw [if_neg e, pap_at_set_other s2 _ _ _ (by rw [c2]; exact fun e1 => e e1.symm)]
      unfold pap_at
      rw [n2]
  have r3 : ∀ a, pap_refs s3 a = pap_refs s a + (if s.lpap_curr.prop = a then 1 else 0) := by
    intro a
    rw [pap_refs_eq s3, pap_refs_eq s, l3, c3, List.countP_append, List.countP_cons,
      List.countP_nil]
    simp
  have k3 : s3.lpap_curr.prop < s3.paps.length := by rw [c3, n3]; exact hv
  have cont3 : ∀ r : lpap, pap_content s3 r = pap_content s r := by
    intro r
    unfold pap_content
    rw [at3]
    by_cases e : r.prop = s.lpap_curr.prop
    · rw [if_pos e, e]
      rfl
    · rw [if_neg e]
  have hl3 : ∀ r ∈ s3.lpap_list, r.prop < s3.paps.length := by
    intro r hr
    rw [l3] at hr
    rw [n3]
    rcases List.mem_append.1 hr with h1 | h1
    · exact hl r h1
    · rw [List.mem_singleton.1 h1]
      exact hv
  have cong3 : ∀ a, 1 ≤ pap_refs s3 a → (pap_at s3 a).res1 = pap_refs s3 a % 256 := by
    intro a h1
    rw [at3, r3]
    by_cases e : a = s.lpap_curr.prop
    · rw [if_pos e, if_pos e.symm, e]
      dsimp only
      unfold pap_curr
      omega
    · rw [if_neg e, if_neg (fun e1 => e e1.symm), Nat.add_zero]
      rw [r3, if_neg (fun e1 => e e1.symm), Nat.add_zero] at h1
      exact hc a h1
  have b3 : ∀ a, a ≠ s3.lpap_curr.prop → pap_refs s3 a ≤ 256 := by
    intro a h1
    rw [c3] at h1
    rw [r3, if_neg (fun e1 => h1 e1.symm)]
    exact hb a h1
  have q3 : pap_refs s3 s3.lpap_curr.prop = pap_refs s s.lpap_curr.prop + 1 := by
    rw [c3, r3, if_pos rfl]
  have old : (pap_curr s2).res1 = (pap_at s s.lpap_curr.prop).res1 := by rw [p2]; rfl
  by_cases h0 : (pap_curr s2).res1 = 0
  · rw [if_pos h0]
    have h7 : RefsUpTo 257 s3 := ⟨a3, hl3, k3, cong3, b3, by omega⟩
    obtain ⟨d1, -, d3, -, -⟩ := clone_pap_lists s3 a3 k3
    have d6 := refs_clone s3 h7
    have d7 := clone_pap_content s3 a3 k3
    generalize clone_pap s3 = r at d1 d3 d6 d7 ⊢
    obtain ⟨b, s4⟩ := r
    dsimp only at d1 d3 d6 d7 ⊢
    subst d1
    dsimp only
    refine ⟨rfl, d6, ⟨s.lpap_curr, d3.trans l3, rfl⟩, ?_⟩
    intro r hr
    rw [d7 r (by rw [n3]; exact hr), cont3]
  · rw [if_neg h0]
    have k256 : pap_refs s3 s3.lpap_curr.prop ≤ 256 := by
      rw [q3]
      omega
    exact ⟨rfl, ⟨a3, hl3, k3, cong3, b3, k256⟩, ⟨s.lpap_curr, l3, rfl⟩, fun r _ => cont3 r⟩

theorem refinv_saved_chp (s : State) (c : CHP) (h : RefInv s) :
    RefInv { s with saved_chp := c } := h

theorem refinv_saved_pap (s : State) (p : PAP) (h : RefInv s) :
    RefInv { s with saved_pap := p } := h

/-- Exact counts are kept by the steps of every call of the interface. -/
theorem refinv_doc_kept : DocKept RefInv where
  same := refinv_same
  this_para := fun s h => (this_para_cow s h).2.1
  set_field := fun s p h e _ => refinv_set_curr s p h e
  new_par := fun s h => (new_paragraph_cow s h).2.1
  set_curr := refinv_set_curr
  saved_chp := refinv_saved_chp
  saved_pap := refinv_saved_pap

/-! ### Exact counts in every state built from a reset -/

theorem this_para_set_eq (s : State) (g : State → PAP) (h : RefInv s) :
    (match this_para s with
      | (false, s1) => ((1 : Int), s1)
      | (true, s1) => (0, set_pap_curr s1 (g s1))) =
    (0, set_pap_curr (this_para s).2 (g (this_para s).2)) := by
  have h1 := (this_para_cow s h).1
  generalize this_para s = r at h1 ⊢
  obtain ⟨b, s1⟩ := r
  dsimp only at h1
  subst h1
  rfl

theorem append_pap_eq (q : PAP) (L : Nat) (i : Int) (s : State) (h : RefInv s) :
    (_wri_append_pap q L i s).2 =
      (if { q with res1 := 0 } ≠
          { pap_curr (if i = 0 then _wri_new_paragraph s else ((0 : Int), s)).2 with res1 := 0 }
        then _wri_extend_pap L (set_pap_curr
          (this_para (if i = 0 then _wri_new_paragraph s else ((0 : Int), s)).2).2
          { q with res1 := (pap_curr
            (this_para (if i = 0 then _wri_new_paragraph s else ((0 : Int), s)).2).2).res1 })
        else _wri_extend_pap L (if i = 0 then _wri_new_paragraph s else ((0 : Int), s)).2) := by
  unfold _wri_append_pap
  dsimp only
  have h1 : RefInv (if i = 0 then _wri_new_paragraph s else ((0 : Int), s)).2 ∧
      (if i = 0 then _wri_new_paragraph s else ((0 : Int), s)).1 = 0 := by
    split_ifs
    · exact ⟨(new_paragraph_cow s h).2.1, (new_paragraph_cow s h).1⟩
    · exact ⟨h, rfl⟩
  generalize (if i = 0 then _wri_new_paragraph s else ((0 : Int), s)) = r at h1 ⊢
  obtain ⟨h1, h0⟩ := h1
  rw [if_neg (by rw [h0]; exact fun e => e rfl)]
  have h2 := (this_para_cow r.2 h1).1
  generalize this_para r.2 = r2 at h2 ⊢
  obtain ⟨b, s2⟩ := r2
  dsimp only at h2
  subst h2
  split_ifs <;> rfl

theorem same_paragraphs_extend_pap (L : Nat) (s : State) :
    same_paragraphs s (_wri_extend_pap L s) :=
  ⟨rfl, rfl, rfl, rfl, rfl, rfl, rfl, fun _ h => h⟩

theorem refinv_append_pap (q : PAP) (L : Nat) (i : Int) (s : State) (h : RefInv s) :
    RefInv (_wri_append_pap q L i s).2 := by
  rw [append_pap_eq q L i s h]
  have h1 : RefInv (if i = 0 then _wri_new_paragraph s else ((0 : Int), s)).2 := by
    split_ifs
    · exact (new_paragraph_cow s h).2.1
    · exact h
  generalize (if i = 0 then _wri_new_paragraph s else ((0 : Int), s)) = r at h1 ⊢
  split_ifs
  · exact refinv_same _ _ (same_paragraphs_extend_pap L _)
      (refinv_set_curr _ _ (this_para_cow r.2 h1).2.1 rfl)
  · exact refinv_same _ _ (same_paragraphs_extend_pap L _) h1

theorem refinv_build_op (o : BuildOp) (s : State) (h : RefInv s) : RefInv (o.run s) := by
  cases o with
  | call c => exact call_kept refinv_doc_kept c s h
  | new_paragraph => exact (new_paragraph_cow s h).2.1
  | append_pap p l f => exact refinv_append_pap p l f s h

theorem refinv_build_ops (ops : List BuildOp) (s : State) (h : RefInv s) :
    RefInv (run_build_ops ops s) := by
  induction ops generalizing s with
  | nil => exact h
  | cons o ops ih => exact ih _ (refinv_build_op o s h)

theorem fresh_refinv (t : State) (h : Fresh t) : RefInv t := by
  obtain ⟨ha, -, -, hl, hc, hn, h0⟩ := h
  have hr : ∀ a, pap_refs t a = if 0 = a then 1 else 0 := by
    intro a
    rw [pap_refs_eq, hl, hc]
    simp
  refine ⟨ha, ?_, ?_, ?_, ?_, ?_⟩
  · rw [hl]
    intro r hr
    cases hr
  · rw [hc]
    exact hn
  · intro a h1
    rw [hr] at h1 ⊢
    by_cases e : 0 = a
    · subst e
      rw [h0]
      rfl
    · rw [if_neg e] at h1
      omega
  · intro a h1
    rw [hc] at h1
    rw [hr, if_neg (fun e => h1 e.symm)]
    omega
  · rw [hr, hc, if_pos rfl]
    omega

theorem refinv_at_run (s : State) (h : RefInv s) (r : lpap) (hr : r ∈ lpap_runs s) :
    r.prop < s.paps.length ∧ 1 ≤ pap_refs s r.prop ∧ pap_refs s r.prop ≤ 256 ∧
    (pap_at s r.prop).res1 = pap_refs s r.prop % 256 := by
  obtain ⟨-, hl, hv, hc, hb, hk⟩ := h
  have h1 : 1 ≤ pap_refs s r.prop := by
    unfold pap_refs
    exact List.countP_pos_iff.2 ⟨r, hr, by simp⟩
  refine ⟨?_, h1, ?_, hc _ h1⟩
  · unfold lpap_runs at hr
    rcases List.mem_append.1 hr with h2 | h2
    · exact hl r h2
    · rw [List.mem_singleton.1 h2]
      exact hv
  · by_cases e : r.prop = s.lpap_curr.prop
    · rw [e]
      exact hk
    · exact hb _ e

theorem free_lpaps_count (nodes : List lpap) (s : State) (a : Nat) (ha : a < s.paps.length)
    (hlt : (pap_at s a).res1 < 256) (hn : ∀ x ∈ nodes, x.prop = a) :
    (pap_at (free_lpaps nodes s) a).res1 = ((pap_at s a).res1 + 255 * nodes.length) % 256 := by
  induction nodes generalizing s with
  | nil =>
    show (pap_at s a).res1 = _
    simp only [List.length_nil, Nat.mul_zero, Nat.add_zero]
    exact (Nat.mod_eq_of_lt hlt).symm
  | cons x xs ih =>
    have hx : x.prop = a := hn x (List.mem_cons_self _ _)
    have e : free_lpaps (x :: xs) s = free_lpaps xs (set_pap_at s a
        { pap_at s a with res1 := ((pap_at s a).res1 + 255) % 256 }) := by
      unfold free_lpaps
      rw [List.foldl_cons, hx]
    have hlen : (set_pap_at s a
        { pap_at s a with res1 := ((pap_at s a).res1 + 255) % 256 }).paps.length
          = s.paps.length := by
      unfold set_pap_at
      simp
    rw [e, ih _ (by rw [hlen]; exact ha)
      (by rw [pap_at_set_same s a _ ha]; exact Nat.mod_lt _ (by decide))
      (fun y hy => hn y (List.mem_cons_of_mem _ hy)), pap_at_set_same s a _ ha]
    simp only [List.length_cons]
    omega

/-- C33, amended: in every state built from a reset, with an allocator that
never fails, by calls of the interface,
`_wri_new_paragraph` and `_wri_append_pap`, the record of every paragraph run
has between 1 and 256 runs pointing at it and its stored count is that number
modulo 256; so a stored count of 1 means exactly one run, and releasing some of
the runs of the record brings the stored count to 0 exactly when all of them
have been released. -/
theorem refcounts_exact_mod_256 (t0 : State) (ht : Fresh t0) (ops : List BuildOp) (r : lpap)
    (hr : r ∈ lpap_runs (run_build_ops ops t0)) :
    1 ≤ pap_refs (run_build_ops ops t0) r.prop ∧
    pap_refs (run_build_ops ops t0) r.prop ≤ 256 ∧
    (pap_at (run_build_ops ops t0) r.prop).res1 =
      pap_refs (run_build_ops ops t0) r.prop % 256 ∧
    ((pap_at (run_build_ops ops t0) r.prop).res1 = 1 →
      pap_refs (run_build_ops ops t0) r.prop = 1) ∧
    ∀ nodes : List lpap, (∀ x ∈ nodes, x.prop = r.prop) → 1 ≤ nodes.length →
      nodes.length ≤ pap_refs (run_build_ops ops t0) r.prop →
      ((pap_at (free_lpaps nodes (run_build_ops ops t0)) r.prop).res1 = 0 ↔
        nodes.length = pap_refs (run_build_ops ops t0) r.prop) := by
  have hI := refinv_build_ops ops t0 (fresh_refinv t0 ht)
  generalize run_build_ops ops t0 = s at hr hI ⊢
  obtain ⟨hv, h1, h2, h3⟩ := refinv_at_run s hI r hr
  refine ⟨h1, h2, h3, ?_, ?_⟩
  · intro e
    omega
  · intro nodes hn hk1 hk2
    rw [free_lpaps_count nodes s r.prop hv (by omega) hn]
    omega

/-- Witness for C33: after a reset, `wri_text("a\nb")`, `_wri_new_paragraph()`
and `_wri_append_pap` of a centred paragraph, the record of the last run has
one run and the stored count 1. -/
theorem refcounts_exact_mod_256_witness :
    Fresh doc_empty ∧
    (run_build_ops ops_shared doc_empty).lpap_curr ∈
      lpap_runs (run_build_ops ops_shared doc_empty) ∧
    (pap_at (run_build_ops ops_shared doc_empty)
      (run_build_ops ops_shared doc_empty).lpap_curr.prop).res1 =
      pap_refs (run_build_ops ops_shared doc_empty)
        (run_build_ops ops_shared doc_empty).lpap_curr.prop % 256 :=
  ⟨by unfold Fresh AllocOK; decide,
   List.mem_append_right _ (List.mem_singleton_self _),
   (refcounts_exact_mod_256 doc_empty (by unfold Fresh AllocOK; decide) ops_shared _
      (List.mem_append_right _ (List.mem_singleton_self _))).2.2.1⟩

/-! ### Copy-on-write: the runs before the last one keep their contents -/

theorem prefix_getElem? {α : Type} (V X : List α) (h : V <+: X) (i : Nat) (hi : i < V.length) :
    X[i]? = V[i]? := by
  obtain ⟨extra, he⟩ := h
  rw [← he, List.getElem?_append_left hi]

theorem pap_content_congr (s t : State) (r c : lpap) (h : t.paps = s.paps)
    (hc : c.prop = r.prop) : pap_content t c = pap_content s r := by
  unfold pap_content pap_at
  rw [h, hc]

theorem kept_runs_same (V : List PAP) (s t : State) (hst : same_paragraphs s t)
    (h : kept_runs V s) : kept_runs V t := by
  refine ⟨refinv_same s t hst h.1, ?_⟩
  obtain ⟨e1, e2, -⟩ := hst
  have : t.lpap_list.map (pap_content t) = s.lpap_list.map (pap_content s) := by
    rw [e2]
    exact List.map_congr_left (fun r _ => pap_content_congr s t r r e1 rfl)
  rw [this]
  exact h.2

theorem kept_runs_this_para (V : List PAP) (s : State) (h : kept_runs V s) :
    kept_runs V (this_para s).2 := by
  obtain ⟨-, c2, c3, c4, -⟩ := this_para_cow s h.1
  refine ⟨c2, ?_⟩
  have : (this_para s).2.lpap_list.map (pap_content (this_para s).2)
      = s.lpap_list.map (pap_content s) := by
    rw [c3]
    exact List.map_congr_left (fun r hr => c4 r (h.1.2.1 r hr))
  rw [this]
  exact h.2

theorem kept_runs_set_own (V : List PAP) (s : State) (p : PAP) (h : kept_runs V s)
    (h1 : (pap_curr s).res1 = 1) (hp : p.res1 = 1) : kept_runs V (set_pap_curr s p) := by
  refine ⟨refinv_set_curr s p h.1 (hp.trans h1.symm), ?_⟩
  obtain ⟨-, hl, hv, hc, hb, hk⟩ := h.1
  have e := pap_refs_eq s s.lpap_curr.prop
  rw [if_pos rfl] at e
  have hcA := hc s.lpap_curr.prop (by omega)
  have hz : s.lpap_list.countP (fun n => n.prop = s.lpap_curr.prop) = 0 := by
    unfold pap_curr at h1
    omega
  rw [List.countP_eq_zero] at hz
  have : (set_pap_curr s p).lpap_list.map (pap_content (set_pap_curr s p))
      = s.lpap_list.map (pap_content s) := by
    show s.lpap_list.map (pap_content (set_pap_curr s p)) = _
    apply List.map_congr_left
    intro r hr
    have hne : r.prop ≠ s.lpap_curr.prop := by simpa using hz r hr
    unfold pap_content set_pap_curr
    rw [pap_at_set_other s _ _ p (fun e1 => hne e1.symm)]
  rw [this]
  exact h.2

theorem new_paragraph_contents (s : State) (h : RefInv s) :
    (_wri_new_paragraph s).2.lpap_list.map (pap_content (_wri_new_paragraph s).2)
      = (lpap_runs s).map (pap_content s) := by
  obtain ⟨-, -, ⟨c, c3, c4⟩, c5⟩ := new_paragraph_cow s h
  unfold lpap_runs
  rw [c3, List.map_append, List.map_append, List.map_singleton, List.map_singleton]
  congr 1
  · exact List.map_congr_left (fun r hr => c5 r (h.2.1 r hr))
  · rw [c5 c (by rw [c4]; exact h.2.2.1)]
    exact congrArg (fun x => [x]) (pap_content_congr s s s.lpap_curr c rfl c4)

theorem kept_runs_new_par (V : List PAP) (s : State) (h : kept_runs V s) :
    kept_runs V (_wri_new_paragraph s).2 := by
  refine ⟨(new_paragraph_cow s h.1).2.1, ?_⟩
  rw [new_paragraph_contents s h.1]
  unfold lpap_runs
  rw [List.map_append]
  exact h.2.trans (List.prefix_append _ _)

/-- After `_wri_new_paragraph` all the runs that were there are before the
current one and have the contents they had. -/
theorem kept_runs_promote (s : State) (h : RefInv s) :
    kept_runs ((lpap_runs s).map (pap_content s)) (_wri_new_paragraph s).2 := by
  refine ⟨(new_paragraph_cow s h).2.1, ?_⟩
  rw [new_paragraph_contents s h]

theorem kept_runs_cow_kept (V : List PAP) : CowKept (kept_runs V) where
  inv := fun _ h => h.1
  same := kept_runs_same V
  this_para := kept_runs_this_para V
  set_own := kept_runs_set_own V
  saved_chp := fun _ _ h => h
  saved_pap := fun _ _ h => h

theorem this_para_list (s : State) (h : RefInv s) :
    (this_para s).2.lpap_list = s.lpap_list := (this_para_cow s h).2.2.1

theorem frame_of_cow_kept (s0 : State) : CowKept (frame_of s0) where
  inv := fun s h => by
    rcases h with h | h
    · exact h.1.1
    · exact h.1
  same := fun s t hst h => by
    rcases h with h | h
    · exact Or.inl ⟨kept_runs_same _ s t hst h.1, by rw [hst.2.1]; exact h.2⟩
    · exact Or.inr (kept_runs_same _ s t hst h)
  this_para := fun s h => by
    rcases h with h | h
    · exact Or.inl ⟨kept_runs_this_para _ s h.1, by rw [this_para_list s h.1.1]; exact h.2⟩
    · exact Or.inr (kept_runs_this_para _ s h)
  set_own := fun s p h h1 hp => by
    rcases h with h | h
    · exact Or.inl ⟨kept_runs_set_own _ s p h.1 h1 hp, h.2⟩
    · exact Or.inr (kept_runs_set_own _ s p h h1 hp)
  saved_chp := fun _ _ h => h
  saved_pap := fun _ _ h => h

theorem frame_of_start (s : State) (h : RefInv s) : frame_of s s :=
  Or.inl ⟨⟨h, List.prefix_refl _⟩, rfl⟩

/-- The two cases of `frame_of` both say that no run other than the last one
has changed its content. -/
theorem frame_of_para_frame (s t : State) (h : frame_of s t) : para_frame s t := by
  unfold frame_of at h
  unfold para_frame
  unfold lpap_runs at h ⊢
  rcases h with ⟨⟨-, hp⟩, hlen⟩ | ⟨-, hp⟩
  · refine ⟨by simp [hlen], ?_⟩
    intro i hi1 hi2
    simp only [List.length_append, List.length_singleton] at hi1 hi2
    have h1 : i < t.lpap_list.length := by omega
    have h2 : i < s.lpap_list.length := by omega
    have e := prefix_getElem? _ _ hp i (by simpa using h2)
    rw [List.getElem?_map, List.getElem?_map] at e
    rw [List.getElem?_append_left h1, List.getElem?_append_left h2]
    exact e
  · have hl := hp.length_le
    simp only [List.length_map, List.length_append, List.length_singleton] at hl
    refine ⟨by simp only [List.length_append, List.length_singleton]; omega, ?_⟩
    intro i hi1 hi2
    simp only [List.length_append, List.length_singleton] at hi1 hi2
    have h1 : i < t.lpap_list.length := by omega
    have e := prefix_getElem? _ _ hp i
      (by simp only [List.length_map, List.length_append, List.length_singleton]; omega)
    rw [List.getElem?_map, List.getElem?_map] at e
    rw [List.getElem?_append_left h1]
    exact e

section cow_kept
variable {P : State → Prop} (hP : CowKept P)
include hP

theorem cow_chp_closed : ChpClosed P where
  set_chp := fun s _ h => hP.same s _ ⟨rfl, rfl, rfl, rfl, rfl, rfl, rfl, fun _ h => h⟩ h
  new_chp := fun s h => hP.same s _ (same_paragraphs_new_chp s) h
  font := fun n f s h => hP.same s _ (same_paragraphs_font n f s) h

theorem this_para_set_both (s : State) (g : State → PAP)
    (hg : ∀ s1, (g s1).res1 = (pap_curr s1).res1) (h : P s) :
    P (match this_para s with
      | (false, s1) => ((1 : Int), s1)
      | (true, s1) => (0, set_pap_curr s1 (g s1))).2 ∧
    (pap_curr (match this_para s with
      | (false, s1) => ((1 : Int), s1)
      | (true, s1) => (0, set_pap_curr s1 (g s1))).2).res1 = 1 := by
  obtain ⟨c1, c2, -, -, c5⟩ := this_para_cow s (hP.inv s h)
  have h1 := hP.this_para s h
  generalize this_para s = r at c1 c2 c5 h1 ⊢
  obtain ⟨b, s1⟩ := r
  dsimp only at c1 c2 c5 h1
  subst c1
  dsimp only
  refine ⟨hP.set_own s1 _ h1 c5 ((hg s1).trans c5), ?_⟩
  rw [(pap_curr_set s1 (g s1) c2.2.2.1).1, hg s1, c5]

theorem this_para_set_cow (s : State) (g : State → PAP)
    (hg : ∀ s1, (g s1).res1 = (pap_curr s1).res1) (h : P s) :
    P (match this_para s with
      | (false, s1) => ((1 : Int), s1)
      | (true, s1) => (0, set_pap_curr s1 (g s1))).2 :=
  (this_para_set_both hP s g hg h).1

theorem wri_para_justify_cow (v : Int) (s : State) (h : P s) :
    P (wri_para_justify v s).2 := by
  unfold wri_para_justify
  split_ifs
  · exact h
  · exact h
  · exact this_para_set_cow hP _ _ (fun _ => rfl) h

theorem wri_para_interline_cow (v : Int) (s : State) (h : P s) :
    P (wri_para_interline v s).2 := by
  unfold wri_para_interline
  split_ifs
  · exact h
  · exact h
  · exact this_para_set_cow hP _ _ (fun _ => rfl) h

theorem wri_para_indent_left_cow (v : Int) (s : State) (h : P s) :
    P (wri_para_indent_left v s).2 := by
  unfold wri_para_indent_left
  split_ifs
  · exact h
  · exact h
  · exact this_para_set_cow hP _ _ (fun _ => rfl) h

theorem wri_para_indent_right_cow (v : Int) (s : State) (h : P s) :
    P (wri_para_indent_right v s).2 := by
  unfold wri_para_indent_right
  split_ifs
  · exact h
  · exact h
  · exact this_para_set_cow hP _ _ (fun _ => rfl) h

theorem wri_para_indent_first_cow (v : Int) (s : State) (h : P s) :
    P (wri_para_indent_first v s).2 := by
  unfold wri_para_indent_first
  split_ifs
  · exact h
  · exact this_para_set_cow hP _ _ (fun _ => rfl) h

theorem _wri_restore_pap_cow (s : State) (h : P s) : P (_wri_restore_pap s).2 := by
  unfold _wri_restore_pap
  exact this_para_set_cow hP _ _ (fun _ => rfl) h

theorem wri_doc_return_cow (s : State) (h : (pap_curr s).rhcOdd = 0 → P s)
    (h1 : P (wri_text [10] s).2) : P (wri_doc_return s).2 := by
  unfold wri_doc_return
  dsimp only
  generalize (wri_text [10] s).2 = s1 at h1 ⊢
  have h2 := _wri_restore_chp_keeps (cow_chp_closed hP) _ h1
  generalize _wri_restore_chp s1 = r2 at h2 ⊢
  have h3 := _wri_restore_pap_cow hP _ h2
  generalize _wri_restore_pap r2.2 = r3 at h3 ⊢
  have h4 : P { r3.2 with _wri_in_rhc := 0 } :=
    hP.same r3.2 _ ⟨rfl, rfl, rfl, rfl, rfl, rfl, rfl, fun _ h => h⟩ h3
  split_ifs with e
  · exact h e
  · exact h2
  · exact h3
  · exact h4

theorem start_rhc_body_cow (hf : Int) (s : State)
    (h : P (if s.lpap_curr.cpFirst ≠ s.lpap_curr.cpLim then _wri_new_paragraph s
      else ((0 : Int), s)).2) :
    P (start_rhc_body hf s).2 := by
  unfold start_rhc_body
  dsimp only
  generalize (if s.lpap_curr.cpFirst ≠ s.lpap_curr.cpLim then _wri_new_paragraph s
      else ((0 : Int), s)) = r1 at h ⊢
  have h2 : P (_wri_preserve_pap (_wri_preserve_chp r1.2)) :=
    hP.saved_pap _ _ (hP.saved_chp _ _ h)
  generalize _wri_preserve_pap (_wri_preserve_chp r1.2) = s2 at h2 ⊢
  have h3 := _wri_set_default_chp_keeps (cow_chp_closed hP) _ h2
  generalize _wri_set_default_chp s2 = r3 at h3 ⊢
  have h4 := wri_char_font_size_keeps (cow_chp_closed hP) 10 _ h3
  generalize wri_char_font_size 10 r3.2 = r4 at h4 ⊢
  have h5 : P (_wri_set_default_pap r4.2).2 ∧ (pap_curr (_wri_set_default_pap r4.2).2).res1 = 1 := by
    unfold _wri_set_default_pap
    exact this_para_set_both hP _ _ (fun _ => rfl) h4
  generalize _wri_set_default_pap r4.2 = r5 at h5 ⊢
  obtain ⟨h5, k5⟩ := h5
  split_ifs
  · exact h
  · exact h3
  · exact h5
  · have h6 := hP.set_own r5.2 { pap_curr r5.2 with rhcOdd := 1, rhcEven := 1 } h5 k5 k5
    have k6 : (pap_curr (set_pap_curr r5.2
        { pap_curr r5.2 with rhcOdd := 1, rhcEven := 1 })).res1 = 1 := by
      rw [(pap_curr_set r5.2 _ (hP.inv _ h5).2.2.1).1]
      exact k5
    have h7 := hP.set_own _ { pap_curr (set_pap_curr r5.2
      { pap_curr r5.2 with rhcOdd := 1, rhcEven := 1 }) with rhcPage := (hf % 2).toNat }
      h6 k6 k6
    have h8 : ∀ t : State, P t → P { t with _wri_in_rhc := 1 } :=
      fun t ht => hP.same t _ ⟨rfl, rfl, rfl, rfl, rfl, rfl, rfl, fun _ h => h⟩ ht
    exact h8 _ h7

end cow_kept

/-! ### The operations that write into the current paragraph record -/

theorem do_text_newline_shape (s : State) :
    ∃ sA, same_paragraphs s sA ∧
      same_paragraphs (_wri_new_paragraph sA).2 (do_text [10] s).2 := by
  refine ⟨_wri_extend_pap (s._wri_cpMac + 2)
    { s with text_fp := s.text_fp.map (fun f => f ++ [13, 10]),
             _wri_cpMac := s._wri_cpMac + 2 },
    ⟨rfl, rfl, rfl, rfl, rfl, rfl, rfl, fun _ h => h⟩, ?_⟩
  unfold do_text
  rw [do_text_loop_newline]
  generalize _wri_new_paragraph (_wri_extend_pap (s._wri_cpMac + 2)
    { s with text_fp := s.text_fp.map (fun f => f ++ [13, 10]),
             _wri_cpMac := s._wri_cpMac + 2 }) = r4
  obtain ⟨r, s4⟩ := r4
  dsimp only
  by_cases hr : r ≠ 0
  · rw [if_pos hr]
    dsimp only
    rw [if_pos (by decide)]
    exact same_paragraphs_refl s4
  · rw [if_neg hr]
    rw [do_text_loop]
    dsimp only
    rw [if_neg (by decide)]
    dsimp only
    split_ifs
    · exact ⟨rfl, rfl, rfl, rfl, rfl, rfl, rfl, fun _ h => h⟩
    · exact ⟨rfl, rfl, rfl, rfl, rfl, rfl, rfl, fun _ h => h⟩

/-- The call `wri_text("\n")` of `wri_doc_return` either fails at once, which
takes a header or footer after normal text, or runs `_wri_new_paragraph`
between steps that leave the paragraphs as they are. -/
theorem wri_text_newline_shape (s : State) :
    (s._wri_had_normal_text ≠ 0 ∧ same_paragraphs s (wri_text [10] s).2) ∨
    ∃ sA, same_paragraphs s sA ∧
      same_paragraphs (_wri_new_paragraph sA).2 (wri_text [10] s).2 := by
  have hs : same_paragraphs s (if s.text_fp = none then create_tempfile s else s) ∧
      (if s.text_fp = none then create_tempfile s else s)._wri_had_normal_text
        = s._wri_had_normal_text := by
    split_ifs
    · exact ⟨⟨rfl, rfl, rfl, rfl, rfl, rfl, rfl, fun _ h => h⟩, rfl⟩
    · exact ⟨same_paragraphs_refl s, rfl⟩
  unfold wri_text
  rw [wri_text_fuel]
  dsimp only
  generalize (if s.text_fp = none then create_tempfile s else s) = s1 at hs ⊢
  obtain ⟨hs1, hs2⟩ := hs
  have hdo : ∃ sA, same_paragraphs s sA ∧
      same_paragraphs (_wri_new_paragraph sA).2 (do_text [10] s1).2 := by
    obtain ⟨sA, a1, a2⟩ := do_text_newline_shape s1
    exact ⟨sA, same_paragraphs_trans s s1 sA hs1 a1, a2⟩
  have h1 : (1 : Nat) ∉ [10] := by decide
  rw [if_neg h1]
  split_ifs with e1 e2
  · exact Or.inl ⟨by rw [← hs2]; exact e2, hs1⟩
  · exact Or.inr hdo
  · exact Or.inr hdo

theorem lpap_runs_contents_same (s t : State) (h : same_paragraphs s t) :
    (lpap_runs t).map (pap_content t) = (lpap_runs s).map (pap_content s) := by
  obtain ⟨e1, e2, e3, -⟩ := h
  unfold lpap_runs
  rw [List.map_append, List.map_append, List.map_singleton, List.map_singleton, e2]
  congr 1
  · exact List.map_congr_left (fun r _ => pap_content_congr s t r r e1 rfl)
  · exact congrArg (fun x => [x]) (pap_content_congr s t s.lpap_curr t.lpap_curr e1 e3)

theorem wri_text_newline_frame (s : State) (h : RefInv s) :
    frame_of s (wri_text [10] s).2 ∧
    (s._wri_had_normal_text = 0 →
      kept_runs ((lpap_runs s).map (pap_content s)) (wri_text [10] s).2) := by
  have key : ∀ sA, same_paragraphs s sA →
      same_paragraphs (_wri_new_paragraph sA).2 (wri_text [10] s).2 →
      kept_runs ((lpap_runs s).map (pap_content s)) (wri_text [10] s).2 := by
    intro sA a1 a2
    have := kept_runs_promote sA (refinv_same s sA a1 h)
    rw [lpap_runs_contents_same s sA a1] at this
    exact kept_runs_same _ _ _ a2 this
  rcases wri_text_newline_shape s with ⟨h0, h1⟩ | ⟨sA, a1, a2⟩
  · exact ⟨(frame_of_cow_kept s).same s _ h1 (frame_of_start s h), fun e => absurd e h0⟩
  · exact ⟨Or.inr (key sA a1 a2), fun _ => key sA a1 a2⟩

theorem wri_doc_return_frame (s : State) (h : RefInv s) :
    frame_of s (wri_doc_return s).2 :=
  wri_doc_return_cow (frame_of_cow_kept s) s (fun _ => frame_of_start s h)
    (wri_text_newline_frame s h).1

theorem start_rhc_body_frame (hf : Int) (s : State) (h : RefInv s) :
    frame_of s (start_rhc_body hf s).2 := by
  apply start_rhc_body_cow (frame_of_cow_kept s)
  split_ifs
  · exact Or.inr (kept_runs_promote s h)
  · exact frame_of_start s h

theorem start_rhc_frame (hf : Int) (s : State) (h : RefInv s) :
    frame_of s (start_rhc hf s).2 := by
  unfold start_rhc
  dsimp only
  split_ifs with e1 e2 e3 e4
  · exact frame_of_start s h
  · exact frame_of_start s h
  · exact wri_doc_return_frame s h
  · have e0 : s._wri_had_normal_text = 0 := by
      by_contra hne
      exact e1 hne
    have k1 : kept_runs ((lpap_runs s).map (pap_content s)) (wri_doc_return s).2 :=
      wri_doc_return_cow (kept_runs_cow_kept _) s (fun e => absurd e e2)
        ((wri_text_newline_frame s h).2 e0)
    refine Or.inr (start_rhc_body_cow (kept_runs_cow_kept _) hf _ ?_)
    split_ifs
    · exact kept_runs_new_par _ _ k1
    · exact k1
  · exact start_rhc_body_frame hf s h

theorem append_pap_frame (q : PAP) (L : Nat) (i : Int) (s : State) (h : RefInv s) :
    frame_of s (_wri_append_pap q L i s).2 := by
  rw [append_pap_eq q L i s h]
  have h1 : frame_of s (if i = 0 then _wri_new_paragraph s else ((0 : Int), s)).2 := by
    split_ifs
    · exact Or.inr (kept_runs_promote s h)
    · exact frame_of_start s h
  generalize (if i = 0 then _wri_new_paragraph s else ((0 : Int), s)) = r at h1 ⊢
  have hP := frame_of_cow_kept s
  split_ifs
  · refine hP.same _ _ (same_paragraphs_extend_pap L _) ?_
    have c5 := (this_para_cow r.2 (hP.inv _ h1)).2.2.2.2
    exact hP.set_own _ _ (hP.this_para _ h1) c5 c5
  · exact hP.same _ _ (same_paragraphs_extend_pap L _) h1

/-- C32, amended: in every state built from a reset, with an allocator that
never fails, by calls of the interface,
`_wri_new_paragraph` and `_wri_append_pap`, each of `wri_para_justify`,
`wri_para_interline`, `wri_para_indent_left`, `wri_para_indent_right`,
`wri_para_indent_first`, `wri_doc_header`, `wri_doc_footer`, `wri_doc_return`
and `_wri_append_pap` loses no run, and every run that is not the last run
afterwards has the content (bytes 1..16 of its record) it had before. -/
theorem copy_on_write_frame (t0 : State) (ht : Fresh t0) (ops : List BuildOp) (o : BuildOp)
    (ho : o.writes_record = true) :
    para_frame (run_build_ops ops t0) (o.run (run_build_ops ops t0)) := by
  have hI := refinv_build_ops ops t0 (fresh_refinv t0 ht)
  generalize run_build_ops ops t0 = s at hI ⊢
  apply frame_of_para_frame
  have hP := frame_of_cow_kept s
  have h0 := frame_of_start s hI
  cases o with
  | new_paragraph => simp [BuildOp.writes_record] at ho
  | append_pap p l f => exact append_pap_frame p l f s hI
  | call c =>
    cases c <;> simp [BuildOp.writes_record] at ho <;> simp only [BuildOp.run, Call.run]
    · exact wri_para_justify_cow hP _ s h0
    · exact wri_para_interline_cow hP _ s h0
    · exact wri_para_indent_left_cow hP _ s h0
    · exact wri_para_indent_right_cow hP _ s h0
    · exact wri_para_indent_first_cow hP _ s h0
    · exact start_rhc_frame 0 s hI
    · exact start_rhc_frame 1 s hI
    · exact wri_doc_return_frame s hI

set_option maxRecDepth 1000000 in
/-- Witness for C32: after a reset, `wri_text("a\nb")`, `_wri_new_paragraph()`
and `_wri_append_pap` of a centred paragraph there are four runs, and
`wri_para_justify(WRI_RIGHT)` changes the content of none of the first three. -/
theorem copy_on_write_frame_witness :
    Fresh doc_empty ∧ (BuildOp.call (.para_justify WRI_RIGHT)).writes_record = true ∧
    (lpap_runs (run_build_ops ops_shared doc_empty)).length = 4 ∧
    para_frame (run_build_ops ops_shared doc_empty)
      ((BuildOp.call (.para_justify WRI_RIGHT)).run (run_build_ops ops_shared doc_empty)) :=
  ⟨by unfold Fresh AllocOK; decide, rfl, by decide,
   copy_on_write_frame doc_empty (by unfold Fresh AllocOK; decide) ops_shared
     (.call (.para_justify WRI_RIGHT)) rfl⟩

/-! ### What an allocation failure leaves behind -/

set_option maxRecDepth 1000000 in
/-- C33, counterexample. After a reset and 256 calls of `_wri_new_paragraph`,
the last of which gets NULL from `malloc` inside `clone_pap` (it returns 1 and
`_wri_error` is set), the node of the last call is linked and the count has
been incremented from 0 to 1: 257 runs point to the record at address 0 and
its stored count is 1. -/
theorem refcount_after_failed_clone :
    doc_wrap_failed._wri_error = 1 ∧
    (lpap_runs doc_wrap_failed).length = 257 ∧
    doc_wrap_failed.lpap_curr ∈ lpap_runs doc_wrap_failed ∧
    doc_wrap_failed.lpap_curr.prop = 0 ∧
    pap_refs doc_wrap_failed 0 = 257 ∧
    (pap_at doc_wrap_failed 0).res1 = 1 := by
  decide

set_option maxRecDepth 1000000 in
/-- C32, counterexample. In `doc_wrap_failed`, where 257 runs share a record
whose stored count is 1, `wri_para_justify(WRI_CENTER)` returns 0 and writes
into the shared record: the first of the 257 runs, which is not the last one,
had the alignment 0 and has the alignment 1. -/
theorem shared_record_written_in_place :
    (wri_para_justify WRI_CENTER doc_wrap_failed).1 = 0 ∧
    (lpap_runs (wri_para_justify WRI_CENTER doc_wrap_failed).2).length = 257 ∧
    ((lpap_runs doc_wrap_failed)[0]?.map (pap_content doc_wrap_failed)).map PAP.jc = some 0 ∧
    ((lpap_runs (wri_para_justify WRI_CENTER doc_wrap_failed).2)[0]?.map
      (pap_content (wri_para_justify WRI_CENTER doc_wrap_failed).2)).map PAP.jc = some 1 ∧
    ¬ para_frame doc_wrap_failed
      ((BuildOp.call (.para_justify WRI_CENTER)).run doc_wrap_failed) := by
  have h3 : ((lpap_runs doc_wrap_failed)[0]?.map (pap_content doc_wrap_failed)).map PAP.jc
      = some 0 := by decide
  have h4 : ((lpap_runs (wri_para_justify WRI_CENTER doc_wrap_failed).2)[0]?.map
      (pap_content (wri_para_justify WRI_CENTER doc_wrap_failed).2)).map PAP.jc = some 1 := by
    decide
  refine ⟨by decide, by decide, h3, h4, ?_⟩
  intro hf
  have h := hf.2 0 (by decide) (by decide)
  have h5 := congrArg (fun o : Option PAP => o.map PAP.jc) h
  dsimp only [BuildOp.run, Call.run] at h5
  rw [h3, h4] at h5
  exact absurd h5 (by decide)

set_option maxRecDepth 1000000 in
/-- C29 (the code at the failing input). In `doc_header_closed` there is no
normal text and no header or footer is open, and the current character run,
`[0, 3)`, has the default record.  With NULL from the next `malloc`,
`wri_doc_footer` returns 0 and flags the current paragraph as a footer, but
the current character record still has `hps` 24: the `wri_char_font_size(10)`
of `start_rhc` has failed, `_wri_error` is set, and its result is not looked
at. -/
theorem footer_succeeds_without_small_font :
    doc_header_closed._wri_had_normal_text = 0 ∧ doc_header_closed._wri_in_rhc = 0 ∧
    (pap_curr doc_header_closed).rhcOdd = 0 ∧
    doc_header_closed.lchp_curr = { cpFirst := 0, cpLim := 3, prop := _wri_default_chp } ∧
    doc_header_closed.malloc_ok = [false] ∧
    (wri_char_font_size 10 doc_header_closed).1 = 1 ∧
    (wri_doc_footer doc_header_closed).1 = 0 ∧
    (wri_doc_footer doc_header_closed).2._wri_error = 1 ∧
    (pap_curr (wri_doc_footer doc_header_closed).2).rhcOdd = 1 ∧
    (pap_curr (wri_doc_footer doc_header_closed).2).rhcPage = 1 ∧
    (chp_curr (wri_doc_footer doc_header_closed).2).hps = 24 := by
  decide

end LibWrite
